import Mathlib

/-!
# RDMA live-migration transport (`migration-rdma.c`)

A shallow embedding of the transport core of `migration-rdma.c` and the
properties of its control framing, RAM-block directory, capability
negotiation, byte-stream sender, write engine and completion drain.

Conventions of the embedding.

* `uint32_t` / `uint64_t` / pointers are natural numbers; arithmetic that can
  wrap in C is written with an explicit `% 2^32` or `% 2^64`
  (`unsigned long` and pointers are 64 bits wide, the LP64 model of the
  Linux hosts the verbs library runs on).  `int` values are integers.
* The verbs / connection-manager library is the environment.  Every call
  into it appends a `Call` to the trace of the state and takes its result
  from the head of a script of `Resp` values.  A function whose script is
  exhausted before it returns yields `none`: it is still waiting on the
  device.
* Byte order of the host is a field of the state (`le`), so every statement
  covers little- and big-endian hosts.
-/

namespace MigrationRdma

/-! ## Constants of the source -/

def RDMA_MERGE_MAX : Nat := 4 * 1024 * 1024
def RDMA_UNSIGNALED_SEND_MAX : Int := 64
def RDMA_REG_CHUNK_SHIFT : Nat := 20
def RDMA_SEND_INCREMENT : Nat := 32768
def RDMA_CONTROL_MAX_BUFFER : Nat := 512 * 1024
def RDMA_CONTROL_MAX_WR : Nat := 2
def RDMA_CONTROL_MAX_COMMANDS_PER_MESSAGE : Nat := 4096

def RDMA_CAPABILITY_CHUNK_REGISTER : Nat := 1
def RDMA_CAPABILITY_NEXT_FEATURE : Nat := 2

def RDMA_WRID_NONE : Int := 0
def RDMA_WRID_RDMA_WRITE : Int := 1
def RDMA_WRID_SEND_CONTROL : Int := 1000
def RDMA_WRID_RECV_CONTROL : Int := 2000

def RDMA_CONTROL_NONE : Nat := 0
def RDMA_CONTROL_READY : Nat := 1
def RDMA_CONTROL_QEMU_FILE : Nat := 2
def RDMA_CONTROL_RAM_BLOCKS : Nat := 3
def RDMA_CONTROL_REGISTER_REQUEST : Nat := 4
def RDMA_CONTROL_REGISTER_RESULT : Nat := 5
def RDMA_CONTROL_REGISTER_FINISHED : Nat := 6

def RDMA_CONTROL_VERSION_1 : Nat := 1
def RDMA_CONTROL_VERSION_MAX : Nat := 1
def RDMA_CONTROL_VERSION_MIN : Nat := 1
def RDMA_CONTROL_CURRENT_VERSION : Nat := RDMA_CONTROL_VERSION_1

/-- Size of `RDMAControlHeader`: four `uint32_t`. -/
def RDMAControlHeaderSize : Nat := 16

/-- Width of `uint32_t`. -/
def U32 : Nat := 4294967296
/-- Width of `uint64_t`, `unsigned long` and pointers. -/
def U64 : Nat := 18446744073709551616

/-- The errno values of `<errno.h>` on Linux used by the source. -/
def ENOMEM : Int := 12
def EINVAL : Int := 22
def ENOTSUP : Int := 95
def EIO_ERRNO : Int := 5

/-! ## Byte order -/

/-- Reversal of the four bytes of a 32-bit value. -/
def bswap32 (x : Nat) : Nat :=
  (x % 256) * 16777216 + (x / 256 % 256) * 65536 + (x / 65536 % 256) * 256
    + (x / 16777216 % 256)

/-- The C library `htonl`: the identity on a big-endian host, a byte swap on a
little-endian host (`le = true`). -/
def htonl (le : Bool) (x : Nat) : Nat := if le then bswap32 x else x % U32

/-- The C library `ntohl`. -/
def ntohl (le : Bool) (x : Nat) : Nat := if le then bswap32 x else x % U32

/-- The four bytes of a `uint32_t` in big-endian (network) order. -/
def be32 (x : Nat) : List Nat :=
  [x / 16777216 % 256, x / 65536 % 256, x / 256 % 256, x % 256]

/-- The four bytes a `uint32_t` occupies in the memory of the host. -/
def store32 (le : Bool) (x : Nat) : List Nat :=
  if le then [x % 256, x / 256 % 256, x / 65536 % 256, x / 16777216 % 256]
  else be32 x

/-- The `uint32_t` the host reads from four bytes of memory. -/
def load32 (le : Bool) (b0 b1 b2 b3 : Nat) : Nat :=
  if le then b0 + b1 * 256 + b2 * 65536 + b3 * 16777216
  else b3 + b2 * 256 + b1 * 65536 + b0 * 16777216

/-! ## Control header -/

/-- Main structure for IB Send/Recv control messages (`RDMAControlHeader`). -/
structure RDMAControlHeader where
  len : Nat
  type : Nat
  version : Nat
  «repeat» : Nat
deriving DecidableEq, Repr

/-- Fields of a header are `uint32_t` values. -/
def RDMAControlHeader.wf (h : RDMAControlHeader) : Prop :=
  h.len < U32 ∧ h.type < U32 ∧ h.version < U32 ∧ h.«repeat» < U32

instance (h : RDMAControlHeader) : Decidable h.wf := by
  unfold RDMAControlHeader.wf; infer_instance

/-- The source `control_to_network`: every field through `htonl`. -/
def control_to_network (le : Bool) (control : RDMAControlHeader) : RDMAControlHeader :=
  let c1 := { control with version := htonl le control.version }
  let c2 := { c1 with type := htonl le c1.type }
  let c3 := { c2 with len := htonl le c2.len }
  { c3 with «repeat» := htonl le c3.«repeat» }

/-- The source `network_to_control`: every field through `ntohl`. -/
def network_to_control (le : Bool) (control : RDMAControlHeader) : RDMAControlHeader :=
  let c1 := { control with version := ntohl le control.version }
  let c2 := { c1 with type := ntohl le c1.type }
  let c3 := { c2 with len := ntohl le c2.len }
  { c3 with «repeat» := ntohl le c3.«repeat» }

/-- The 16 bytes the structure occupies in host memory: the fields in
declaration order `len, type, version, repeat`, no padding. -/
def header_bytes (le : Bool) (h : RDMAControlHeader) : List Nat :=
  store32 le h.len ++ store32 le h.type ++ store32 le h.version ++ store32 le h.«repeat»

/-! ## RAM blocks and chunk geometry -/

/-- A registered memory region (`struct ibv_mr`): the range and access flags
it was registered with and the keys the device returned. -/
structure ibv_mr where
  addr : Nat
  length : Nat
  access : Nat
  lkey : Nat
  rkey : Nat
deriving DecidableEq, Repr

/-- Representation of a RAMBlock from an RDMA perspective (`RDMALocalBlock`).
A pointer that may be `NULL` is an `Option`; the arrays `pmr` and
`remote_keys` are lists. -/
structure RDMALocalBlock where
  local_host_addr : Nat
  remote_host_addr : Nat
  offset : Nat
  length : Nat
  pmr : Option (List (Option ibv_mr))
  mr : Option ibv_mr
  remote_keys : Option (List Nat)
  remote_rkey : Nat
deriving DecidableEq, Repr

/-- The wire form of a RAMBlock (`RDMARemoteBlock`). -/
structure RDMARemoteBlock where
  remote_host_addr : Nat
  offset : Nat
  length : Nat
  remote_rkey : Nat
deriving DecidableEq, Repr

/-- The local directory (`RDMALocalBlocks`): the array `block`; the field
`num_blocks` of the source is the number of its entries. -/
structure RDMALocalBlocks where
  block : List RDMALocalBlock
deriving DecidableEq, Repr

def RDMALocalBlocks.num_blocks (l : RDMALocalBlocks) : Int := l.block.length

/-- The remote directory (`RDMARemoteBlocks`), the content of `remote_area`:
the `int` at its head and the array that follows it, which has room for as
many entries as the area was allocated for. -/
structure RDMARemoteBlocks where
  num_blocks : Int
  block : List RDMARemoteBlock
deriving DecidableEq, Repr

/-- All fields of a local block are 64-bit (32-bit for keys) values. -/
def RDMALocalBlock.wf (b : RDMALocalBlock) : Prop :=
  b.local_host_addr < U64 ∧ b.remote_host_addr < U64 ∧ b.offset < U64 ∧ b.length < U64 ∧
    b.remote_rkey < U32

instance (b : RDMALocalBlock) : Decidable b.wf := by
  unfold RDMALocalBlock.wf; infer_instance

/-- Conversion of an `unsigned long` to `int` (two's complement truncation). -/
def toInt32 (x : Nat) : Int :=
  if x % U32 < 2147483648 then (x % U32 : Nat) else (x % U32 : Nat) - (U32 : Int)

/-- `RDMA_REG_CHUNK_SIZE`. -/
def RDMA_REG_CHUNK_SIZE : Nat := 1 <<< RDMA_REG_CHUNK_SHIFT

/-- `RDMA_REG_CHUNK_INDEX(start_addr, host_addr)`, an `unsigned long`
difference of the two shifted addresses. -/
def RDMA_REG_CHUNK_INDEX (start_addr host_addr : Nat) : Nat :=
  ((host_addr >>> RDMA_REG_CHUNK_SHIFT) + U64 - (start_addr >>> RDMA_REG_CHUNK_SHIFT)) % U64

/-- `RDMA_REG_NUM_CHUNKS(rdma_ram_block)`. -/
def RDMA_REG_NUM_CHUNKS (b : RDMALocalBlock) : Nat :=
  (RDMA_REG_CHUNK_INDEX b.local_host_addr ((b.local_host_addr + b.length) % U64) + 1) % U64

/-- `RDMA_REG_CHUNK_START(rdma_ram_block, i)`; `i` is an `int`, converted to
`unsigned long` for the addition. -/
def RDMA_REG_CHUNK_START (b : RDMALocalBlock) (i : Int) : Nat :=
  ((((b.local_host_addr >>> RDMA_REG_CHUNK_SHIFT) + (i % (U64 : Int)).toNat) % U64)
      <<< RDMA_REG_CHUNK_SHIFT) % U64

/-- `RDMA_REG_CHUNK_END(rdma_ram_block, i)`. -/
def RDMA_REG_CHUNK_END (b : RDMALocalBlock) (i : Int) : Nat :=
  (RDMA_REG_CHUNK_START b i + RDMA_REG_CHUNK_SIZE) % U64

/-! ## RAM directory -/

/-- The loop of `qemu_rdma_search_ram_block` from index `i` on: the first block
that passes both tests, with the chunk of the page inside it.  Sums and
differences are `uint64_t` (pointer) arithmetic. -/
def qemu_rdma_search_ram_block_loop (offset length : Nat) :
    List RDMALocalBlock → Nat → Option (Nat × Int)
  | [], _ => none
  | b :: bs, i =>
    if offset < b.offset then
      qemu_rdma_search_ram_block_loop offset length bs (i + 1)
    else if (offset + length) % U64 > (b.offset + b.length) % U64 then
      qemu_rdma_search_ram_block_loop offset length bs (i + 1)
    else
      let host_addr := (b.local_host_addr + (offset + U64 - b.offset) % U64) % U64
      some (i, toInt32 (RDMA_REG_CHUNK_INDEX b.local_host_addr host_addr))

/-- The source `qemu_rdma_search_ram_block`: the return code and the values
of `*block_index` and `*chunk_index` afterwards (untouched on a miss). -/
def qemu_rdma_search_ram_block (offset length : Nat) (blocks : RDMALocalBlocks)
    (block_index chunk_index : Int) : Int × Int × Int :=
  match qemu_rdma_search_ram_block_loop offset length blocks.block 0 with
  | some (i, c) => (0, (i : Int), c)
  | none => (-1, block_index, chunk_index)

/-- The loop body of `qemu_rdma_copy_to_remote_ram_blocks` over the local
blocks and the entries of the remote array; `none` when the code reads
through a `NULL` `mr` or writes past the end of the array. -/
def qemu_rdma_copy_to_remote_ram_blocks_loop (chunk_register_destination : Bool) :
    List RDMALocalBlock → List RDMARemoteBlock → Option (List RDMARemoteBlock)
  | [], rs => some rs
  | _ :: _, [] => none
  | l :: ls, r :: rs =>
    let r1 := { r with remote_host_addr := l.local_host_addr }
    let r2 : Option RDMARemoteBlock :=
      if chunk_register_destination = false then
        match l.mr with
        | some mr => some { r1 with remote_rkey := mr.rkey }
        | none => none
      else some r1
    match r2 with
    | none => none
    | some r2 =>
      let r3 := { r2 with offset := l.offset }
      let r4 := { r3 with length := l.length }
      match qemu_rdma_copy_to_remote_ram_blocks_loop chunk_register_destination ls rs with
      | none => none
      | some rs1 => some (r4 :: rs1)

/-- The source `qemu_rdma_copy_to_remote_ram_blocks`. -/
def qemu_rdma_copy_to_remote_ram_blocks (chunk_register_destination : Bool)
    (loc : RDMALocalBlocks) (remote : RDMARemoteBlocks) : Option RDMARemoteBlocks :=
  match qemu_rdma_copy_to_remote_ram_blocks_loop chunk_register_destination
      loc.block remote.block with
  | none => none
  | some rs => some { num_blocks := loc.num_blocks, block := rs }

/-- The remote area as `qemu_rdma_remote_ram_blocks_init` allocates it: room
for one entry per local block, zero filled (`g_malloc0`). -/
def remote_area_zero (n : Nat) : RDMARemoteBlocks :=
  { num_blocks := 0, block := List.replicate n ⟨0, 0, 0, 0⟩ }

/-- The inner loop of `qemu_rdma_process_remote_ram_blocks` for one remote
entry: the local blocks after the entry has been propagated to the first
block with its offset; `none` for the two `return -1` exits (length mismatch,
no block with the offset). -/
def process_remote_search_local (r : RDMARemoteBlock) :
    List RDMALocalBlock → Option (List RDMALocalBlock)
  | [] => none
  | l :: ls =>
    if r.offset ≠ l.offset then
      match process_remote_search_local r ls with
      | none => none
      | some ls1 => some (l :: ls1)
    else if r.length ≠ l.length then none
    else
      some ({ l with remote_host_addr := r.remote_host_addr,
                     remote_rkey := r.remote_rkey } :: ls)

/-- The outer loop of `qemu_rdma_process_remote_ram_blocks`. -/
def qemu_rdma_process_remote_ram_blocks_loop :
    List RDMARemoteBlock → List RDMALocalBlock → Int × List RDMALocalBlock
  | [], ls => (0, ls)
  | r :: rs, ls =>
    match process_remote_search_local r ls with
    | none => (-1, ls)
    | some ls1 => qemu_rdma_process_remote_ram_blocks_loop rs ls1

/-- The source `qemu_rdma_process_remote_ram_blocks`: the return code and the
local directory afterwards.  The outer loop visits the first
`*remote->num_blocks` entries of the remote array. -/
def qemu_rdma_process_remote_ram_blocks (loc : RDMALocalBlocks)
    (remote : RDMARemoteBlocks) : Int × RDMALocalBlocks :=
  if loc.num_blocks ≠ remote.num_blocks then (-1, loc)
  else
    let res := qemu_rdma_process_remote_ram_blocks_loop
      (remote.block.take remote.num_blocks.toNat) loc.block
    (res.1, { block := res.2 })

/-! ## The verbs library as environment -/

/-- Constants of `<infiniband/verbs.h>` and `<rdma/rdma_cma.h>`. -/
def IBV_ACCESS_LOCAL_WRITE : Nat := 1
def IBV_ACCESS_REMOTE_WRITE : Nat := 2
def IBV_ACCESS_REMOTE_READ : Nat := 4
def IBV_SEND_SIGNALED : Nat := 2
def IBV_WR_RDMA_WRITE : Nat := 0
def IBV_WR_SEND : Nat := 2
def IBV_WC_SUCCESS : Nat := 0
def RDMA_CM_EVENT_CONNECT_REQUEST : Nat := 4
def RDMA_CM_EVENT_ESTABLISHED : Nat := 9

/-- Size of `RDMARemoteBlock` (three `uint64_t`, one `uint32_t`, padded to the
alignment of 8) and of `int`. -/
def sizeof_RDMARemoteBlock : Nat := 32
def sizeof_int : Nat := 4

/-- A scatter/gather element with the fields the source sets. -/
structure ibv_sge where
  addr : Nat
  length : Nat
  lkey : Nat
deriving DecidableEq, Repr

/-- A send work request with the fields the source sets (`num_sge = 1`). -/
structure ibv_send_wr where
  wr_id : Nat
  opcode : Nat
  send_flags : Nat
  sge : ibv_sge
  remote_addr : Nat
  rkey : Nat
deriving DecidableEq, Repr

/-- A work completion: the two fields the source reads. -/
structure ibv_wc where
  status : Nat
  wr_id : Nat
deriving DecidableEq, Repr

/-- One call of the source into the library (or into the rest of QEMU), as it
is logged in the trace.  `ibv_post_send` carries the message bytes the
buffer of the work request holds at the time of the post when that buffer is a
control buffer. -/
inductive Call where
  | ibv_post_send (wr : ibv_send_wr) (msg : List Nat)
  | ibv_post_recv (wr_id : Nat) (sge : ibv_sge)
  | ibv_poll_cq
  | ibv_req_notify_cq
  | ibv_get_cq_event
  | ibv_ack_cq_events (n : Int)
  | ibv_reg_mr (addr length access : Nat)
  | ibv_dereg_mr (mr : ibv_mr)
  | ibv_alloc_pd
  | ibv_dealloc_pd (pd : Nat)
  | ibv_create_comp_channel
  | ibv_destroy_comp_channel (ch : Nat)
  | ibv_create_cq (cqe : Nat)
  | ibv_destroy_cq (cq : Nat)
  | ibv_destroy_qp (qp : Nat)
  | rdma_create_qp (max_send_wr max_recv_wr max_send_sge max_recv_sge : Nat)
  | rdma_connect (private_data : List Nat)
  | rdma_accept (private_data : List Nat)
  | rdma_listen (backlog : Nat)
  | rdma_get_cm_event
  | rdma_ack_cm_event
  | rdma_disconnect (id : Nat)
  | rdma_destroy_id (id : Nat)
  | rdma_destroy_event_channel (ch : Nat)
  | g_free_remote_area
  | g_free_remote_keys (block : Nat)
  | g_free_block
  | free_pmr (block : Nat)
  | qemu_ram_foreach_block
  | qemu_set_fd_handler2
  | qemu_ftell
deriving DecidableEq, Repr

/-- What the library answers to one call.  Every call reads the fields it
needs: `ret` is the `int` result (for `ibv_poll_cq` the number of completions);
`status` and `wr_id` fill the work completion; `data` is what the peer sent
(the message a completed RECV has placed in its buffer, the private data of a
connection event); `event`, `id` and `verbs` describe a connection event; `id`
is also the object a creating call returns (`none` for `NULL`), with `lkey` and
`rkey` the keys of a new memory region. -/
structure Resp where
  ret : Int := 0
  status : Nat := 0
  wr_id : Nat := 0
  data : List Nat := []
  event : Nat := 0
  id : Option Nat := none
  verbs : Option Nat := none
  lkey : Nat := 0
  rkey : Nat := 0
deriving DecidableEq, Repr

/-! ## Session state -/

/-- Memory and MR of one control work request (`RDMAWorkRequestData`).
`control` gives the byte at each index of the buffer, `control_addr` is the
address of the buffer, `control_curr` the index of the first unconsumed byte
(`none` for `NULL`). -/
structure RDMAWorkRequestData where
  control : Nat → Nat
  control_addr : Nat
  control_mr : Option ibv_mr
  control_len : Nat
  control_curr : Option Nat

/-- Negotiated capabilities (`RDMACapabilities`). -/
structure RDMACapabilities where
  version : Nat
  flags : Nat
deriving DecidableEq, Repr

/-- Main data structure for RDMA state (`RDMAContext`).  Library objects are
handles, `none` for `NULL`. -/
structure RDMAContext where
  host : Option String
  port : Int
  wr_data : Nat → RDMAWorkRequestData
  control_ready_expected : Int
  client_init_done : Int
  num_unsignaled_send : Int
  num_signaled_send : Int
  current_offset : Nat
  current_length : Nat
  current_index : Int
  current_chunk : Int
  chunk_register_destination : Bool
  cm_id : Option Nat
  listen_id : Option Nat
  verbs : Option Nat
  channel : Option Nat
  qp : Option Nat
  comp_channel : Option Nat
  pd : Option Nat
  cq : Option Nat

/-- The state a function of the source runs in: the `RDMAContext`, the two
global directories, the `len` field of `QEMUFileRDMA`, the RAM blocks of the
guest as `qemu_ram_foreach_block` enumerates them, the byte order of the host,
and the environment (the answers still to come and the calls made so far).
`local_block_ptr` tells whether `local_ram_blocks.block` is not `NULL`;
`remote_ram_blocks` is `none` while `remote_area` is `NULL`. -/
structure St where
  le : Bool
  rdma : RDMAContext
  local_ram_blocks : RDMALocalBlocks
  local_block_ptr : Bool
  remote_ram_blocks : Option RDMARemoteBlocks
  remote_size : Int
  file_len : Nat
  ram_list : List (Nat × Nat × Nat)
  script : List Resp
  trace : List Call

/-- A call whose result the source uses: it is logged and answered by the
head of the script; `none` when the script has no answer left. -/
def call (c : Call) (st : St) : Option (Resp × St) :=
  match st.script with
  | [] => none
  | r :: rest => some (r, { st with script := rest, trace := st.trace ++ [c] })

/-- A call with no result, or whose result the source never looks at: it is
logged. -/
def log (c : Call) (st : St) : St := { st with trace := st.trace ++ [c] }

/-! ## Memory helpers -/

/-- `n` bytes of a buffer from index `off`. -/
def read_bytes (buf : Nat → Nat) (off n : Nat) : List Nat :=
  (List.range n).map (fun i => buf (off + i))

/-- The buffer after `memcpy(buf + off, src, |src|)`. -/
def write_bytes (buf : Nat → Nat) (off : Nat) (src : List Nat) : Nat → Nat :=
  fun i => if off ≤ i ∧ i < off + src.length then src.getD (i - off) 0 else buf i

/-- Little-endian value of a byte string. -/
def load_le : List Nat → Nat
  | [] => 0
  | b :: bs => b % 256 + 256 * load_le bs

/-- The integer the host reads from a byte string. -/
def load_bytes (le : Bool) (bs : List Nat) : Nat :=
  if le then load_le bs else load_le bs.reverse

/-- The `n` low bytes of a value, least significant first. -/
def store_le : Nat → Nat → List Nat
  | 0, _ => []
  | n + 1, x => x % 256 :: store_le n (x / 256)

/-- The `n` bytes a value occupies in the memory of the host. -/
def store_bytes (le : Bool) (n : Nat) (x : Nat) : List Nat :=
  if le then store_le n x else (store_le n x).reverse

/-- Conversion of an `int` to `uint32_t`. -/
def toU32 (x : Int) : Nat := (x % (U32 : Int)).toNat

/-- Conversion of an `int` to `uint64_t` / `size_t`. -/
def toU64 (x : Int) : Nat := (x % (U64 : Int)).toNat

/-- The header the host reads from the first 16 bytes of a buffer. -/
def load_header (le : Bool) (buf : Nat → Nat) : RDMAControlHeader :=
  { len := load_bytes le (read_bytes buf 0 4),
    type := load_bytes le (read_bytes buf 4 4),
    version := load_bytes le (read_bytes buf 8 4),
    «repeat» := load_bytes le (read_bytes buf 12 4) }

/-- The bytes of the remote area: the `int` count, then 32 bytes per entry
(the last four are padding, zero since `g_malloc0`). -/
def remote_area_bytes (le : Bool) (r : RDMARemoteBlocks) : List Nat :=
  store_bytes le 4 (toU32 r.num_blocks) ++
    r.block.flatMap (fun b =>
      store_bytes le 8 b.remote_host_addr ++ store_bytes le 8 b.offset ++
      store_bytes le 8 b.length ++ store_bytes le 4 b.remote_rkey ++ [0, 0, 0, 0])

/-- The remote area read back from the bytes of a buffer from index `off`,
for an area with room for `n` entries. -/
def remote_area_of_bytes (le : Bool) (buf : Nat → Nat) (off n : Nat) : RDMARemoteBlocks :=
  { num_blocks := toInt32 (load_bytes le (read_bytes buf off 4)),
    block := (List.range n).map (fun i =>
      { remote_host_addr := load_bytes le (read_bytes buf (off + 4 + 32 * i) 8),
        offset := load_bytes le (read_bytes buf (off + 4 + 32 * i + 8) 8),
        length := load_bytes le (read_bytes buf (off + 4 + 32 * i + 16) 8),
        remote_rkey := load_bytes le (read_bytes buf (off + 4 + 32 * i + 24) 4) }) }

/-! ## Completion pump -/

/-- The context with slot `idx` of `wr_data` replaced. -/
def RDMAContext.set_wr (r : RDMAContext) (idx : Nat) (w : RDMAWorkRequestData) :
    RDMAContext :=
  { r with wr_data := Function.update r.wr_data idx w }

/-- The library `ibv_poll_cq(cq, 1, &wc)`: the number of completions and the
completion.  When it delivers the successful completion of the RECV posted on
control slot `wr_id - RDMA_WRID_RECV_CONTROL`, the message of the peer is in
the buffer of that slot. -/
def ibv_poll_cq (st : St) : Option (Int × ibv_wc × St) :=
  match call Call.ibv_poll_cq st with
  | none => none
  | some (r, st1) =>
    let slot := r.wr_id - 2000
    let st2 : St :=
      if 0 < r.ret ∧ r.status = IBV_WC_SUCCESS ∧ 2000 ≤ r.wr_id ∧
          slot ≤ RDMA_CONTROL_MAX_WR then
        let wr := st1.rdma.wr_data slot
        let wr1 := { wr with control := write_bytes wr.control 0 r.data }
        { st1 with rdma := st1.rdma.set_wr slot wr1 }
      else st1
    some (r.ret, ⟨r.status, r.wr_id⟩, st2)

/-- The source `qemu_rdma_poll`. -/
def qemu_rdma_poll (st : St) : Option (Int × St) :=
  match ibv_poll_cq st with
  | none => none
  | some (ret, wc, st1) =>
    if ret = 0 then some (RDMA_WRID_NONE, st1)
    else if ret < 0 then some (ret, st1)
    else if wc.status ≠ IBV_WC_SUCCESS then some (-1, st1)
    else
      let st2 : St :=
        if st1.rdma.control_ready_expected ≠ 0 ∧ (wc.wr_id : Int) ≥ RDMA_WRID_RECV_CONTROL then
          { st1 with rdma := { st1.rdma with control_ready_expected := 0 } }
        else st1
      let st3 : St :=
        if (wc.wr_id : Int) = RDMA_WRID_RDMA_WRITE then
          { st2 with rdma :=
              { st2.rdma with num_signaled_send := st2.rdma.num_signaled_send - 1 } }
        else st2
      some (toInt32 wc.wr_id, st3)

/-- How a polling loop `while (r != wrid) { r = qemu_rdma_poll(rdma); ... }` of
`qemu_rdma_block_for_wrid` ends: through its error exit with `r < 0`, or past
the loop with the last value of `r`. -/
inductive PollExit where
  | err (r : Int)
  | out (r : Int)
deriving DecidableEq, Repr

/-- The polling loop of `qemu_rdma_block_for_wrid`, from the value `r`.  Every
round takes one answer of the script, so `fuel` above the length of the script
never runs out. -/
def poll_while (wrid : Int) : Nat → Int → St → Option (PollExit × St)
  | 0, _, _ => none
  | fuel + 1, r, st =>
    if r = wrid then some (PollExit.out r, st)
    else
      match qemu_rdma_poll st with
      | none => none
      | some (r1, st1) =>
        if r1 < 0 then some (PollExit.err r1, st1)
        else if r1 = RDMA_WRID_NONE then some (PollExit.out r1, st1)
        else poll_while wrid fuel r1 st1

/-- The exits `success_block_for_wrid` and `err_block_for_wrid`: acknowledge
the events counted, return `code`. -/
def block_for_wrid_exit (code : Int) (num_cq_events : Int) (st : St) : Int × St :=
  if num_cq_events ≠ 0 then (code, log (Call.ibv_ack_cq_events num_cq_events) st)
  else (code, st)

/-- The `while (1)` loop of `qemu_rdma_block_for_wrid`. -/
def block_for_wrid_loop (wrid : Int) : Nat → Int → Int → St → Option (Int × St)
  | 0, _, _, _ => none
  | fuel + 1, r, num_cq_events, st =>
    match call Call.ibv_get_cq_event st with
    | none => none
    | some (e, st1) =>
      if e.ret ≠ 0 then some (block_for_wrid_exit (-1) num_cq_events st1)
      else
        let num_cq_events1 := num_cq_events + 1
        match call Call.ibv_req_notify_cq st1 with
        | none => none
        | some (q, st2) =>
          if q.ret ≠ 0 then some (block_for_wrid_exit (-1) num_cq_events1 st2)
          else
            match poll_while wrid (st2.script.length + 1) r st2 with
            | none => none
            | some (PollExit.err _, st3) => some (block_for_wrid_exit (-1) num_cq_events1 st3)
            | some (PollExit.out r1, st3) =>
              if r1 = wrid then some (block_for_wrid_exit 0 num_cq_events1 st3)
              else block_for_wrid_loop wrid fuel r1 num_cq_events1 st3

/-- The source `qemu_rdma_block_for_wrid` (`RDMA_BLOCKING` is defined). -/
def qemu_rdma_block_for_wrid (wrid : Int) (st : St) : Option (Int × St) :=
  match call Call.ibv_req_notify_cq st with
  | none => none
  | some (q, st1) =>
    if q.ret ≠ 0 then some (-1, st1)
    else
      match poll_while wrid (st1.script.length + 1) RDMA_WRID_NONE st1 with
      | none => none
      | some (PollExit.err r, st2) => some (r, st2)
      | some (PollExit.out r, st2) =>
        if r = wrid then some (0, st2)
        else block_for_wrid_loop wrid (st2.script.length + 1) r 0 st2

/-- The source `wait_for_wrid`. -/
def wait_for_wrid (wrid : Int) (st : St) : Option (Int × St) :=
  qemu_rdma_block_for_wrid wrid st

/-! ## Control channel -/

/-- The source `qemu_rdma_post_send_control`.  `buf` is the memory `buf`
points to (`none` for `NULL`); the call faults (`none`) when the control MR is
`NULL` or `buf` is shorter than `head->len`. -/
def qemu_rdma_post_send_control (buf : Option (List Nat)) (head : RDMAControlHeader)
    (st : St) : Option (Int × St) :=
  let wr := st.rdma.wr_data RDMA_CONTROL_MAX_WR
  match wr.control_mr with
  | none => none
  | some mr =>
    let sge : ibv_sge :=
      { addr := wr.control_addr, length := (head.len + RDMAControlHeaderSize) % U32,
        lkey := mr.lkey }
    let send_wr : ibv_send_wr :=
      { wr_id := 1000, opcode := IBV_WR_SEND, send_flags := IBV_SEND_SIGNALED, sge := sge,
        remote_addr := 0, rkey := 0 }
    if head.version < RDMA_CONTROL_VERSION_MIN ∨ head.version > RDMA_CONTROL_VERSION_MAX then
      some (-1, st)
    else
      let c1 := write_bytes wr.control 0 (header_bytes st.le (control_to_network st.le head))
      let c2 : Option (Nat → Nat) :=
        match buf with
        | none => some c1
        | some b =>
          if b.length < head.len then none
          else some (write_bytes c1 RDMAControlHeaderSize (b.take head.len))
      match c2 with
      | none => none
      | some c2 =>
        let st1 : St :=
          { st with rdma := st.rdma.set_wr RDMA_CONTROL_MAX_WR ({ wr with control := c2 }) }
        match call (Call.ibv_post_send send_wr (read_bytes c2 0 sge.length)) st1 with
        | none => none
        | some (r, st2) =>
          if r.ret ≠ 0 then some (-1, st2)
          else wait_for_wrid RDMA_WRID_SEND_CONTROL st2

/-- The source `qemu_rdma_post_recv_control`. -/
def qemu_rdma_post_recv_control (idx : Nat) (st : St) : Option (Int × St) :=
  let wr := st.rdma.wr_data idx
  match wr.control_mr with
  | none => none
  | some mr =>
    let sge : ibv_sge :=
      { addr := wr.control_addr, length := RDMA_CONTROL_MAX_BUFFER, lkey := mr.lkey }
    match call (Call.ibv_post_recv (2000 + idx) sge) st with
    | none => none
    | some (r, st1) => if r.ret ≠ 0 then some (-1, st1) else some (0, st1)

/-- The source `qemu_rdma_exchange_get_response`: the return code, `*head`
afterwards and the state.  The header in the buffer of slot `idx` is converted
in place by `network_to_control` and copied to `*head`. -/
def qemu_rdma_exchange_get_response (head : RDMAControlHeader) (expecting : Int)
    (idx : Nat) (st : St) : Option (Int × RDMAControlHeader × St) :=
  match wait_for_wrid (RDMA_WRID_RECV_CONTROL + idx) st with
  | none => none
  | some (ret, st1) =>
    if ret < 0 then some (ret, head, st1)
    else
      let wr := st1.rdma.wr_data idx
      let decoded := network_to_control st1.le (load_header st1.le wr.control)
      let wr1 := { wr with control := write_bytes wr.control 0 (header_bytes st1.le decoded) }
      let st2 : St := { st1 with rdma := st1.rdma.set_wr idx wr1 }
      let head1 := load_header st2.le (st2.rdma.wr_data idx).control
      if head1.version < RDMA_CONTROL_VERSION_MIN ∨
          head1.version > RDMA_CONTROL_VERSION_MAX then
        some (-1, head1, st2)
      else if expecting ≠ (RDMA_CONTROL_NONE : Int) ∧ head1.type ≠ toU32 expecting then
        some (-EIO_ERRNO, head1, st2)
      else some (0, head1, st2)

/-- The source `qemu_rdma_move_header`. -/
def qemu_rdma_move_header (idx : Nat) (head : RDMAControlHeader) (st : St) : St :=
  let wr := st.rdma.wr_data idx
  let wr1 := { wr with control_len := head.len, control_curr := some RDMAControlHeaderSize }
  { st with rdma := st.rdma.set_wr idx wr1 }

/-- The source `qemu_rdma_exchange_send`.  `resp` is `none` for a `NULL`
`resp`, else `*resp` and `*resp_idx`; the result carries them as they are
afterwards. -/
def qemu_rdma_exchange_send (head : RDMAControlHeader) (data : Option (List Nat))
    (resp : Option (RDMAControlHeader × Int)) (st : St) :
    Option (Int × Option (RDMAControlHeader × Int) × St) :=
  let idx : Nat := 0
  let ready : Option (Int × St) :=
    if st.rdma.control_ready_expected ≠ 0 then
      match qemu_rdma_exchange_get_response ⟨0, 0, 0, 0⟩ RDMA_CONTROL_READY idx st with
      | none => none
      | some (ret, _, st1) => some (ret, st1)
    else some (0, st)
  match ready with
  | none => none
  | some (ret0, st1) =>
    if ret0 < 0 then some (ret0, resp, st1)
    else
      let extra : Option (Int × St) :=
        match resp with
        | some _ => qemu_rdma_post_recv_control (idx + 1) st1
        | none => some (0, st1)
      match extra with
      | none => none
      | some (ret1, st2) =>
        if ret1 ≠ 0 then some (ret1, resp, st2)
        else
          match qemu_rdma_post_recv_control idx st2 with
          | none => none
          | some (ret2, st3) =>
            if ret2 ≠ 0 then some (ret2, resp, st3)
            else
              match qemu_rdma_post_send_control data head st3 with
              | none => none
              | some (ret3, st4) =>
                if ret3 < 0 then some (ret3, resp, st4)
                else
                  match resp with
                  | none =>
                    some (0, none,
                      { st4 with rdma := { st4.rdma with control_ready_expected := 1 } })
                  | some (rh, ri) =>
                    match qemu_rdma_exchange_get_response rh (toInt32 rh.type) (idx + 1) st4 with
                    | none => none
                    | some (ret4, rh1, st5) =>
                      if ret4 < 0 then some (ret4, some (rh1, ri), st5)
                      else
                        let st6 := qemu_rdma_move_header (idx + 1) rh1 st5
                        some (0, some (rh1, ((idx + 1 : Nat) : Int)),
                          { st6 with rdma := { st6.rdma with control_ready_expected := 1 } })

/-! ## Registration cache -/

/-- The local directory with block `i` replaced. -/
def St.set_block (st : St) (i : Nat) (b : RDMALocalBlock) : St :=
  { st with local_ram_blocks := { block := st.local_ram_blocks.block.set i b } }

/-- `g_malloc0` of an array of `n` elements (`n` an `int` multiplied by the
element size as `size_t`): `NULL` for a size of 0, an abort of the process
(`none`) for the huge size a negative `n` gives, else the zero-filled array. -/
def g_malloc0_array {α : Type} (n : Int) (zero : α) : Option (Option (List α)) :=
  if n < 0 then none
  else if n = 0 then some none
  else some (some (List.replicate n.toNat zero))

/-- The source `qemu_rdma_register_and_get_keys` on block `bi` of the local
directory.  `want_lkey` / `want_rkey` tell whether the pointers `lkey` / `rkey`
are not `NULL`; the result carries the return code and the two keys stored
through them (the values passed in when nothing is stored). -/
def qemu_rdma_register_and_get_keys (bi : Nat) (host_addr : Nat)
    (want_lkey want_rkey : Bool) (lkey rkey : Nat) (st : St) :
    Option (Int × Nat × Nat × St) :=
  match st.local_ram_blocks.block[bi]? with
  | none => none
  | some block =>
    match block.mr with
    | some mr =>
      some (0, (if want_lkey then mr.lkey else lkey), (if want_rkey then mr.rkey else rkey), st)
    | none =>
      let pmr0 : Option (Option (List (Option ibv_mr))) :=
        match block.pmr with
        | some p => some (some p)
        | none => g_malloc0_array (toInt32 (RDMA_REG_NUM_CHUNKS block)) none
      match pmr0 with
      | none => none
      | some none => some (-1, lkey, rkey, st)
      | some (some pmr) =>
        let block1 := { block with pmr := some pmr }
        let st1 := st.set_block bi block1
        let chunk := toInt32 (RDMA_REG_CHUNK_INDEX block.local_host_addr host_addr)
        if chunk < 0 then none
        else
          match pmr[chunk.toNat]? with
          | none => none
          | some (some mr) =>
            some (0, (if want_lkey then mr.lkey else lkey),
              (if want_rkey then mr.rkey else rkey), st1)
          | some none =>
            let start0 := RDMA_REG_CHUNK_START block chunk
            let end0 := RDMA_REG_CHUNK_END block chunk
            let start_addr := if start0 < block.local_host_addr then block.local_host_addr
              else start0
            let block_end := (block.local_host_addr + block.length) % U64
            let end_addr := if end0 > block_end then block_end else end0
            let access := (if want_rkey then IBV_ACCESS_LOCAL_WRITE ||| IBV_ACCESS_REMOTE_WRITE
              else 0) ||| IBV_ACCESS_REMOTE_READ
            let len := (end_addr + U64 - start_addr) % U64
            match call (Call.ibv_reg_mr start_addr len access) st1 with
            | none => none
            | some (r, st2) =>
              match r.id with
              | none => some (-1, lkey, rkey, st2)
              | some _ =>
                let mr : ibv_mr :=
                  { addr := start_addr, length := len, access := access,
                    lkey := r.lkey, rkey := r.rkey }
                let block2 := { block1 with pmr := some (pmr.set chunk.toNat (some mr)) }
                some (0, (if want_lkey then mr.lkey else lkey),
                  (if want_rkey then mr.rkey else rkey), st2.set_block bi block2)

/-! ## Write engine -/

/-- The bytes of an `RDMARegister` (`uint32_t len, current_index; uint64_t
offset`) in the memory of the host. -/
def register_bytes (le : Bool) (len current_index offset : Nat) : List Nat :=
  store_bytes le 4 len ++ store_bytes le 4 current_index ++ store_bytes le 8 offset

/-- The post of the RDMA WRITE at the end of `__qemu_rdma_write`: the return
value of `ibv_post_send`. -/
def post_rdma_write (send_wr : ibv_send_wr) (st : St) : Option (Int × St) :=
  match call (Call.ibv_post_send send_wr []) st with
  | none => none
  | some (r, st1) => some (r.ret, st1)

/-- The part of `__qemu_rdma_write` that finds the rkey in chunk mode: the
entry of the cache for the chunk of `sge_addr`, after a registration exchange
with the peer when the entry is 0.  The result is the code (negative for the
early `return ret`, else 0), the rkey and the state; `none` when the code reads
through a `NULL` `remote_keys` or `control_curr`, or outside the cache. -/
def rdma_write_chunk_rkey (current_index : Int) (bi : Nat) (block : RDMALocalBlock)
    (offset sge_addr sge_length : Nat) (st1 : St) : Option (Int × Nat × St) :=
  let resp : RDMAControlHeader :=
    { len := 0, type := RDMA_CONTROL_REGISTER_RESULT, version := 0, «repeat» := 0 }
  let head : RDMAControlHeader :=
    { len := 16, type := RDMA_CONTROL_REGISTER_REQUEST,
      version := RDMA_CONTROL_CURRENT_VERSION, «repeat» := 1 }
  let chunk := toInt32 (RDMA_REG_CHUNK_INDEX block.local_host_addr sge_addr)
  match block.remote_keys with
  | none => none
  | some keys =>
    if chunk < 0 then none
    else
      match keys[chunk.toNat]? with
      | none => none
      | some k =>
        if k = 0 then
          let reg := register_bytes st1.le sge_length (toU32 current_index) offset
          match qemu_rdma_exchange_send head (some reg) (some (resp, 0)) st1 with
          | none => none
          | some (ret, resp1, st2) =>
            if ret < 0 then some (ret, 0, st2)
            else
              match resp1 with
              | none => none
              | some (_, reg_result_idx) =>
                let wr := st2.rdma.wr_data reg_result_idx.toNat
                match wr.control_curr, st2.local_ram_blocks.block[bi]? with
                | some curr, some block2 =>
                  let rkey := load_bytes st2.le (read_bytes wr.control curr 4)
                  let block3 :=
                    { block2 with remote_keys := some (keys.set chunk.toNat rkey) }
                  some (0, rkey, st2.set_block bi block3)
                | _, _ => none
        else some (0, k, st1)

/-- The source `__qemu_rdma_write`. -/
def __qemu_rdma_write (current_index : Int) (offset length : Nat) (wr_id : Nat)
    (flag : Nat) (st : St) : Option (Int × St) :=
  if current_index < 0 then none
  else
    let bi := current_index.toNat
    match st.local_ram_blocks.block[bi]? with
    | none => none
    | some block =>
      let sge_addr := (block.local_host_addr + (offset + U64 - block.offset) % U64) % U64
      let sge_length := length % U32
      match qemu_rdma_register_and_get_keys bi sge_addr true false 0 0 st with
      | none => none
      | some (r, lkey, _, st1) =>
        if r ≠ 0 then some (-EINVAL, st1)
        else
          let sge : ibv_sge := { addr := sge_addr, length := sge_length, lkey := lkey }
          let remote_addr :=
            (block.remote_host_addr + (offset + U64 - block.offset) % U64) % U64
          let key : Option (Int × Nat × St) :=
            if st1.rdma.chunk_register_destination then
              rdma_write_chunk_rkey current_index bi block offset sge_addr sge_length st1
            else some (0, block.remote_rkey, st1)
          match key with
          | none => none
          | some (ret, rkey, st2) =>
            if ret < 0 then some (ret, st2)
            else
              post_rdma_write
                { wr_id := wr_id, opcode := IBV_WR_RDMA_WRITE, send_flags := flag,
                  sge := sge, remote_addr := remote_addr, rkey := rkey } st2

/-- The `while (1)` loop of `qemu_rdma_write_flush`: `some (0, _)` when the
post went through, `some (-EIO, _)` for its two error exits. -/
def write_flush_loop (flags : Nat) : Nat → St → Option (Int × St)
  | 0, _ => none
  | fuel + 1, st =>
    match __qemu_rdma_write st.rdma.current_index st.rdma.current_offset
        st.rdma.current_length 1 flags st with
    | none => none
    | some (ret, st1) =>
      if ret ≠ 0 then
        if ret = ENOMEM then
          match wait_for_wrid RDMA_WRID_RDMA_WRITE st1 with
          | none => none
          | some (ret1, st2) =>
            if ret1 < 0 then some (-EIO_ERRNO, st2)
            else write_flush_loop flags fuel st2
        else some (-EIO_ERRNO, st1)
      else some (0, st1)

/-- The source `qemu_rdma_write_flush`. -/
def qemu_rdma_write_flush (st : St) : Option (Int × St) :=
  if st.rdma.current_length = 0 then some (0, st)
  else
    let flags : Nat :=
      if st.rdma.num_unsignaled_send ≥ RDMA_UNSIGNALED_SEND_MAX then IBV_SEND_SIGNALED else 0
    match write_flush_loop flags (st.script.length + 1) st with
    | none => none
    | some (ret, st1) =>
      if ret ≠ 0 then some (ret, st1)
      else
        let rdma1 : RDMAContext :=
          if st1.rdma.num_unsignaled_send ≥ RDMA_UNSIGNALED_SEND_MAX then
            { st1.rdma with num_unsignaled_send := 0,
                            num_signaled_send := st1.rdma.num_signaled_send + 1 }
          else
            { st1.rdma with num_unsignaled_send := st1.rdma.num_unsignaled_send + 1 }
        some (0, { st1 with rdma := { rdma1 with current_length := 0, current_offset := 0 } })

/-- The source `qemu_rdma_in_current_block`; `none` when it reads a block past
the end of the directory. -/
def qemu_rdma_in_current_block (offset len : Nat) (st : St) : Option Int :=
  if st.rdma.current_index < 0 then some 0
  else
    match st.local_ram_blocks.block[st.rdma.current_index.toNat]? with
    | none => none
    | some block =>
      if offset < block.offset then some 0
      else if (offset + len) % U64 > (block.offset + block.length) % U64 then some 0
      else some 1

/-- The source `qemu_rdma_in_current_chunk`. -/
def qemu_rdma_in_current_chunk (offset len : Nat) (st : St) : Option Int :=
  if st.rdma.current_chunk < 0 then some 0
  else if st.rdma.current_index < 0 then none
  else
    match st.local_ram_blocks.block[st.rdma.current_index.toNat]? with
    | none => none
    | some block =>
      let host_addr := (block.local_host_addr + (offset + U64 - block.offset) % U64) % U64
      let chunk_start0 := RDMA_REG_CHUNK_START block st.rdma.current_chunk
      let chunk_start :=
        if chunk_start0 < block.local_host_addr then block.local_host_addr else chunk_start0
      if host_addr < chunk_start then some 0
      else
        let chunk_end0 := RDMA_REG_CHUNK_END block st.rdma.current_chunk
        let chunk_end :=
          if chunk_end0 > (chunk_start + block.length) % U64 then
            (chunk_start + block.length) % U64
          else chunk_end0
        if (host_addr + len) % U64 > chunk_end then some 0
        else some 1

/-- The source `qemu_rdma_buffer_mergable` (`RDMA_CHUNK_REGISTRATION` is
defined). -/
def qemu_rdma_buffer_mergable (offset len : Nat) (st : St) : Option Int :=
  if st.rdma.current_length = 0 then some 0
  else if offset ≠ (st.rdma.current_offset + st.rdma.current_length) % U64 then some 0
  else
    match qemu_rdma_in_current_block offset len st with
    | none => none
    | some b =>
      if b = 0 then some 0
      else
        match qemu_rdma_in_current_chunk offset len st with
        | none => none
        | some c => if c = 0 then some 0 else some 1

/-- The source `qemu_rdma_write`. -/
def qemu_rdma_write (offset len : Nat) (st : St) : Option (Int × St) :=
  match qemu_rdma_buffer_mergable offset len st with
  | none => none
  | some m =>
    let merged : Option (Int × St) :=
      if m = 0 then
        match qemu_rdma_write_flush st with
        | none => none
        | some (ret, st1) =>
          if ret ≠ 0 then some (ret, st1)
          else
            let st2 : St :=
              { st1 with rdma := { st1.rdma with current_length := 0, current_offset := offset } }
            let found := qemu_rdma_search_ram_block offset len st2.local_ram_blocks
              st.rdma.current_index st.rdma.current_chunk
            if found.1 ≠ 0 then some (found.1, st2)
            else
              some (0, { st2 with rdma :=
                { st2.rdma with current_index := found.2.1, current_chunk := found.2.2 } })
      else some (0, st)
    match merged with
    | none => none
    | some (ret, st3) =>
      if ret ≠ 0 then some (ret, st3)
      else
        let st4 : St :=
          { st3 with rdma :=
              { st3.rdma with current_length := (st3.rdma.current_length + len) % U64 } }
        if st4.rdma.current_length ≥ RDMA_MERGE_MAX then qemu_rdma_write_flush st4
        else some (0, st4)

/-! ## Byte stream and page entry points -/

/-- The `while (remaining)` loop of `qemu_rdma_put_buffer`: `remaining`, the
bytes from `data` on, and `head.repeat`, which the source leaves
uninitialised (`garbage`).  The result is `some (ret, _)` with `ret < 0` for
the error exit and `some (0, _)` when the loop ends. -/
def put_buffer_loop (garbage : Nat) : Nat → Nat → List Nat → St → Option (Int × St)
  | 0, _, _, _ => none
  | fuel + 1, remaining, data, st =>
    if remaining = 0 then some (0, st)
    else
      let len := min remaining RDMA_SEND_INCREMENT
      let st1 : St := { st with file_len := len }
      let remaining1 := remaining - len
      let head : RDMAControlHeader :=
        { len := len % U32, type := RDMA_CONTROL_QEMU_FILE,
          version := RDMA_CONTROL_CURRENT_VERSION, «repeat» := garbage }
      match qemu_rdma_exchange_send head (some data) none st1 with
      | none => none
      | some (ret, _, st2) =>
        if ret < 0 then some (ret, st2)
        else put_buffer_loop garbage fuel remaining1 (data.drop len) st2

/-- The source `qemu_rdma_put_buffer`: `buf` is the memory at `buf`, `size`
the `int` size. -/
def qemu_rdma_put_buffer (garbage : Nat) (buf : List Nat) (size : Int) (st : St) :
    Option (Int × St) :=
  match qemu_rdma_write_flush st with
  | none => none
  | some (ret, st1) =>
    if ret < 0 then some (-EIO_ERRNO, st1)
    else
      match put_buffer_loop garbage (st1.script.length + 1) (toU64 size) buf st1 with
      | none => none
      | some (ret1, st2) =>
        if ret1 < 0 then some (ret1, st2) else some (size, st2)

/-- The `while (rdma->num_signaled_send)` loop of `qemu_rdma_drain_cq`. -/
def drain_cq_loop : Nat → St → Option (Int × St)
  | 0, _ => none
  | fuel + 1, st =>
    if st.rdma.num_signaled_send = 0 then some (0, st)
    else
      match wait_for_wrid RDMA_WRID_RDMA_WRITE st with
      | none => none
      | some (ret, st1) =>
        if ret < 0 then some (-EIO_ERRNO, st1)
        else drain_cq_loop fuel st1

/-- The source `qemu_rdma_drain_cq`. -/
def qemu_rdma_drain_cq (st : St) : Option (Int × St) :=
  match qemu_rdma_write_flush st with
  | none => none
  | some (ret, st1) =>
    if ret < 0 then some (-EIO_ERRNO, st1)
    else drain_cq_loop (st1.script.length + 1) st1

/-- Modelled from the spec: the caller-provided zero-page probe
`buffer_find_nonzero_offset`, which is not part of this file; it reports the
page as all-zero by returning its size, and otherwise the index of the first
non-zero byte. -/
def buffer_find_nonzero_offset (va : List Nat) (size : Nat) : Nat :=
  if (va.take size).all (fun b => b == 0) then size
  else (va.take size).findIdx (fun b => b != 0)

/-- The loop at the end of `qemu_rdma_save_page` that polls until the
completion queue is empty: `some (0, _)` when it is, the negative result of
`qemu_rdma_poll` otherwise. -/
def save_page_poll_loop : Nat → St → Option (Int × St)
  | 0, _ => none
  | fuel + 1, st =>
    match qemu_rdma_poll st with
    | none => none
    | some (ret, st1) =>
      if ret = RDMA_WRID_NONE then some (0, st1)
      else if ret < 0 then some (ret, st1)
      else save_page_poll_loop fuel st1

/-- The source `qemu_rdma_save_page`; `rfile` tells whether the QEMUFileRDMA
pointer is not `NULL`, `va` is the page.  The result is a `size_t`. -/
def qemu_rdma_save_page (rfile : Bool) (block_offset offset size : Nat) (va : List Nat)
    (st : St) : Option (Nat × St) :=
  let current_addr := (block_offset + offset) % U64
  if rfile = false then some (toU64 (-ENOTSUP), st)
  else
    let st1 := log Call.qemu_ftell st
    if st1.rdma.chunk_register_destination = true ∧
        buffer_find_nonzero_offset va size = size then
      some (size, st1)
    else
      match qemu_rdma_write current_addr size st1 with
      | none => none
      | some (ret, st2) =>
        if ret < 0 then some (toU64 ret, st2)
        else
          match save_page_poll_loop (st2.script.length + 1) st2 with
          | none => none
          | some (ret1, st3) =>
            if ret1 < 0 then some (toU64 ret1, st3) else some (size, st3)

/-! ## Session set-up -/

/-- The source `qemu_rdma_data_init` for a `host_port` that `inet_parse` splits
into `host` and `port`: a zeroed context with an empty cursor.  `base` is the
address `g_malloc0` returned, which fixes the addresses of the three control
buffers. -/
def qemu_rdma_data_init (host : String) (port : Int) (base : Nat) : RDMAContext :=
  { host := some host, port := port,
    wr_data := fun i =>
      { control := fun _ => 0, control_addr := base + i * (RDMA_CONTROL_MAX_BUFFER + 24),
        control_mr := none, control_len := 0, control_curr := none },
    control_ready_expected := 0, client_init_done := 0,
    num_unsignaled_send := 0, num_signaled_send := 0,
    current_offset := 0, current_length := 0,
    current_index := -1, current_chunk := -1,
    chunk_register_destination := false,
    cm_id := none, listen_id := none, verbs := none, channel := none,
    qp := none, comp_channel := none, pd := none, cq := none }

/-- The state of a process at start: the globals zeroed, nothing called yet. -/
def St.start (le : Bool) (rdma : RDMAContext) (ram_list : List (Nat × Nat × Nat))
    (script : List Resp) : St :=
  { le := le, rdma := rdma, local_ram_blocks := { block := [] }, local_block_ptr := false,
    remote_ram_blocks := none, remote_size := 0, file_len := 0, ram_list := ram_list,
    script := script, trace := [] }

/-! ## Teardown -/

/-- The source `qemu_rdma_dereg_control`; the `int` that `ibv_dereg_mr` returns
is dropped by its only caller. -/
def qemu_rdma_dereg_control (idx : Nat) (st : St) : Option St :=
  match (st.rdma.wr_data idx).control_mr with
  | none => none
  | some mr => some (log (Call.ibv_dereg_mr mr) st)

/-- The inner loop of `qemu_rdma_dereg_ram_blocks` over the chunks `j, j+1, …`
of one block, `n` of them left; `none` when it reads past the end of `pmr`. -/
def dereg_chunks (pmr : List (Option ibv_mr)) : Nat → Nat → St → Option St
  | 0, _, st => some st
  | n + 1, j, st =>
    match pmr[j]? with
    | none => none
    | some none => dereg_chunks pmr n (j + 1) st
    | some (some mr) => dereg_chunks pmr n (j + 1) (log (Call.ibv_dereg_mr mr) st)

/-- The first loop of `qemu_rdma_dereg_ram_blocks`, from block `i` on: the
blocks afterwards and the state. -/
def dereg_ram_blocks_pmr : List RDMALocalBlock → Nat → St →
    Option (List RDMALocalBlock × St)
  | [], _, st => some ([], st)
  | b :: bs, i, st =>
    match b.pmr with
    | none =>
      match dereg_ram_blocks_pmr bs (i + 1) st with
      | none => none
      | some (bs1, st1) => some (b :: bs1, st1)
    | some pmr =>
      match dereg_chunks pmr (toInt32 (RDMA_REG_NUM_CHUNKS b)).toNat 0 st with
      | none => none
      | some st1 =>
        match dereg_ram_blocks_pmr bs (i + 1) (log (Call.free_pmr i) st1) with
        | none => none
        | some (bs1, st2) => some ({ b with pmr := none } :: bs1, st2)

/-- The second loop of `qemu_rdma_dereg_ram_blocks`. -/
def dereg_ram_blocks_mr : List RDMALocalBlock → St → List RDMALocalBlock × St
  | [], st => ([], st)
  | b :: bs, st =>
    match b.mr with
    | none =>
      let res := dereg_ram_blocks_mr bs st
      (b :: res.1, res.2)
    | some mr =>
      let res := dereg_ram_blocks_mr bs (log (Call.ibv_dereg_mr mr) st)
      ({ b with mr := none } :: res.1, res.2)

/-- The source `qemu_rdma_dereg_ram_blocks` on the global directory. -/
def qemu_rdma_dereg_ram_blocks (st : St) : Option St :=
  match dereg_ram_blocks_pmr st.local_ram_blocks.block 0 st with
  | none => none
  | some (bs1, st1) =>
    let res := dereg_ram_blocks_mr bs1 st1
    some { res.2 with local_ram_blocks := { block := res.1 } }

/-- The loop of `qemu_rdma_cleanup` over the control slots `idx, idx+1, …`,
`n` of them left. -/
def cleanup_control : Nat → Nat → St → Option St
  | 0, _, st => some st
  | n + 1, idx, st =>
    let st1 : Option St :=
      match (st.rdma.wr_data idx).control_mr with
      | some _ => qemu_rdma_dereg_control idx st
      | none => some st
    match st1 with
    | none => none
    | some st1 =>
      let wr := st1.rdma.wr_data idx
      let wr1 := { wr with control_mr := none }
      cleanup_control n (idx + 1) { st1 with rdma := st1.rdma.set_wr idx wr1 }

/-- The loop of `qemu_rdma_cleanup` that frees the `remote_keys` arrays. -/
def cleanup_remote_keys : List RDMALocalBlock → Nat → St → St
  | [], _, st => st
  | b :: bs, idx, st =>
    match b.remote_keys with
    | some _ => cleanup_remote_keys bs (idx + 1) (log (Call.g_free_remote_keys idx) st)
    | none => cleanup_remote_keys bs (idx + 1) st

/-- `if (p) release(p);` for a handle. -/
def release (h : Option Nat) (c : Nat → Call) (st : St) : St :=
  match h with
  | some x => log (c x) st
  | none => st

/-- The start of `qemu_rdma_cleanup`: with a connection, disconnect and wait
for the event that follows. -/
def cleanup_disconnect (st : St) : Option St :=
  match st.rdma.cm_id with
  | none => some st
  | some id =>
    match call (Call.rdma_disconnect id) st with
    | none => none
    | some (r, sa) =>
      if r.ret = 0 then
        match call Call.rdma_get_cm_event sa with
        | none => none
        | some (e, sb) =>
          if e.ret = 0 then some (log Call.rdma_ack_cm_event sb) else some sb
      else some sa

/-- The part of `qemu_rdma_cleanup` that frees the local directory. -/
def cleanup_blocks (st : St) : St :=
  if st.local_block_ptr then
    let sa :=
      if st.rdma.chunk_register_destination then
        cleanup_remote_keys st.local_ram_blocks.block 0 st
      else st
    log Call.g_free_block sa
  else st

/-- The end of `qemu_rdma_cleanup`: the handles, in the order of the source. -/
def cleanup_handles (st5 : St) : St :=
  let st6 := release st5.rdma.qp Call.ibv_destroy_qp st5
  let st7 := release st6.rdma.cq Call.ibv_destroy_cq st6
  let st8 := release st7.rdma.comp_channel Call.ibv_destroy_comp_channel st7
  let st9 := release st8.rdma.pd Call.ibv_dealloc_pd st8
  let st10 := release st9.rdma.listen_id Call.rdma_destroy_id st9
  let st11 : St :=
    match st10.rdma.cm_id with
    | some id =>
      let sa := log (Call.rdma_destroy_id id) st10
      { sa with rdma := { sa.rdma with cm_id := none } }
    | none => st10
  release st11.rdma.channel Call.rdma_destroy_event_channel st11

/-- The source `qemu_rdma_cleanup`. -/
def qemu_rdma_cleanup (st : St) : Option St :=
  match cleanup_disconnect st with
  | none => none
  | some st1 =>
    let st2 : St :=
      match st1.remote_ram_blocks with
      | some _ => log Call.g_free_remote_area st1
      | none => st1
    match cleanup_control (RDMA_CONTROL_MAX_WR + 1) 0 st2 with
    | none => none
    | some st3 =>
      match qemu_rdma_dereg_ram_blocks st3 with
      | none => none
      | some st4 => some (cleanup_handles (cleanup_blocks st4))

/-! ## Resources and directories at set-up -/

/-- The error exit `err_alloc_pd_cq` of `qemu_rdma_alloc_pd_cq`. -/
def alloc_pd_cq_err (st : St) : Int × St :=
  let st1 := release st.rdma.pd Call.ibv_dealloc_pd st
  let st2 := release st1.rdma.comp_channel Call.ibv_destroy_comp_channel st1
  (-1, { st2 with rdma := { st2.rdma with pd := none, comp_channel := none } })

/-- The source `qemu_rdma_alloc_pd_cq` (`RDMA_BLOCKING` is defined). -/
def qemu_rdma_alloc_pd_cq (st : St) : Option (Int × St) :=
  match call Call.ibv_alloc_pd st with
  | none => none
  | some (p, st1) =>
    let st2 : St := { st1 with rdma := { st1.rdma with pd := p.id } }
    match p.id with
    | none => some (-1, st2)
    | some _ =>
      match call Call.ibv_create_comp_channel st2 with
      | none => none
      | some (c, st3) =>
        let st4 : St := { st3 with rdma := { st3.rdma with comp_channel := c.id } }
        match c.id with
        | none => some (alloc_pd_cq_err st4)
        | some _ =>
          match call (Call.ibv_create_cq 3000) st4 with
          | none => none
          | some (q, st5) =>
            let st6 : St := { st5 with rdma := { st5.rdma with cq := q.id } }
            match q.id with
            | none => some (alloc_pd_cq_err st6)
            | some _ => some (0, st6)

/-- The source `qemu_rdma_alloc_qp`; it faults when `cm_id` is `NULL`. -/
def qemu_rdma_alloc_qp (st : St) : Option (Int × St) :=
  match st.rdma.cm_id with
  | none => none
  | some _ =>
    match call (Call.rdma_create_qp 1000 3 1 1) st with
    | none => none
    | some (r, st1) =>
      if r.ret ≠ 0 then some (-1, st1)
      else some (0, { st1 with rdma := { st1.rdma with qp := r.id } })

/-- The source `qemu_rdma_init_ram_blocks` on the global directory: one block
per RAM block of the guest, the other fields zero. -/
def qemu_rdma_init_ram_blocks (st : St) : Int × St :=
  let st1 := log Call.qemu_ram_foreach_block st
  let st2 := log Call.qemu_ram_foreach_block st1
  (0, { st2 with
    local_ram_blocks :=
      { block := st2.ram_list.map (fun b =>
          { local_host_addr := b.1, remote_host_addr := 0, offset := b.2.1 % U64,
            length := b.2.2 % U64, pmr := none, mr := none, remote_keys := none,
            remote_rkey := 0 }) },
    local_block_ptr := decide (st2.ram_list ≠ []) })

/-- The source `qemu_rdma_remote_ram_blocks_init`. -/
def qemu_rdma_remote_ram_blocks_init (st : St) : St :=
  { st with
    remote_ram_blocks := some (remote_area_zero st.local_ram_blocks.block.length),
    remote_size :=
      (sizeof_RDMARemoteBlock : Int) * st.local_ram_blocks.num_blocks + (sizeof_int : Int) }

/-- The source `qemu_rdma_reg_control`. -/
def qemu_rdma_reg_control (idx : Nat) (st : St) : Option (Int × St) :=
  let wr := st.rdma.wr_data idx
  let access := IBV_ACCESS_LOCAL_WRITE ||| IBV_ACCESS_REMOTE_WRITE ||| IBV_ACCESS_REMOTE_READ
  match call (Call.ibv_reg_mr wr.control_addr RDMA_CONTROL_MAX_BUFFER access) st with
  | none => none
  | some (r, st1) =>
    match r.id with
    | none =>
      let wr1 := { (st1.rdma.wr_data idx) with control_mr := none }
      some (-1, { st1 with rdma := st1.rdma.set_wr idx wr1 })
    | some _ =>
      let mr : ibv_mr :=
        { addr := wr.control_addr, length := RDMA_CONTROL_MAX_BUFFER, access := access,
          lkey := r.lkey, rkey := r.rkey }
      let wr1 := { (st1.rdma.wr_data idx) with control_mr := some mr }
      some (0, { st1 with rdma := st1.rdma.set_wr idx wr1 })

/-- The registration loop of `qemu_rdma_reg_whole_ram_blocks`: whether every
block was registered, the blocks afterwards, the MRs registered in order, and
the state. -/
def reg_whole_loop : List RDMALocalBlock → St →
    Option (Bool × List RDMALocalBlock × List ibv_mr × St)
  | [], st => some (true, [], [], st)
  | b :: bs, st =>
    let access := IBV_ACCESS_LOCAL_WRITE ||| IBV_ACCESS_REMOTE_WRITE
    match call (Call.ibv_reg_mr b.local_host_addr b.length access) st with
    | none => none
    | some (r, st1) =>
      match r.id with
      | none => some (false, { b with mr := none } :: bs, [], st1)
      | some _ =>
        let mr : ibv_mr :=
          { addr := b.local_host_addr, length := b.length, access := access,
            lkey := r.lkey, rkey := r.rkey }
        match reg_whole_loop bs st1 with
        | none => none
        | some (ok, bs1, mrs, st2) => some (ok, { b with mr := some mr } :: bs1, mr :: mrs, st2)

/-- The log of `ibv_dereg_mr` for each MR of a list, in order. -/
def dereg_all : List ibv_mr → St → St
  | [], st => st
  | mr :: mrs, st => dereg_all mrs (log (Call.ibv_dereg_mr mr) st)

/-- The source `qemu_rdma_reg_whole_ram_blocks` on the global directory. -/
def qemu_rdma_reg_whole_ram_blocks (st : St) : Option (Int × St) :=
  match reg_whole_loop st.local_ram_blocks.block st with
  | none => none
  | some (ok, bs1, mrs, st1) =>
    let st2 : St := { st1 with local_ram_blocks := { block := bs1 } }
    if ok then some (0, st2)
    else some (-1, dereg_all mrs.reverse st2)

/-- The source `qemu_rdma_server_reg_ram_blocks`. -/
def qemu_rdma_server_reg_ram_blocks (st : St) : Option (Int × St) :=
  qemu_rdma_reg_whole_ram_blocks st

/-- The loop of `qemu_rdma_server_prepare` that registers the control buffers
`idx, idx+1, …`, `n` of them left: 0, or the code of the failing
`qemu_rdma_reg_control`. -/
def reg_control_loop : Nat → Nat → St → Option (Int × St)
  | 0, _, st => some (0, st)
  | n + 1, idx, st =>
    match qemu_rdma_reg_control idx st with
    | none => none
    | some (ret, st1) => if ret ≠ 0 then some (ret, st1) else reg_control_loop n (idx + 1) st1

/-- The exit `return -1` after `qemu_rdma_cleanup` of the set-up functions. -/
def cleanup_fail (st : St) : Option (Int × St) :=
  match qemu_rdma_cleanup st with
  | none => none
  | some st1 => some (-1, st1)

/-- The source `qemu_rdma_server_prepare`. -/
def qemu_rdma_server_prepare (st : St) : Option (Int × St) :=
  match st.rdma.verbs with
  | none => some (0, st)
  | some _ =>
    match qemu_rdma_alloc_pd_cq st with
    | none => none
    | some (ret, st1) =>
      if ret ≠ 0 then cleanup_fail st1
      else
        let init := qemu_rdma_init_ram_blocks st1
        if init.1 ≠ 0 then cleanup_fail init.2
        else
          let st3 := qemu_rdma_remote_ram_blocks_init init.2
          match reg_control_loop (RDMA_CONTROL_MAX_WR + 1) 0 st3 with
          | none => none
          | some (ret1, st4) =>
            if ret1 ≠ 0 then cleanup_fail st4
            else
              match call (Call.rdma_listen 5) st4 with
              | none => none
              | some (l, st5) => if l.ret ≠ 0 then cleanup_fail st5 else some (0, st5)

/-! ## Capability negotiation -/

/-- The source `caps_to_network`. -/
def caps_to_network (le : Bool) (cap : RDMACapabilities) : RDMACapabilities :=
  let c1 := { cap with version := htonl le cap.version }
  { c1 with flags := htonl le c1.flags }

/-- The source `network_to_caps`. -/
def network_to_caps (le : Bool) (cap : RDMACapabilities) : RDMACapabilities :=
  let c1 := { cap with version := ntohl le cap.version }
  { c1 with flags := ntohl le c1.flags }

/-- The 8 bytes of an `RDMACapabilities` in the memory of the host, which are
the private data handed to `rdma_connect` and `rdma_accept`. -/
def caps_bytes (le : Bool) (cap : RDMACapabilities) : List Nat :=
  store32 le cap.version ++ store32 le cap.flags

/-- The structure `memcpy(&cap, private_data, sizeof(cap))` leaves in `cap`. -/
def caps_of_bytes (le : Bool) (d : List Nat) : RDMACapabilities :=
  { version := load_bytes le [d.getD 0 0, d.getD 1 0, d.getD 2 0, d.getD 3 0],
    flags := load_bytes le [d.getD 4 0, d.getD 5 0, d.getD 6 0, d.getD 7 0] }

/-- The error exit `err_rdma_client_connect` of `qemu_rdma_connect`. -/
def connect_err (st : St) : Option (Int × St) := cleanup_fail st

/-- The three early error exits of `qemu_rdma_connect`: destroy the id, clear
`cm_id`, then `err_rdma_client_connect`. -/
def connect_err_destroy (id : Nat) (st : St) : Option (Int × St) :=
  let st1 := log (Call.rdma_destroy_id id) st
  connect_err { st1 with rdma := { st1.rdma with cm_id := none } }

/-- The loop of `qemu_rdma_connect` that allocates the `remote_keys` array of
every block; `none` when `g_malloc0` aborts. -/
def alloc_remote_keys : List RDMALocalBlock → Option (List RDMALocalBlock)
  | [] => some []
  | b :: bs =>
    match g_malloc0_array (toInt32 (RDMA_REG_NUM_CHUNKS b)) (0 : Nat) with
    | none => none
    | some keys =>
      match alloc_remote_keys bs with
      | none => none
      | some bs1 => some ({ b with remote_keys := keys } :: bs1)

/-- The part of `qemu_rdma_connect` after the capabilities are settled: the two
RECVs, the directory of the peer, the `remote_keys` arrays.  The remote area
has room for `(remote_size - 4) / 32` entries
(`qemu_rdma_remote_ram_blocks_init`), which the `memcpy` from the control
buffer overwrites. -/
def connect_directory (st4 : St) : Option (Int × St) :=
  match qemu_rdma_post_recv_control 1 st4 with
  | none => none
  | some (r1, st5) =>
    if r1 ≠ 0 then connect_err st5
    else
      match qemu_rdma_post_recv_control 0 st5 with
      | none => none
      | some (r2, st6) =>
        if r2 ≠ 0 then connect_err st6
        else
          match qemu_rdma_exchange_get_response ⟨0, 0, 0, 0⟩
              RDMA_CONTROL_RAM_BLOCKS 1 st6 with
          | none => none
          | some (r3, head, st7) =>
            if r3 < 0 then connect_err st7
            else
              let st8 := qemu_rdma_move_header 1 head st7
              match st8.remote_ram_blocks, (st8.rdma.wr_data 1).control_curr with
              | some area, some curr =>
                let area1 := remote_area_of_bytes st8.le
                  (st8.rdma.wr_data 1).control curr area.block.length
                let st9 : St := { st8 with remote_ram_blocks := some area1 }
                let res := qemu_rdma_process_remote_ram_blocks
                  st9.local_ram_blocks area1
                let st10 : St := { st9 with local_ram_blocks := res.2 }
                if res.1 ≠ 0 then connect_err st10
                else
                  let keys : Option (List RDMALocalBlock) :=
                    if st10.rdma.chunk_register_destination then
                      alloc_remote_keys st10.local_ram_blocks.block
                    else some st10.local_ram_blocks.block
                  match keys with
                  | none => none
                  | some bs =>
                    some (0, { st10 with
                      local_ram_blocks := { block := bs },
                      rdma := { st10.rdma with
                        control_ready_expected := 1, num_signaled_send := 0 } })
              | _, _ => none

/-- The source `qemu_rdma_connect`. -/
def qemu_rdma_connect (st : St) : Option (Int × St) :=
  let cap0 : RDMACapabilities := { version := RDMA_CONTROL_CURRENT_VERSION, flags := 0 }
  let cap1 : RDMACapabilities :=
    if st.rdma.chunk_register_destination then
      { cap0 with flags := cap0.flags ||| RDMA_CAPABILITY_CHUNK_REGISTER }
    else cap0
  let cap2 := caps_to_network st.le cap1
  match st.rdma.cm_id with
  | none => none
  | some id =>
    match call (Call.rdma_connect (caps_bytes st.le cap2)) st with
    | none => none
    | some (c, st1) =>
      if c.ret ≠ 0 then connect_err_destroy id st1
      else
        match call Call.rdma_get_cm_event st1 with
        | none => none
        | some (e, st2) =>
          if e.ret ≠ 0 then connect_err_destroy id (log Call.rdma_ack_cm_event st2)
          else if e.event ≠ RDMA_CM_EVENT_ESTABLISHED then
            connect_err_destroy id (log Call.rdma_ack_cm_event st2)
          else
            let cap3 := network_to_caps st2.le (caps_of_bytes st2.le e.data)
            let st3 : St :=
              if cap3.flags &&& RDMA_CAPABILITY_CHUNK_REGISTER = 0 ∧
                  st2.rdma.chunk_register_destination = true then
                { st2 with rdma := { st2.rdma with chunk_register_destination := false } }
              else st2
            connect_directory (log Call.rdma_ack_cm_event st3)

/-- The error exit `err_rdma_server_wait` of `qemu_rdma_accept`: clean up and
return the current value of `ret`. -/
def accept_err (ret : Int) (st : St) : Option (Int × St) :=
  match qemu_rdma_cleanup st with
  | none => none
  | some st1 => some (ret, st1)

/-- The end of `qemu_rdma_accept`, after the RECV is posted: register the
blocks in whole-block mode, fill the remote area and send it with `head`. -/
def accept_directory (head : RDMAControlHeader) (st11 : St) : Option (Int × St) :=
  let reg : Option (Int × St) :=
    if st11.rdma.chunk_register_destination = false then
      qemu_rdma_server_reg_ram_blocks st11
    else some (0, st11)
  match reg with
  | none => none
  | some (r3, st12) =>
    if r3 ≠ 0 then accept_err r3 st12
    else
      match st12.remote_ram_blocks with
      | none => none
      | some area =>
        match qemu_rdma_copy_to_remote_ram_blocks
            st12.rdma.chunk_register_destination
            st12.local_ram_blocks area with
        | none => none
        | some area1 =>
          let st13 : St :=
            { st12 with remote_ram_blocks := some area1 }
          match qemu_rdma_post_send_control
              (some (remote_area_bytes st13.le area1)) head
              st13 with
          | none => none
          | some (r4, st14) =>
            if r4 < 0 then accept_err r4 st14
            else some (0, st14)

/-- The part of `qemu_rdma_accept` from `qemu_set_fd_handler2` on: the queue
pair, `rdma_accept` with the capabilities `capc` as private data, the
`ESTABLISHED` event, the RECV, then `accept_directory`. -/
def accept_connection (capc : RDMACapabilities) (head : RDMAControlHeader) (st5 : St) :
    Option (Int × St) :=
  match st5.rdma.channel with
  | none => none
  | some _ =>
    let st6 := log Call.qemu_set_fd_handler2 st5
    match qemu_rdma_alloc_qp st6 with
    | none => none
    | some (r1, st7) =>
      if r1 ≠ 0 then accept_err r1 st7
      else
        match call (Call.rdma_accept (caps_bytes st7.le capc)) st7 with
        | none => none
        | some (a, st8) =>
          if a.ret ≠ 0 then accept_err a.ret st8
          else
            match call Call.rdma_get_cm_event st8 with
            | none => none
            | some (e2, st9) =>
              if e2.ret ≠ 0 then accept_err e2.ret st9
              else if e2.event ≠ RDMA_CM_EVENT_ESTABLISHED then
                accept_err 0 (log Call.rdma_ack_cm_event st9)
              else
                let st10 := log Call.rdma_ack_cm_event st9
                match qemu_rdma_post_recv_control 0 st10 with
                | none => none
                | some (r2, st11) =>
                  if r2 ≠ 0 then accept_err r2 st11
                  else accept_directory head st11

/-- The part of `qemu_rdma_accept` after the version check, with the
capabilities `cap` read from the request `e`: take the id of the request, set
the capabilities to answer with, prepare the server when no verbs context is
known yet, then `accept_connection`.  It faults when the event has no id. -/
def accept_request (e : Resp) (cap : RDMACapabilities) (head : RDMAControlHeader)
    (st2 : St) : Option (Int × St) :=
  match e.id with
  | none => none
  | some _ =>
    let st3 : St := { st2 with rdma := { st2.rdma with cm_id := e.id } }
    let verbs := e.verbs
    let st4 := log Call.rdma_ack_cm_event st3
    let requested_flags := cap.flags
    let capa : RDMACapabilities := { cap with flags := 0 }
    let capb : RDMACapabilities :=
      if st4.rdma.chunk_register_destination = true ∧
          requested_flags &&& RDMA_CAPABILITY_CHUNK_REGISTER ≠ 0 then
        { capa with flags := capa.flags ||| RDMA_CAPABILITY_CHUNK_REGISTER }
      else capa
    let capc := caps_to_network st4.le capb
    let prepared : Option (Bool × Int × St) :=
      match st4.rdma.verbs with
      | none =>
        match qemu_rdma_server_prepare
            { st4 with rdma := { st4.rdma with verbs := verbs } } with
        | none => none
        | some (ret, sa) => some (decide (ret = 0), ret, sa)
      | some v => if some v ≠ verbs then some (false, 0, st4) else some (true, 0, st4)
    match prepared with
    | none => none
    | some (false, ret, st5) => accept_err ret st5
    | some (true, _, st5) => accept_connection capc head st5

/-- The source `qemu_rdma_accept`. -/
def qemu_rdma_accept (st : St) : Option (Int × St) :=
  let head : RDMAControlHeader :=
    { len := toU32 st.remote_size, type := RDMA_CONTROL_RAM_BLOCKS,
      version := RDMA_CONTROL_CURRENT_VERSION, «repeat» := 1 }
  match call Call.rdma_get_cm_event st with
  | none => none
  | some (e, st1) =>
    if e.ret ≠ 0 then accept_err e.ret st1
    else if e.event ≠ RDMA_CM_EVENT_CONNECT_REQUEST then
      accept_err 0 (log Call.rdma_ack_cm_event st1)
    else
      let cap := network_to_caps st1.le (caps_of_bytes st1.le e.data)
      if cap.version < RDMA_CONTROL_VERSION_MIN ∨ cap.version > RDMA_CONTROL_VERSION_MAX then
        accept_err 0 (log Call.rdma_ack_cm_event st1)
      else if cap.version ≠ RDMA_CONTROL_VERSION_1 then
        accept_err 0 (log Call.rdma_ack_cm_event st1)
      else
        let st2 : St :=
          if cap.flags &&& RDMA_CAPABILITY_CHUNK_REGISTER ≠ 0 then
            { st1 with rdma := { st1.rdma with chunk_register_destination := true } }
          else st1
        accept_request e cap head st2

/-! ## Vocabulary of the statements -/

/-- The calls of the completion pump: they post nothing. -/
def Call.is_pump : Call → Bool
  | Call.ibv_poll_cq => true
  | Call.ibv_req_notify_cq => true
  | Call.ibv_get_cq_event => true
  | Call.ibv_ack_cq_events _ => true
  | _ => false

/-- The calls that post a work request. -/
def Call.is_post : Call → Bool
  | Call.ibv_post_send _ _ => true
  | Call.ibv_post_recv _ _ => true
  | _ => false

/-- The message of a call when the call posts a control SEND. -/
def Call.control_msg : Call → Option (List Nat)
  | Call.ibv_post_send wr msg => if wr.opcode = IBV_WR_SEND then some msg else none
  | _ => none

/-- The messages of the control SENDs of a trace, in the order of their
posts. -/
def control_sends (tr : List Call) : List (List Nat) := tr.filterMap Call.control_msg

/-- The header a message carries on the wire: its first 16 bytes read as four
big-endian 32-bit integers. -/
def be_header (buf : Nat → Nat) : RDMAControlHeader :=
  { len := buf 0 % 256 * 16777216 + buf 1 % 256 * 65536 + buf 2 % 256 * 256 + buf 3 % 256,
    type := buf 4 % 256 * 16777216 + buf 5 % 256 * 65536 + buf 6 % 256 * 256 + buf 7 % 256,
    version :=
      buf 8 % 256 * 16777216 + buf 9 % 256 * 65536 + buf 10 % 256 * 256 + buf 11 % 256,
    «repeat» :=
      buf 12 % 256 * 16777216 + buf 13 % 256 * 65536 + buf 14 % 256 * 256 + buf 15 % 256 }

/-- What the control channel and the completion pump may change between two
states: the environment, the control buffers, `control_ready_expected` and
`num_signaled_send`.  The cursor, `num_unsignaled_send`, the mode, the handles
and the directories are the same. -/
def CtlFrame (st st' : St) : Prop :=
  st' = { st with script := st'.script, trace := st'.trace, rdma := st'.rdma } ∧
  st'.rdma = { st.rdma with
    wr_data := st'.rdma.wr_data,
    control_ready_expected := st'.rdma.control_ready_expected,
    num_signaled_send := st'.rdma.num_signaled_send }

/-- What a wait on the completion queue may change: what `CtlFrame` allows,
and of the control slots only the content of the buffers; its calls are pump
calls. -/
def PumpFrame (st st' : St) : Prop :=
  CtlFrame st st' ∧
  (∀ i, (st'.rdma.wr_data i).control_mr = (st.rdma.wr_data i).control_mr ∧
        (st'.rdma.wr_data i).control_addr = (st.rdma.wr_data i).control_addr ∧
        (st'.rdma.wr_data i).control_len = (st.rdma.wr_data i).control_len ∧
        (st'.rdma.wr_data i).control_curr = (st.rdma.wr_data i).control_curr) ∧
  ∃ ext, st'.trace = st.trace ++ ext ∧ ext.all Call.is_pump = true

/-! ## A sample session -/

/-- A connected context: the one `qemu_rdma_data_init` builds, with the three
control buffers registered (lkeys 100, 101, 102) and the handles set. -/
def sample_rdma (chunk : Bool) : RDMAContext :=
  let r := qemu_rdma_data_init "peer" 4444 65536
  { r with
    wr_data := fun i =>
      { control := fun _ => 0, control_addr := (r.wr_data i).control_addr,
        control_mr := some ⟨(r.wr_data i).control_addr, RDMA_CONTROL_MAX_BUFFER, 7, 100 + i, 200 + i⟩,
        control_len := 0, control_curr := none },
    chunk_register_destination := chunk,
    cm_id := some 1, verbs := some 2, channel := some 3, qp := some 4,
    comp_channel := some 5, pd := some 6, cq := some 7 }

/-- A session on a little-endian host with one RAM block of 8 MiB at host
address `0x40000000`, guest offset 0, known to the peer at `0x80000000` with
the whole-block rkey 55 and, in chunk mode, no cached chunk rkey yet. -/
def sample_state (chunk : Bool) (script : List Resp) : St :=
  { St.start true (sample_rdma chunk) [(1073741824, 0, 8388608)] script with
    local_ram_blocks :=
      { block := [⟨1073741824, 2147483648, 0, 8388608, none, none,
                   (if chunk then some (List.replicate 9 0) else none), 55⟩] },
    local_block_ptr := true,
    remote_ram_blocks := some ⟨1, [⟨2147483648, 0, 8388608, 55⟩]⟩,
    remote_size := 36 }

/-- The sample session with a pending range `[0, 4096)` of block 0, chunk 0,
and `unsignaled` unsignaled sends outstanding. -/
def sample_pending (chunk : Bool) (unsignaled : Int) (script : List Resp) : St :=
  { sample_state chunk script with
    rdma := { sample_rdma chunk with
      current_index := 0, current_chunk := 0, current_offset := 0, current_length := 4096,
      num_unsignaled_send := unsignaled } }

/-- The two calls that hand the capabilities to the connection manager. -/
def Call.is_handshake : Call → Bool
  | Call.rdma_connect _ => true
  | Call.rdma_accept _ => true
  | _ => false

/-- Between two states the registration mode and the byte order are the same
and no handshake call was made. -/
def ModeFrame (st st' : St) : Prop :=
  st'.rdma.chunk_register_destination = st.rdma.chunk_register_destination ∧
  st'.le = st.le ∧
  ∃ ext, st'.trace = st.trace ++ ext ∧ ext.all (fun c => !c.is_handshake) = true

/-- The handshake calls of a trace, in order. -/
def handshakes (tr : List Call) : List Call := tr.filter Call.is_handshake

/-- Between two states the registration mode and the byte order are the same
and the handshake calls made are `hs`. -/
def ShakeFrame (hs : List Call) (st st' : St) : Prop :=
  st'.rdma.chunk_register_destination = st.rdma.chunk_register_destination ∧
  st'.le = st.le ∧
  ∃ ext, st'.trace = st.trace ++ ext ∧ handshakes ext = hs

/-! ## A sample handshake -/

/-- The answers of the library to `qemu_rdma_accept` on the sample session,
whose verbs context 2 is the one of the request: the `CONNECT_REQUEST` with
version 1 and flags `offer` as private data, then the queue pair,
`rdma_accept`, the `ESTABLISHED` event, the RECV, the registration of the one
block in whole-block mode, and the SEND of the directory with its completion. -/
def sample_accept_script (offer : Nat) : List Resp :=
  let registration : List Resp :=
    if offer &&& 1 = 0 then [{ id := some 1, lkey := 300, rkey := 55 }] else []
  let completion : List Resp := [{}, {}, { ret := 1, wr_id := 1000 }]
  let connection : List Resp :=
    [{ event := RDMA_CM_EVENT_CONNECT_REQUEST, data := be32 1 ++ be32 offer, id := some 9,
       verbs := some 2 },
     { id := some 4 }, {}, { event := RDMA_CM_EVENT_ESTABLISHED }, {}]
  connection ++ registration ++ completion

/-- The directory message of the sample destination as it arrives in control
slot 1 of the source: the header in network order, then the remote area. -/
def sample_directory : List Nat :=
  header_bytes true (control_to_network true ⟨36, RDMA_CONTROL_RAM_BLOCKS, 1, 1⟩) ++
    remote_area_bytes true ⟨1, [⟨2147483648, 0, 8388608, 55⟩]⟩

/-- The answers of the library to `qemu_rdma_connect` on the sample session:
`rdma_connect`, the `ESTABLISHED` event with version 1 and flags `echo` as
private data, the two RECVs, and the completion that delivers the directory. -/
def sample_connect_script (echo : Nat) : List Resp :=
  [{}, { event := RDMA_CM_EVENT_ESTABLISHED, data := be32 1 ++ be32 echo }, {}, {}, {},
   { ret := 1, wr_id := 2001, data := sample_directory }]

/-- The sample destination before `qemu_rdma_accept`: the sample session, not
in chunk mode, with the answers of `sample_accept_script offer` to come. -/
def sample_destination (offer : Nat) : St := sample_state false (sample_accept_script offer)

/-- The sample source before `qemu_rdma_connect`: the sample session in the
mode `chunk`, with the answers of `sample_connect_script echo` to come. -/
def sample_source (chunk : Bool) (echo : Nat) : St :=
  sample_state chunk (sample_connect_script echo)

/-- The sample destination after `qemu_rdma_accept`. -/
def sample_accepted (offer : Nat) : St :=
  ((qemu_rdma_accept (sample_destination offer)).map Prod.snd).getD (sample_destination offer)

/-- The sample source after `qemu_rdma_connect`. -/
def sample_connected (chunk : Bool) (echo : Nat) : St :=
  ((qemu_rdma_connect (sample_source chunk echo)).map Prod.snd).getD (sample_source chunk echo)

/-! ## Receiving side of the control channel -/

/-- The source `qemu_rdma_exchange_recv`: the return code, `*head` afterwards
and the state. -/
def qemu_rdma_exchange_recv (head : RDMAControlHeader) (expecting : Int) (st : St) :
    Option (Int × RDMAControlHeader × St) :=
  let ready : RDMAControlHeader :=
    { len := 0, type := RDMA_CONTROL_READY, version := RDMA_CONTROL_CURRENT_VERSION,
      «repeat» := 1 }
  let idx : Nat := 0
  match qemu_rdma_post_send_control none ready st with
  | none => none
  | some (ret, st1) =>
    if ret < 0 then some (ret, head, st1)
    else
      match qemu_rdma_exchange_get_response head expecting idx st1 with
      | none => none
      | some (ret1, head1, st2) =>
        if ret1 < 0 then some (ret1, head1, st2)
        else
          let st3 := qemu_rdma_move_header idx head1 st2
          match qemu_rdma_post_recv_control idx st3 with
          | none => none
          | some (ret2, st4) => if ret2 ≠ 0 then some (ret2, head1, st4) else some (0, head1, st4)

/-- The source `qemu_rdma_fill`: the `size_t` it returns, the bytes it copies
to `buf`, and the state.  `MIN(size, control_len)` compares the `int` `size`
with a `size_t`, so `size` is converted; it faults when `control_curr` is
`NULL`. -/
def qemu_rdma_fill (size : Int) (idx : Nat) (st : St) : Option (Nat × List Nat × St) :=
  let wr := st.rdma.wr_data idx
  if wr.control_len ≠ 0 then
    let len := if toU64 size < wr.control_len then toU64 size else wr.control_len
    match wr.control_curr with
    | none => none
    | some curr =>
      let wr1 := { wr with control_curr := some (curr + len) }
      let wr2 := { wr1 with control_len := wr1.control_len - len }
      some (len, read_bytes wr.control curr len, { st with rdma := st.rdma.set_wr idx wr2 })
  else some (0, [], st)

/-- The source `qemu_rdma_get_buffer`: the `int` it returns, the bytes it
copies to `buf`, and the state. -/
def qemu_rdma_get_buffer (size : Int) (st : St) : Option (Int × List Nat × St) :=
  match qemu_rdma_fill size 0 st with
  | none => none
  | some (len, bytes, st1) =>
    let st2 : St := { st1 with file_len := len }
    if len ≠ 0 then some (toInt32 len, bytes, st2)
    else
      match qemu_rdma_exchange_recv ⟨0, 0, 0, 0⟩ RDMA_CONTROL_QEMU_FILE st2 with
      | none => none
      | some (ret, _, st3) =>
        if ret < 0 then some (ret, [], st3)
        else
          match qemu_rdma_fill size 0 st3 with
          | none => none
          | some (len1, bytes1, st4) => some (toInt32 len1, bytes1, st4)

/-- Successive calls of `qemu_rdma_get_buffer`, one for each size of a list:
the value each call returns with the bytes it delivers, and the state after the
last one. -/
def get_buffer_calls : List Int → St → Option (List (Int × List Nat) × St)
  | [], st => some ([], st)
  | size :: sizes, st =>
    match qemu_rdma_get_buffer size st with
    | none => none
    | some (ret, bytes, st1) =>
      match get_buffer_calls sizes st1 with
      | none => none
      | some (rest, st2) => some ((ret, bytes) :: rest, st2)

/-! ## Registration requests on the destination -/

/-- The memory of the static array `results` of
`qemu_rdma_registration_handle`: `RDMA_CONTROL_MAX_COMMANDS_PER_MESSAGE` entries
of one `uint32_t` rkey each. -/
def results_bytes (le : Bool) (results : Nat → Nat) : List Nat :=
  (List.range RDMA_CONTROL_MAX_COMMANDS_PER_MESSAGE).flatMap
    (fun i => store_bytes le 4 (results i))

/-- The `for` loop of `qemu_rdma_registration_handle` over the `RDMARegister`
entries `count, count + 1, …` of the request in control slot 0, `n` of them
left, the first at index `curr` of the buffer: 0 when every entry was
registered, `-EINVAL` at the first that was not, with the array `results` and
the state afterwards. -/
def register_requests (curr : Nat) : Nat → Nat → (Nat → Nat) → St →
    Option (Int × (Nat → Nat) × St)
  | 0, _, results, st => some (0, results, st)
  | n + 1, count, results, st =>
    let buf := (st.rdma.wr_data 0).control
    let reg_index := load_bytes st.le (read_bytes buf (curr + 16 * count + 4) 4)
    let reg_offset := load_bytes st.le (read_bytes buf (curr + 16 * count + 8) 8)
    match st.local_ram_blocks.block[reg_index]? with
    | none => none
    | some block =>
      let host_addr := (block.local_host_addr + (reg_offset + U64 - block.offset) % U64) % U64
      match qemu_rdma_register_and_get_keys reg_index host_addr false true 0 (results count)
          st with
      | none => none
      | some (r, _, rkey, st1) =>
        let results1 := Function.update results count rkey
        if r ≠ 0 then some (-EINVAL, results1, st1)
        else register_requests curr n (count + 1) results1 st1

/-- The case `RDMA_CONTROL_REGISTER_REQUEST` of the `switch` of
`qemu_rdma_registration_handle` for the request `head`: the value of `ret`,
whether the function leaves its loop (`goto out`), the array `results` and the
state.  `resp` is the header of the function with its `repeat` set. -/
def registration_handle_request (head : RDMAControlHeader) (results : Nat → Nat) (st : St) :
    Option (Int × Bool × (Nat → Nat) × St) :=
  if head.«repeat» > RDMA_CONTROL_MAX_COMMANDS_PER_MESSAGE then
    some (-EIO_ERRNO, true, results, st)
  else
    let resp : RDMAControlHeader :=
      { len := 4, type := RDMA_CONTROL_REGISTER_RESULT,
        version := RDMA_CONTROL_CURRENT_VERSION, «repeat» := head.«repeat» }
    let registers := (st.rdma.wr_data 0).control_curr
    if head.«repeat» ≠ 0 ∧ registers = none then none
    else
      match register_requests (registers.getD 0) head.«repeat» 0 results st with
      | none => none
      | some (ret, results1, st1) =>
        if ret ≠ 0 then some (ret, true, results1, st1)
        else
          match qemu_rdma_post_send_control (some (results_bytes st1.le results1)) resp st1 with
          | none => none
          | some (ret1, st2) =>
            if ret1 < 0 then some (ret1, true, results1, st2)
            else some (ret1, false, results1, st2)

/-- The `do … while (1)` loop of `qemu_rdma_registration_handle`. -/
def registration_handle_loop : Nat → (Nat → Nat) → St → Option (Int × (Nat → Nat) × St)
  | 0, _, _ => none
  | fuel + 1, results, st =>
    match qemu_rdma_exchange_recv ⟨0, 0, 0, 0⟩ RDMA_CONTROL_NONE st with
    | none => none
    | some (ret, head, st1) =>
      if ret < 0 then some (ret, results, st1)
      else if head.type = RDMA_CONTROL_REGISTER_FINISHED then some (ret, results, st1)
      else if head.type = RDMA_CONTROL_REGISTER_REQUEST then
        match registration_handle_request head results st1 with
        | none => none
        | some (ret1, out, results1, st2) =>
          if out then some (ret1, results1, st2)
          else registration_handle_loop fuel results1 st2
      else some (-EIO_ERRNO, results, st1)

/-- The source `qemu_rdma_registration_handle`; `results` is the content of
its static array at the call, and is returned as it is afterwards. -/
def qemu_rdma_registration_handle (results : Nat → Nat) (st : St) :
    Option (Int × (Nat → Nat) × St) :=
  registration_handle_loop (st.script.length + 1) results st

/-! ## Incoming connection -/

/-- The source `rdma_accept_incoming_migration` up to the hand-over to the
rest of QEMU: on a failed `qemu_rdma_accept` it cleans up; after a successful
one the file is opened and the migration processed, which is outside this
file. -/
def rdma_accept_incoming_migration (st : St) : Option St :=
  match qemu_rdma_accept st with
  | none => none
  | some (ret, st1) => if ret ≠ 0 then qemu_rdma_cleanup st1 else some st1

/-! ## Vocabulary of the write engine -/

/-- The work request of a call that posts an RDMA WRITE. -/
def Call.rdma_write : Call → Option ibv_send_wr
  | Call.ibv_post_send wr _ => if wr.opcode = IBV_WR_RDMA_WRITE then some wr else none
  | _ => none

/-- The RDMA WRITE work requests of a trace, in the order of their posts. -/
def rdma_writes (tr : List Call) : List ibv_send_wr := tr.filterMap Call.rdma_write

/-- The calls that release a resource. -/
def Call.is_release : Call → Bool
  | Call.ibv_dereg_mr _ => true
  | Call.ibv_dealloc_pd _ => true
  | Call.ibv_destroy_comp_channel _ => true
  | Call.ibv_destroy_cq _ => true
  | Call.ibv_destroy_qp _ => true
  | Call.rdma_destroy_id _ => true
  | Call.rdma_destroy_event_channel _ => true
  | Call.g_free_remote_area => true
  | Call.g_free_remote_keys _ => true
  | Call.g_free_block => true
  | Call.free_pmr _ => true
  | _ => false

/-- The release calls of a trace, in order. -/
def releases (tr : List Call) : List Call := tr.filter Call.is_release

/-- A block without its registration state: what the write engine and the
registration never change. -/
def RDMALocalBlock.geometry (b : RDMALocalBlock) : RDMALocalBlock :=
  { b with pmr := none, remote_keys := none }

/-- The memory region covers the `len` bytes from `addr`. -/
def ibv_mr.covers (mr : ibv_mr) (addr len : Nat) : Prop :=
  mr.addr ≤ addr ∧ addr + len ≤ mr.addr + mr.length

instance (mr : ibv_mr) (addr len : Nat) : Decidable (mr.covers addr len) := by
  unfold ibv_mr.covers; infer_instance

/-- The registration range of chunk `i` of a block: the chunk clipped to the
block, as a pair of its first address and the address after its last. -/
def chunk_range (b : RDMALocalBlock) (i : Nat) : Nat × Nat :=
  (max (RDMA_REG_CHUNK_START b i) b.local_host_addr,
   min (RDMA_REG_CHUNK_END b i) (b.local_host_addr + b.length))

/-- No answer still to come is `ENOMEM`: the library refuses no post for a
full send queue. -/
def NoEnomem (st : St) : Prop := ∀ r ∈ st.script, r.ret ≠ ENOMEM

instance (st : St) : Decidable (NoEnomem st) := by
  unfold NoEnomem; infer_instance

/-- What the write engine may change between two states besides the cursor
and `num_unsignaled_send`, which only `qemu_rdma_write` and
`qemu_rdma_write_flush` themselves set: the control channel, the registration
state of the blocks, and the environment, of which the answers to come are a
suffix of the ones before and the calls made extend the ones before. -/
def EngFrame (st st' : St) : Prop :=
  st'.le = st.le ∧
  st'.rdma = { st.rdma with
    wr_data := st'.rdma.wr_data,
    control_ready_expected := st'.rdma.control_ready_expected,
    num_signaled_send := st'.rdma.num_signaled_send } ∧
  st'.local_ram_blocks.block.map RDMALocalBlock.geometry
    = st.local_ram_blocks.block.map RDMALocalBlock.geometry ∧
  st'.script <:+ st.script ∧ st.trace <+: st'.trace

/-- One operation of the write engine as its callers use it. -/
inductive EngineOp where
  | write (offset len : Nat)
  | flush
  | drain
  | poll
deriving DecidableEq, Repr

/-- The function of the source an operation calls. -/
def EngineOp.run : EngineOp → St → Option (Int × St)
  | EngineOp.write offset len, st => qemu_rdma_write offset len st
  | EngineOp.flush, st => qemu_rdma_write_flush st
  | EngineOp.drain, st => qemu_rdma_drain_cq st
  | EngineOp.poll, st => qemu_rdma_poll st

/-- The states reachable from `st` by operations of the write engine, whatever
they return. -/
inductive Reach (st : St) : St → Prop where
  | start : Reach st st
  | step (op : EngineOp) (a b : St) (ret : Int) :
      Reach st a → op.run a = some (ret, b) → Reach st b

/-- Successive operations that all succeed (none returns a negative code):
the state after the last one. -/
def run_ops : List EngineOp → St → Option St
  | [], st => some st
  | op :: ops, st =>
    match op.run st with
    | none => none
    | some (ret, st1) => if ret < 0 then none else run_ops ops st1

/-- The pages of a list handed to `qemu_rdma_write` one after the other. -/
def write_ops (pages : List (Nat × Nat)) : List EngineOp :=
  pages.map (fun p => EngineOp.write p.1 p.2)

/-! ## Vocabulary of the registration cache -/

/-- The range `qemu_rdma_register_and_get_keys` hands to `ibv_reg_mr` for
chunk `chunk` of a block, as the code computes it: the first address and the
length. -/
def register_range (block : RDMALocalBlock) (chunk : Int) : Nat × Nat :=
  let start0 := RDMA_REG_CHUNK_START block chunk
  let end0 := RDMA_REG_CHUNK_END block chunk
  let start_addr := if start0 < block.local_host_addr then block.local_host_addr else start0
  let block_end := (block.local_host_addr + block.length) % U64
  let end_addr := if end0 > block_end then block_end else end0
  (start_addr, (end_addr + U64 - start_addr) % U64)

/-- The access flags `qemu_rdma_register_and_get_keys` hands to `ibv_reg_mr`,
as the code computes them from whether an rkey is asked for. -/
def register_access (want_rkey : Bool) : Nat :=
  (if want_rkey then IBV_ACCESS_LOCAL_WRITE ||| IBV_ACCESS_REMOTE_WRITE else 0)
    ||| IBV_ACCESS_REMOTE_READ

/-- The memory region `qemu_rdma_register_and_get_keys` stores for a chunk
when the library answers `r`. -/
def register_mr (block : RDMALocalBlock) (chunk : Int) (want_rkey : Bool) (r : Resp) : ibv_mr :=
  { addr := (register_range block chunk).1, length := (register_range block chunk).2,
    access := register_access want_rkey, lkey := r.lkey, rkey := r.rkey }

/-- The array of chunk MRs `qemu_rdma_register_and_get_keys` works on: the one
of the block, or a new one from `g_malloc0`. -/
def register_pmr (block : RDMALocalBlock) : Option (Option (List (Option ibv_mr))) :=
  match block.pmr with
  | some p => some (some p)
  | none => g_malloc0_array (toInt32 (RDMA_REG_NUM_CHUNKS block)) none

/-! ## Vocabulary of the control channel -/

/-- The calls of the control channel: the completion pump, the post of a
RECV, the post of a SEND. -/
def Call.is_chan : Call → Bool
  | Call.ibv_post_send wr _ => decide (wr.opcode = IBV_WR_SEND)
  | Call.ibv_post_recv _ _ => true
  | c => c.is_pump

/-- What a function of the control channel may change between two states:
what `CtlFrame` allows; the answers to come are a suffix of the ones before,
and the calls made, `ext`, extend the ones before. -/
def ChanFrame (ext : List Call) (st st' : St) : Prop :=
  CtlFrame st st' ∧ st'.script <:+ st.script ∧ st'.trace = st.trace ++ ext

/-! ## Vocabulary of the pending range -/

/-- The host address of a guest offset in a block, as the write engine
computes it (`uint64_t` pointer arithmetic). -/
def RDMALocalBlock.host_of (b : RDMALocalBlock) (offset : Nat) : Nat :=
  (b.local_host_addr + (offset + U64 - b.offset) % U64) % U64

/-- The address of a guest offset in the memory of the peer, as the write
engine computes it. -/
def RDMALocalBlock.remote_of (b : RDMALocalBlock) (offset : Nat) : Nat :=
  (b.remote_host_addr + (offset + U64 - b.offset) % U64) % U64

/-- A block that fits the address arithmetic of the source: it and the clipped
chunk windows of `qemu_rdma_in_current_chunk` lie in the 64-bit address space,
its guest range does, and its chunk count fits an `int`. -/
def RDMALocalBlock.fits (b : RDMALocalBlock) : Prop :=
  b.local_host_addr + 2 * b.length + RDMA_REG_CHUNK_SIZE < U64 ∧
  b.offset + b.length < U64 ∧ RDMA_REG_NUM_CHUNKS b < 2147483648

instance (b : RDMALocalBlock) : Decidable b.fits := by
  unfold RDMALocalBlock.fits; infer_instance

/-- The memory regions a block holds are the ones the source registers: the
whole-block MR covers the block, the MR of a chunk has the clipped range of
the chunk. -/
def RDMALocalBlock.registered_ok (b : RDMALocalBlock) : Prop :=
  (∀ mr, b.mr = some mr → mr.addr = b.local_host_addr ∧ mr.length = b.length) ∧
  (∀ (pmr : List (Option ibv_mr)) (c : Nat) (mr : ibv_mr),
    b.pmr = some pmr → pmr[c]? = some (some mr) →
    mr.addr = (register_range b (c : Int)).1 ∧ mr.length = (register_range b (c : Int)).2)

/-- The cursor of the write engine holds a pending range of `block`: the block
is the one `current_index` names, the range lies in it, and `current_chunk` is
the chunk of its first byte. -/
def PendingIn (st : St) (block : RDMALocalBlock) : Prop :=
  0 ≤ st.rdma.current_index ∧
  st.local_ram_blocks.block[st.rdma.current_index.toNat]? = some block ∧
  block.offset ≤ st.rdma.current_offset ∧
  st.rdma.current_offset + st.rdma.current_length ≤ block.offset + block.length ∧
  st.rdma.current_chunk
    = (RDMA_REG_CHUNK_INDEX block.local_host_addr (block.host_of st.rdma.current_offset) : Int)

/-- The work request `wr` is the RDMA WRITE of the pending range of `st`: work
request id `RDMA_WRID_RDMA_WRITE`, signaled exactly when `num_unsignaled_send`
has reached `RDMA_UNSIGNALED_SEND_MAX`, one SGE at the host address of
`current_offset` in the block `current_index` with the low 32 bits of
`current_length`, and the address of `current_offset` at the peer. -/
def PendingWrite (st : St) (wr : ibv_send_wr) : Prop :=
  ∃ block, 0 ≤ st.rdma.current_index ∧
    st.local_ram_blocks.block[st.rdma.current_index.toNat]? = some block ∧
    wr.wr_id = 1 ∧ wr.opcode = IBV_WR_RDMA_WRITE ∧
    wr.send_flags
      = (if st.rdma.num_unsignaled_send ≥ RDMA_UNSIGNALED_SEND_MAX then IBV_SEND_SIGNALED
         else 0) ∧
    wr.sge.addr = block.host_of st.rdma.current_offset ∧
    wr.sge.length = st.rdma.current_length % U32 ∧
    wr.remote_addr = block.remote_of st.rdma.current_offset

/-- Successive operations of the write engine, whatever they return: the
state after the last one (`none` when one of them does not return). -/
def run_any : List EngineOp → St → Option St
  | [], st => some st
  | op :: ops, st =>
    match op.run st with
    | none => none
    | some (_, st1) => run_any ops st1

/-- What every operation of the write engine keeps: the byte order, the mode,
the geometry of the directory; the answers to come are a suffix of the ones
before and the calls made extend the ones before. -/
def DirFrame (st st' : St) : Prop :=
  st'.le = st.le ∧
  st'.rdma.chunk_register_destination = st.rdma.chunk_register_destination ∧
  st'.local_ram_blocks.block.map RDMALocalBlock.geometry
    = st.local_ram_blocks.block.map RDMALocalBlock.geometry ∧
  st'.script <:+ st.script ∧ st.trace <+: st'.trace

/-- Every block of the directory fits the address arithmetic of the source. -/
def DirFits (st : St) : Prop := ∀ b ∈ st.local_ram_blocks.block, b.fits

/-- The state with the cursor of the write engine set. -/
def St.set_cursor (st : St) (index chunk : Int) (offset length : Nat) : St :=
  { st with rdma :=
      { st.rdma with current_index := index, current_chunk := chunk,
                     current_offset := offset, current_length := length } }

/-! ## Vocabulary of the cursor invariant -/

/-- The page `[offset, offset + len)` lies within one chunk of every block of
the list that contains it: it ends no later than the chunk of its first byte,
clipped to the block. -/
def PageInChunk (blocks : List RDMALocalBlock) (offset len : Nat) : Prop :=
  ∀ b ∈ blocks, b.offset ≤ offset → offset + len ≤ b.offset + b.length →
    b.host_of offset + len
      ≤ (chunk_range b (RDMA_REG_CHUNK_INDEX b.local_host_addr (b.host_of offset))).2

instance (blocks : List RDMALocalBlock) (offset len : Nat) :
    Decidable (PageInChunk blocks offset len) := by
  unfold PageInChunk; infer_instance

/-- A page the cursor invariant `CursorIn L` accepts: it does not wrap around
2^64, and it is no longer than `L` or lies within one chunk. -/
def PageOk (L : Nat) (blocks : List RDMALocalBlock) (offset len : Nat) : Prop :=
  offset + len < U64 ∧ (len ≤ L ∨ PageInChunk blocks offset len)

instance (L : Nat) (blocks : List RDMALocalBlock) (offset len : Nat) :
    Decidable (PageOk L blocks offset len) := by
  unfold PageOk; infer_instance

/-- The operations the cursor invariant is stated for: a write of a page that
is `PageOk`, or a flush. -/
def OpOk (L : Nat) (blocks : List RDMALocalBlock) : EngineOp → Prop
  | EngineOp.write offset len => PageOk L blocks offset len
  | EngineOp.flush => True
  | _ => False

instance (L : Nat) (blocks : List RDMALocalBlock) (op : EngineOp) :
    Decidable (OpOk L blocks op) := by
  cases op <;> unfold OpOk <;> infer_instance

/-- The cursor invariant of the write engine: a non-empty pending range lies
in the block `current_index` names, `current_chunk` is the chunk of its first
byte, and its host range ends within that chunk unless it is no longer than
`L` (a single page that was not merged). -/
def CursorIn (L : Nat) (st : St) : Prop :=
  0 < st.rdma.current_length → ∃ block, PendingIn st block ∧
    (block.host_of st.rdma.current_offset + st.rdma.current_length
        ≤ (chunk_range block st.rdma.current_chunk.toNat).2 ∨
     st.rdma.current_length ≤ L)

/-- The RDMA WRITE `wr` stays within one chunk of one block of the list. -/
def WriteInChunk (blocks : List RDMALocalBlock) (wr : ibv_send_wr) : Prop :=
  ∃ b ∈ blocks, ∃ c, c < RDMA_REG_NUM_CHUNKS b ∧
    b.local_host_addr ≤ (chunk_range b c).1 ∧ (chunk_range b c).1 ≤ wr.sge.addr ∧
    wr.sge.addr + wr.sge.length ≤ (chunk_range b c).2 ∧
    (chunk_range b c).2 ≤ b.local_host_addr + b.length

/-- The operations of claims about pages no longer than `L`: a write of a page
of at most `L` bytes that does not wrap around 2^64, or a flush. -/
def EngineOp.within (L : Nat) : EngineOp → Prop
  | EngineOp.write offset len => len ≤ L ∧ offset + len < U64
  | EngineOp.flush => True
  | _ => False

instance (L : Nat) (op : EngineOp) : Decidable (op.within L) := by
  cases op <;> unfold EngineOp.within <;> infer_instance

instance (st : St) : Decidable (DirFits st) := by
  unfold DirFits; infer_instance

/-! ## Vocabulary of the conservation of pages -/

/-- The pages of the list are offset-contiguous from `o` on: the first starts
at `o`, and each next one where the one before ends. -/
def Tiles : Nat → List (Nat × Nat) → Prop
  | _, [] => True
  | o, p :: ps => p.1 = o ∧ Tiles (o + p.2) ps

instance (o : Nat) (ps : List (Nat × Nat)) : Decidable (Tiles o ps) := by
  induction ps generalizing o with
  | nil => unfold Tiles; infer_instance
  | cons p ps ih => unfold Tiles; exact instDecidableAnd

/-- The RDMA WRITE `wr` covers the group `g` of pages: the group is not empty
and offset-contiguous, the WRITE carries the sum of its page lengths, and its
local and remote addresses are those of the offset of the first page in a
block of the list that contains the range of the group. -/
def GroupWrite (blocks : List RDMALocalBlock) (g : List (Nat × Nat)) (wr : ibv_send_wr) :
    Prop :=
  ∃ o, g ≠ [] ∧ Tiles o g ∧ wr.sge.length = (g.map Prod.snd).sum ∧
    ∃ b ∈ blocks, b.offset ≤ o ∧ o + (g.map Prod.snd).sum ≤ b.offset + b.length ∧
      wr.sge.addr = b.host_of o ∧ wr.remote_addr = b.remote_of o

/-- The pages handed to the write engine so far are accounted for in state
`st`: they are cut into consecutive groups, each covered by one of the RDMA
WRITEs `ws` posted so far, in order, and a last group that is the pending
range of the cursor. -/
def PagesDone (blocks : List RDMALocalBlock) (pages : List (Nat × Nat))
    (ws : List ibv_send_wr) (st : St) : Prop :=
  ∃ groups pend, groups.flatten ++ pend = pages ∧
    List.Forall₂ (GroupWrite blocks) groups ws ∧
    Tiles st.rdma.current_offset pend ∧
    st.rdma.current_length = (pend.map Prod.snd).sum ∧
    (st.rdma.current_length = 0 → pend = [])

/-! ## The write engine for any value of `RDMA_MERGE_MAX` -/

/-- The source `qemu_rdma_write` with the value of the macro `RDMA_MERGE_MAX`,
which it reads in its last test only, as the parameter `merge_max`: at
`merge_max = RDMA_MERGE_MAX` it is `qemu_rdma_write`. -/
def qemu_rdma_write_max (merge_max : Nat) (offset len : Nat) (st : St) : Option (Int × St) :=
  match qemu_rdma_buffer_mergable offset len st with
  | none => none
  | some m =>
    let merged : Option (Int × St) :=
      if m = 0 then
        match qemu_rdma_write_flush st with
        | none => none
        | some (ret, st1) =>
          if ret ≠ 0 then some (ret, st1)
          else
            let st2 : St :=
              { st1 with rdma := { st1.rdma with current_length := 0, current_offset := offset } }
            let found := qemu_rdma_search_ram_block offset len st2.local_ram_blocks
              st.rdma.current_index st.rdma.current_chunk
            if found.1 ≠ 0 then some (found.1, st2)
            else
              some (0, { st2 with rdma :=
                { st2.rdma with current_index := found.2.1, current_chunk := found.2.2 } })
      else some (0, st)
    match merged with
    | none => none
    | some (ret, st3) =>
      if ret ≠ 0 then some (ret, st3)
      else
        let st4 : St :=
          { st3 with rdma :=
              { st3.rdma with current_length := (st3.rdma.current_length + len) % U64 } }
        if st4.rdma.current_length ≥ merge_max then qemu_rdma_write_flush st4
        else some (0, st4)

/-- The byte-stream delivery of a buffered frame in the words of the claim:
each call for `s` bytes delivers `min s remaining` bytes, the next ones of the
frame, from the read position `curr`. -/
def stream_reads (buf : Nat → Nat) : Nat → Nat → List Int → List (Int × List Nat)
  | _, _, [] => []
  | curr, remaining, s :: ss =>
    ((min s.toNat remaining : Nat), read_bytes buf curr (min s.toNat remaining)) ::
      stream_reads buf (curr + min s.toNat remaining) (remaining - min s.toNat remaining) ss

/-! ## More sample sessions -/

/-- The answers of the library to a write in chunk mode of the sample session
that registers chunk 0 locally and asks the peer for its rkey, which answers
`R` in a REGISTER_RESULT: the registration, the posts of the two RECVs and of
the SEND, the completion of the SEND, the completion of the RECV on slot 1 with
the message, and the post of the WRITE. -/
def sample_register_script (R : Nat) : List Resp :=
  [{ id := some 9, lkey := 11, rkey := 12 }, {}, {}, {}, {}, { ret := 1, wr_id := 1000 }, {},
   { ret := 1, wr_id := 2001,
     data := [0, 0, 0, 4, 0, 0, 0, 5, 0, 0, 0, 1, 0, 0, 0, 1, R, 0, 0, 0] }, {}]

/-- The answers of the library to a second write to chunk 0 that asks the peer
again: the completion of the RECV on slot 0 with the READY of the peer, then as
in `sample_register_script` without the local registration. -/
def sample_register_again (R : Nat) : List Resp :=
  [{}, { ret := 1, wr_id := 2000,
         data := [0, 0, 0, 0, 0, 0, 0, 1, 0, 0, 0, 1, 0, 0, 0, 1] }, {}, {}, {}, {},
   { ret := 1, wr_id := 1000 }, {},
   { ret := 1, wr_id := 2001,
     data := [0, 0, 0, 4, 0, 0, 0, 5, 0, 0, 0, 1, 0, 0, 0, 1, R, 0, 0, 0] }, {}]

/-- The sample session with the payload of a message buffered on control slot
0, after its 16-byte header, and not yet read. -/
def sample_buffered (payload : List Nat) (script : List Resp) : St :=
  { sample_state false script with
    rdma := (sample_rdma false).set_wr 0
      { (sample_rdma false).wr_data 0 with
        control := write_bytes (fun _ => 0) 16 payload,
        control_curr := some 16, control_len := payload.length } }

/-- A destination that listens: of the handles only the listening id and the
event channel exist, the local directory is allocated. -/
def sample_listening (script : List Resp) : St :=
  { sample_state false script with
    rdma := { qemu_rdma_data_init "peer" 4444 65536 with
      listen_id := some 8, channel := some 3 },
    remote_ram_blocks := none }

/-! # Theorems -/

/-! ## Byte order and header framing -/

theorem bytes_decomp (x : Nat) (hx : x < 4294967296) :
    ∃ a b c d, a < 256 ∧ b < 256 ∧ c < 256 ∧ d < 256 ∧
      x = a + 256 * b + 65536 * c + 16777216 * d :=
  ⟨x % 256, x / 256 % 256, x / 65536 % 256, x / 16777216,
    by omega, by omega, by omega, by omega, by omega⟩

theorem bytes_read (a b c d : Nat) (ha : a < 256) (hb : b < 256) (hc : c < 256)
    (hd : d < 256) :
    (a + 256 * b + 65536 * c + 16777216 * d) % 256 = a ∧
    (a + 256 * b + 65536 * c + 16777216 * d) / 256 % 256 = b ∧
    (a + 256 * b + 65536 * c + 16777216 * d) / 65536 % 256 = c ∧
    (a + 256 * b + 65536 * c + 16777216 * d) / 16777216 % 256 = d := by
  refine ⟨?_, ?_, ?_, ?_⟩ <;> omega

theorem bswap32_bytes (a b c d : Nat) (ha : a < 256) (hb : b < 256) (hc : c < 256)
    (hd : d < 256) :
    bswap32 (a + 256 * b + 65536 * c + 16777216 * d)
      = d + 256 * c + 65536 * b + 16777216 * a := by
  obtain ⟨h1, h2, h3, h4⟩ := bytes_read a b c d ha hb hc hd
  unfold bswap32
  rw [h1, h2, h3, h4]; omega

/-- The byte swap is an involution on 32-bit values. -/
theorem bswap32_bswap32 (x : Nat) (hx : x < U32) : bswap32 (bswap32 x) = x := by
  obtain ⟨a, b, c, d, ha, hb, hc, hd, rfl⟩ := bytes_decomp x hx
  rw [bswap32_bytes a b c d ha hb hc hd, bswap32_bytes d c b a hd hc hb ha]

theorem bswap32_lt (x : Nat) : bswap32 x < U32 := by
  unfold bswap32 U32
  omega

theorem ntohl_htonl (le : Bool) (x : Nat) (hx : x < U32) : ntohl le (htonl le x) = x := by
  cases le
  · simp [ntohl, htonl, Nat.mod_eq_of_lt hx]
  · simp [ntohl, htonl, bswap32_bswap32 x hx]

theorem htonl_ntohl (le : Bool) (x : Nat) (hx : x < U32) : htonl le (ntohl le x) = x :=
  ntohl_htonl le x hx

theorem store32_htonl (le : Bool) (x : Nat) (hx : x < U32) :
    store32 le (htonl le x) = be32 x := by
  cases le
  · simp [store32, htonl, Nat.mod_eq_of_lt hx]
  · obtain ⟨a, b, c, d, ha, hb, hc, hd, rfl⟩ := bytes_decomp x hx
    simp only [store32, htonl, be32, if_true]
    rw [bswap32_bytes a b c d ha hb hc hd]
    obtain ⟨h1, h2, h3, h4⟩ := bytes_read d c b a hd hc hb ha
    obtain ⟨g1, g2, g3, g4⟩ := bytes_read a b c d ha hb hc hd
    rw [h1, h2, h3, h4, g1, g2, g3, g4]

/-- C1. Encoding a control header to network order and decoding it again, in
either order, gives back the header, on little- and big-endian hosts alike. -/
theorem control_header_roundtrip (le : Bool) (h : RDMAControlHeader) (hw : h.wf) :
    network_to_control le (control_to_network le h) = h ∧
    control_to_network le (network_to_control le h) = h := by
  obtain ⟨h1, h2, h3, h4⟩ := hw
  cases h with
  | mk len type version rep =>
    simp only at h1 h2 h3 h4
    simp [network_to_control, control_to_network, ntohl_htonl, htonl_ntohl, h1, h2, h3, h4]

/-- C1 at the sample header `(len=7, type=3, version=1, repeat=2)` on a
little-endian host. -/
theorem control_header_roundtrip_witness :
    network_to_control true (control_to_network true ⟨7, 3, 1, 2⟩) = ⟨7, 3, 1, 2⟩ ∧
    control_to_network true (network_to_control true ⟨7, 3, 1, 2⟩) = ⟨7, 3, 1, 2⟩ :=
  control_header_roundtrip true ⟨7, 3, 1, 2⟩ (by decide)

/-- The bytes of a header after `control_to_network`: the four fields, each
big-endian. -/
theorem header_network_bytes (le : Bool) (h : RDMAControlHeader) (hw : h.wf) :
    header_bytes le (control_to_network le h)
        = be32 h.len ++ be32 h.type ++ be32 h.version ++ be32 h.«repeat» ∧
    (header_bytes le (control_to_network le h)).length = RDMAControlHeaderSize ∧
    header_bytes le (control_to_network le ⟨7, 3, 1, 2⟩)
        = [0, 0, 0, 7, 0, 0, 0, 3, 0, 0, 0, 1, 0, 0, 0, 2] := by
  obtain ⟨h1, h2, h3, h4⟩ := hw
  have key : ∀ g : RDMAControlHeader, g.wf → header_bytes le (control_to_network le g)
      = be32 g.len ++ be32 g.type ++ be32 g.version ++ be32 g.«repeat» := by
    intro g hg
    obtain ⟨g1, g2, g3, g4⟩ := hg
    simp [header_bytes, control_to_network, store32_htonl, g1, g2, g3, g4]
  refine ⟨key h ⟨h1, h2, h3, h4⟩, ?_, ?_⟩
  · rw [key h ⟨h1, h2, h3, h4⟩]; simp [be32, RDMAControlHeaderSize]
  · rw [key _ (by decide)]; simp [be32]

/-- C2. After `control_to_network` the 16 bytes of the header in memory are the
fields `len, type, version, repeat` in this order, each as a 4-byte big-endian
integer; the sample `(7, 3, 1, 2)` gives `00 00 00 07 00 00 00 03 00 00 00 01
00 00 00 02`. -/
theorem control_to_network_bytes (le : Bool) (h : RDMAControlHeader) (hw : h.wf) :
    header_bytes le (control_to_network le h)
        = be32 h.len ++ be32 h.type ++ be32 h.version ++ be32 h.«repeat» ∧
    (header_bytes le (control_to_network le h)).length = RDMAControlHeaderSize ∧
    header_bytes le (control_to_network le ⟨7, 3, 1, 2⟩)
        = [0, 0, 0, 7, 0, 0, 0, 3, 0, 0, 0, 1, 0, 0, 0, 2] :=
  header_network_bytes le h hw

/-- C2 at a header with large fields on a big-endian host. -/
theorem control_to_network_bytes_witness :
    header_bytes false (control_to_network false ⟨258, 4294967295, 1, 16909060⟩)
        = be32 258 ++ be32 4294967295 ++ be32 1 ++ be32 16909060 ∧
    (header_bytes false (control_to_network false ⟨258, 4294967295, 1, 16909060⟩)).length
        = RDMAControlHeaderSize ∧
    header_bytes false (control_to_network false ⟨7, 3, 1, 2⟩)
        = [0, 0, 0, 7, 0, 0, 0, 3, 0, 0, 0, 1, 0, 0, 0, 2] :=
  control_to_network_bytes false ⟨258, 4294967295, 1, 16909060⟩ (by decide)

/-! ## RAM directory: search -/

/-- What the search loop returns: nothing when no block passes the two tests
of the source, else the first block that does, counted from `i`. -/
theorem search_ram_block_loop_spec (offset length : Nat) (bs : List RDMALocalBlock) (i : Nat) :
    (qemu_rdma_search_ram_block_loop offset length bs i = none ∧
      ∀ b ∈ bs, ¬ (b.offset ≤ offset ∧ (offset + length) % U64 ≤ (b.offset + b.length) % U64)) ∨
    (∃ j b c, qemu_rdma_search_ram_block_loop offset length bs i = some (i + j, c) ∧
      bs[j]? = some b ∧
      (b.offset ≤ offset ∧ (offset + length) % U64 ≤ (b.offset + b.length) % U64) ∧
      ∀ j' b', j' < j → bs[j']? = some b' →
        ¬ (b'.offset ≤ offset ∧ (offset + length) % U64 ≤ (b'.offset + b'.length) % U64)) := by
  induction bs generalizing i with
  | nil => left; simp [qemu_rdma_search_ram_block_loop]
  | cons b bs ih =>
    by_cases hfit : b.offset ≤ offset ∧ (offset + length) % U64 ≤ (b.offset + b.length) % U64
    · right
      have h1 : ¬ offset < b.offset := by omega
      have h2 : ¬ (offset + length) % U64 > (b.offset + b.length) % U64 := by omega
      refine ⟨0, b, toInt32 (RDMA_REG_CHUNK_INDEX b.local_host_addr
        ((b.local_host_addr + (offset + U64 - b.offset) % U64) % U64)), ?_, by simp, hfit,
        by intro j' b' hj; omega⟩
      simp only [qemu_rdma_search_ram_block_loop, h1, h2, if_false, Nat.add_zero]
    · have hstep : qemu_rdma_search_ram_block_loop offset length (b :: bs) i
          = qemu_rdma_search_ram_block_loop offset length bs (i + 1) := by
        by_cases h1 : offset < b.offset
        · simp only [qemu_rdma_search_ram_block_loop, h1, if_true]
        · have h2 : (offset + length) % U64 > (b.offset + b.length) % U64 := by
            by_contra h2; exact hfit ⟨by omega, by omega⟩
          simp only [qemu_rdma_search_ram_block_loop, h1, h2, if_false, if_true]
      rcases ih (i + 1) with ⟨hnone, hall⟩ | ⟨j, b1, c, hsome, hget, hfit1, hfirst⟩
      · left
        refine ⟨by rw [hstep, hnone], ?_⟩
        intro b' hb'
        rcases List.mem_cons.mp hb' with rfl | hb'
        · exact hfit
        · exact hall b' hb'
      · right
        refine ⟨j + 1, b1, c, ?_, by simpa using hget, hfit1, ?_⟩
        · rw [hstep, hsome]; congr 2; omega
        · intro j' b' hj' hget'
          cases j' with
          | zero => simp at hget'; subst hget'; exact hfit
          | succ j' =>
            simp at hget'
            exact hfirst j' b' (by omega) hget'

/-- C3 as stated fails on the code: the two sums of the test are `uint64_t`
sums.  With the single block `[0, 4096)` and the page `offset = 2^64 - 1`,
`length = 2`, no block contains the page when the sums are taken as integers,
yet the search succeeds with block 0, because `offset + length` wraps to 1. -/
theorem search_ram_block_integer_sums_counterexample :
    qemu_rdma_search_ram_block 18446744073709551615 2
        ⟨[⟨4096, 0, 0, 4096, none, none, none, 0⟩]⟩ (-1) (-1) = (0, 0, 0) ∧
    ¬ ∃ b ∈ [(⟨4096, 0, 0, 4096, none, none, none, 0⟩ : RDMALocalBlock)],
        b.offset ≤ 18446744073709551615 ∧ 18446744073709551615 + 2 ≤ b.offset + b.length := by
  constructor
  · decide
  · simp

/-- C3 (amended). `qemu_rdma_search_ram_block` succeeds exactly when some block
`b` has `b.offset ≤ offset` and `(offset + length) mod 2^64 ≤ (b.offset +
b.length) mod 2^64`, and then returns the index of the first such block;
otherwise it returns -1 and leaves the outputs alone.  When `offset + length`
and every `b.offset + b.length` are below `2^64` this is the condition on the
integer sums: then a page that ends exactly at the end of a block is found, and
in a one-block directory a page one byte longer (still ending below `2^64`) is
a miss. -/
theorem search_ram_block_first_fit (blocks : RDMALocalBlocks) (offset length : Nat)
    (bi ci : Int) :
    ((qemu_rdma_search_ram_block offset length blocks bi ci).1 = 0 ↔
      ∃ b ∈ blocks.block,
        b.offset ≤ offset ∧ (offset + length) % U64 ≤ (b.offset + b.length) % U64) ∧
    ((qemu_rdma_search_ram_block offset length blocks bi ci).1 = 0 →
      ∃ (k : Nat) (b : RDMALocalBlock), (qemu_rdma_search_ram_block offset length blocks bi ci).2.1 = (k : Int) ∧
        blocks.block[k]? = some b ∧
        (b.offset ≤ offset ∧ (offset + length) % U64 ≤ (b.offset + b.length) % U64) ∧
        ∀ (j : Nat) (b' : RDMALocalBlock), j < k → blocks.block[j]? = some b' →
          ¬ (b'.offset ≤ offset ∧
              (offset + length) % U64 ≤ (b'.offset + b'.length) % U64)) ∧
    ((qemu_rdma_search_ram_block offset length blocks bi ci).1 ≠ 0 →
      qemu_rdma_search_ram_block offset length blocks bi ci = (-1, bi, ci)) ∧
    (offset + length < U64 → (∀ b ∈ blocks.block, b.offset + b.length < U64) →
      (((qemu_rdma_search_ram_block offset length blocks bi ci).1 = 0 ↔
          ∃ b ∈ blocks.block, b.offset ≤ offset ∧ offset + length ≤ b.offset + b.length) ∧
        ((qemu_rdma_search_ram_block offset length blocks bi ci).1 = 0 →
          ∃ (k : Nat) (b : RDMALocalBlock), (qemu_rdma_search_ram_block offset length blocks bi ci).2.1 = (k : Int) ∧
            blocks.block[k]? = some b ∧
            (b.offset ≤ offset ∧ offset + length ≤ b.offset + b.length) ∧
            ∀ (j : Nat) (b' : RDMALocalBlock), j < k → blocks.block[j]? = some b' →
              ¬ (b'.offset ≤ offset ∧ offset + length ≤ b'.offset + b'.length)) ∧
        (∀ b ∈ blocks.block, b.offset ≤ offset → offset + length = b.offset + b.length →
          (qemu_rdma_search_ram_block offset length blocks bi ci).1 = 0) ∧
        (∀ b, blocks.block = [b] → offset + length = b.offset + b.length →
          offset + (length + 1) < U64 →
          qemu_rdma_search_ram_block offset (length + 1) blocks bi ci = (-1, bi, ci)))) := by
  have hmod : offset + length < U64 → (∀ b ∈ blocks.block, b.offset + b.length < U64) →
      ∀ b ∈ blocks.block,
        ((b.offset ≤ offset ∧ (offset + length) % U64 ≤ (b.offset + b.length) % U64) ↔
          (b.offset ≤ offset ∧ offset + length ≤ b.offset + b.length)) := by
    intro h1 h2 b hb
    rw [Nat.mod_eq_of_lt h1, Nat.mod_eq_of_lt (h2 b hb)]
  have hmem : ∀ {j : Nat} {b : RDMALocalBlock}, blocks.block[j]? = some b → b ∈ blocks.block :=
    fun h => List.mem_iff_getElem?.mpr ⟨_, h⟩
  rcases search_ram_block_loop_spec offset length blocks.block 0 with
    ⟨hnone, hall⟩ | ⟨j, b, c, hsome, hget, hfit, hfirst⟩
  · have hres : qemu_rdma_search_ram_block offset length blocks bi ci = (-1, bi, ci) := by
      simp [qemu_rdma_search_ram_block, hnone]
    have hno : ¬ ∃ b ∈ blocks.block,
        b.offset ≤ offset ∧ (offset + length) % U64 ≤ (b.offset + b.length) % U64 := by
      rintro ⟨b, hb, hf⟩; exact hall b hb hf
    refine ⟨?_, ?_, ?_, ?_⟩
    · rw [hres]; simp [hno]
    · rw [hres]; simp
    · intro _; exact hres
    · intro h1 h2
      have hno' : ¬ ∃ b ∈ blocks.block,
          b.offset ≤ offset ∧ offset + length ≤ b.offset + b.length := by
        rintro ⟨b, hb, hf⟩; exact hall b hb ((hmod h1 h2 b hb).mpr hf)
      refine ⟨?_, ?_, ?_, ?_⟩
      · rw [hres]; simp [hno']
      · rw [hres]; simp
      · intro b hb hle heq
        exact absurd ⟨b, hb, hle, by omega⟩ hno'
      · intro b hb heq _
        have : b.offset ≤ offset ∧ offset + length ≤ b.offset + b.length → False := by
          intro hf; exact hno' ⟨b, by rw [hb]; simp, hf⟩
        have hb2 := h2 b (by rw [hb]; simp)
        -- the page does not even start inside the block
        have hlt : offset < b.offset := by
          by_contra hge; exact this ⟨by omega, by omega⟩
        simp [qemu_rdma_search_ram_block, hb, qemu_rdma_search_ram_block_loop, hlt]
  · have hres : qemu_rdma_search_ram_block offset length blocks bi ci = (0, (j : Int), c) := by
      simp [qemu_rdma_search_ram_block, hsome]
    have hb := hmem hget
    refine ⟨?_, ?_, ?_, ?_⟩
    · rw [hres]; simp only [true_iff]; exact ⟨b, hb, hfit⟩
    · intro _; rw [hres]; exact ⟨j, b, rfl, hget, hfit, hfirst⟩
    · rw [hres]; simp
    · intro h1 h2
      refine ⟨?_, ?_, ?_, ?_⟩
      · rw [hres]; simp only [true_iff]; exact ⟨b, hb, (hmod h1 h2 b hb).mp hfit⟩
      · intro _; rw [hres]
        refine ⟨j, b, rfl, hget, (hmod h1 h2 b hb).mp hfit, ?_⟩
        intro j' b' hj' hget' hf
        exact hfirst j' b' hj' hget' ((hmod h1 h2 b' (hmem hget')).mpr hf)
      · intro _ _ _ _; rw [hres]
      · intro b1 hb1 heq hwrap
        have hb1' : b1 = b := by
          rw [hb1] at hget
          cases j with
          | zero => simpa using hget
          | succ j => simp at hget
        subst hb1'
        have hb2 := h2 b1 hb
        have h3 : ¬ offset < b1.offset := by omega
        have h4 : (offset + (length + 1)) % U64 > (b1.offset + b1.length) % U64 := by
          rw [Nat.mod_eq_of_lt hwrap, Nat.mod_eq_of_lt hb2]; omega
        simp [qemu_rdma_search_ram_block, hb1, qemu_rdma_search_ram_block_loop, h3, h4]

/-- C3 (amended) at a directory of two blocks `[0, 4096)` and `[4096, 12288)`:
the page `[8192, 12288)` ends exactly at the end of the second block and is
found there. -/
theorem search_ram_block_first_fit_witness :
    (qemu_rdma_search_ram_block 8192 4096
        ⟨[⟨1048576, 0, 0, 4096, none, none, none, 0⟩,
          ⟨2097152, 0, 4096, 8192, none, none, none, 0⟩]⟩ (-1) (-1)).1 = 0 ↔
      ∃ b ∈ [(⟨1048576, 0, 0, 4096, none, none, none, 0⟩ : RDMALocalBlock),
          ⟨2097152, 0, 4096, 8192, none, none, none, 0⟩],
        b.offset ≤ 8192 ∧ 8192 + 4096 ≤ b.offset + b.length :=
  ((search_ram_block_first_fit
      ⟨[⟨1048576, 0, 0, 4096, none, none, none, 0⟩,
        ⟨2097152, 0, 4096, 8192, none, none, none, 0⟩]⟩ 8192 4096 (-1) (-1)).2.2.2
    (by decide) (by decide)).1

/-! ## RAM directory: exchange and reconciliation -/

/-- The inner loop finds the block with the offset of the entry when the local
offsets are pairwise distinct and some block has the offset and the length of
the entry; it then updates that block and no other. -/
theorem search_local_of_mem (r : RDMARemoteBlock) (ls : List RDMALocalBlock)
    (hnd : (ls.map (·.offset)).Nodup) (s : RDMALocalBlock) (hs : s ∈ ls)
    (ho : s.offset = r.offset) (hl : s.length = r.length) :
    process_remote_search_local r ls = some (ls.map (fun l =>
      if l.offset = r.offset then
        { l with remote_host_addr := r.remote_host_addr, remote_rkey := r.remote_rkey }
      else l)) := by
  induction ls with
  | nil => simp at hs
  | cons l ls ih =>
    simp only [List.map_cons, List.nodup_cons] at hnd
    by_cases hne : r.offset = l.offset
    · have hsl : s = l := by
        rcases List.mem_cons.mp hs with h | h
        · exact h
        · exfalso; apply hnd.1
          rw [← hne, ← ho]; exact List.mem_map_of_mem _ h
      subst hsl
      have hrest : ls.map (fun l => if l.offset = r.offset then
          { l with remote_host_addr := r.remote_host_addr, remote_rkey := r.remote_rkey }
          else l) = ls := by
        conv_rhs => rw [← List.map_id ls]
        apply List.map_congr_left
        intro x hx
        have : x.offset ≠ r.offset := by
          intro hx'; apply hnd.1; rw [ho, ← hx']; exact List.mem_map_of_mem _ hx
        simp [this]
      simp [process_remote_search_local, ho, hl, hrest]
    · have hsl : s ∈ ls := by
        rcases List.mem_cons.mp hs with h | h
        · exfalso; apply hne; rw [← ho, h]
        · exact h
      have hne' : ¬ l.offset = r.offset := fun h => hne h.symm
      simp [process_remote_search_local, hne, hne', ih hnd.2 hsl]

/-- Propagating a remote entry changes neither the offset nor the length of
any local block. -/
theorem search_local_keys (r : RDMARemoteBlock) (ls ls1 : List RDMALocalBlock)
    (h : process_remote_search_local r ls = some ls1) :
    ls1.map (fun l => (l.offset, l.length)) = ls.map (fun l => (l.offset, l.length)) := by
  induction ls generalizing ls1 with
  | nil => simp [process_remote_search_local] at h
  | cons l ls ih =>
    by_cases hne : r.offset = l.offset
    · by_cases hlen : r.length = l.length
      · simp [process_remote_search_local, hne, hlen] at h
        subst h; simp
      · simp [process_remote_search_local, hne, hlen] at h
    · simp only [process_remote_search_local, ne_eq, hne, not_false_eq_true, if_true] at h
      cases hrec : process_remote_search_local r ls with
      | none => simp [hrec] at h
      | some ls2 =>
        simp [hrec] at h
        subst h
        simp [ih ls2 hrec]

/-- The inner loop fails exactly when the first local block with the offset of
the entry, if there is one, has another length. -/
theorem search_local_eq_none_iff (r : RDMARemoteBlock) (ls : List RDMALocalBlock) :
    process_remote_search_local r ls = none ↔
      ∀ p, (ls.map (fun l => (l.offset, l.length))).find? (fun p => decide (p.1 = r.offset))
        = some p → p.2 ≠ r.length := by
  induction ls with
  | nil => simp [process_remote_search_local]
  | cons l ls ih =>
    by_cases hne : r.offset = l.offset
    · by_cases hlen : r.length = l.length
      · simp [process_remote_search_local, hne, hlen]
      · have hlen' : ¬ l.length = r.length := fun h => hlen h.symm
        simp [process_remote_search_local, hne, hlen, hlen']
    · have hne' : ¬ l.offset = r.offset := fun h => hne h.symm
      simp only [process_remote_search_local, ne_eq, hne, not_false_eq_true, if_true,
        List.map_cons, List.find?_cons, hne', decide_False]
      rw [← ih]
      cases process_remote_search_local r ls <;> simp

/-- The outer loop returns 0 or -1, and 0 exactly when every entry finds, as
the first local block with its offset, one of its length. -/
theorem process_loop_code (rs : List RDMARemoteBlock) (ls : List RDMALocalBlock) :
    ((qemu_rdma_process_remote_ram_blocks_loop rs ls).1 = 0 ∨
      (qemu_rdma_process_remote_ram_blocks_loop rs ls).1 = -1) ∧
    ((qemu_rdma_process_remote_ram_blocks_loop rs ls).1 = 0 ↔
      ∀ r ∈ rs, ∃ p,
        (ls.map (fun l => (l.offset, l.length))).find? (fun p => decide (p.1 = r.offset))
          = some p ∧ p.2 = r.length) := by
  induction rs generalizing ls with
  | nil => simp [qemu_rdma_process_remote_ram_blocks_loop]
  | cons r rs ih =>
    cases hstep : process_remote_search_local r ls with
    | none =>
      have hn := (search_local_eq_none_iff r ls).mp hstep
      simp only [qemu_rdma_process_remote_ram_blocks_loop, hstep]
      refine ⟨by simp, ?_⟩
      constructor
      · intro h; simp at h
      · intro h
        obtain ⟨p, hp, hp2⟩ := h r (List.mem_cons_self _ _)
        exact absurd hp2 (hn p hp)
    | some ls1 =>
      have hk := search_local_keys r ls ls1 hstep
      have hs : ¬ process_remote_search_local r ls = none := by simp [hstep]
      rw [search_local_eq_none_iff] at hs
      push_neg at hs
      obtain ⟨p, hp, hp2⟩ := hs
      simp only [qemu_rdma_process_remote_ram_blocks_loop, hstep]
      refine ⟨(ih ls1).1, ?_⟩
      rw [(ih ls1).2, hk]
      constructor
      · intro h r' hr'
        rcases List.mem_cons.mp hr' with rfl | hr'
        · exact ⟨p, hp, hp2⟩
        · exact h r' hr'
      · intro h r' hr'
        exact h r' (List.mem_cons_of_mem _ hr')

/-- With pairwise distinct offsets on both sides and every entry present
locally with its length, the outer loop succeeds and every local block whose
offset is the one of an entry holds the address and the key of that entry. -/
theorem process_loop_propagates (rs : List RDMARemoteBlock) (ls : List RDMALocalBlock)
    (hls : (ls.map (·.offset)).Nodup) (hrs : (rs.map (·.offset)).Nodup)
    (hall : ∀ r ∈ rs, ∃ s ∈ ls, s.offset = r.offset ∧ s.length = r.length) :
    ∃ lf, qemu_rdma_process_remote_ram_blocks_loop rs ls = (0, lf) ∧
      lf.map (fun l => (l.offset, l.length)) = ls.map (fun l => (l.offset, l.length)) ∧
      (∀ s ∈ lf, (∀ r ∈ rs, r.offset ≠ s.offset) → s ∈ ls) ∧
      (∀ r ∈ rs, ∀ s ∈ lf, s.offset = r.offset →
        s.remote_host_addr = r.remote_host_addr ∧ s.remote_rkey = r.remote_rkey) := by
  induction rs generalizing ls with
  | nil =>
    exact ⟨ls, by simp [qemu_rdma_process_remote_ram_blocks_loop], rfl,
      fun s hs _ => hs, by simp⟩
  | cons r rs ih =>
    simp only [List.map_cons, List.nodup_cons] at hrs
    obtain ⟨s0, hs0, ho0, hl0⟩ := hall r (List.mem_cons_self _ _)
    have hstep := search_local_of_mem r ls hls s0 hs0 ho0 hl0
    have hk := search_local_keys r ls _ hstep
    have hoff : ∀ (a b : List RDMALocalBlock),
        a.map (fun l => (l.offset, l.length)) = b.map (fun l => (l.offset, l.length)) →
        a.map (·.offset) = b.map (·.offset) := by
      intro a b hab
      have := congrArg (List.map Prod.fst) hab
      simpa [List.map_map, Function.comp_def] using this
    have hls1 := hoff _ _ hk
    obtain ⟨lf, hloop, hkf, hpres, hval⟩ := ih _ (by rw [hls1]; exact hls) hrs.2 (by
      intro r' hr'
      obtain ⟨s, hs, ho, hl⟩ := hall r' (List.mem_cons_of_mem _ hr')
      refine ⟨_, List.mem_map_of_mem _ hs, ?_, ?_⟩
      · rw [← ho]; split <;> rfl
      · rw [← hl]; split <;> rfl)
    refine ⟨lf, ?_, hkf.trans hk, ?_, ?_⟩
    · simp only [qemu_rdma_process_remote_ram_blocks_loop, hstep, hloop]
    · intro s hs hno
      have h1 := hpres s hs (fun r' hr' => hno r' (List.mem_cons_of_mem _ hr'))
      obtain ⟨x, hx, hxs⟩ := List.mem_map.mp h1
      have hxo : x.offset ≠ r.offset := by
        intro hc
        have : s.offset = x.offset := by rw [← hxs]; simp [hc]
        exact hno r (List.mem_cons_self _ _) (by rw [this, hc])
      simp [hxo] at hxs
      rw [← hxs]; exact hx
    · intro r' hr' s hs hso
      rcases List.mem_cons.mp hr' with rfl | hr'
      · have h1 := hpres s hs (by
          intro r'' hr'' hc
          apply hrs.1
          rw [← hso, ← hc]; exact List.mem_map_of_mem _ hr'')
        obtain ⟨x, hx, hxs⟩ := List.mem_map.mp h1
        by_cases hxo : x.offset = r'.offset
        · simp [hxo] at hxs
          rw [← hxs]; simp
        · simp [hxo] at hxs
          rw [← hxs] at hso; exact absurd hso hxo
      · exact hval r' hr' s hs hso

/-- What `qemu_rdma_copy_to_remote_ram_blocks` leaves in the remote array: one
entry per local block, in order, with its address, offset and length. -/
theorem copy_to_remote_loop_spec (chunk : Bool) (ls : List RDMALocalBlock)
    (area rs : List RDMARemoteBlock)
    (h : qemu_rdma_copy_to_remote_ram_blocks_loop chunk ls area = some rs) :
    (rs.take ls.length).map (fun r => (r.remote_host_addr, r.offset, r.length))
      = ls.map (fun l => (l.local_host_addr, l.offset, l.length)) := by
  induction ls generalizing area rs with
  | nil => simp
  | cons l ls ih =>
    cases area with
    | nil => simp [qemu_rdma_copy_to_remote_ram_blocks_loop] at h
    | cons a area =>
      simp only [qemu_rdma_copy_to_remote_ram_blocks_loop] at h
      split at h
      · exact absurd h (by simp)
      · rename_i r2 hr2
        cases hrec : qemu_rdma_copy_to_remote_ram_blocks_loop chunk ls area with
        | none => simp [hrec] at h
        | some rs1 =>
          simp only [hrec, Option.some.injEq] at h
          subst h
          have htl := ih area rs1 hrec
          have hr2' : r2.remote_host_addr = l.local_host_addr := by
            split at hr2
            · split at hr2
              · simp only [Option.some.injEq] at hr2; rw [← hr2]
              · exact absurd hr2 (by simp)
            · simp only [Option.some.injEq] at hr2; rw [← hr2]
          simp [htl, hr2']

/-- The sum of the failure exits of `qemu_rdma_process_remote_ram_blocks`. -/
theorem process_remote_code (S : RDMALocalBlocks) (R : RDMARemoteBlocks) :
    ((qemu_rdma_process_remote_ram_blocks S R).1 = 0 ∨
      (qemu_rdma_process_remote_ram_blocks S R).1 = -1) ∧
    ((qemu_rdma_process_remote_ram_blocks S R).1 = 0 ↔
      S.num_blocks = R.num_blocks ∧
      ∀ r ∈ R.block.take R.num_blocks.toNat, ∃ p,
        (S.block.map (fun l => (l.offset, l.length))).find? (fun p => decide (p.1 = r.offset))
          = some p ∧ p.2 = r.length) := by
  by_cases hc : S.num_blocks = R.num_blocks
  · have h := process_loop_code (R.block.take R.num_blocks.toNat) S.block
    simp only [qemu_rdma_process_remote_ram_blocks, hc, ne_eq, not_true_eq_false, if_false,
      true_and]
    exact h
  · simp [qemu_rdma_process_remote_ram_blocks, hc]

/-- C5 as stated fails on the code: the reconciliation matches by offset alone.
Two directories with the same two blocks, whose `(offset, length)` pairs
`(0, 10)` and `(0, 20)` are distinct, are rejected with -1: the second remote
entry is matched to the first local block, whose length differs. -/
theorem directory_roundtrip_distinct_pairs_counterexample :
    qemu_rdma_copy_to_remote_ram_blocks true
        ⟨[⟨4096, 0, 0, 10, none, none, none, 0⟩, ⟨8192, 0, 0, 20, none, none, none, 0⟩]⟩
        (remote_area_zero 2)
      = some ⟨2, [⟨4096, 0, 10, 0⟩, ⟨8192, 0, 20, 0⟩]⟩ ∧
    (qemu_rdma_process_remote_ram_blocks
        ⟨[⟨65536, 0, 0, 10, none, none, none, 0⟩, ⟨131072, 0, 0, 20, none, none, none, 0⟩]⟩
        ⟨2, [⟨4096, 0, 10, 0⟩, ⟨8192, 0, 20, 0⟩]⟩).1 = -1 ∧
    ([((0 : Nat), (10 : Nat)), (0, 20)]).Nodup := by
  refine ⟨by decide, by decide, by decide⟩

/-- C5 (amended). When the destination directory `D` and the source directory
`S` have the same number of blocks, the same set of `(offset, length)` pairs
and pairwise distinct offsets, `qemu_rdma_process_remote_ram_blocks` applied to
`S` and to what `qemu_rdma_copy_to_remote_ram_blocks` made of `D` returns 0,
keeps offsets and lengths, and leaves in every source block the
`local_host_addr` of the destination block with the same offset (which has the
same length).  Whatever the directories, it returns -1 when the block counts
differ, when the offset of a remote entry is the offset of no local block, and
when the first local block with the offset of a remote entry has another
length. -/
theorem directory_roundtrip (S : RDMALocalBlocks) :
    (∀ (chunk : Bool) (D : RDMALocalBlocks) (area R : RDMARemoteBlocks),
      D.num_blocks = S.num_blocks →
      (∀ p, p ∈ D.block.map (fun b => (b.offset, b.length)) ↔
            p ∈ S.block.map (fun b => (b.offset, b.length))) →
      (D.block.map (·.offset)).Nodup → (S.block.map (·.offset)).Nodup →
      qemu_rdma_copy_to_remote_ram_blocks chunk D area = some R →
      (qemu_rdma_process_remote_ram_blocks S R).1 = 0 ∧
      (qemu_rdma_process_remote_ram_blocks S R).2.block.map (fun b => (b.offset, b.length))
        = S.block.map (fun b => (b.offset, b.length)) ∧
      (∀ s ∈ (qemu_rdma_process_remote_ram_blocks S R).2.block,
        ∃ d ∈ D.block, d.offset = s.offset ∧ d.length = s.length ∧
          s.remote_host_addr = d.local_host_addr) ∧
      (∀ s ∈ (qemu_rdma_process_remote_ram_blocks S R).2.block, ∀ d ∈ D.block,
        s.offset = d.offset → s.remote_host_addr = d.local_host_addr)) ∧
    (∀ R : RDMARemoteBlocks, S.num_blocks ≠ R.num_blocks →
      (qemu_rdma_process_remote_ram_blocks S R).1 = -1) ∧
    (∀ R : RDMARemoteBlocks,
      (∃ r ∈ R.block.take R.num_blocks.toNat, ∀ s ∈ S.block, s.offset ≠ r.offset) →
      (qemu_rdma_process_remote_ram_blocks S R).1 = -1) ∧
    (∀ R : RDMARemoteBlocks,
      (∃ r ∈ R.block.take R.num_blocks.toNat, ∃ s,
        S.block.find? (fun s => decide (s.offset = r.offset)) = some s ∧
          s.length ≠ r.length) →
      (qemu_rdma_process_remote_ram_blocks S R).1 = -1) := by
  refine ⟨?_, ?_, ?_, ?_⟩
  · intro chunk D area R hcount hset hD hS hcopy
    -- the remote directory is the image of `D`
    obtain ⟨rs, hrs, hR⟩ : ∃ rs,
        qemu_rdma_copy_to_remote_ram_blocks_loop chunk D.block area.block = some rs ∧
        R = ⟨D.num_blocks, rs⟩ := by
      simp only [qemu_rdma_copy_to_remote_ram_blocks] at hcopy
      cases hl : qemu_rdma_copy_to_remote_ram_blocks_loop chunk D.block area.block with
      | none => simp [hl] at hcopy
      | some rs => simp [hl] at hcopy; exact ⟨rs, rfl, hcopy.symm⟩
    have himg := copy_to_remote_loop_spec chunk D.block area.block rs hrs
    subst hR
    have htake : (RDMALocalBlocks.num_blocks D).toNat = D.block.length := by
      simp [RDMALocalBlocks.num_blocks]
    set rt := rs.take D.block.length with hrt
    have hoffs : rt.map (·.offset) = D.block.map (·.offset) := by
      have := congrArg (List.map (fun t : Nat × Nat × Nat => t.2.1)) himg
      simpa [List.map_map, Function.comp_def] using this
    -- every remote entry comes from a block of `D`
    have hfrom : ∀ r ∈ rt, ∃ d ∈ D.block, d.local_host_addr = r.remote_host_addr ∧
        d.offset = r.offset ∧ d.length = r.length := by
      intro r hr
      have : (r.remote_host_addr, r.offset, r.length) ∈
          D.block.map (fun l => (l.local_host_addr, l.offset, l.length)) := by
        rw [← himg]; exact List.mem_map_of_mem _ hr
      obtain ⟨d, hd, hde⟩ := List.mem_map.mp this
      simp only [Prod.mk.injEq] at hde
      exact ⟨d, hd, hde.1, hde.2.1, hde.2.2⟩
    have hto : ∀ d ∈ D.block, ∃ r ∈ rt, d.local_host_addr = r.remote_host_addr ∧
        d.offset = r.offset ∧ d.length = r.length := by
      intro d hd
      have : (d.local_host_addr, d.offset, d.length) ∈
          rt.map (fun r => (r.remote_host_addr, r.offset, r.length)) := by
        rw [himg]; exact List.mem_map_of_mem _ hd
      obtain ⟨r, hr, hre⟩ := List.mem_map.mp this
      simp only [Prod.mk.injEq] at hre
      exact ⟨r, hr, hre.1.symm, hre.2.1.symm, hre.2.2.symm⟩
    have hall : ∀ r ∈ rt, ∃ s ∈ S.block, s.offset = r.offset ∧ s.length = r.length := by
      intro r hr
      obtain ⟨d, hd, _, ho, hl⟩ := hfrom r hr
      have : (d.offset, d.length) ∈ S.block.map (fun b => (b.offset, b.length)) :=
        (hset _).mp (List.mem_map_of_mem _ hd)
      obtain ⟨s, hs, hse⟩ := List.mem_map.mp this
      simp only [Prod.mk.injEq] at hse
      exact ⟨s, hs, hse.1.trans ho, hse.2.trans hl⟩
    obtain ⟨lf, hloop, hkeys, _, hval⟩ :=
      process_loop_propagates rt S.block hS (by rw [hoffs]; exact hD) hall
    have hres : qemu_rdma_process_remote_ram_blocks S ⟨D.num_blocks, rs⟩ = (0, ⟨lf⟩) := by
      simp only [qemu_rdma_process_remote_ram_blocks, hcount, ne_eq, not_true_eq_false,
        if_false]
      rw [← hcount, htake, ← hrt, hloop]
    rw [hres]
    have hfinal : ∀ s ∈ lf, ∀ d ∈ D.block,
        s.offset = d.offset → s.remote_host_addr = d.local_host_addr := by
      intro s hs d hd hsd
      obtain ⟨r, hr, ha, ho, _⟩ := hto d hd
      rw [ha]; exact (hval r hr s hs (hsd.trans ho)).1
    refine ⟨rfl, hkeys, ?_, hfinal⟩
    intro s hs
    have : (s.offset, s.length) ∈ D.block.map (fun b => (b.offset, b.length)) := by
      rw [hset, ← hkeys]; exact List.mem_map_of_mem _ hs
    obtain ⟨d, hd, hde⟩ := List.mem_map.mp this
    simp only [Prod.mk.injEq] at hde
    exact ⟨d, hd, hde.1, hde.2, hfinal s hs d hd hde.1.symm⟩
  · intro R hne
    simp [qemu_rdma_process_remote_ram_blocks, hne]
  · intro R ⟨r, hr, hno⟩
    rcases (process_remote_code S R).1 with h0 | h1
    · exfalso
      obtain ⟨p, hp, _⟩ := ((process_remote_code S R).2.mp h0).2 r hr
      have hmem := List.mem_of_find?_eq_some hp
      have hpo := List.find?_some hp
      obtain ⟨s, hs, hse⟩ := List.mem_map.mp hmem
      apply hno s hs
      rw [← hse] at hpo; simpa using hpo
    · exact h1
  · intro R ⟨r, hr, s, hfind, hlen⟩
    rcases (process_remote_code S R).1 with h0 | h1
    · exfalso
      obtain ⟨p, hp, hp2⟩ := ((process_remote_code S R).2.mp h0).2 r hr
      rw [List.find?_map] at hp
      have : (fun p : Nat × Nat => decide (p.1 = r.offset)) ∘
          (fun l : RDMALocalBlock => (l.offset, l.length))
          = fun s => decide (s.offset = r.offset) := rfl
      rw [this, hfind] at hp
      simp only [Option.map_some', Option.some.injEq] at hp
      rw [← hp] at hp2
      exact hlen hp2
    · exact h1

/-- C5 (amended) at a destination and a source that list the same two blocks
in opposite orders, whole-block mode. -/
theorem directory_roundtrip_witness :
    (qemu_rdma_process_remote_ram_blocks
        ⟨[⟨65536, 0, 4096, 8192, none, none, none, 0⟩,
          ⟨131072, 0, 0, 4096, none, none, none, 0⟩]⟩
        ⟨2, [⟨1048576, 0, 4096, 77⟩, ⟨2097152, 4096, 8192, 78⟩]⟩).1 = 0 ∧
    (∀ s ∈ (qemu_rdma_process_remote_ram_blocks
        ⟨[⟨65536, 0, 4096, 8192, none, none, none, 0⟩,
          ⟨131072, 0, 0, 4096, none, none, none, 0⟩]⟩
        ⟨2, [⟨1048576, 0, 4096, 77⟩, ⟨2097152, 4096, 8192, 78⟩]⟩).2.block,
      ∀ d ∈ [(⟨1048576, 0, 0, 4096, none, some ⟨1048576, 4096, 3, 7, 77⟩, none, 0⟩ :
                RDMALocalBlock),
              ⟨2097152, 0, 4096, 8192, none, some ⟨2097152, 8192, 3, 8, 78⟩, none, 0⟩],
        s.offset = d.offset → s.remote_host_addr = d.local_host_addr) :=
  have h := (directory_roundtrip
      ⟨[⟨65536, 0, 4096, 8192, none, none, none, 0⟩,
        ⟨131072, 0, 0, 4096, none, none, none, 0⟩]⟩).1 false
      ⟨[⟨1048576, 0, 0, 4096, none, some ⟨1048576, 4096, 3, 7, 77⟩, none, 0⟩,
        ⟨2097152, 0, 4096, 8192, none, some ⟨2097152, 8192, 3, 8, 78⟩, none, 0⟩]⟩
      (remote_area_zero 2)
      ⟨2, [⟨1048576, 0, 4096, 77⟩, ⟨2097152, 4096, 8192, 78⟩]⟩
      (by decide) (by intro p; simp; tauto) (by decide) (by decide) (by decide)
  ⟨h.1, h.2.2.2⟩

/-! ## RAM directory: order of the remote entries -/

/-- Two remote entries with different offsets update different local blocks,
so the order in which they are propagated does not matter. -/
theorem search_local_cons_ne (r : RDMARemoteBlock) (l : RDMALocalBlock)
    (ls : List RDMALocalBlock) (h : ¬ r.offset = l.offset) :
    process_remote_search_local r (l :: ls)
      = (process_remote_search_local r ls).map (fun ls1 => l :: ls1) := by
  cases hrec : process_remote_search_local r ls <;>
    simp [process_remote_search_local, h, hrec]

theorem search_local_comm (x y : RDMARemoteBlock) (hxy : x.offset ≠ y.offset)
    (ls : List RDMALocalBlock) :
    (process_remote_search_local x ls).bind (process_remote_search_local y)
      = (process_remote_search_local y ls).bind (process_remote_search_local x) := by
  induction ls with
  | nil => simp [process_remote_search_local]
  | cons l ls ih =>
    by_cases hx : x.offset = l.offset
    · have hy : ¬ y.offset = l.offset := fun h => hxy (hx.trans h.symm)
      by_cases hxl : x.length = l.length
      · cases hrec : process_remote_search_local y ls <;>
          simp [process_remote_search_local, hx, hy, hxl, hrec]
      · cases hrec : process_remote_search_local y ls <;>
          simp [process_remote_search_local, hx, hy, hxl, hrec]
    · by_cases hy : y.offset = l.offset
      · by_cases hyl : y.length = l.length
        · cases hrec : process_remote_search_local x ls <;>
            simp [process_remote_search_local, hx, hy, hyl, hrec]
        · cases hrec : process_remote_search_local x ls <;>
            simp [process_remote_search_local, hx, hy, hyl, hrec]
      · rw [search_local_cons_ne x l ls hx, search_local_cons_ne y l ls hy]
        cases hrx : process_remote_search_local x ls with
        | none =>
          cases hry : process_remote_search_local y ls with
          | none => simp
          | some ly =>
            rw [hrx, hry] at ih
            simp only [Option.none_bind, Option.some_bind] at ih
            simp [search_local_cons_ne x l ly hx, ← ih]
        | some lx =>
          cases hry : process_remote_search_local y ls with
          | none =>
            rw [hrx, hry] at ih
            simp only [Option.none_bind, Option.some_bind] at ih
            simp [search_local_cons_ne y l lx hy, ih]
          | some ly =>
            rw [hrx, hry] at ih
            simp only [Option.some_bind] at ih
            simp [search_local_cons_ne y l lx hy, search_local_cons_ne x l ly hx, ih]

/-- The outer loop as a fold of the inner loop over the remote entries. -/
theorem process_loop_eq_foldl (rs : List RDMARemoteBlock) (ls : List RDMALocalBlock) :
    (∃ lf, rs.foldl (fun s r => s.bind (process_remote_search_local r)) (some ls) = some lf ∧
        qemu_rdma_process_remote_ram_blocks_loop rs ls = (0, lf)) ∨
    (rs.foldl (fun s r => s.bind (process_remote_search_local r)) (some ls) = none ∧
        (qemu_rdma_process_remote_ram_blocks_loop rs ls).1 = -1) := by
  have hnone : ∀ rs : List RDMARemoteBlock,
      rs.foldl (fun s r => s.bind (process_remote_search_local r)) none = none := by
    intro rs; induction rs with
    | nil => rfl
    | cons r rs ih => simpa using ih
  induction rs generalizing ls with
  | nil => left; exact ⟨ls, rfl, rfl⟩
  | cons r rs ih =>
    cases hstep : process_remote_search_local r ls with
    | none =>
      right
      simp [qemu_rdma_process_remote_ram_blocks_loop, hstep, hnone]
    | some ls1 =>
      simp only [qemu_rdma_process_remote_ram_blocks_loop, hstep, List.foldl_cons,
        Option.some_bind]
      exact ih ls1

/-- C6. For a remote block array with pairwise distinct offsets,
`qemu_rdma_process_remote_ram_blocks` applied to any permutation of the array
returns the same code and, when that code is 0, leaves the same local
directory, so the same `remote_host_addr` and `remote_rkey` in every local
block. -/
theorem process_remote_ram_blocks_perm (loc : RDMALocalBlocks)
    (rs rs' : List RDMARemoteBlock) (hperm : rs.Perm rs')
    (hnodup : (rs.map (·.offset)).Nodup) :
    (qemu_rdma_process_remote_ram_blocks loc ⟨rs.length, rs⟩).1
      = (qemu_rdma_process_remote_ram_blocks loc ⟨rs'.length, rs'⟩).1 ∧
    ((qemu_rdma_process_remote_ram_blocks loc ⟨rs.length, rs⟩).1 = 0 →
      (qemu_rdma_process_remote_ram_blocks loc ⟨rs.length, rs⟩).2
        = (qemu_rdma_process_remote_ram_blocks loc ⟨rs'.length, rs'⟩).2 ∧
      ∀ j : Nat, (((qemu_rdma_process_remote_ram_blocks loc ⟨rs.length, rs⟩).2.block)[j]?).map
            (fun b : RDMALocalBlock => (b.remote_host_addr, b.remote_rkey))
          = (((qemu_rdma_process_remote_ram_blocks loc ⟨rs'.length, rs'⟩).2.block)[j]?).map
            (fun b : RDMALocalBlock => (b.remote_host_addr, b.remote_rkey))) := by
  have hlen : rs'.length = rs.length := hperm.length_eq.symm
  have hfold : rs.foldl (fun s r => s.bind (process_remote_search_local r)) (some loc.block)
      = rs'.foldl (fun s r => s.bind (process_remote_search_local r)) (some loc.block) := by
    apply List.Perm.foldl_eq' hperm
    intro x hx y hy z
    by_cases hxy : x.offset = y.offset
    · have : x = y := by
        exact List.inj_on_of_nodup_map hnodup hx hy hxy
      subst this; rfl
    · cases z with
      | none => rfl
      | some l => exact search_local_comm x y hxy l
  by_cases hc : loc.num_blocks = (rs.length : Int)
  · have hc' : loc.num_blocks = (rs'.length : Int) := by rw [hlen]; exact hc
    have e1 : qemu_rdma_process_remote_ram_blocks loc ⟨rs.length, rs⟩
        = ((qemu_rdma_process_remote_ram_blocks_loop rs loc.block).1,
            ⟨(qemu_rdma_process_remote_ram_blocks_loop rs loc.block).2⟩) := by
      simp [qemu_rdma_process_remote_ram_blocks, hc]
    have e2 : qemu_rdma_process_remote_ram_blocks loc ⟨rs'.length, rs'⟩
        = ((qemu_rdma_process_remote_ram_blocks_loop rs' loc.block).1,
            ⟨(qemu_rdma_process_remote_ram_blocks_loop rs' loc.block).2⟩) := by
      simp [qemu_rdma_process_remote_ram_blocks, hc']
    rw [e1, e2]
    rcases process_loop_eq_foldl rs loc.block with ⟨lf, hf, hl⟩ | ⟨hf, hl⟩ <;>
      rcases process_loop_eq_foldl rs' loc.block with ⟨lf', hf', hl'⟩ | ⟨hf', hl'⟩
    · have : lf = lf' := by
        rw [hfold, hf'] at hf; exact (Option.some.inj hf).symm
      subst this
      simp [hl, hl']
    · rw [hfold, hf'] at hf; exact absurd hf (by simp)
    · rw [← hfold, hf] at hf'; exact absurd hf' (by simp)
    · simp only [hl, hl', true_and]
      intro h; exact absurd h (by decide)
  · have hc' : ¬ loc.num_blocks = (rs'.length : Int) := by rw [hlen]; exact hc
    simp [qemu_rdma_process_remote_ram_blocks, hc, hc']

/-- C6 at a local directory of two blocks and the two orders of the remote
array. -/
theorem process_remote_ram_blocks_perm_witness :
    (qemu_rdma_process_remote_ram_blocks
        ⟨[⟨65536, 0, 4096, 8192, none, none, none, 0⟩,
          ⟨131072, 0, 0, 4096, none, none, none, 0⟩]⟩
        ⟨2, [⟨1048576, 0, 4096, 77⟩, ⟨2097152, 4096, 8192, 78⟩]⟩).1
      = (qemu_rdma_process_remote_ram_blocks
        ⟨[⟨65536, 0, 4096, 8192, none, none, none, 0⟩,
          ⟨131072, 0, 0, 4096, none, none, none, 0⟩]⟩
        ⟨2, [⟨2097152, 4096, 8192, 78⟩, ⟨1048576, 0, 4096, 77⟩]⟩).1 :=
  (process_remote_ram_blocks_perm
      ⟨[⟨65536, 0, 4096, 8192, none, none, none, 0⟩,
        ⟨131072, 0, 0, 4096, none, none, none, 0⟩]⟩
      [⟨1048576, 0, 4096, 77⟩, ⟨2097152, 4096, 8192, 78⟩]
      [⟨2097152, 4096, 8192, 78⟩, ⟨1048576, 0, 4096, 77⟩]
      (List.Perm.swap _ _ _) (by decide)).1

/-! ## Completion pump and control channel: what they leave alone -/

theorem CtlFrame.ctl_refl (st : St) : CtlFrame st st := ⟨rfl, rfl⟩

theorem CtlFrame.ctl_trans {a b c : St} (h1 : CtlFrame a b) (h2 : CtlFrame b c) :
    CtlFrame a c := by
  obtain ⟨h1a, h1b⟩ := h1
  obtain ⟨h2a, h2b⟩ := h2
  constructor
  · rw [h2a, h1a]
  · rw [h2b, h1b]

/-- Fields of the cursor and the counters a `CtlFrame` keeps. -/
theorem CtlFrame.cursor {a b : St} (h : CtlFrame a b) :
    b.rdma.current_length = a.rdma.current_length ∧
    b.rdma.current_offset = a.rdma.current_offset ∧
    b.rdma.current_index = a.rdma.current_index ∧
    b.rdma.current_chunk = a.rdma.current_chunk ∧
    b.rdma.num_unsignaled_send = a.rdma.num_unsignaled_send ∧
    b.rdma.chunk_register_destination = a.rdma.chunk_register_destination ∧
    b.local_ram_blocks = a.local_ram_blocks ∧ b.le = a.le := by
  obtain ⟨ha, hb⟩ := h
  refine ⟨?_, ?_, ?_, ?_, ?_, ?_, ?_, ?_⟩
  · rw [hb]
  · rw [hb]
  · rw [hb]
  · rw [hb]
  · rw [hb]
  · rw [hb]
  · rw [ha]
  · rw [ha]

theorem call_frame (c : Call) (st st' : St) (r : Resp) (h : call c st = some (r, st')) :
    CtlFrame st st' ∧ st'.trace = st.trace ++ [c] ∧ st'.rdma = st.rdma ∧
      st.script = r :: st'.script := by
  unfold call at h
  cases hs : st.script with
  | nil => simp [hs] at h
  | cons x rest =>
    simp only [hs, Option.some.injEq, Prod.mk.injEq] at h
    obtain ⟨rfl, rfl⟩ := h
    exact ⟨⟨rfl, rfl⟩, rfl, rfl, rfl⟩

theorem log_frame (c : Call) (st : St) :
    CtlFrame st (log c st) ∧ (log c st).trace = st.trace ++ [c] ∧
      (log c st).rdma = st.rdma ∧ (log c st).script = st.script :=
  ⟨⟨rfl, rfl⟩, rfl, rfl, rfl⟩

theorem PumpFrame.pump_refl (st : St) : PumpFrame st st :=
  ⟨CtlFrame.ctl_refl st, fun _ => ⟨rfl, rfl, rfl, rfl⟩, [], by simp, rfl⟩

theorem PumpFrame.pump_trans {a b c : St} (h1 : PumpFrame a b) (h2 : PumpFrame b c) :
    PumpFrame a c := by
  obtain ⟨f1, s1, e1, t1, p1⟩ := h1
  obtain ⟨f2, s2, e2, t2, p2⟩ := h2
  refine ⟨f1.ctl_trans f2, ?_, e1 ++ e2, ?_, ?_⟩
  · intro i
    obtain ⟨a1, a2, a3, a4⟩ := s1 i
    obtain ⟨b1, b2, b3, b4⟩ := s2 i
    exact ⟨b1.trans a1, b2.trans a2, b3.trans a3, b4.trans a4⟩
  · rw [t2, t1, List.append_assoc]
  · rw [List.all_append, p1, p2]; rfl

theorem call_pump (c : Call) (hc : c.is_pump = true) (st st' : St) (r : Resp)
    (h : call c st = some (r, st')) : PumpFrame st st' := by
  obtain ⟨hf, ht, hr, _⟩ := call_frame c st st' r h
  refine ⟨hf, ?_, [c], ht, by simp [hc]⟩
  intro i; rw [hr]; exact ⟨rfl, rfl, rfl, rfl⟩

theorem log_pump (c : Call) (hc : c.is_pump = true) (st : St) : PumpFrame st (log c st) :=
  ⟨(log_frame c st).1, fun _ => ⟨rfl, rfl, rfl, rfl⟩, [c], rfl, by simp [hc]⟩

/-- Replacing the content of a control buffer is within `PumpFrame`. -/
theorem set_control_pump (st : St) (slot : Nat) (c : Nat → Nat) :
    PumpFrame st
      { st with rdma := st.rdma.set_wr slot ({ (st.rdma.wr_data slot) with control := c }) } := by
  refine ⟨⟨rfl, rfl⟩, ?_, [], by simp, rfl⟩
  intro i
  by_cases hi : i = slot
  · subst hi; simp [RDMAContext.set_wr]
  · simp [RDMAContext.set_wr, Function.update_noteq hi]

theorem ibv_poll_cq_pump (st st' : St) (ret : Int) (wc : ibv_wc)
    (h : ibv_poll_cq st = some (ret, wc, st')) : PumpFrame st st' := by
  unfold ibv_poll_cq at h
  cases hc : call Call.ibv_poll_cq st with
  | none => simp [hc] at h
  | some p =>
    obtain ⟨r, st1⟩ := p
    have h1 := call_pump Call.ibv_poll_cq rfl st st1 r hc
    simp only [hc, Option.some.injEq, Prod.mk.injEq] at h
    obtain ⟨_, _, h3⟩ := h
    split at h3
    · rw [← h3]; exact h1.pump_trans (set_control_pump st1 _ _)
    · rw [← h3]; exact h1

theorem set_ready_pump (s : St) (a : Int) :
    PumpFrame s { s with rdma := { s.rdma with control_ready_expected := a } } :=
  ⟨⟨rfl, rfl⟩, fun _ => ⟨rfl, rfl, rfl, rfl⟩, [], by simp, rfl⟩

theorem set_signaled_pump (s : St) (b : Int) :
    PumpFrame s { s with rdma := { s.rdma with num_signaled_send := b } } :=
  ⟨⟨rfl, rfl⟩, fun _ => ⟨rfl, rfl, rfl, rfl⟩, [], by simp, rfl⟩

/-- `qemu_rdma_poll` changes `control_ready_expected` and `num_signaled_send`
at most, within `PumpFrame`. -/
theorem qemu_rdma_poll_pump (st st' : St) (ret : Int)
    (h : qemu_rdma_poll st = some (ret, st')) : PumpFrame st st' := by
  unfold qemu_rdma_poll at h
  cases hc : ibv_poll_cq st with
  | none => simp [hc] at h
  | some p =>
    obtain ⟨r, wc, st1⟩ := p
    have h1 := ibv_poll_cq_pump st st1 r wc hc
    simp only [hc] at h
    split at h
    · simp only [Option.some.injEq, Prod.mk.injEq] at h; rw [← h.2]; exact h1
    · split at h
      · simp only [Option.some.injEq, Prod.mk.injEq] at h; rw [← h.2]; exact h1
      · split at h
        · simp only [Option.some.injEq, Prod.mk.injEq] at h; rw [← h.2]; exact h1
        · simp only [Option.some.injEq, Prod.mk.injEq] at h
          rw [← h.2]
          refine h1.pump_trans ?_
          split <;> split <;>
            first
              | exact PumpFrame.pump_refl st1
              | exact set_ready_pump st1 0
              | exact set_signaled_pump st1 _
              | exact (set_ready_pump st1 0).pump_trans (set_signaled_pump _ _)

theorem poll_while_pump (wrid : Int) (fuel : Nat) (r : Int) (st st' : St) (e : PollExit)
    (h : poll_while wrid fuel r st = some (e, st')) :
    PumpFrame st st' ∧ (∀ r', e = PollExit.err r' → r' < 0) := by
  induction fuel generalizing r st with
  | zero => simp [poll_while] at h
  | succ fuel ih =>
    unfold poll_while at h
    split at h
    · simp only [Option.some.injEq, Prod.mk.injEq] at h
      rw [← h.2, ← h.1]; exact ⟨PumpFrame.pump_refl st, by intro r' hr'; cases hr'⟩
    · cases hp : qemu_rdma_poll st with
      | none => simp [hp] at h
      | some p =>
        obtain ⟨r1, st1⟩ := p
        have h1 := qemu_rdma_poll_pump st st1 r1 hp
        simp only [hp] at h
        split at h
        · rename_i hneg
          simp only [Option.some.injEq, Prod.mk.injEq] at h
          rw [← h.2, ← h.1]
          exact ⟨h1, by intro r' hr'; cases hr'; exact hneg⟩
        · split at h
          · simp only [Option.some.injEq, Prod.mk.injEq] at h
            rw [← h.2, ← h.1]; exact ⟨h1, by intro r' hr'; cases hr'⟩
          · obtain ⟨h2, h3⟩ := ih r1 st1 h
            exact ⟨h1.pump_trans h2, h3⟩

theorem block_for_wrid_exit_pump (code n : Int) (st : St) :
    PumpFrame st (block_for_wrid_exit code n st).2 ∧ (block_for_wrid_exit code n st).1 = code := by
  unfold block_for_wrid_exit
  split
  · exact ⟨log_pump (Call.ibv_ack_cq_events n) rfl st, rfl⟩
  · exact ⟨PumpFrame.pump_refl st, rfl⟩

theorem block_for_wrid_loop_pump (wrid : Int) (fuel : Nat) (r n : Int) (st st' : St)
    (ret : Int) (h : block_for_wrid_loop wrid fuel r n st = some (ret, st')) :
    PumpFrame st st' ∧ (ret = 0 ∨ ret = -1) := by
  induction fuel generalizing r n st with
  | zero => simp [block_for_wrid_loop] at h
  | succ fuel ih =>
    unfold block_for_wrid_loop at h
    cases hc : call Call.ibv_get_cq_event st with
    | none => simp [hc] at h
    | some p =>
      obtain ⟨e, st1⟩ := p
      have h1 := call_pump Call.ibv_get_cq_event rfl st st1 e hc
      simp only [hc] at h
      split at h
      · simp only [Option.some.injEq] at h
        have hx := block_for_wrid_exit_pump (-1) n st1
        rw [h] at hx
        exact ⟨h1.pump_trans hx.1, Or.inr hx.2⟩
      · cases hq : call Call.ibv_req_notify_cq st1 with
        | none => simp [hq] at h
        | some p2 =>
          obtain ⟨q, st2⟩ := p2
          have h2 := call_pump Call.ibv_req_notify_cq rfl st1 st2 q hq
          simp only [hq] at h
          split at h
          · simp only [Option.some.injEq] at h
            have hx := block_for_wrid_exit_pump (-1) (n + 1) st2
            rw [h] at hx
            exact ⟨(h1.pump_trans h2).pump_trans hx.1, Or.inr hx.2⟩
          · cases hw : poll_while wrid (st2.script.length + 1) r st2 with
            | none => simp [hw] at h
            | some p3 =>
              obtain ⟨ex, st3⟩ := p3
              have h3 := (poll_while_pump wrid _ r st2 st3 ex hw).1
              simp only [hw] at h
              cases ex with
              | err r' =>
                simp only [Option.some.injEq] at h
                have hx := block_for_wrid_exit_pump (-1) (n + 1) st3
                rw [h] at hx
                exact ⟨((h1.pump_trans h2).pump_trans h3).pump_trans hx.1, Or.inr hx.2⟩
              | out r1 =>
                simp only at h
                split at h
                · simp only [Option.some.injEq] at h
                  have hx := block_for_wrid_exit_pump 0 (n + 1) st3
                  rw [h] at hx
                  exact ⟨((h1.pump_trans h2).pump_trans h3).pump_trans hx.1, Or.inl hx.2⟩
                · obtain ⟨h4, h5⟩ := ih r1 (n + 1) st3 h
                  exact ⟨((h1.pump_trans h2).pump_trans h3).pump_trans h4, h5⟩

/-- A wait on the completion queue changes nothing but what `PumpFrame`
allows, and returns 0 or a negative code. -/
theorem wait_for_wrid_pump (wrid : Int) (st st' : St) (ret : Int)
    (h : wait_for_wrid wrid st = some (ret, st')) :
    PumpFrame st st' ∧ ret ≤ 0 := by
  unfold wait_for_wrid qemu_rdma_block_for_wrid at h
  cases hc : call Call.ibv_req_notify_cq st with
  | none => simp [hc] at h
  | some p =>
    obtain ⟨q, st1⟩ := p
    have h1 := call_pump Call.ibv_req_notify_cq rfl st st1 q hc
    simp only [hc] at h
    split at h
    · simp only [Option.some.injEq, Prod.mk.injEq] at h
      rw [← h.2, ← h.1]; exact ⟨h1, by decide⟩
    · cases hw : poll_while wrid (st1.script.length + 1) RDMA_WRID_NONE st1 with
      | none => simp [hw] at h
      | some p3 =>
        obtain ⟨ex, st2⟩ := p3
        obtain ⟨h2, hneg⟩ := poll_while_pump wrid _ _ st1 st2 ex hw
        simp only [hw] at h
        cases ex with
        | err r' =>
          simp only [Option.some.injEq, Prod.mk.injEq] at h
          rw [← h.2, ← h.1]
          exact ⟨h1.pump_trans h2, le_of_lt (hneg r' rfl)⟩
        | out r1 =>
          simp only at h
          split at h
          · simp only [Option.some.injEq, Prod.mk.injEq] at h
            rw [← h.2, ← h.1]; exact ⟨h1.pump_trans h2, le_refl _⟩
          · obtain ⟨h3, h4⟩ := block_for_wrid_loop_pump wrid _ r1 0 st2 st' ret h
            refine ⟨(h1.pump_trans h2).pump_trans h3, ?_⟩
            rcases h4 with h4 | h4 <;> omega

/-! ## Control channel: received headers -/

theorem read_bytes_four (buf : Nat → Nat) (off : Nat) :
    read_bytes buf off 4 = [buf off, buf (off + 1), buf (off + 2), buf (off + 3)] := rfl

theorem load_bytes_four (le : Bool) (a b c d : Nat) :
    load_bytes le [a, b, c, d] =
      if le then a % 256 + 256 * (b % 256) + 65536 * (c % 256) + 16777216 * (d % 256)
      else d % 256 + 256 * (c % 256) + 65536 * (b % 256) + 16777216 * (a % 256) := by
  cases le <;> simp [load_bytes, load_le] <;> omega

/-- `ntohl` of the 32-bit value the host reads from four bytes is their
big-endian value. -/
theorem ntohl_load_bytes (le : Bool) (a b c d : Nat) :
    ntohl le (load_bytes le [a, b, c, d])
      = a % 256 * 16777216 + b % 256 * 65536 + c % 256 * 256 + d % 256 := by
  have ha := Nat.mod_lt a (show 256 > 0 by decide)
  have hb := Nat.mod_lt b (show 256 > 0 by decide)
  have hc := Nat.mod_lt c (show 256 > 0 by decide)
  have hd := Nat.mod_lt d (show 256 > 0 by decide)
  rw [load_bytes_four]
  cases le
  · simp only [ntohl, Bool.false_eq_true, if_false, U32]
    omega
  · simp only [ntohl, if_true]
    have := bswap32_bytes (a % 256) (b % 256) (c % 256) (d % 256) ha hb hc hd
    rw [this]; omega

/-- Decoding the header of a buffer gives the header it carries on the wire,
whatever the byte order of the host. -/
theorem network_to_control_load_header (le : Bool) (buf : Nat → Nat) :
    network_to_control le (load_header le buf) = be_header buf := by
  simp only [network_to_control, load_header, be_header, read_bytes_four, ntohl_load_bytes]

theorem be_header_wf (buf : Nat → Nat) : (be_header buf).wf := by
  have h : ∀ i, buf i % 256 < 256 := fun i => Nat.mod_lt _ (by decide)
  have h0 := h 0; have h1 := h 1; have h2 := h 2; have h3 := h 3
  have h4 := h 4; have h5 := h 5; have h6 := h 6; have h7 := h 7
  have h8 := h 8; have h9 := h 9; have h10 := h 10; have h11 := h 11
  have h12 := h 12; have h13 := h 13; have h14 := h 14; have h15 := h 15
  simp only [RDMAControlHeader.wf, be_header, U32]
  refine ⟨?_, ?_, ?_, ?_⟩ <;> omega

theorem load_bytes_store32 (le : Bool) (x : Nat) (hx : x < U32) :
    load_bytes le (store32 le x) = x := by
  obtain ⟨a, b, c, d, ha, hb, hc, hd, rfl⟩ := bytes_decomp x hx
  obtain ⟨g1, g2, g3, g4⟩ := bytes_read a b c d ha hb hc hd
  cases le
  · simp only [store32, be32, Bool.false_eq_true, if_false, g1, g2, g3, g4]
    rw [load_bytes_four]; simp only [Bool.false_eq_true, if_false]
    omega
  · simp only [store32, if_true, g1, g2, g3, g4]
    rw [load_bytes_four]; simp only [if_true]
    omega

theorem store32_length (le : Bool) (x : Nat) : (store32 le x).length = 4 := by
  cases le <;> simp [store32, be32]

/-- The header read back from a buffer that starts with the memory image of a
header is that header. -/
theorem load_header_write (le : Bool) (buf : Nat → Nat) (h : RDMAControlHeader)
    (hw : h.wf) : load_header le (write_bytes buf 0 (header_bytes le h)) = h := by
  obtain ⟨h1, h2, h3, h4⟩ := hw
  have hlen : (header_bytes le h).length = 16 := by
    simp [header_bytes, store32_length]
  have key : ∀ off, off + 4 ≤ 16 →
      read_bytes (write_bytes buf 0 (header_bytes le h)) off 4
        = ((header_bytes le h).drop off).take 4 := by
    intro off hoff
    rw [read_bytes_four]
    have hget : ∀ i, i < 16 → write_bytes buf 0 (header_bytes le h) i
        = (header_bytes le h).getD i 0 := by
      intro i hi
      simp [write_bytes, hlen, hi]
    rw [hget off (by omega), hget (off + 1) (by omega), hget (off + 2) (by omega),
      hget (off + 3) (by omega)]
    obtain ⟨l, hl⟩ : ∃ l, header_bytes le h = l := ⟨_, rfl⟩
    rw [hl] at hlen ⊢
    match l, hlen with
    | [b0, b1, b2, b3, b4, b5, b6, b7, b8, b9, b10, b11, b12, b13, b14, b15], _ =>
      have : off = 0 ∨ off = 1 ∨ off = 2 ∨ off = 3 ∨ off = 4 ∨ off = 5 ∨ off = 6 ∨ off = 7 ∨
          off = 8 ∨ off = 9 ∨ off = 10 ∨ off = 11 ∨ off = 12 := by omega
      rcases this with h | h | h | h | h | h | h | h | h | h | h | h | h <;> subst h <;> rfl
  have e0 : ((header_bytes le h).drop 0).take 4 = store32 le h.len := by
    simp [header_bytes, List.take_append_of_le_length, store32_length]
  have e4 : ((header_bytes le h).drop 4).take 4 = store32 le h.type := by
    simp [header_bytes, List.drop_append_of_le_length, List.take_append_of_le_length,
      store32_length, List.drop_eq_nil_of_le, List.take_of_length_le]
  have e8 : ((header_bytes le h).drop 8).take 4 = store32 le h.version := by
    have : header_bytes le h = (store32 le h.len ++ store32 le h.type) ++
        (store32 le h.version ++ store32 le h.«repeat») := by simp [header_bytes]
    rw [this, List.drop_left' (by simp [store32_length]),
      List.take_left' (by simp [store32_length])]
  have e12 : ((header_bytes le h).drop 12).take 4 = store32 le h.«repeat» := by
    rw [header_bytes, List.drop_left' (by simp [store32_length])]
    exact List.take_of_length_le (by simp [store32_length])
  cases h with
  | mk len type version rep =>
    simp only at h1 h2 h3 h4 e0 e4 e8 e12
    simp only [load_header, key 0 (by omega), key 4 (by omega), key 8 (by omega),
      key 12 (by omega), e0, e4, e8, e12, load_bytes_store32, h1, h2, h3, h4]

/-- The shape of `qemu_rdma_exchange_get_response` once the wait has returned
without error: the header handed out is the one the buffer carried on the wire,
and the code follows from its version and type. -/
theorem exchange_get_response_after_wait (st st1 : St) (head0 : RDMAControlHeader)
    (expecting : Int) (idx : Nat) (ret0 : Int)
    (hwait : wait_for_wrid (RDMA_WRID_RECV_CONTROL + idx) st = some (ret0, st1))
    (hok : 0 ≤ ret0) :
    ∃ st2, qemu_rdma_exchange_get_response head0 expecting idx st =
      some ((if (be_header (st1.rdma.wr_data idx).control).version < RDMA_CONTROL_VERSION_MIN ∨
              (be_header (st1.rdma.wr_data idx).control).version > RDMA_CONTROL_VERSION_MAX
            then -1
            else if expecting ≠ (RDMA_CONTROL_NONE : Int) ∧
              (be_header (st1.rdma.wr_data idx).control).type ≠ toU32 expecting
            then -EIO_ERRNO else 0),
        be_header (st1.rdma.wr_data idx).control, st2) ∧
      st2 = { st1 with
        rdma := st1.rdma.set_wr idx
          ⟨write_bytes (st1.rdma.wr_data idx).control 0
            (header_bytes st1.le (be_header (st1.rdma.wr_data idx).control)),
           (st1.rdma.wr_data idx).control_addr, (st1.rdma.wr_data idx).control_mr,
           (st1.rdma.wr_data idx).control_len, (st1.rdma.wr_data idx).control_curr⟩ } := by
  have hnot : ¬ ret0 < 0 := by omega
  have hload : load_header st1.le
      (write_bytes (st1.rdma.wr_data idx).control 0
        (header_bytes st1.le (be_header (st1.rdma.wr_data idx).control)))
      = be_header (st1.rdma.wr_data idx).control :=
    load_header_write _ _ _ (be_header_wf _)
  refine ⟨_, ?_, rfl⟩
  simp only [qemu_rdma_exchange_get_response, hwait, hnot, if_false,
    network_to_control_load_header, RDMAContext.set_wr, Function.update_same, hload]
  split
  · rfl
  · split <;> rfl

/-- C7. Once the RECV has completed, `qemu_rdma_exchange_get_response` returns
0 exactly when the decoded version lies in `[RDMA_CONTROL_VERSION_MIN,
RDMA_CONTROL_VERSION_MAX] = [1, 1]` and (`expecting` is `RDMA_CONTROL_NONE`
or the decoded type is `expecting`, compared as `uint32_t` the way the source
compares them); a version outside the range gives -1 whatever the type, and a
valid version with a mismatching type gives `-EIO`.  The header handed to the
caller is the one the message carried on the wire. -/
theorem exchange_get_response_code (st st1 : St) (head0 : RDMAControlHeader)
    (expecting : Int) (idx : Nat) (ret0 : Int)
    (hwait : wait_for_wrid (RDMA_WRID_RECV_CONTROL + idx) st = some (ret0, st1))
    (hok : 0 ≤ ret0) :
    ∃ code h st2,
      qemu_rdma_exchange_get_response head0 expecting idx st = some (code, h, st2) ∧
      h = be_header (st1.rdma.wr_data idx).control ∧
      RDMA_CONTROL_VERSION_MIN = 1 ∧ RDMA_CONTROL_VERSION_MAX = 1 ∧
      (code = 0 ↔
        (RDMA_CONTROL_VERSION_MIN ≤ h.version ∧ h.version ≤ RDMA_CONTROL_VERSION_MAX) ∧
        (expecting = (RDMA_CONTROL_NONE : Int) ∨ h.type = toU32 expecting)) ∧
      ((h.version < RDMA_CONTROL_VERSION_MIN ∨ h.version > RDMA_CONTROL_VERSION_MAX) →
        code = -1) ∧
      (RDMA_CONTROL_VERSION_MIN ≤ h.version → h.version ≤ RDMA_CONTROL_VERSION_MAX →
        expecting ≠ (RDMA_CONTROL_NONE : Int) → h.type ≠ toU32 expecting →
        code = -EIO_ERRNO) ∧
      (0 ≤ expecting → expecting < 2147483648 →
        (h.type = toU32 expecting ↔ (h.type : Int) = expecting)) := by
  obtain ⟨st2, hres, _⟩ :=
    exchange_get_response_after_wait st st1 head0 expecting idx ret0 hwait hok
  refine ⟨_, _, st2, hres, rfl, rfl, rfl, ?_, ?_, ?_, ?_⟩
  · constructor
    · intro hcode
      split at hcode
      · exact absurd hcode (by decide)
      · rename_i hv
        split at hcode
        · exact absurd hcode (by decide)
        · rename_i ht
          refine ⟨⟨by omega, by omega⟩, ?_⟩
          by_cases he : expecting = (RDMA_CONTROL_NONE : Int)
          · exact Or.inl he
          · right; by_contra hne; exact ht ⟨he, hne⟩
    · rintro ⟨⟨hv1, hv2⟩, ht⟩
      have hv : ¬ ((be_header (st1.rdma.wr_data idx).control).version < RDMA_CONTROL_VERSION_MIN ∨
          (be_header (st1.rdma.wr_data idx).control).version > RDMA_CONTROL_VERSION_MAX) := by
        omega
      rw [if_neg hv]
      have ht' : ¬ (expecting ≠ (RDMA_CONTROL_NONE : Int) ∧
          (be_header (st1.rdma.wr_data idx).control).type ≠ toU32 expecting) := by
        rintro ⟨h1, h2⟩
        rcases ht with h | h
        · exact h1 h
        · exact h2 h
      rw [if_neg ht']
  · intro hv; rw [if_pos hv]
  · intro hv1 hv2 he ht
    have hv : ¬ ((be_header (st1.rdma.wr_data idx).control).version < RDMA_CONTROL_VERSION_MIN ∨
        (be_header (st1.rdma.wr_data idx).control).version > RDMA_CONTROL_VERSION_MAX) := by
      omega
    rw [if_neg hv, if_pos ⟨he, ht⟩]
  · intro h0 h1
    have : toU32 expecting = expecting.toNat := by
      unfold toU32 U32
      congr 1
      exact Int.emod_eq_of_lt h0 (by omega)
    rw [this]
    omega

/-- C7 at a session whose slot 0 receives a READY header `(len 0, type 1,
version 1, repeat 1)` while READY is expected: the wait returns 0 and the
exchange returns 0. -/
theorem exchange_get_response_code_witness :
    (qemu_rdma_exchange_get_response ⟨0, 0, 0, 0⟩ 1 0
      (sample_state true
        [{}, { ret := 1, wr_id := 2000,
               data := [0, 0, 0, 0, 0, 0, 0, 1, 0, 0, 0, 1, 0, 0, 0, 1] }])).map
      (fun p => (p.1, p.2.1)) = some (0, ⟨0, 1, 1, 1⟩) := by
  obtain ⟨code, h, st2, hres, hh, _, _, hiff, _, _, _⟩ :=
    exchange_get_response_code
      (sample_state true
        [{}, { ret := 1, wr_id := 2000,
               data := [0, 0, 0, 0, 0, 0, 0, 1, 0, 0, 0, 1, 0, 0, 0, 1] }])
      (((wait_for_wrid (RDMA_WRID_RECV_CONTROL + (0 : Nat))
        (sample_state true
          [{}, { ret := 1, wr_id := 2000,
                 data := [0, 0, 0, 0, 0, 0, 0, 1, 0, 0, 0, 1, 0, 0, 0, 1] }])).map
        Prod.snd).getD (sample_state true []))
      ⟨0, 0, 0, 0⟩ 1 0 0 (by rfl) (by decide)
  have hh' : h = ⟨0, 1, 1, 1⟩ := by rw [hh]; decide
  have hc : code = 0 := by
    rw [hiff, hh']; decide
  rw [hres, hc, hh']; rfl

/-! ## Zero pages and the drain -/

/-- C9. In chunk mode, for a page the zero probe reports as entirely zero,
`qemu_rdma_save_page` returns the page length; its only call outside the file
is `qemu_ftell`, so it posts no work request and polls no completion (no answer
of the library is consumed), and the whole `RDMAContext`, with the cursor
`(current_index, current_chunk, current_offset, current_length)` and the
counters `num_unsignaled_send` and `num_signaled_send`, is unchanged, as is the
directory. -/
theorem save_page_zero_page (st : St) (block_offset offset size : Nat) (va : List Nat)
    (hchunk : st.rdma.chunk_register_destination = true)
    (hzero : buffer_find_nonzero_offset va size = size) :
    ∃ st', qemu_rdma_save_page true block_offset offset size va st = some (size, st') ∧
      st'.trace = st.trace ++ [Call.qemu_ftell] ∧
      (∀ c ∈ st'.trace.drop st.trace.length, c.is_post = false ∧ c.is_pump = false) ∧
      st'.script = st.script ∧
      st'.rdma = st.rdma ∧
      st'.rdma.current_index = st.rdma.current_index ∧
      st'.rdma.current_chunk = st.rdma.current_chunk ∧
      st'.rdma.current_offset = st.rdma.current_offset ∧
      st'.rdma.current_length = st.rdma.current_length ∧
      st'.rdma.num_unsignaled_send = st.rdma.num_unsignaled_send ∧
      st'.rdma.num_signaled_send = st.rdma.num_signaled_send ∧
      st'.local_ram_blocks = st.local_ram_blocks := by
  refine ⟨log Call.qemu_ftell st, ?_, rfl, ?_, rfl, rfl, rfl, rfl, rfl, rfl, rfl, rfl, rfl⟩
  · have hc : (log Call.qemu_ftell st).rdma.chunk_register_destination = true := hchunk
    simp [qemu_rdma_save_page, hc, hzero]
  · intro c hc
    have : (log Call.qemu_ftell st).trace.drop st.trace.length = [Call.qemu_ftell] := by
      simp [log]
    rw [this] at hc
    simp only [List.mem_singleton] at hc
    subst hc
    exact ⟨rfl, rfl⟩

/-- C9 at a chunk-mode session with a pending range of 4 KiB and an all-zero
page of eight bytes. -/
theorem save_page_zero_page_witness :
    ∃ st', qemu_rdma_save_page true 0 4096 8 [0, 0, 0, 0, 0, 0, 0, 0]
        (sample_pending true 3 []) = some (8, st') ∧
      st'.trace = [Call.qemu_ftell] ∧ st'.rdma.current_length = 4096 := by
  obtain ⟨st', h1, h2, _, _, _, _, _, _, h3, _⟩ :=
    save_page_zero_page (sample_pending true 3 []) 0 4096 8 [0, 0, 0, 0, 0, 0, 0, 0]
      rfl (by decide)
  exact ⟨st', h1, h2, h3⟩

/-- The loop of `qemu_rdma_write_flush` ends with 0 or `-EIO`. -/
theorem write_flush_loop_code (flags fuel : Nat) (st st' : St) (ret : Int)
    (h : write_flush_loop flags fuel st = some (ret, st')) : ret = 0 ∨ ret = -EIO_ERRNO := by
  induction fuel generalizing st with
  | zero => simp [write_flush_loop] at h
  | succ fuel ih =>
    unfold write_flush_loop at h
    cases hw : __qemu_rdma_write st.rdma.current_index st.rdma.current_offset
        st.rdma.current_length 1 flags st with
    | none => simp [hw] at h
    | some p =>
      obtain ⟨r, st1⟩ := p
      simp only [hw] at h
      split at h
      · split at h
        · cases hwait : wait_for_wrid RDMA_WRID_RDMA_WRITE st1 with
          | none => simp [hwait] at h
          | some q =>
            obtain ⟨r1, st2⟩ := q
            simp only [hwait] at h
            split at h
            · simp only [Option.some.injEq, Prod.mk.injEq] at h
              exact Or.inr h.1.symm
            · exact ih st2 h
        · simp only [Option.some.injEq, Prod.mk.injEq] at h
          exact Or.inr h.1.symm
      · simp only [Option.some.injEq, Prod.mk.injEq] at h
        exact Or.inl h.1.symm

/-- `qemu_rdma_write_flush` returns 0 or `-EIO`, and on 0 the cursor is
empty. -/
theorem write_flush_code (st st' : St) (ret : Int)
    (h : qemu_rdma_write_flush st = some (ret, st')) :
    (ret = 0 ∨ ret = -EIO_ERRNO) ∧ (ret = 0 → st'.rdma.current_length = 0) := by
  unfold qemu_rdma_write_flush at h
  by_cases h0 : st.rdma.current_length = 0
  · simp only [h0, if_true, Option.some.injEq, Prod.mk.injEq] at h
    rw [← h.1, ← h.2]; exact ⟨Or.inl rfl, fun _ => h0⟩
  · simp only [h0, if_false] at h
    cases hloop : write_flush_loop
        (if st.rdma.num_unsignaled_send ≥ RDMA_UNSIGNALED_SEND_MAX then IBV_SEND_SIGNALED else 0)
        (st.script.length + 1) st with
    | none => simp [hloop] at h
    | some p =>
      obtain ⟨r, st1⟩ := p
      have hcode := write_flush_loop_code _ _ _ _ _ hloop
      simp only [hloop] at h
      by_cases hr : r = 0
      · simp only [hr, ne_eq, not_true_eq_false, if_false, Option.some.injEq,
          Prod.mk.injEq] at h
        rw [← h.1, ← h.2]
        exact ⟨Or.inl rfl, fun _ => rfl⟩
      · simp only [ne_eq, hr, not_false_eq_true, if_true, Option.some.injEq,
          Prod.mk.injEq] at h
        rw [← h.1]
        exact ⟨hcode, fun h0 => absurd h0 hr⟩

/-- The loop of `qemu_rdma_drain_cq` ends with 0 or `-EIO`; on 0 no signaled
send is outstanding; it only waits. -/
theorem drain_cq_loop_spec (fuel : Nat) (st st' : St) (ret : Int)
    (h : drain_cq_loop fuel st = some (ret, st')) :
    (ret = 0 ∨ ret = -EIO_ERRNO) ∧ (ret = 0 → st'.rdma.num_signaled_send = 0) ∧
      PumpFrame st st' := by
  induction fuel generalizing st with
  | zero => simp [drain_cq_loop] at h
  | succ fuel ih =>
    unfold drain_cq_loop at h
    split at h
    · rename_i h0
      simp only [Option.some.injEq, Prod.mk.injEq] at h
      rw [← h.1, ← h.2]
      exact ⟨Or.inl rfl, fun _ => h0, PumpFrame.pump_refl st⟩
    · cases hwait : wait_for_wrid RDMA_WRID_RDMA_WRITE st with
      | none => simp [hwait] at h
      | some q =>
        obtain ⟨r1, st1⟩ := q
        have hp := (wait_for_wrid_pump _ _ _ _ hwait).1
        simp only [hwait] at h
        split at h
        · simp only [Option.some.injEq, Prod.mk.injEq] at h
          rw [← h.1, ← h.2]
          exact ⟨Or.inr rfl, fun h0 => absurd h0 (by decide), hp⟩
        · obtain ⟨a, b, c⟩ := ih st1 h
          exact ⟨a, b, hp.pump_trans c⟩

/-- C10. Whenever `qemu_rdma_drain_cq` returns success (a code that is not
negative, which is then 0), `num_signaled_send = 0` and `current_length = 0`. -/
theorem drain_cq_success (st st' : St) (ret : Int)
    (h : qemu_rdma_drain_cq st = some (ret, st')) (hret : 0 ≤ ret) :
    ret = 0 ∧ st'.rdma.num_signaled_send = 0 ∧ st'.rdma.current_length = 0 := by
  unfold qemu_rdma_drain_cq at h
  cases hf : qemu_rdma_write_flush st with
  | none => simp [hf] at h
  | some p =>
    obtain ⟨r, st1⟩ := p
    obtain ⟨hcode, hlen⟩ := write_flush_code st st1 r hf
    simp only [hf] at h
    split at h
    · simp only [Option.some.injEq, Prod.mk.injEq] at h
      rw [← h.1] at hret
      exact absurd hret (by decide)
    · rename_i hr
      have hr0 : r = 0 := by
        rcases hcode with h0 | h0
        · exact h0
        · rw [h0] at hr; exact absurd hr (by decide)
      obtain ⟨a, b, c⟩ := drain_cq_loop_spec _ st1 st' ret h
      have hret0 : ret = 0 := by
        rcases a with h0 | h0
        · exact h0
        · rw [h0] at hret; exact absurd hret (by decide)
      exact ⟨hret0, b hret0, by rw [c.1.cursor.1]; exact hlen hr0⟩

/-- C10 at a whole-block session with a pending 4 KiB range and 64 unsignaled
sends: the flush registers the chunk and posts a signaled WRITE, the drain
waits for its completion and returns 0. -/
theorem drain_cq_success_witness :
    (qemu_rdma_drain_cq (sample_pending false 64
        [{ id := some 9, lkey := 11, rkey := 12 }, {}, {}, { ret := 1, wr_id := 1 }])).map
      (fun p => (p.1, p.2.rdma.num_signaled_send, p.2.rdma.current_length,
        p.2.rdma.num_unsignaled_send))
      = some (0, 0, 0, 0) := by
  have hmap : (qemu_rdma_drain_cq (sample_pending false 64
      [{ id := some 9, lkey := 11, rkey := 12 }, {}, {}, { ret := 1, wr_id := 1 }])).map
      (fun p => (p.1, p.2.rdma.num_unsignaled_send)) = some (0, 0) := by decide
  cases h : qemu_rdma_drain_cq (sample_pending false 64
      [{ id := some 9, lkey := 11, rkey := 12 }, {}, {}, { ret := 1, wr_id := 1 }]) with
  | none => rw [h] at hmap; simp at hmap
  | some p =>
    obtain ⟨ret, st'⟩ := p
    rw [h] at hmap
    simp only [Option.map_some', Option.some.injEq, Prod.mk.injEq] at hmap
    obtain ⟨h1, h2, h3⟩ := drain_cq_success _ st' ret h (by omega)
    simp only [Option.map_some', h1, h2, h3, hmap.2]

/-! ## Byte stream: frames of `qemu_rdma_put_buffer` -/

theorem control_sends_append (a b : List Call) :
    control_sends (a ++ b) = control_sends a ++ control_sends b := by
  simp [control_sends, List.filterMap_append]

theorem control_msg_pump (c : Call) (h : c.is_pump = true) : c.control_msg = none := by
  cases c <;> simp [Call.is_pump] at h <;> rfl

theorem control_sends_pump (ext : List Call) (h : ext.all Call.is_pump = true) :
    control_sends ext = [] := by
  rw [List.all_eq_true] at h
  simp only [control_sends, List.filterMap_eq_nil_iff]
  intro c hc
  exact control_msg_pump c (h c hc)

/-- A buffer that holds a 16-byte header followed by a payload reads back as
their concatenation. -/
theorem read_bytes_frame (c : Nat → Nat) (hdr p : List Nat) (hh : hdr.length = 16) :
    read_bytes (write_bytes (write_bytes c 0 hdr) 16 p) 0 (16 + p.length) = hdr ++ p := by
  apply List.ext_getElem
  · simp [read_bytes, hh]
  · intro i h1 h2
    simp only [read_bytes, List.getElem_map, List.getElem_range, Nat.zero_add]
    by_cases hi : i < 16
    · have : ¬ (16 ≤ i ∧ i < 16 + p.length) := by omega
      simp only [write_bytes, this, if_false, Nat.zero_le, true_and, Nat.zero_add, hh, hi,
        if_true, Nat.sub_zero]
      rw [List.getElem_append_left (by omega)]
      simp [List.getD_eq_getElem?_getD, List.getElem?_eq_getElem (show i < hdr.length by omega)]
    · have hlen : i < 16 + p.length := by simpa [read_bytes] using h1
      have : 16 ≤ i ∧ i < 16 + p.length := ⟨by omega, hlen⟩
      simp only [write_bytes, this, and_self, if_true]
      rw [List.getElem_append_right (by omega)]
      simp [List.getD_eq_getElem?_getD, hh,
        List.getElem?_eq_getElem (show i - 16 < p.length by omega)]

theorem post_recv_control_sends (idx : Nat) (st st' : St) (ret : Int)
    (h : qemu_rdma_post_recv_control idx st = some (ret, st')) :
    ∃ ext, st'.trace = st.trace ++ ext ∧ control_sends ext = [] ∧ st'.le = st.le := by
  unfold qemu_rdma_post_recv_control at h
  cases hmr : (st.rdma.wr_data idx).control_mr with
  | none => simp [hmr] at h
  | some mr =>
    simp only [hmr] at h
    cases hc : call (Call.ibv_post_recv (2000 + idx)
        { addr := (st.rdma.wr_data idx).control_addr, length := RDMA_CONTROL_MAX_BUFFER,
          lkey := mr.lkey }) st with
    | none => simp [hc] at h
    | some p =>
      obtain ⟨r, st1⟩ := p
      obtain ⟨hf, ht, _, _⟩ := call_frame _ _ _ _ hc
      simp only [hc] at h
      have hst : st' = st1 := by
        split at h <;> simp only [Option.some.injEq, Prod.mk.injEq] at h <;> exact h.2.symm
      rw [hst]
      exact ⟨_, ht, rfl, hf.cursor.2.2.2.2.2.2.2⟩

theorem exchange_get_response_sends (head : RDMAControlHeader) (expecting : Int) (idx : Nat)
    (st st' : St) (ret : Int) (h1 : RDMAControlHeader)
    (h : qemu_rdma_exchange_get_response head expecting idx st = some (ret, h1, st')) :
    ∃ ext, st'.trace = st.trace ++ ext ∧ control_sends ext = [] ∧ st'.le = st.le := by
  unfold qemu_rdma_exchange_get_response at h
  cases hw : wait_for_wrid (RDMA_WRID_RECV_CONTROL + idx) st with
  | none => simp [hw] at h
  | some p =>
    obtain ⟨r, st1⟩ := p
    obtain ⟨⟨hf, _, ext, ht, hp⟩, _⟩ := wait_for_wrid_pump _ _ _ _ hw
    simp only [hw] at h
    have hle := hf.cursor.2.2.2.2.2.2.2
    split at h
    · simp only [Option.some.injEq, Prod.mk.injEq] at h
      rw [← h.2.2]; exact ⟨ext, ht, control_sends_pump ext hp, hle⟩
    · have hst : st'.trace = st1.trace ∧ st'.le = st1.le := by
        split at h
        · simp only [Option.some.injEq, Prod.mk.injEq] at h
          rw [← h.2.2]; exact ⟨rfl, rfl⟩
        · split at h <;> simp only [Option.some.injEq, Prod.mk.injEq] at h <;>
            (rw [← h.2.2]; exact ⟨rfl, rfl⟩)
      exact ⟨ext, hst.1.trans ht, control_sends_pump ext hp, hst.2.trans hle⟩

/-- A successful `qemu_rdma_post_send_control` posts exactly one control SEND:
the header in network order followed by the first `head.len` bytes of the
payload. -/
theorem post_send_control_sends (buf : List Nat) (head : RDMAControlHeader) (st st' : St)
    (ret : Int) (hw : head.wf) (hlen : head.len + 16 < U32)
    (h : qemu_rdma_post_send_control (some buf) head st = some (ret, st'))
    (hret : 0 ≤ ret) :
    head.len ≤ buf.length ∧
    ∃ ext, st'.trace = st.trace ++ ext ∧
      control_sends ext = [be32 head.len ++ be32 head.type ++ be32 head.version ++
        be32 head.«repeat» ++ buf.take head.len] ∧ st'.le = st.le := by
  unfold qemu_rdma_post_send_control at h
  cases hmr : (st.rdma.wr_data RDMA_CONTROL_MAX_WR).control_mr with
  | none => simp [hmr] at h
  | some mr =>
    simp only [hmr] at h
    split at h
    · simp only [Option.some.injEq, Prod.mk.injEq] at h
      rw [← h.1] at hret; exact absurd hret (by decide)
    · by_cases hb : buf.length < head.len
      · simp [hb] at h
      · simp only [hb, if_false] at h
        split at h
        · exact absurd h (by simp)
        · rename_i r st2 hc
          obtain ⟨hf, ht, _, _⟩ := call_frame _ _ _ _ hc
          split at h
          · simp only [Option.some.injEq, Prod.mk.injEq] at h
            rw [← h.1] at hret; exact absurd hret (by decide)
          · obtain ⟨⟨hf2, _, ext, ht2, hp⟩, _⟩ := wait_for_wrid_pump _ _ _ _ h
            refine ⟨by omega, _, by rw [ht2, ht, List.append_assoc], ?_, ?_⟩
            · rw [control_sends_append, control_sends_pump ext hp, List.append_nil]
              have hl : (head.len + RDMAControlHeaderSize) % U32
                  = 16 + (buf.take head.len).length := by
                rw [List.length_take, Nat.min_eq_left (by omega),
                  Nat.mod_eq_of_lt (by unfold RDMAControlHeaderSize; omega)]
                unfold RDMAControlHeaderSize; omega
              have hh := (header_network_bytes st.le head hw).1
              have hh16 : (header_bytes st.le (control_to_network st.le head)).length = 16 :=
                (header_network_bytes st.le head hw).2.1
              simp only [control_sends, List.filterMap_cons, List.filterMap_nil,
                Call.control_msg, if_true, hl]
              rw [show RDMAControlHeaderSize = 16 from rfl, read_bytes_frame _ _ _ hh16, hh]
            · have h1 := hf2.cursor.2.2.2.2.2.2.2
              have h2 := hf.cursor.2.2.2.2.2.2.2
              rw [h1, h2]

/-- A successful `qemu_rdma_exchange_send` without response posts exactly one
control SEND, the frame of `head` and `data`. -/
theorem exchange_send_sends (data : List Nat) (head : RDMAControlHeader) (st st' : St)
    (ret : Int) (resp' : Option (RDMAControlHeader × Int)) (hw : head.wf)
    (hlen : head.len + 16 < U32)
    (h : qemu_rdma_exchange_send head (some data) none st = some (ret, resp', st'))
    (hret : 0 ≤ ret) :
    head.len ≤ data.length ∧
    ∃ ext, st'.trace = st.trace ++ ext ∧
      control_sends ext = [be32 head.len ++ be32 head.type ++ be32 head.version ++
        be32 head.«repeat» ++ data.take head.len] ∧ st'.le = st.le := by
  unfold qemu_rdma_exchange_send at h
  -- the wait for READY
  obtain ⟨ret0, st1, hready, h⟩ : ∃ ret0 st1,
      (∃ ext, st1.trace = st.trace ++ ext ∧ control_sends ext = [] ∧ st1.le = st.le) ∧
      (if ret0 < 0 then some (ret0, (none : Option (RDMAControlHeader × Int)), st1)
       else
        match qemu_rdma_post_recv_control 0 st1 with
        | none => none
        | some (ret2, st3) =>
          if ret2 ≠ 0 then some (ret2, none, st3)
          else
            match qemu_rdma_post_send_control (some data) head st3 with
            | none => none
            | some (ret3, st4) =>
              if ret3 < 0 then some (ret3, none, st4)
              else some (0, none,
                { st4 with rdma := { st4.rdma with control_ready_expected := 1 } }))
        = some (ret, resp', st') := by
    dsimp only at h
    by_cases hr : st.rdma.control_ready_expected ≠ 0
    · rw [if_pos hr] at h
      cases hg : qemu_rdma_exchange_get_response ⟨0, 0, 0, 0⟩ RDMA_CONTROL_READY 0 st with
      | none => rw [hg] at h; exact absurd h (by simp)
      | some p =>
        obtain ⟨r0, h0, s1⟩ := p
        rw [hg] at h
        exact ⟨r0, s1, exchange_get_response_sends _ _ _ _ _ _ _ hg, h⟩
    · rw [if_neg hr] at h
      exact ⟨0, st, ⟨[], by simp, rfl, rfl⟩, h⟩
  obtain ⟨e1, t1, c1, l1⟩ := hready
  split at h
  · rename_i hneg
    simp only [Option.some.injEq, Prod.mk.injEq] at h
    rw [← h.1] at hret; omega
  · cases hp : qemu_rdma_post_recv_control 0 st1 with
    | none => simp [hp] at h
    | some p =>
      obtain ⟨ret2, st3⟩ := p
      obtain ⟨e2, t2, c2, l2⟩ := post_recv_control_sends _ _ _ _ hp
      simp only [hp] at h
      split at h
      · -- post_recv_control returns 0 or -1
        rename_i hne
        simp only [Option.some.injEq, Prod.mk.injEq] at h
        exfalso
        have : ret2 = 0 ∨ ret2 = -1 := by
          unfold qemu_rdma_post_recv_control at hp
          cases hmr : (st1.rdma.wr_data 0).control_mr with
          | none => simp [hmr] at hp
          | some mr =>
            simp only [hmr] at hp
            split at hp
            · exact absurd hp (by simp)
            · split at hp <;> simp only [Option.some.injEq, Prod.mk.injEq] at hp
              · exact Or.inr hp.1.symm
              · exact Or.inl hp.1.symm
        rcases this with h0 | h0
        · exact hne h0
        · rw [← h.1, h0] at hret; exact absurd hret (by decide)
      · cases hs : qemu_rdma_post_send_control (some data) head st3 with
        | none => simp [hs] at h
        | some q =>
          obtain ⟨ret3, st4⟩ := q
          simp only [hs] at h
          split at h
          · rename_i hneg
            simp only [Option.some.injEq, Prod.mk.injEq] at h
            rw [← h.1] at hret; omega
          · rename_i hge
            obtain ⟨hle, e3, t3, c3, l3⟩ :=
              post_send_control_sends data head st3 st4 ret3 hw hlen hs (by omega)
            simp only [Option.some.injEq, Prod.mk.injEq] at h
            refine ⟨hle, e1 ++ e2 ++ e3, ?_, ?_, ?_⟩
            · rw [← h.2.2]
              show st4.trace = _
              rw [t3, t2, t1]; simp [List.append_assoc]
            · rw [control_sends_append, control_sends_append, c1, c2, c3]; rfl
            · rw [← h.2.2]
              show st4.le = _
              rw [l3, l2, l1]

/-- The frames the loop of `qemu_rdma_put_buffer` sends when it ends without
error: the data cut into payloads of at most `RDMA_SEND_INCREMENT` bytes, each
behind a `QEMU_FILE` header of the current version. -/
theorem put_buffer_loop_frames (garbage : Nat) (hg : garbage < U32) (fuel : Nat)
    (data : List Nat) (st st' : St) (ret : Int) (hsize : data.length < 2147483648)
    (h : put_buffer_loop garbage fuel data.length data st = some (ret, st'))
    (hret : 0 ≤ ret) :
    ret = 0 ∧ ∃ ext, st'.trace = st.trace ++ ext ∧
      ∃ payloads : List (List Nat),
        control_sends ext = payloads.map (fun p =>
          be32 p.length ++ be32 RDMA_CONTROL_QEMU_FILE ++ be32 RDMA_CONTROL_CURRENT_VERSION ++
            be32 garbage ++ p) ∧
        payloads.flatten = data ∧
        (∀ p ∈ payloads, 1 ≤ p.length ∧ p.length ≤ RDMA_SEND_INCREMENT) ∧
        payloads.length = (data.length + 32767) / 32768 := by
  induction fuel generalizing data st with
  | zero => simp [put_buffer_loop] at h
  | succ fuel ih =>
    unfold put_buffer_loop at h
    by_cases h0 : data.length = 0
    · simp only [h0, if_true, Option.some.injEq, Prod.mk.injEq] at h
      have hd : data = [] := List.length_eq_zero.mp h0
      refine ⟨h.1.symm, [], by rw [← h.2]; simp, [], by simp [control_sends], ?_, ?_, ?_⟩
      · rw [hd]; rfl
      · intro p hp; cases hp
      · rw [h0]; rfl
    · simp only [h0, if_false] at h
      have hmin : min data.length RDMA_SEND_INCREMENT ≤ data.length := Nat.min_le_left _ _
      have hmin2 : min data.length RDMA_SEND_INCREMENT ≤ 32768 := Nat.min_le_right _ _
      have hmin1 : 1 ≤ min data.length RDMA_SEND_INCREMENT := by
        unfold RDMA_SEND_INCREMENT; omega
      have hmod : min data.length RDMA_SEND_INCREMENT % U32
          = min data.length RDMA_SEND_INCREMENT :=
        Nat.mod_eq_of_lt (by unfold U32; omega)
      rw [hmod] at h
      cases hx : qemu_rdma_exchange_send
          { len := min data.length RDMA_SEND_INCREMENT, type := RDMA_CONTROL_QEMU_FILE,
            version := RDMA_CONTROL_CURRENT_VERSION, «repeat» := garbage }
          (some data) none
          { st with file_len := min data.length RDMA_SEND_INCREMENT } with
      | none => rw [hx] at h; exact absurd h (by simp)
      | some q =>
        obtain ⟨r1, resp1, st2⟩ := q
        rw [hx] at h
        simp only at h
        split at h
        · simp only [Option.some.injEq, Prod.mk.injEq] at h
          rw [← h.1] at hret; omega
        · rename_i hge
          have hwf : RDMAControlHeader.wf
              { len := min data.length RDMA_SEND_INCREMENT, type := RDMA_CONTROL_QEMU_FILE,
                version := RDMA_CONTROL_CURRENT_VERSION, «repeat» := garbage } := by
            refine ⟨?_, ?_, ?_, hg⟩
            · show min data.length RDMA_SEND_INCREMENT < U32
              unfold U32; omega
            · show RDMA_CONTROL_QEMU_FILE < U32
              decide
            · show RDMA_CONTROL_CURRENT_VERSION < U32
              decide
          obtain ⟨_, e1, t1, c1, _⟩ := exchange_send_sends data _ _ st2 r1 resp1 hwf
            (by show min data.length RDMA_SEND_INCREMENT + 16 < U32; unfold U32; omega)
            hx (by omega)
          have hdrop : (data.drop (min data.length RDMA_SEND_INCREMENT)).length
              = data.length - min data.length RDMA_SEND_INCREMENT := List.length_drop _ _
          rw [← hdrop] at h
          obtain ⟨hr0, e2, t2, ps, c2, j2, b2, n2⟩ :=
            ih (data.drop (min data.length RDMA_SEND_INCREMENT)) st2 (by omega) h
          have htake : (data.take (min data.length RDMA_SEND_INCREMENT)).length
              = min data.length RDMA_SEND_INCREMENT := by
            rw [List.length_take]; omega
          refine ⟨hr0, e1 ++ e2, ?_, data.take (min data.length RDMA_SEND_INCREMENT) :: ps,
            ?_, ?_, ?_, ?_⟩
          · rw [t2, t1]; simp [List.append_assoc]
          · rw [control_sends_append, c1, c2]
            simp only [List.map_cons, htake, List.singleton_append]
          · simp only [List.flatten_cons, j2, List.take_append_drop]
          · intro p hp
            rcases List.mem_cons.mp hp with rfl | hp
            · rw [htake]; exact ⟨hmin1, hmin2⟩
            · exact b2 p hp
          · simp only [List.length_cons, n2, hdrop]
            have hinc : RDMA_SEND_INCREMENT = 32768 := rfl
            rw [hinc]
            rcases Nat.le_total data.length 32768 with hle | hle
            · rw [Nat.min_eq_left hle]; omega
            · rw [Nat.min_eq_right hle]; omega

/-- C8. When `qemu_rdma_put_buffer` on a buffer of `n` bytes returns without
error (the flush and every control exchange succeeded), it returns `n`; the
pending range was flushed first (the flush returned 0 and left
`current_length = 0`), and the control SENDs posted after the flush are
exactly `ceil(n / 32768)` frames, each a `QEMU_FILE` header of version 1 with
`1 ≤ len ≤ RDMA_SEND_INCREMENT` followed by `len` bytes of payload, whose
payloads concatenated in send order are the buffer.  The field `repeat` of the
header is whatever the stack held (`garbage`). -/
theorem put_buffer_frames (garbage : Nat) (hg : garbage < U32) (buf : List Nat)
    (st st' : St) (ret : Int) (hint : buf.length < 2147483648)
    (h : qemu_rdma_put_buffer garbage buf buf.length st = some (ret, st'))
    (hret : 0 ≤ ret) :
    ret = buf.length ∧
    ∃ st1, qemu_rdma_write_flush st = some (0, st1) ∧ st1.rdma.current_length = 0 ∧
      ∃ ext, st'.trace = st1.trace ++ ext ∧
        ∃ payloads : List (List Nat),
          control_sends ext = payloads.map (fun p =>
            be32 p.length ++ be32 RDMA_CONTROL_QEMU_FILE ++
              be32 RDMA_CONTROL_CURRENT_VERSION ++ be32 garbage ++ p) ∧
          payloads.flatten = buf ∧
          (∀ p ∈ payloads, 1 ≤ p.length ∧ p.length ≤ RDMA_SEND_INCREMENT) ∧
          payloads.length = (buf.length + 32767) / 32768 ∧
          RDMA_SEND_INCREMENT = 32768 ∧ RDMA_CONTROL_CURRENT_VERSION = 1 := by
  unfold qemu_rdma_put_buffer at h
  cases hf : qemu_rdma_write_flush st with
  | none => rw [hf] at h; exact absurd h (by simp)
  | some p =>
    obtain ⟨r, st1⟩ := p
    obtain ⟨hcode, hlen⟩ := write_flush_code st st1 r hf
    rw [hf] at h
    simp only at h
    split at h
    · simp only [Option.some.injEq, Prod.mk.injEq] at h
      rw [← h.1] at hret; exact absurd hret (by decide)
    · rename_i hr
      have hr0 : r = 0 := by
        rcases hcode with h0 | h0
        · exact h0
        · rw [h0] at hr; exact absurd hr (by decide)
      subst hr0
      have hu : toU64 (buf.length : Int) = buf.length := by
        unfold toU64 U64
        rw [Int.emod_eq_of_lt (by omega) (by omega)]
        simp
      rw [hu] at h
      cases hl : put_buffer_loop garbage (st1.script.length + 1) buf.length buf st1 with
      | none => rw [hl] at h; exact absurd h (by simp)
      | some q =>
        obtain ⟨r1, st2⟩ := q
        rw [hl] at h
        simp only at h
        split at h
        · simp only [Option.some.injEq, Prod.mk.injEq] at h
          rw [← h.1] at hret; omega
        · simp only [Option.some.injEq, Prod.mk.injEq] at h
          obtain ⟨_, ext, t, ps, c, j, b, n⟩ :=
            put_buffer_loop_frames garbage hg _ buf st1 st2 r1 hint hl (by omega)
          refine ⟨h.1.symm, st1, rfl, hlen rfl, ext, by rw [← h.2]; exact t, ps, c, j, b, n,
            rfl, rfl⟩

/-- C8 at a three-byte buffer on the sample session (no pending range, no
READY expected): one frame with `len = 3` carries the buffer and the call
returns 3. -/
theorem put_buffer_frames_witness :
    (qemu_rdma_put_buffer 7 [1, 2, 3] 3
        (sample_state false [{}, {}, {}, { ret := 1, wr_id := 1000 }])).map Prod.fst
      = some 3 ∧
    ∃ payloads : List (List Nat),
      control_sends (((qemu_rdma_put_buffer 7 [1, 2, 3] 3
          (sample_state false [{}, {}, {}, { ret := 1, wr_id := 1000 }])).map Prod.snd).getD
          (sample_state false [])).trace
        = payloads.map (fun p =>
          be32 p.length ++ be32 RDMA_CONTROL_QEMU_FILE ++
            be32 RDMA_CONTROL_CURRENT_VERSION ++ be32 7 ++ p) ∧
      payloads.flatten = [1, 2, 3] ∧ payloads.length = 1 := by
  obtain ⟨_, st1, hf, _, ext, ht, ps, c, j, _, n, _⟩ :=
    put_buffer_frames 7 (by decide) [1, 2, 3]
      (sample_state false [{}, {}, {}, { ret := 1, wr_id := 1000 }])
      (((qemu_rdma_put_buffer 7 [1, 2, 3] 3
          (sample_state false [{}, {}, {}, { ret := 1, wr_id := 1000 }])).map Prod.snd).getD
          (sample_state false []))
      3 (by decide) (by rfl) (by decide)
  have h1 : qemu_rdma_write_flush
      (sample_state false [{}, {}, {}, { ret := 1, wr_id := 1000 }])
      = some (0, sample_state false [{}, {}, {}, { ret := 1, wr_id := 1000 }]) := rfl
  rw [h1] at hf
  simp only [Option.some.injEq, Prod.mk.injEq, true_and] at hf
  subst hf
  refine ⟨by decide, ps, ?_, j, n⟩
  rw [ht, ← c]
  rfl

/-! ## Capability negotiation: what keeps the mode -/

theorem ModeFrame.mode_refl (st : St) : ModeFrame st st := ⟨rfl, rfl, [], by simp, rfl⟩

theorem ModeFrame.mode_trans {a b c : St} (h1 : ModeFrame a b) (h2 : ModeFrame b c) :
    ModeFrame a c := by
  obtain ⟨m1, l1, e1, t1, p1⟩ := h1
  obtain ⟨m2, l2, e2, t2, p2⟩ := h2
  refine ⟨m2.trans m1, l2.trans l1, e1 ++ e2, by rw [t2, t1, List.append_assoc], ?_⟩
  rw [List.all_append, p1, p2]; rfl

/-- A state that differs in neither mode, byte order nor trace. -/
theorem ModeFrame.of_eq {a b : St}
    (h1 : b.rdma.chunk_register_destination = a.rdma.chunk_register_destination)
    (h2 : b.le = a.le) (h3 : b.trace = a.trace) : ModeFrame a b :=
  ⟨h1, h2, [], by simp [h3], rfl⟩

theorem call_mode (c : Call) (hc : c.is_handshake = false) (st st' : St) (r : Resp)
    (h : call c st = some (r, st')) : ModeFrame st st' := by
  obtain ⟨hf, ht, hr, _⟩ := call_frame c st st' r h
  exact ⟨by rw [hr], hf.cursor.2.2.2.2.2.2.2, [c], ht, by simp [hc]⟩

theorem call_mode_of {c : Call} {st st' : St} {r : Resp}
    (h : call c st = some (r, st')) (hc : c.is_handshake = false) : ModeFrame st st' :=
  call_mode c hc st st' r h

theorem log_mode (c : Call) (hc : c.is_handshake = false) (st : St) :
    ModeFrame st (log c st) :=
  ⟨rfl, rfl, [c], rfl, by simp [hc]⟩

theorem PumpFrame.mode {a b : St} (h : PumpFrame a b) : ModeFrame a b := by
  obtain ⟨hf, _, ext, ht, hp⟩ := h
  refine ⟨hf.cursor.2.2.2.2.2.1, hf.cursor.2.2.2.2.2.2.2, ext, ht, ?_⟩
  rw [List.all_eq_true] at hp ⊢
  intro c hc
  have := hp c hc
  cases c <;> simp [Call.is_pump] at this <;> rfl

theorem release_mode (h : Option Nat) (c : Nat → Call)
    (hc : ∀ x, (c x).is_handshake = false) (st : St) : ModeFrame st (release h c st) := by
  unfold release
  cases h with
  | none => exact ModeFrame.mode_refl st
  | some x => exact log_mode _ (hc x) st

theorem post_recv_control_mode (idx : Nat) (st st' : St) (ret : Int)
    (h : qemu_rdma_post_recv_control idx st = some (ret, st')) : ModeFrame st st' := by
  unfold qemu_rdma_post_recv_control at h
  cases hmr : (st.rdma.wr_data idx).control_mr with
  | none => simp [hmr] at h
  | some mr =>
    simp only [hmr] at h
    split at h
    · exact absurd h (by simp)
    · rename_i r st1 hc
      have hm : ModeFrame st st1 := by
        refine call_mode _ ?_ _ _ _ hc
        rfl
      have hst : st' = st1 := by
        split at h <;> simp only [Option.some.injEq, Prod.mk.injEq] at h <;> exact h.2.symm
      rw [hst]; exact hm

theorem exchange_get_response_mode (head : RDMAControlHeader) (expecting : Int) (idx : Nat)
    (st st' : St) (ret : Int) (h1 : RDMAControlHeader)
    (h : qemu_rdma_exchange_get_response head expecting idx st = some (ret, h1, st')) :
    ModeFrame st st' := by
  unfold qemu_rdma_exchange_get_response at h
  cases hw : wait_for_wrid (RDMA_WRID_RECV_CONTROL + idx) st with
  | none => simp [hw] at h
  | some p =>
    obtain ⟨r, st1⟩ := p
    have hm := (wait_for_wrid_pump _ _ _ _ hw).1.mode
    simp only [hw] at h
    split at h
    · simp only [Option.some.injEq, Prod.mk.injEq] at h
      rw [← h.2.2]; exact hm
    · refine hm.mode_trans ?_
      split at h
      · simp only [Option.some.injEq, Prod.mk.injEq] at h
        rw [← h.2.2]; exact ModeFrame.of_eq rfl rfl rfl
      · split at h <;> simp only [Option.some.injEq, Prod.mk.injEq] at h <;>
          (rw [← h.2.2]; exact ModeFrame.of_eq rfl rfl rfl)

theorem post_send_control_mode (buf : Option (List Nat)) (head : RDMAControlHeader)
    (st st' : St) (ret : Int)
    (h : qemu_rdma_post_send_control buf head st = some (ret, st')) : ModeFrame st st' := by
  unfold qemu_rdma_post_send_control at h
  cases hmr : (st.rdma.wr_data RDMA_CONTROL_MAX_WR).control_mr with
  | none => simp [hmr] at h
  | some mr =>
    simp only [hmr] at h
    split at h
    · simp only [Option.some.injEq, Prod.mk.injEq] at h
      rw [← h.2]; exact ModeFrame.mode_refl st
    · split at h
      · exact absurd h (by simp)
      · rename_i c2 hc2
        split at h
        · exact absurd h (by simp)
        · rename_i r st2 hc
          have hm1 := call_mode_of hc rfl
          have hm : ModeFrame st st2 := (ModeFrame.of_eq rfl rfl rfl).mode_trans hm1
          split at h
          · simp only [Option.some.injEq, Prod.mk.injEq] at h
            rw [← h.2]; exact hm
          · exact hm.mode_trans (wait_for_wrid_pump _ _ _ _ h).1.mode

theorem dereg_control_mode (idx : Nat) (st st' : St)
    (h : qemu_rdma_dereg_control idx st = some st') : ModeFrame st st' := by
  unfold qemu_rdma_dereg_control at h
  split at h
  · exact absurd h (by simp)
  · simp only [Option.some.injEq] at h
    rw [← h]; exact log_mode _ (by rfl) st

theorem dereg_chunks_mode (pmr : List (Option ibv_mr)) :
    ∀ (n j : Nat) (st st' : St), dereg_chunks pmr n j st = some st' → ModeFrame st st' := by
  intro n
  induction n with
  | zero =>
    intro j st st' h
    simp only [dereg_chunks, Option.some.injEq] at h
    rw [← h]; exact ModeFrame.mode_refl st
  | succ n ih =>
    intro j st st' h
    unfold dereg_chunks at h
    split at h
    · exact absurd h (by simp)
    · exact ih _ _ _ h
    · exact (log_mode _ (by rfl) st).mode_trans (ih _ _ _ h)

theorem dereg_ram_blocks_pmr_mode :
    ∀ (bs : List RDMALocalBlock) (i : Nat) (st : St) (bs' : List RDMALocalBlock) (st' : St),
      dereg_ram_blocks_pmr bs i st = some (bs', st') → ModeFrame st st' := by
  intro bs
  induction bs with
  | nil =>
    intro i st bs' st' h
    simp only [dereg_ram_blocks_pmr, Option.some.injEq, Prod.mk.injEq] at h
    rw [← h.2]; exact ModeFrame.mode_refl st
  | cons b bs ih =>
    intro i st bs' st' h
    unfold dereg_ram_blocks_pmr at h
    split at h
    · split at h
      · exact absurd h (by simp)
      · rename_i bs1 st1 hr
        simp only [Option.some.injEq, Prod.mk.injEq] at h
        rw [← h.2]; exact ih _ _ _ _ hr
    · split at h
      · exact absurd h (by simp)
      · rename_i st1 hd
        split at h
        · exact absurd h (by simp)
        · rename_i bs1 st2 hr
          simp only [Option.some.injEq, Prod.mk.injEq] at h
          rw [← h.2]
          exact ((dereg_chunks_mode _ _ _ _ _ hd).mode_trans (log_mode _ (by rfl) st1)).mode_trans
            (ih _ _ _ _ hr)

theorem dereg_ram_blocks_mr_mode :
    ∀ (bs : List RDMALocalBlock) (st : St), ModeFrame st (dereg_ram_blocks_mr bs st).2 := by
  intro bs
  induction bs with
  | nil => intro st; exact ModeFrame.mode_refl st
  | cons b bs ih =>
    intro st
    unfold dereg_ram_blocks_mr
    split
    · exact ih st
    · exact (log_mode _ (by rfl) st).mode_trans (ih _)

theorem dereg_ram_blocks_mode (st st' : St)
    (h : qemu_rdma_dereg_ram_blocks st = some st') : ModeFrame st st' := by
  unfold qemu_rdma_dereg_ram_blocks at h
  split at h
  · exact absurd h (by simp)
  · rename_i bs1 st1 hp
    simp only [Option.some.injEq] at h
    rw [← h]
    exact ((dereg_ram_blocks_pmr_mode _ _ _ _ _ hp).mode_trans
      (dereg_ram_blocks_mr_mode bs1 st1)).mode_trans (ModeFrame.of_eq rfl rfl rfl)

theorem cleanup_control_mode :
    ∀ (n idx : Nat) (st st' : St), cleanup_control n idx st = some st' → ModeFrame st st' := by
  intro n
  induction n with
  | zero =>
    intro idx st st' h
    simp only [cleanup_control, Option.some.injEq] at h
    rw [← h]; exact ModeFrame.mode_refl st
  | succ n ih =>
    intro idx st st' h
    unfold cleanup_control at h
    cases hcm : (st.rdma.wr_data idx).control_mr with
    | none =>
      simp only [hcm] at h
      refine ModeFrame.mode_trans ?_ (ih _ _ _ h)
      exact ModeFrame.of_eq rfl rfl rfl
    | some mr =>
      simp only [hcm] at h
      cases hd : qemu_rdma_dereg_control idx st with
      | none => simp [hd] at h
      | some st1 =>
        simp only [hd] at h
        refine ModeFrame.mode_trans ?_ (ih _ _ _ h)
        exact (dereg_control_mode _ _ _ hd).mode_trans (ModeFrame.of_eq rfl rfl rfl)

theorem cleanup_remote_keys_mode :
    ∀ (bs : List RDMALocalBlock) (idx : Nat) (st : St),
      ModeFrame st (cleanup_remote_keys bs idx st) := by
  intro bs
  induction bs with
  | nil => intro idx st; exact ModeFrame.mode_refl st
  | cons b bs ih =>
    intro idx st
    unfold cleanup_remote_keys
    split
    · exact (log_mode _ (by rfl) st).mode_trans (ih _ _)
    · exact ih _ _

theorem cleanup_disconnect_mode (st st' : St) (h : cleanup_disconnect st = some st') :
    ModeFrame st st' := by
  unfold cleanup_disconnect at h
  split at h
  · simp only [Option.some.injEq] at h
    rw [← h]; exact ModeFrame.mode_refl st
  · split at h
    · exact absurd h (by simp)
    · rename_i r sa hc
      have ha := call_mode_of hc rfl
      split at h
      · split at h
        · exact absurd h (by simp)
        · rename_i e sb hc2
          have hb := call_mode_of hc2 rfl
          split at h <;> simp only [Option.some.injEq] at h <;> rw [← h]
          · exact (ha.mode_trans hb).mode_trans (log_mode _ (by rfl) sb)
          · exact ha.mode_trans hb
      · simp only [Option.some.injEq] at h
        rw [← h]; exact ha

theorem cleanup_blocks_mode (st : St) : ModeFrame st (cleanup_blocks st) := by
  unfold cleanup_blocks
  split
  · refine ModeFrame.mode_trans ?_ (log_mode _ (by rfl) _)
    split
    · exact cleanup_remote_keys_mode _ _ _
    · exact ModeFrame.mode_refl _
  · exact ModeFrame.mode_refl _

theorem cleanup_handles_mode (st : St) : ModeFrame st (cleanup_handles st) := by
  dsimp only [cleanup_handles]
  have h6 := release_mode st.rdma.qp Call.ibv_destroy_qp (fun _ => rfl) st
  generalize release st.rdma.qp Call.ibv_destroy_qp st = st6 at h6 ⊢
  have h7 := release_mode st6.rdma.cq Call.ibv_destroy_cq (fun _ => rfl) st6
  generalize release st6.rdma.cq Call.ibv_destroy_cq st6 = st7 at h7 ⊢
  have h8 := release_mode st7.rdma.comp_channel Call.ibv_destroy_comp_channel (fun _ => rfl) st7
  generalize release st7.rdma.comp_channel Call.ibv_destroy_comp_channel st7 = st8 at h8 ⊢
  have h9 := release_mode st8.rdma.pd Call.ibv_dealloc_pd (fun _ => rfl) st8
  generalize release st8.rdma.pd Call.ibv_dealloc_pd st8 = st9 at h9 ⊢
  have h10 := release_mode st9.rdma.listen_id Call.rdma_destroy_id (fun _ => rfl) st9
  generalize release st9.rdma.listen_id Call.rdma_destroy_id st9 = st10 at h10 ⊢
  have h := (((h6.mode_trans h7).mode_trans h8).mode_trans h9).mode_trans h10
  refine ModeFrame.mode_trans (h.mode_trans ?_) (release_mode _ _ (fun _ => by rfl) _)
  split
  · exact (log_mode _ (by rfl) _).mode_trans (ModeFrame.of_eq rfl rfl rfl)
  · exact ModeFrame.mode_refl _

theorem cleanup_mode (st st' : St) (h : qemu_rdma_cleanup st = some st') :
    ModeFrame st st' := by
  unfold qemu_rdma_cleanup at h
  split at h
  · exact absurd h (by simp)
  · rename_i st1 hs1
    have hm1 := cleanup_disconnect_mode _ _ hs1
    split at h
    all_goals
      dsimp only at h
      split at h
      · exact absurd h (by simp)
      · rename_i st3 hs3
        have hm2 : ModeFrame st1 st3 := by
          first
            | exact cleanup_control_mode _ _ _ _ hs3
            | exact (log_mode _ (by rfl) st1).mode_trans (cleanup_control_mode _ _ _ _ hs3)
        split at h
        · exact absurd h (by simp)
        · rename_i st4 hs4
          have hm3 := dereg_ram_blocks_mode _ _ hs4
          simp only [Option.some.injEq] at h
          rw [← h]
          exact (((hm1.mode_trans hm2).mode_trans hm3).mode_trans
            (cleanup_blocks_mode _)).mode_trans (cleanup_handles_mode _)

theorem cleanup_fail_mode (st st' : St) (ret : Int) (h : cleanup_fail st = some (ret, st')) :
    ret = -1 ∧ ModeFrame st st' := by
  unfold cleanup_fail at h
  split at h
  · exact absurd h (by simp)
  · rename_i st1 hc
    simp only [Option.some.injEq, Prod.mk.injEq] at h
    rw [← h.1, ← h.2]; exact ⟨rfl, cleanup_mode _ _ hc⟩

theorem accept_err_mode (r : Int) (st st' : St) (ret : Int)
    (h : accept_err r st = some (ret, st')) : ret = r ∧ ModeFrame st st' := by
  unfold accept_err at h
  split at h
  · exact absurd h (by simp)
  · rename_i st1 hc
    simp only [Option.some.injEq, Prod.mk.injEq] at h
    rw [← h.1, ← h.2]; exact ⟨rfl, cleanup_mode _ _ hc⟩

theorem alloc_pd_cq_err_mode (st : St) : ModeFrame st (alloc_pd_cq_err st).2 := by
  dsimp only [alloc_pd_cq_err]
  have h1 := release_mode st.rdma.pd Call.ibv_dealloc_pd (fun _ => rfl) st
  generalize release st.rdma.pd Call.ibv_dealloc_pd st = st1 at h1 ⊢
  have h2 := release_mode st1.rdma.comp_channel Call.ibv_destroy_comp_channel (fun _ => rfl) st1
  generalize release st1.rdma.comp_channel Call.ibv_destroy_comp_channel st1 = st2 at h2 ⊢
  exact (h1.mode_trans h2).mode_trans (ModeFrame.of_eq rfl rfl rfl)

theorem alloc_pd_cq_mode (st st' : St) (ret : Int)
    (h : qemu_rdma_alloc_pd_cq st = some (ret, st')) : ModeFrame st st' := by
  unfold qemu_rdma_alloc_pd_cq at h
  split at h
  · exact absurd h (by simp)
  · rename_i p st1 hc1
    have h1 : ModeFrame st { st1 with rdma := { st1.rdma with pd := p.id } } :=
      (call_mode_of hc1 rfl).mode_trans (ModeFrame.of_eq rfl rfl rfl)
    dsimp only at h
    split at h
    · simp only [Option.some.injEq, Prod.mk.injEq] at h
      rw [← h.2]; exact h1
    · split at h
      · exact absurd h (by simp)
      · rename_i c st3 hc2
        have h2 : ModeFrame st { st3 with rdma := { st3.rdma with comp_channel := c.id } } :=
          (h1.mode_trans (call_mode_of hc2 rfl)).mode_trans (ModeFrame.of_eq rfl rfl rfl)
        split at h
        · simp only [Option.some.injEq] at h
          have hs : (alloc_pd_cq_err _).2 = st' := congrArg Prod.snd h
          rw [← hs]; exact h2.mode_trans (alloc_pd_cq_err_mode _)
        · split at h
          · exact absurd h (by simp)
          · rename_i q st5 hc3
            have h3 : ModeFrame st { st5 with rdma := { st5.rdma with cq := q.id } } :=
              (h2.mode_trans (call_mode_of hc3 rfl)).mode_trans (ModeFrame.of_eq rfl rfl rfl)
            split at h
            · simp only [Option.some.injEq] at h
              have hs : (alloc_pd_cq_err _).2 = st' := congrArg Prod.snd h
              rw [← hs]; exact h3.mode_trans (alloc_pd_cq_err_mode _)
            · simp only [Option.some.injEq, Prod.mk.injEq] at h
              rw [← h.2]; exact h3

theorem alloc_qp_mode (st st' : St) (ret : Int)
    (h : qemu_rdma_alloc_qp st = some (ret, st')) : ModeFrame st st' := by
  unfold qemu_rdma_alloc_qp at h
  split at h
  · exact absurd h (by simp)
  · split at h
    · exact absurd h (by simp)
    · rename_i r st1 hc
      have h1 := call_mode_of hc rfl
      split at h <;> simp only [Option.some.injEq, Prod.mk.injEq] at h <;> rw [← h.2]
      · exact h1
      · exact h1.mode_trans (ModeFrame.of_eq rfl rfl rfl)

theorem init_ram_blocks_mode (st : St) : ModeFrame st (qemu_rdma_init_ram_blocks st).2 :=
  ((log_mode Call.qemu_ram_foreach_block rfl st).mode_trans
    (log_mode Call.qemu_ram_foreach_block rfl _)).mode_trans (ModeFrame.of_eq rfl rfl rfl)

theorem reg_control_mode (idx : Nat) (st st' : St) (ret : Int)
    (h : qemu_rdma_reg_control idx st = some (ret, st')) : ModeFrame st st' := by
  unfold qemu_rdma_reg_control at h
  dsimp only at h
  split at h
  · exact absurd h (by simp)
  · rename_i r st1 hc
    have h1 := call_mode_of hc rfl
    split at h <;> simp only [Option.some.injEq, Prod.mk.injEq] at h <;> rw [← h.2] <;>
      exact h1.mode_trans (ModeFrame.of_eq rfl rfl rfl)

theorem reg_control_loop_mode :
    ∀ (n idx : Nat) (st st' : St) (ret : Int),
      reg_control_loop n idx st = some (ret, st') → ModeFrame st st' := by
  intro n
  induction n with
  | zero =>
    intro idx st st' ret h
    simp only [reg_control_loop, Option.some.injEq, Prod.mk.injEq] at h
    rw [← h.2]; exact ModeFrame.mode_refl st
  | succ n ih =>
    intro idx st st' ret h
    unfold reg_control_loop at h
    split at h
    · exact absurd h (by simp)
    · rename_i r st1 hr
      have h1 := reg_control_mode _ _ _ _ hr
      split at h
      · simp only [Option.some.injEq, Prod.mk.injEq] at h
        rw [← h.2]; exact h1
      · exact h1.mode_trans (ih _ _ _ _ h)

theorem reg_whole_loop_mode :
    ∀ (bs : List RDMALocalBlock) (st : St) (ok : Bool) (bs' : List RDMALocalBlock)
      (mrs : List ibv_mr) (st' : St),
      reg_whole_loop bs st = some (ok, bs', mrs, st') → ModeFrame st st' := by
  intro bs
  induction bs with
  | nil =>
    intro st ok bs' mrs st' h
    simp only [reg_whole_loop, Option.some.injEq, Prod.mk.injEq] at h
    rw [← h.2.2.2]; exact ModeFrame.mode_refl st
  | cons b bs ih =>
    intro st ok bs' mrs st' h
    unfold reg_whole_loop at h
    dsimp only at h
    split at h
    · exact absurd h (by simp)
    · rename_i r st1 hc
      have h1 := call_mode_of hc rfl
      split at h
      · simp only [Option.some.injEq, Prod.mk.injEq] at h
        rw [← h.2.2.2]; exact h1
      · split at h
        · exact absurd h (by simp)
        · rename_i ok1 bs1 mrs1 st2 hr
          simp only [Option.some.injEq, Prod.mk.injEq] at h
          rw [← h.2.2.2]; exact h1.mode_trans (ih _ _ _ _ _ hr)

theorem dereg_all_mode :
    ∀ (mrs : List ibv_mr) (st : St), ModeFrame st (dereg_all mrs st) := by
  intro mrs
  induction mrs with
  | nil => intro st; exact ModeFrame.mode_refl st
  | cons mr mrs ih =>
    intro st
    exact (log_mode (Call.ibv_dereg_mr mr) rfl st).mode_trans (ih _)

theorem reg_whole_ram_blocks_mode (st st' : St) (ret : Int)
    (h : qemu_rdma_reg_whole_ram_blocks st = some (ret, st')) : ModeFrame st st' := by
  unfold qemu_rdma_reg_whole_ram_blocks at h
  split at h
  · exact absurd h (by simp)
  · rename_i ok bs1 mrs st1 hr
    have h1 : ModeFrame st { st1 with local_ram_blocks := { block := bs1 } } :=
      (reg_whole_loop_mode _ _ _ _ _ _ hr).mode_trans (ModeFrame.of_eq rfl rfl rfl)
    split at h <;> simp only [Option.some.injEq, Prod.mk.injEq] at h <;> rw [← h.2]
    · exact h1
    · exact h1.mode_trans (dereg_all_mode _ _)

theorem server_prepare_mode (st st' : St) (ret : Int)
    (h : qemu_rdma_server_prepare st = some (ret, st')) : ModeFrame st st' := by
  unfold qemu_rdma_server_prepare at h
  split at h
  · simp only [Option.some.injEq, Prod.mk.injEq] at h
    rw [← h.2]; exact ModeFrame.mode_refl st
  · split at h
    · exact absurd h (by simp)
    · rename_i r st1 ha
      have h1 := alloc_pd_cq_mode _ _ _ ha
      split at h
      · exact h1.mode_trans (cleanup_fail_mode _ _ _ h).2
      · have h2 := h1.mode_trans (init_ram_blocks_mode st1)
        dsimp only at h
        split at h
        · exact h2.mode_trans (cleanup_fail_mode _ _ _ h).2
        · have h3 : ModeFrame st (qemu_rdma_remote_ram_blocks_init (qemu_rdma_init_ram_blocks st1).2) :=
            h2.mode_trans (ModeFrame.of_eq rfl rfl rfl)
          split at h
          · exact absurd h (by simp)
          · rename_i r1 st4 hl
            have h4 := h3.mode_trans (reg_control_loop_mode _ _ _ _ _ hl)
            split at h
            · exact h4.mode_trans (cleanup_fail_mode _ _ _ h).2
            · split at h
              · exact absurd h (by simp)
              · rename_i l st5 hc
                have h5 := h4.mode_trans (call_mode_of hc rfl)
                split at h
                · exact h5.mode_trans (cleanup_fail_mode _ _ _ h).2
                · simp only [Option.some.injEq, Prod.mk.injEq] at h
                  rw [← h.2]; exact h5

/-! ## Capability negotiation -/

theorem ModeFrame.shake {a b : St} (h : ModeFrame a b) : ShakeFrame [] a b := by
  obtain ⟨m, l, ext, t, p⟩ := h
  refine ⟨m, l, ext, t, ?_⟩
  rw [handshakes, List.filter_eq_nil_iff]
  intro c hc
  have := List.all_eq_true.mp p c hc
  simpa using this

theorem ShakeFrame.shake_trans {h1 h2 : List Call} {a b c : St} (f1 : ShakeFrame h1 a b)
    (f2 : ShakeFrame h2 b c) : ShakeFrame (h1 ++ h2) a c := by
  obtain ⟨m1, l1, e1, t1, p1⟩ := f1
  obtain ⟨m2, l2, e2, t2, p2⟩ := f2
  refine ⟨m2.trans m1, l2.trans l1, e1 ++ e2, by rw [t2, t1, List.append_assoc], ?_⟩
  rw [handshakes, List.filter_append]
  rw [handshakes] at p1 p2
  rw [p1, p2]

theorem call_shake {c : Call} {st st' : St} {r : Resp}
    (h : call c st = some (r, st')) (hc : c.is_handshake = true) : ShakeFrame [c] st st' := by
  obtain ⟨hf, ht, hr, _⟩ := call_frame c st st' r h
  exact ⟨by rw [hr], hf.cursor.2.2.2.2.2.2.2, [c], ht, by simp [handshakes, hc]⟩

theorem call_cons (c : Call) (st : St) (r : Resp) (rs : List Resp) (h : st.script = r :: rs) :
    call c st = some (r, { st with script := rs, trace := st.trace ++ [c] }) := by
  unfold call; rw [h]

/-- The capabilities travel as the big-endian bytes of the two fields, whatever
the byte order of the sender. -/
theorem caps_bytes_network (le : Bool) (v f : Nat) (hv : v < U32) (hf : f < U32) :
    caps_bytes le (caps_to_network le ⟨v, f⟩) = be32 v ++ be32 f := by
  simp only [caps_bytes, caps_to_network, store32_htonl le v hv, store32_htonl le f hf]

theorem be32_value (x : Nat) (hx : x < U32) :
    x / 16777216 % 256 % 256 * 16777216 + x / 65536 % 256 % 256 * 65536
      + x / 256 % 256 % 256 * 256 + x % 256 % 256 = x := by
  simp only [U32] at hx
  omega

/-- The receiver reads the capabilities the sender encoded, whatever the byte
orders of the two hosts. -/
theorem caps_decode (le wle : Bool) (v f : Nat) (hv : v < U32) (hf : f < U32) :
    network_to_caps le (caps_of_bytes le (caps_bytes wle (caps_to_network wle ⟨v, f⟩)))
      = ⟨v, f⟩ := by
  rw [caps_bytes_network wle v f hv hf]
  simp only [network_to_caps, caps_of_bytes, be32, List.cons_append, List.nil_append,
    List.getD_cons_zero, List.getD_cons_succ, ntohl_load_bytes, be32_value v hv,
    be32_value f hf]

theorem caps_bytes_inj (le le' : Bool) (v f v' f' : Nat) (hv : v < U32) (hf : f < U32)
    (hv' : v' < U32) (hf' : f' < U32)
    (h : caps_bytes le (caps_to_network le ⟨v, f⟩)
      = caps_bytes le' (caps_to_network le' ⟨v', f'⟩)) : v = v' ∧ f = f' := by
  have h1 := caps_decode true le v f hv hf
  rw [h, caps_decode true le' v' f' hv' hf'] at h1
  simp only [RDMACapabilities.mk.injEq] at h1
  exact ⟨h1.1.symm, h1.2.symm⟩

/-- The context `qemu_rdma_data_init` builds is not in chunk mode: the
destination enters `qemu_rdma_accept` with the mode off. -/
theorem data_init_mode (host : String) (port : Int) (base : Nat) :
    (qemu_rdma_data_init host port base).chunk_register_destination = false := rfl

theorem and_one_cases (x : Nat) : x &&& 1 = 0 ∨ x &&& 1 = 1 := by
  rw [Nat.and_one_is_mod]; omega

theorem accept_directory_mode (head : RDMAControlHeader) (st st' : St) (ret : Int)
    (h : accept_directory head st = some (ret, st')) : ModeFrame st st' := by
  unfold accept_directory at h
  dsimp only at h
  split at h
  · exact absurd h (by simp)
  · rename_i r3 st12 hreg
    have h1 : ModeFrame st st12 := by
      split at hreg
      · exact reg_whole_ram_blocks_mode _ _ _ hreg
      · simp only [Option.some.injEq, Prod.mk.injEq] at hreg
        rw [← hreg.2]; exact ModeFrame.mode_refl st
    split at h
    · exact h1.mode_trans (accept_err_mode _ _ _ _ h).2
    · split at h
      · exact absurd h (by simp)
      · split at h
        · exact absurd h (by simp)
        · split at h
          · exact absurd h (by simp)
          · rename_i r4 st14 hsend
            have h2a := post_send_control_mode _ _ _ _ _ hsend
            have h2 := (h1.mode_trans (ModeFrame.of_eq (by rfl) (by rfl) (by rfl))).mode_trans h2a
            split at h
            · exact h2.mode_trans (accept_err_mode _ _ _ _ h).2
            · simp only [Option.some.injEq, Prod.mk.injEq] at h
              rw [← h.2]; exact h2

/-- From `qemu_set_fd_handler2` on, `qemu_rdma_accept` either fails with a code
that is not 0 before any handshake call, or makes the one `rdma_accept` call
with the capabilities as private data. -/
theorem accept_connection_shake (capc : RDMACapabilities) (head : RDMAControlHeader)
    (st st' : St) (ret : Int) (h : accept_connection capc head st = some (ret, st')) :
    (ret ≠ 0 ∧ ShakeFrame [] st st') ∨
      ShakeFrame [Call.rdma_accept (caps_bytes st.le capc)] st st' := by
  unfold accept_connection at h
  split at h
  · exact absurd h (by simp)
  · dsimp only at h
    split at h
    · exact absurd h (by simp)
    · rename_i r1 st7 hqp
      have h1 : ModeFrame st st7 :=
        (log_mode Call.qemu_set_fd_handler2 rfl st).mode_trans (alloc_qp_mode _ _ _ hqp)
      split at h
      · rename_i hr1
        obtain ⟨hret, hm⟩ := accept_err_mode _ _ _ _ h
        exact Or.inl ⟨by rw [hret]; exact hr1, (h1.mode_trans hm).shake⟩
      · right
        split at h
        · exact absurd h (by simp)
        · rename_i a st8 hacc
          have hle : st7.le = st.le := h1.2.1
          rw [hle] at hacc
          have h2 : ShakeFrame [Call.rdma_accept (caps_bytes st.le capc)] st st8 :=
            h1.shake.shake_trans (call_shake hacc rfl)
          have fin : ∀ s, ModeFrame st8 s →
              ShakeFrame [Call.rdma_accept (caps_bytes st.le capc)] st s := by
            intro s hs
            have := h2.shake_trans hs.shake
            simpa using this
          split at h
          · exact fin _ (accept_err_mode _ _ _ _ h).2
          · split at h
            · exact absurd h (by simp)
            · rename_i e2 st9 hev
              have h3 := call_mode_of hev rfl
              split at h
              · exact fin _ (h3.mode_trans (accept_err_mode _ _ _ _ h).2)
              · split at h
                · exact fin _ ((h3.mode_trans (log_mode Call.rdma_ack_cm_event rfl st9)).mode_trans
                    (accept_err_mode _ _ _ _ h).2)
                · split at h
                  · exact absurd h (by simp)
                  · rename_i r2 st11 hrecv
                    have h4 := (h3.mode_trans (log_mode Call.rdma_ack_cm_event rfl st9)).mode_trans
                      (post_recv_control_mode _ _ _ _ hrecv)
                    split at h
                    · exact fin _ (h4.mode_trans (accept_err_mode _ _ _ _ h).2)
                    · exact fin _ (h4.mode_trans (accept_directory_mode _ _ _ _ h))

theorem ShakeFrame.after_mode {hs : List Call} {a b c : St} (f1 : ModeFrame a b)
    (f2 : ShakeFrame hs b c) : ShakeFrame hs a c := by
  have := f1.shake.shake_trans f2
  simpa using this

/-- After the version check `qemu_rdma_accept` either stops before any
handshake call, with a code that is 0 only when the verbs context of the
request is not the one already known, or makes the one `rdma_accept` call: its
private data are the capabilities with `flags` cleared but for the
`CHUNK_REGISTER` bit, kept when the mode is on and the bit was requested. -/
theorem accept_request_shake (e : Resp) (cap : RDMACapabilities) (head : RDMAControlHeader)
    (st st' : St) (ret : Int) (h : accept_request e cap head st = some (ret, st')) :
    ((ret = 0 → ∃ v, st.rdma.verbs = some v ∧ some v ≠ e.verbs) ∧ ShakeFrame [] st st') ∨
      ShakeFrame [Call.rdma_accept (caps_bytes st.le (caps_to_network st.le
        (if st.rdma.chunk_register_destination = true ∧
            cap.flags &&& RDMA_CAPABILITY_CHUNK_REGISTER ≠ 0 then
          { cap with flags := 0 ||| RDMA_CAPABILITY_CHUNK_REGISTER }
        else { cap with flags := 0 })))] st st' := by
  unfold accept_request at h
  split at h
  · exact absurd h (by simp)
  · simp only [log] at h
    have h0 : ∀ (s : St), s.rdma.chunk_register_destination
        = st.rdma.chunk_register_destination → s.le = st.le →
        s.trace = st.trace ++ [Call.rdma_ack_cm_event] → ModeFrame st s :=
      fun s h1 h2 h3 => ⟨h1, h2, [Call.rdma_ack_cm_event], h3, rfl⟩
    cases hv : st.rdma.verbs with
    | none =>
      simp only [hv] at h
      split at h
      · exact absurd h (by simp)
      · rename_i r st5 hp
        left
        split at hp
        · exact absurd hp (by simp)
        · rename_i r1 sa hsp
          simp only [Option.some.injEq, Prod.mk.injEq, decide_eq_false_iff_not] at hp
          obtain ⟨hne, hr, hs⟩ := hp
          obtain ⟨hret, hm⟩ := accept_err_mode _ _ _ _ h
          refine ⟨fun h0 => absurd (hr.trans (hret.symm.trans h0)) hne, ?_⟩
          rw [← hs] at hm
          have hsm := server_prepare_mode _ _ _ hsp
          exact ((ModeFrame.mode_trans (h0 _ (by rfl) (by rfl) (by rfl)) hsm).mode_trans hm).shake
      · rename_i r st5 hp
        split at hp
        · exact absurd hp (by simp)
        · rename_i r1 sa hsp
          simp only [Option.some.injEq, Prod.mk.injEq] at hp
          obtain ⟨_, _, hs⟩ := hp
          have hsm := server_prepare_mode _ _ _ hsp
          have hm := ModeFrame.mode_trans (h0 _ (by rfl) (by rfl) (by rfl)) hsm
          rw [hs] at hm
          rcases accept_connection_shake _ _ _ _ _ h with ⟨hne, hf⟩ | hf
          · exact Or.inl ⟨fun h0 => absurd h0 hne, hm.shake.shake_trans hf⟩
          · right
            rw [hm.2.1] at hf
            exact ShakeFrame.after_mode hm hf
    | some v =>
      simp only [hv] at h
      by_cases hvv : some v = e.verbs
      · simp only [hvv, ne_eq, not_true_eq_false, if_false] at h
        rcases accept_connection_shake _ _ _ _ _ h with ⟨hne, hf⟩ | hf
        · exact Or.inl ⟨fun h0 => absurd h0 hne,
            ShakeFrame.after_mode (h0 _ (by rfl) (by rfl) (by rfl)) hf⟩
        · right
          exact ShakeFrame.after_mode (h0 _ (by rfl) (by rfl) (by rfl)) hf
      · simp only [ne_eq, hvv, not_false_eq_true, if_true] at h
        left
        obtain ⟨_, hm⟩ := accept_err_mode _ _ _ _ h
        exact ⟨fun _ => ⟨v, rfl, hvv⟩,
          (ModeFrame.mode_trans (h0 _ (by rfl) (by rfl) (by rfl)) hm).shake⟩

/-- What `qemu_rdma_accept` does with a version-1 request that offers `offer`,
on a destination not yet in chunk mode. -/
theorem accept_negotiates (d d' : St) (offer : Nat) (wle : Bool) (req : Resp)
    (rest : List Resp) (ret : Int)
    (hd0 : d.rdma.chunk_register_destination = false) (hoffer : offer < U32)
    (hds : d.script = req :: rest) (hret : req.ret = 0)
    (hevt : req.event = RDMA_CM_EVENT_CONNECT_REQUEST)
    (hdata : req.data = caps_bytes wle (caps_to_network wle ⟨RDMA_CONTROL_VERSION_1, offer⟩))
    (hacc : qemu_rdma_accept d = some (ret, d')) :
    d'.rdma.chunk_register_destination = decide (offer &&& 1 ≠ 0) ∧ d'.le = d.le ∧
    ∃ ext, d'.trace = d.trace ++ ext ∧
      (handshakes ext = [] ∨ handshakes ext = [Call.rdma_accept
        (caps_bytes d.le (caps_to_network d.le ⟨RDMA_CONTROL_VERSION_1, offer &&& 1⟩))]) ∧
      (ret = 0 → (d.rdma.verbs = none ∨ d.rdma.verbs = req.verbs) → handshakes ext ≠ []) := by
  have hcap : network_to_caps d.le (caps_of_bytes d.le req.data)
      = ⟨RDMA_CONTROL_VERSION_1, offer⟩ := by
    rw [hdata]; exact caps_decode _ _ _ _ (by decide) hoffer
  unfold qemu_rdma_accept at hacc
  rw [call_cons _ _ _ _ hds] at hacc
  dsimp only at hacc
  rw [hcap] at hacc
  have hm1 : ∀ (s : St), s.rdma.chunk_register_destination = decide (offer &&& 1 ≠ 0) →
      s.le = d.le → s.trace = d.trace ++ [Call.rdma_get_cm_event] →
      s.rdma.verbs = d.rdma.verbs → ∀ (echo : RDMACapabilities),
      echo = ⟨RDMA_CONTROL_VERSION_1, offer &&& 1⟩ →
      ((ret = 0 → ∃ v, s.rdma.verbs = some v ∧ some v ≠ req.verbs) ∧ ShakeFrame [] s d') ∨
        ShakeFrame [Call.rdma_accept (caps_bytes s.le (caps_to_network s.le echo))] s d' →
      d'.rdma.chunk_register_destination = decide (offer &&& 1 ≠ 0) ∧ d'.le = d.le ∧
      ∃ ext, d'.trace = d.trace ++ ext ∧
        (handshakes ext = [] ∨ handshakes ext = [Call.rdma_accept
          (caps_bytes d.le (caps_to_network d.le ⟨RDMA_CONTROL_VERSION_1, offer &&& 1⟩))]) ∧
        (ret = 0 → (d.rdma.verbs = none ∨ d.rdma.verbs = req.verbs) → handshakes ext ≠ []) := by
    intro s hmode hle htr hverbs echo hecho hor
    rcases hor with ⟨hz, m, l, ext, t, p⟩ | ⟨m, l, ext, t, p⟩
    · refine ⟨m.trans hmode, l.trans hle, Call.rdma_get_cm_event :: ext, ?_, ?_, ?_⟩
      · rw [t, htr, List.append_assoc]; rfl
      · left
        simpa [handshakes, Call.is_handshake] using p
      · intro h0 hv
        obtain ⟨v, h1, h2⟩ := hz h0
        rw [hverbs] at h1
        rcases hv with hv | hv
        · rw [hv] at h1; exact absurd h1 (by simp)
        · rw [hv] at h1; exact absurd h1.symm h2
    · refine ⟨m.trans hmode, l.trans hle, Call.rdma_get_cm_event :: ext, ?_, ?_, ?_⟩
      · rw [t, htr, List.append_assoc]; rfl
      · right
        rw [hle, hecho] at p
        simpa [handshakes, Call.is_handshake] using p
      · intro _ _
        have hp : handshakes (Call.rdma_get_cm_event :: ext) = handshakes ext := by
          simp [handshakes, Call.is_handshake]
        rw [hp, p]; simp
  rcases and_one_cases offer with hb | hb
  · simp only [hret, hevt, hb, RDMA_CAPABILITY_CHUNK_REGISTER, RDMA_CONTROL_VERSION_1,
      RDMA_CONTROL_VERSION_MIN, RDMA_CONTROL_VERSION_MAX, ne_eq, not_true_eq_false, if_false,
      lt_self_iff_false, gt_iff_lt, or_self] at hacc
    have key := accept_request_shake _ _ _ _ _ _ hacc
    refine hm1 _ ?_ ?_ ?_ ?_ _ ?_ key
    · simp [hd0, hb]
    · rfl
    · rfl
    · rfl
    · simp [hb, RDMA_CAPABILITY_CHUNK_REGISTER, RDMA_CONTROL_VERSION_1]
  · simp only [hret, hevt, hb, RDMA_CAPABILITY_CHUNK_REGISTER, RDMA_CONTROL_VERSION_1,
      RDMA_CONTROL_VERSION_MIN, RDMA_CONTROL_VERSION_MAX, ne_eq, not_true_eq_false, if_false,
      lt_self_iff_false, gt_iff_lt, or_self, one_ne_zero, not_false_eq_true, if_true] at hacc
    have key := accept_request_shake _ _ _ _ _ _ hacc
    refine hm1 _ ?_ ?_ ?_ ?_ _ ?_ key
    · simp [hb]
    · rfl
    · rfl
    · rfl
    · simp [hb, RDMA_CAPABILITY_CHUNK_REGISTER, RDMA_CONTROL_VERSION_1]

theorem connect_err_code (st st' : St) (ret : Int) (h : connect_err st = some (ret, st')) :
    ret = -1 ∧ ModeFrame st st' := cleanup_fail_mode st st' ret h

theorem connect_err_destroy_code (id : Nat) (st st' : St) (ret : Int)
    (h : connect_err_destroy id st = some (ret, st')) : ret = -1 :=
  (connect_err_code _ _ _ h).1

theorem connect_directory_mode (st st' : St) (ret : Int)
    (h : connect_directory st = some (ret, st')) : ModeFrame st st' := by
  unfold connect_directory at h
  split at h
  · exact absurd h (by simp)
  · rename_i r1 st5 hp1
    have h1 := post_recv_control_mode _ _ _ _ hp1
    split at h
    · exact h1.mode_trans (connect_err_code _ _ _ h).2
    · split at h
      · exact absurd h (by simp)
      · rename_i r2 st6 hp2
        have h2 := h1.mode_trans (post_recv_control_mode _ _ _ _ hp2)
        split at h
        · exact h2.mode_trans (connect_err_code _ _ _ h).2
        · split at h
          · exact absurd h (by simp)
          · rename_i r3 head st7 hg
            have h3 := h2.mode_trans (exchange_get_response_mode _ _ _ _ _ _ _ hg)
            split at h
            · exact h3.mode_trans (connect_err_code _ _ _ h).2
            · dsimp only at h
              have h4 : ModeFrame st (qemu_rdma_move_header 1 head st7) :=
                h3.mode_trans (ModeFrame.of_eq rfl rfl rfl)
              split at h
              · split at h
                · have h5 := connect_err_code _ _ _ h
                  exact (h4.mode_trans (ModeFrame.of_eq (by rfl) (by rfl) (by rfl))).mode_trans h5.2
                · split at h
                  · exact absurd h (by simp)
                  · simp only [Option.some.injEq, Prod.mk.injEq] at h
                    rw [← h.2]
                    exact h4.mode_trans (ModeFrame.of_eq rfl rfl rfl)
              · exact absurd h (by simp)

theorem connect_negotiates (s s' : St) (v echo : Nat) (wle : Bool) (c est : Resp)
    (rest : List Resp) (hss : s.script = c :: est :: rest) (hv : v < U32) (hecho : echo < U32)
    (hdata : est.data = caps_bytes wle (caps_to_network wle ⟨v, echo⟩))
    (hcon : qemu_rdma_connect s = some (0, s')) :
    s'.rdma.chunk_register_destination
      = (s.rdma.chunk_register_destination && decide (echo &&& 1 ≠ 0)) ∧ s'.le = s.le ∧
    ∃ ext, s'.trace = s.trace ++ ext ∧
      handshakes ext = [Call.rdma_connect (caps_bytes s.le (caps_to_network s.le
        ⟨RDMA_CONTROL_CURRENT_VERSION, if s.rdma.chunk_register_destination then 1 else 0⟩))] := by
  have hcap : network_to_caps s.le (caps_of_bytes s.le est.data) = ⟨v, echo⟩ := by
    rw [hdata]; exact caps_decode _ _ _ _ hv hecho
  unfold qemu_rdma_connect at hcon
  cases hid : s.rdma.cm_id with
  | none => simp [hid] at hcon
  | some id =>
    simp only [hid] at hcon
    rw [call_cons _ _ _ _ hss] at hcon
    dsimp only at hcon
    by_cases hc : c.ret = 0
    · simp only [hc, ne_eq, not_true_eq_false, if_false] at hcon
      rw [call_cons _ _ est rest rfl] at hcon
      dsimp only at hcon
      by_cases he : est.ret = 0
      · by_cases hev : est.event = RDMA_CM_EVENT_ESTABLISHED
        · simp only [he, hev, not_true_eq_false, if_false] at hcon
          rw [hcap] at hcon
          have hpd : (if s.rdma.chunk_register_destination = true then
                ({ version := RDMA_CONTROL_CURRENT_VERSION,
                   flags := 0 ||| RDMA_CAPABILITY_CHUNK_REGISTER } : RDMACapabilities)
              else { version := RDMA_CONTROL_CURRENT_VERSION, flags := 0 })
              = ⟨RDMA_CONTROL_CURRENT_VERSION,
                  if s.rdma.chunk_register_destination then 1 else 0⟩ := by
            cases s.rdma.chunk_register_destination <;> rfl
          rw [hpd] at hcon
          have fin : ∀ (s3 : St), ModeFrame (log Call.rdma_ack_cm_event s3) s' →
              s3.rdma.chunk_register_destination
                = (s.rdma.chunk_register_destination && decide (echo &&& 1 ≠ 0)) →
              s3.le = s.le →
              s3.trace = s.trace ++ [Call.rdma_connect (caps_bytes s.le (caps_to_network s.le
                ⟨RDMA_CONTROL_CURRENT_VERSION,
                  if s.rdma.chunk_register_destination then 1 else 0⟩))]
                ++ [Call.rdma_get_cm_event] →
              s'.rdma.chunk_register_destination
                = (s.rdma.chunk_register_destination && decide (echo &&& 1 ≠ 0)) ∧ s'.le = s.le ∧
              ∃ ext, s'.trace = s.trace ++ ext ∧
                handshakes ext = [Call.rdma_connect (caps_bytes s.le (caps_to_network s.le
                  ⟨RDMA_CONTROL_CURRENT_VERSION,
                    if s.rdma.chunk_register_destination then 1 else 0⟩))] := by
            intro s3 hm h1 h2 h3
            obtain ⟨m, l, ext, t, p⟩ := hm
            have hp : List.filter Call.is_handshake ext = [] := by
              rw [List.filter_eq_nil_iff]
              intro x hx
              have := List.all_eq_true.mp p x hx
              simpa using this
            refine ⟨m.trans h1, l.trans h2,
              Call.rdma_connect (caps_bytes s.le (caps_to_network s.le
                ⟨RDMA_CONTROL_CURRENT_VERSION,
                  if s.rdma.chunk_register_destination then 1 else 0⟩)) ::
              Call.rdma_get_cm_event :: Call.rdma_ack_cm_event :: ext, ?_, ?_⟩
            · rw [t]
              show (s3.trace ++ [Call.rdma_ack_cm_event]) ++ ext = _
              rw [h3]; simp
            · simp [handshakes, Call.is_handshake, hp]
          by_cases hcnd : echo &&& RDMA_CAPABILITY_CHUNK_REGISTER = 0 ∧
              s.rdma.chunk_register_destination = true
          · simp only [hcnd, and_self, if_true] at hcon
            have hm := connect_directory_mode _ _ _ hcon
            refine fin _ hm ?_ ?_ ?_
            · have hz := hcnd.1
              simp only [RDMA_CAPABILITY_CHUNK_REGISTER] at hz
              show false = _
              rw [hz]
              cases s.rdma.chunk_register_destination <;> rfl
            · rfl
            · simp only [hcnd.2, if_true]
          · simp only [hcnd, if_false] at hcon
            have hm := connect_directory_mode _ _ _ hcon
            refine fin _ hm ?_ ?_ ?_
            · show s.rdma.chunk_register_destination = _
              simp only [RDMA_CAPABILITY_CHUNK_REGISTER] at hcnd
              cases hmode : s.rdma.chunk_register_destination
              · rfl
              · simp only [hmode, and_true] at hcnd
                rw [Bool.true_and]
                exact (decide_eq_true hcnd).symm
            · rfl
            · rfl
        · simp only [he, hev, not_true_eq_false, not_false_eq_true, if_false, if_true] at hcon
          exact absurd (connect_err_destroy_code _ _ _ _ hcon) (by decide)
      · simp only [he, not_false_eq_true, if_true] at hcon
        exact absurd (connect_err_destroy_code _ _ _ _ hcon) (by decide)
    · simp only [ne_eq, hc, not_false_eq_true, if_true] at hcon
      exact absurd (connect_err_destroy_code _ _ _ _ hcon) (by decide)

/-- C4. Capability negotiation.  The destination `d` is not in chunk mode
before the handshake (the context `qemu_rdma_data_init` builds), its first
event is a `CONNECT_REQUEST` whose private data are version 1 and a 32-bit
`offer`, encoded by a host of any byte order, and `qemu_rdma_accept` returns.
The source `s` gets an answer to `rdma_connect` and an event whose private
data are a version and a 32-bit `echo`, and `qemu_rdma_connect` returns 0.
Then: (destination) the mode afterwards is `offer AND 1 ≠ 0`; the only
handshake call `qemu_rdma_accept` makes is one `rdma_accept` whose private
data are version 1 and flags `offer AND 1`, and it makes it whenever it returns
0 and the verbs context of the request is not in conflict with a known one;
(source) the mode afterwards is the mode requested and bit 0 of `echo`, and
the one handshake call is the `rdma_connect` that offers bit 0 for the mode
requested; a request that carries this offer asks for chunk mode exactly when
bit 0 of `offer` is set; (both) when the source asked for chunk mode exactly
when bit 0 of `offer` is set and its event carries the private data of the
destination's `rdma_accept`, the two peers end in the same mode,
`offer AND 1 ≠ 0`. -/
theorem capability_negotiation (s s' d d' : St) (offer v echo : Nat) (wle wle' : Bool)
    (req conn est : Resp) (rest_d rest_s : List Resp) (ret_d : Int)
    (hd0 : d.rdma.chunk_register_destination = false)
    (hoffer : offer < U32)
    (hds : d.script = req :: rest_d)
    (hreq : req.ret = 0 ∧ req.event = RDMA_CM_EVENT_CONNECT_REQUEST)
    (hreqd : req.data = caps_bytes wle (caps_to_network wle ⟨RDMA_CONTROL_VERSION_1, offer⟩))
    (hacc : qemu_rdma_accept d = some (ret_d, d'))
    (hv : v < U32) (hecho : echo < U32)
    (hss : s.script = conn :: est :: rest_s)
    (hestd : est.data = caps_bytes wle' (caps_to_network wle' ⟨v, echo⟩))
    (hcon : qemu_rdma_connect s = some (0, s')) :
    (d'.rdma.chunk_register_destination = decide (offer &&& 1 ≠ 0) ∧
      ∃ ext, d'.trace = d.trace ++ ext ∧
        (handshakes ext = [] ∨ handshakes ext = [Call.rdma_accept
          (caps_bytes d.le (caps_to_network d.le ⟨RDMA_CONTROL_VERSION_1, offer &&& 1⟩))]) ∧
        (ret_d = 0 → (d.rdma.verbs = none ∨ d.rdma.verbs = req.verbs) →
          handshakes ext ≠ [])) ∧
    (s'.rdma.chunk_register_destination
        = (s.rdma.chunk_register_destination && decide (echo &&& 1 ≠ 0)) ∧
      ∃ ext, s'.trace = s.trace ++ ext ∧
        handshakes ext = [Call.rdma_connect (caps_bytes s.le (caps_to_network s.le
          ⟨RDMA_CONTROL_CURRENT_VERSION,
            if s.rdma.chunk_register_destination then 1 else 0⟩))]) ∧
    (req.data = caps_bytes s.le (caps_to_network s.le
        ⟨RDMA_CONTROL_CURRENT_VERSION, if s.rdma.chunk_register_destination then 1 else 0⟩) →
      s.rdma.chunk_register_destination = decide (offer &&& 1 ≠ 0)) ∧
    (s.rdma.chunk_register_destination = decide (offer &&& 1 ≠ 0) →
      est.data = caps_bytes d.le
        (caps_to_network d.le ⟨RDMA_CONTROL_VERSION_1, offer &&& 1⟩) →
      s'.rdma.chunk_register_destination = d'.rdma.chunk_register_destination ∧
        d'.rdma.chunk_register_destination = decide (offer &&& 1 ≠ 0)) := by
  obtain ⟨hdm, _, hdt⟩ := accept_negotiates d d' offer wle req rest_d ret_d hd0 hoffer hds
    hreq.1 hreq.2 hreqd hacc
  obtain ⟨hsm, _, hst⟩ := connect_negotiates s s' v echo wle' conn est rest_s hss hv hecho
    hestd hcon
  have hbit : offer &&& 1 < U32 := by
    rcases and_one_cases offer with h | h <;> rw [h] <;> decide
  refine ⟨⟨hdm, hdt⟩, ⟨hsm, hst⟩, ?_, ?_⟩
  · intro hdata
    rw [hreqd] at hdata
    have hlt : (if s.rdma.chunk_register_destination then 1 else 0) < U32 := by
      split <;> decide
    obtain ⟨_, ho⟩ := caps_bytes_inj _ _ _ _ _ _ (by decide) hoffer (by decide) hlt hdata
    rw [ho]
    cases s.rdma.chunk_register_destination <;> rfl
  · intro hmode hdata
    rw [hestd] at hdata
    obtain ⟨_, he⟩ := caps_bytes_inj _ _ _ _ _ _ hv hecho (by decide) hbit hdata
    refine ⟨?_, hdm⟩
    rw [hsm, hdm, he, hmode]
    rcases and_one_cases offer with h | h <;> rw [h] <;> rfl

/-- C4 on the sample sessions, for the offers 0x1, 0x3 and 0x0, the source in
chunk mode for the first two and in whole-block mode for the last: both calls
return 0, the destination answers with flags 0x1, 0x1 and 0x0, and the two
peers end in chunk mode, chunk mode and whole-block mode. -/
theorem capability_negotiation_witness :
    (qemu_rdma_accept (sample_destination 1) = some (0, sample_accepted 1) ∧
      qemu_rdma_connect (sample_source true 1) = some (0, sample_connected true 1) ∧
      (sample_accepted 1).rdma.chunk_register_destination = true ∧
      (sample_connected true 1).rdma.chunk_register_destination = true ∧
      handshakes (sample_accepted 1).trace = [Call.rdma_accept (be32 1 ++ be32 1)] ∧
      handshakes (sample_connected true 1).trace = [Call.rdma_connect (be32 1 ++ be32 1)]) ∧
    (qemu_rdma_accept (sample_destination 3) = some (0, sample_accepted 3) ∧
      (sample_accepted 3).rdma.chunk_register_destination = true ∧
      (sample_connected true 1).rdma.chunk_register_destination
        = (sample_accepted 3).rdma.chunk_register_destination ∧
      handshakes (sample_accepted 3).trace = [Call.rdma_accept (be32 1 ++ be32 1)]) ∧
    (qemu_rdma_accept (sample_destination 0) = some (0, sample_accepted 0) ∧
      qemu_rdma_connect (sample_source false 0) = some (0, sample_connected false 0) ∧
      (sample_accepted 0).rdma.chunk_register_destination = false ∧
      (sample_connected false 0).rdma.chunk_register_destination = false ∧
      handshakes (sample_accepted 0).trace = [Call.rdma_accept (be32 1 ++ be32 0)] ∧
      handshakes (sample_connected false 0).trace
        = [Call.rdma_connect (be32 1 ++ be32 0)]) := by
  have key := fun (offer echo : Nat) (chunk : Bool) =>
    capability_negotiation (sample_source chunk echo) (sample_connected chunk echo)
      (sample_destination offer) (sample_accepted offer) offer 1 echo true true
      ((sample_accept_script offer).headD {}) {} ((sample_connect_script echo).tail.headD {})
      (sample_accept_script offer).tail (sample_connect_script echo).tail.tail 0
  have a1 : qemu_rdma_accept (sample_destination 1) = some (0, sample_accepted 1) := rfl
  have a3 : qemu_rdma_accept (sample_destination 3) = some (0, sample_accepted 3) := rfl
  have a0 : qemu_rdma_accept (sample_destination 0) = some (0, sample_accepted 0) := rfl
  have c1 : qemu_rdma_connect (sample_source true 1) = some (0, sample_connected true 1) := rfl
  have c0 : qemu_rdma_connect (sample_source false 0) = some (0, sample_connected false 0) :=
    rfl
  have tail : ∀ (st st' : St) (c : Call), st.trace = [] →
      (∃ ext, st'.trace = st.trace ++ ext ∧ handshakes ext = [c]) →
      handshakes st'.trace = [c] := by
    intro st st' c h0 ⟨ext, ht, hh⟩
    rw [ht, h0, List.nil_append, hh]
  have pick : ∀ (st st' : St) (c : Call), st.trace = [] →
      (∃ ext, st'.trace = st.trace ++ ext ∧ (handshakes ext = [] ∨ handshakes ext = [c]) ∧
        handshakes ext ≠ []) → handshakes st'.trace = [c] := by
    intro st st' c h0 ⟨ext, ht, hh, hne⟩
    rcases hh with hh | hh
    · exact absurd hh hne
    · rw [ht, h0, List.nil_append, hh]
  obtain ⟨⟨d1, e1, t1, h1, n1⟩, ⟨s1, x1⟩, _, b1⟩ := key 1 1 true rfl (by decide) rfl
    (by decide) rfl a1 (by decide) (by decide) rfl rfl c1
  obtain ⟨⟨d3, e3, t3, h3, n3⟩, _, _, b3⟩ := key 3 1 true rfl (by decide) rfl
    (by decide) rfl a3 (by decide) (by decide) rfl rfl c1
  obtain ⟨⟨d0, e0, t0, h0, n0⟩, ⟨s0, x0⟩, _, b0⟩ := key 0 0 false rfl (by decide) rfl
    (by decide) rfl a0 (by decide) (by decide) rfl rfl c0
  refine ⟨⟨a1, c1, d1, s1, ?_, ?_⟩, ⟨a3, d3, (b3 rfl rfl).1, ?_⟩, ⟨a0, c0, d0, s0, ?_, ?_⟩⟩
  · exact pick _ _ _ rfl ⟨e1, t1, h1, n1 rfl (Or.inr rfl)⟩
  · exact tail _ _ _ rfl x1
  · exact pick _ _ _ rfl ⟨e3, t3, h3, n3 rfl (Or.inr rfl)⟩
  · exact pick _ _ _ rfl ⟨e0, t0, h0, n0 rfl (Or.inr rfl)⟩
  · exact tail _ _ _ rfl x0

/-! ## Chunk geometry -/

theorem chunk_shift_div (x : Nat) : x >>> RDMA_REG_CHUNK_SHIFT = x / 1048576 := by
  rw [Nat.shiftRight_eq_div_pow]; rfl

theorem chunk_shift_mul (x : Nat) : x <<< RDMA_REG_CHUNK_SHIFT = x * 1048576 := by
  rw [Nat.shiftLeft_eq]; rfl

theorem chunk_index_of_le (start addr : Nat) (h : start ≤ addr) (ha : addr < U64) :
    RDMA_REG_CHUNK_INDEX start addr = addr / 1048576 - start / 1048576 := by
  simp only [RDMA_REG_CHUNK_INDEX, chunk_shift_div, U64] at *
  omega

/-- C18. Chunk geometry, for a block that lies in the 64-bit address space.
The chunk index of an address `addr` at or above `start` is
`(addr >> 20) - (start >> 20)`; `RDMA_REG_NUM_CHUNKS` is the index of
`base + length` plus one; and a block of 3 MiB + 1 B at a 4 KiB-aligned base
has exactly 4 chunks. -/
theorem chunk_geometry (b : RDMALocalBlock) (hb : b.local_host_addr + b.length < U64) :
    (∀ start addr : Nat, start ≤ addr → addr < U64 →
      RDMA_REG_CHUNK_INDEX start addr
        = (addr >>> RDMA_REG_CHUNK_SHIFT) - (start >>> RDMA_REG_CHUNK_SHIFT)) ∧
    RDMA_REG_NUM_CHUNKS b
      = RDMA_REG_CHUNK_INDEX b.local_host_addr (b.local_host_addr + b.length) + 1 ∧
    RDMA_REG_NUM_CHUNKS b
      = ((b.local_host_addr + b.length) >>> RDMA_REG_CHUNK_SHIFT)
          - (b.local_host_addr >>> RDMA_REG_CHUNK_SHIFT) + 1 ∧
    (b.local_host_addr % 4096 = 0 → b.length = 3 * 1048576 + 1 →
      RDMA_REG_NUM_CHUNKS b = 4) := by
  have hidx := chunk_index_of_le b.local_host_addr (b.local_host_addr + b.length)
    (Nat.le_add_right _ _) hb
  have hnum : RDMA_REG_NUM_CHUNKS b
      = (b.local_host_addr + b.length) / 1048576 - b.local_host_addr / 1048576 + 1 := by
    simp only [RDMA_REG_NUM_CHUNKS, Nat.mod_eq_of_lt hb, hidx]
    simp only [U64] at hb ⊢
    omega
  refine ⟨?_, ?_, ?_, ?_⟩
  · intro start addr h ha
    rw [chunk_index_of_le start addr h ha, chunk_shift_div, chunk_shift_div]
  · rw [hnum, hidx]
  · rw [hnum, chunk_shift_div, chunk_shift_div]
  · intro hal hlen
    rw [hnum, hlen]
    omega

/-- C18 at the block of 3 MiB + 1 B at `0x40001000`. -/
theorem chunk_geometry_witness :
    RDMA_REG_NUM_CHUNKS ⟨1073745920, 0, 0, 3145729, none, none, none, 0⟩ = 4 ∧
    RDMA_REG_CHUNK_INDEX 1073745920 (1073745920 + 3145729) = 3 :=
  have h := chunk_geometry ⟨1073745920, 0, 0, 3145729, none, none, none, 0⟩ (by decide)
  ⟨h.2.2.2 (by decide) (by decide), by decide⟩

/-! ## Mergeable pages -/

theorem num_chunks_eq (b : RDMALocalBlock) (hb : b.local_host_addr + b.length < U64) :
    RDMA_REG_NUM_CHUNKS b
      = (b.local_host_addr + b.length) / 1048576 - b.local_host_addr / 1048576 + 1 := by
  have hidx := chunk_index_of_le b.local_host_addr (b.local_host_addr + b.length)
    (Nat.le_add_right _ _) hb
  simp only [RDMA_REG_NUM_CHUNKS, Nat.mod_eq_of_lt hb, hidx]
  simp only [U64] at hb ⊢
  omega

/-- `RDMA_REG_CHUNK_START` is a multiple of the chunk size, and
`RDMA_REG_CHUNK_END` is one chunk further unless it wraps to 0. -/
theorem chunk_start_end (b : RDMALocalBlock) (i : Int) :
    RDMA_REG_CHUNK_START b i % 1048576 = 0 ∧ RDMA_REG_CHUNK_START b i < U64 ∧
    (RDMA_REG_CHUNK_END b i = RDMA_REG_CHUNK_START b i + 1048576 ∨
      RDMA_REG_CHUNK_END b i = 0) := by
  simp only [RDMA_REG_CHUNK_END, RDMA_REG_CHUNK_START, RDMA_REG_CHUNK_SIZE, chunk_shift_div,
    chunk_shift_mul, U64]
  generalize (b.local_host_addr / 1048576 + (i % 18446744073709551616).toNat)
    % 18446744073709551616 = m
  omega

/-- The value of `qemu_rdma_in_current_chunk` when the current block exists:
1 when the cursor has a chunk, the page starts at or after the start of the
chunk (raised to the base of the block) and ends at or before its end (lowered
to the raised start plus the length of the block). -/
theorem in_current_chunk_eq (st : St) (offset len : Nat) (block : RDMALocalBlock)
    (hidx : 0 ≤ st.rdma.current_index)
    (hblock : st.local_ram_blocks.block[st.rdma.current_index.toNat]? = some block)
    (host cs ce : Nat)
    (hhost : host = (block.local_host_addr + (offset + U64 - block.offset) % U64) % U64)
    (hcs : cs = if RDMA_REG_CHUNK_START block st.rdma.current_chunk < block.local_host_addr
      then block.local_host_addr else RDMA_REG_CHUNK_START block st.rdma.current_chunk)
    (hce : ce = if RDMA_REG_CHUNK_END block st.rdma.current_chunk
        > (cs + block.length) % U64 then (cs + block.length) % U64
      else RDMA_REG_CHUNK_END block st.rdma.current_chunk) :
    qemu_rdma_in_current_chunk offset len st
      = some (if 0 ≤ st.rdma.current_chunk ∧ cs ≤ host ∧ (host + len) % U64 ≤ ce
          then 1 else 0) := by
  have hn : ¬ st.rdma.current_index < 0 := not_lt.mpr hidx
  unfold qemu_rdma_in_current_chunk
  by_cases hc : st.rdma.current_chunk < 0
  · have : ¬ 0 ≤ st.rdma.current_chunk := not_le.mpr hc
    simp [hc, this]
  · have hc0 : 0 ≤ st.rdma.current_chunk := not_lt.mp hc
    simp only [hc, hn, if_false, hblock, ← hhost, ← hcs, ← hce, hc0, true_and]
    by_cases h1 : host < cs
    · have : ¬ (cs ≤ host ∧ (host + len) % U64 ≤ ce) := fun h => absurd h.1 (not_le.mpr h1)
      simp [h1, this]
    · by_cases h2 : (host + len) % U64 > ce
      · have : ¬ (cs ≤ host ∧ (host + len) % U64 ≤ ce) := fun h => absurd h.2 (not_le.mpr h2)
        simp [h1, h2, this]
      · have : cs ≤ host ∧ (host + len) % U64 ≤ ce := ⟨not_lt.mp h1, not_lt.mp h2⟩
        simp [h1, h2, this]

/-- The value of `qemu_rdma_in_current_block` when the current block exists. -/
theorem in_current_block_eq (st : St) (offset len : Nat) (block : RDMALocalBlock)
    (hidx : 0 ≤ st.rdma.current_index)
    (hblock : st.local_ram_blocks.block[st.rdma.current_index.toNat]? = some block) :
    qemu_rdma_in_current_block offset len st
      = some (if block.offset ≤ offset ∧
          (offset + len) % U64 ≤ (block.offset + block.length) % U64 then 1 else 0) := by
  have hn : ¬ st.rdma.current_index < 0 := not_lt.mpr hidx
  unfold qemu_rdma_in_current_block
  simp only [hn, if_false, hblock]
  by_cases h1 : offset < block.offset
  · have : ¬ (block.offset ≤ offset ∧
        (offset + len) % U64 ≤ (block.offset + block.length) % U64) :=
      fun h => absurd h.1 (not_le.mpr h1)
    simp [h1, this]
  · by_cases h2 : (offset + len) % U64 > (block.offset + block.length) % U64
    · have : ¬ (block.offset ≤ offset ∧
          (offset + len) % U64 ≤ (block.offset + block.length) % U64) :=
        fun h => absurd h.2 (not_le.mpr h2)
      simp [h1, h2, this]
    · have : block.offset ≤ offset ∧
          (offset + len) % U64 ≤ (block.offset + block.length) % U64 :=
        ⟨not_lt.mp h1, not_lt.mp h2⟩
      simp [h1, h2, this]

/-- The value of `qemu_rdma_buffer_mergable` when the current block exists: the
conjunction of its four tests. -/
theorem buffer_mergable_eq (st : St) (offset len : Nat) (block : RDMALocalBlock)
    (hidx : 0 ≤ st.rdma.current_index)
    (hblock : st.local_ram_blocks.block[st.rdma.current_index.toNat]? = some block)
    (host cs ce : Nat)
    (hhost : host = (block.local_host_addr + (offset + U64 - block.offset) % U64) % U64)
    (hcs : cs = if RDMA_REG_CHUNK_START block st.rdma.current_chunk < block.local_host_addr
      then block.local_host_addr else RDMA_REG_CHUNK_START block st.rdma.current_chunk)
    (hce : ce = if RDMA_REG_CHUNK_END block st.rdma.current_chunk
        > (cs + block.length) % U64 then (cs + block.length) % U64
      else RDMA_REG_CHUNK_END block st.rdma.current_chunk) :
    qemu_rdma_buffer_mergable offset len st
      = some (if st.rdma.current_length ≠ 0 ∧
          offset = (st.rdma.current_offset + st.rdma.current_length) % U64 ∧
          (block.offset ≤ offset ∧
            (offset + len) % U64 ≤ (block.offset + block.length) % U64) ∧
          (0 ≤ st.rdma.current_chunk ∧ cs ≤ host ∧ (host + len) % U64 ≤ ce)
        then 1 else 0) := by
  unfold qemu_rdma_buffer_mergable
  rw [in_current_block_eq st offset len block hidx hblock,
    in_current_chunk_eq st offset len block hidx hblock host cs ce hhost hcs hce]
  by_cases h1 : st.rdma.current_length = 0
  · simp [h1]
  · by_cases h2 : offset = (st.rdma.current_offset + st.rdma.current_length) % U64
    · by_cases h3 : block.offset ≤ offset ∧
          (offset + len) % U64 ≤ (block.offset + block.length) % U64
      · by_cases h4 : 0 ≤ st.rdma.current_chunk ∧ cs ≤ host ∧ (host + len) % U64 ≤ ce
        · simp [h1, ← h2, h3, h4]
        · simp [h1, ← h2, h3, h4]
      · simp [h1, ← h2, h3]
    · simp [h1, h2]

theorem same_chunk_of_window (s e cs ce host len : Nat) (hs : s % 1048576 = 0)
    (he : e = s + 1048576 ∨ e = 0) (h1 : s ≤ cs) (h2 : cs ≤ host) (h3 : ce ≤ e)
    (hr : host + len < 18446744073709551616) (hl : 0 < len)
    (h4 : (host + len) % 18446744073709551616 ≤ ce) :
    host / 1048576 = (host + len - 1) / 1048576 := by
  omega

theorem raised_start_ge (s base : Nat) : s ≤ (if s < base then base else s) := by
  split <;> omega

theorem lowered_end_le (e x : Nat) : (if e > x then x else e) ≤ e := by
  split <;> omega

/-- C14. A page whose host byte range, a range of the 64-bit address space,
crosses a chunk boundary of the current block (its first and last bytes have
different chunk indices) is never mergeable: `qemu_rdma_buffer_mergable`
returns 0, whatever the cursor. -/
theorem straddling_page_not_mergable (st : St) (offset len host : Nat)
    (block : RDMALocalBlock)
    (hidx : 0 ≤ st.rdma.current_index)
    (hblock : st.local_ram_blocks.block[st.rdma.current_index.toNat]? = some block)
    (hhost : host = (block.local_host_addr + (offset + U64 - block.offset) % U64) % U64)
    (hl : 0 < len) (hrange : host + len < U64)
    (hcross : RDMA_REG_CHUNK_INDEX block.local_host_addr host
      ≠ RDMA_REG_CHUNK_INDEX block.local_host_addr (host + len - 1)) :
    qemu_rdma_buffer_mergable offset len st = some 0 := by
  rw [buffer_mergable_eq st offset len block hidx hblock host _ _ hhost rfl rfl]
  obtain ⟨s1, s2, s3⟩ := chunk_start_end block st.rdma.current_chunk
  have hne : ¬ (st.rdma.current_length ≠ 0 ∧
      offset = (st.rdma.current_offset + st.rdma.current_length) % U64 ∧
      (block.offset ≤ offset ∧
        (offset + len) % U64 ≤ (block.offset + block.length) % U64) ∧
      (0 ≤ st.rdma.current_chunk ∧
        (if RDMA_REG_CHUNK_START block st.rdma.current_chunk < block.local_host_addr
          then block.local_host_addr
          else RDMA_REG_CHUNK_START block st.rdma.current_chunk) ≤ host ∧
        (host + len) % U64 ≤
          (if RDMA_REG_CHUNK_END block st.rdma.current_chunk
              > ((if RDMA_REG_CHUNK_START block st.rdma.current_chunk < block.local_host_addr
                  then block.local_host_addr
                  else RDMA_REG_CHUNK_START block st.rdma.current_chunk)
                + block.length) % U64
            then ((if RDMA_REG_CHUNK_START block st.rdma.current_chunk
                  < block.local_host_addr then block.local_host_addr
                else RDMA_REG_CHUNK_START block st.rdma.current_chunk) + block.length) % U64
            else RDMA_REG_CHUNK_END block st.rdma.current_chunk))) := by
    rintro ⟨_, _, _, _, h5, h6⟩
    apply hcross
    simp only [RDMA_REG_CHUNK_INDEX, chunk_shift_div]
    have : host / 1048576 = (host + len - 1) / 1048576 :=
      same_chunk_of_window _ _ _ _ host len s1 s3 (raised_start_ge _ _) h5
        (lowered_end_le _ _) hrange hl h6
    rw [this]
  rw [if_neg hne]

/-- C14 on the sample session with the range `[0, 4096)` pending in chunk 0:
the page at offset 4096 of 1 MiB, contiguous to the pending range, ends in
chunk 1 and is not mergeable, while the 4 KiB page at the same offset is. -/
theorem straddling_page_not_mergable_witness :
    qemu_rdma_buffer_mergable 4096 1048576 (sample_pending false 0 []) = some 0 ∧
    qemu_rdma_buffer_mergable 4096 4096 (sample_pending false 0 []) = some 1 :=
  ⟨straddling_page_not_mergable (sample_pending false 0 []) 4096 1048576 (1073741824 + 4096)
      ⟨1073741824, 2147483648, 0, 8388608, none, none, none, 55⟩
      (by decide) (by decide) (by decide) (by decide) (by decide) (by decide),
    by decide⟩

theorem raised_start_eq (s base : Nat) : (if s < base then base else s) = max s base := by
  split <;> omega

theorem lowered_end_eq (e x : Nat) : (if e > x then x else e) = min e x := by
  split <;> omega

/-- `RDMA_REG_CHUNK_START` and `RDMA_REG_CHUNK_END` of a chunk index that keeps
the chunk inside the 64-bit address space. -/
theorem chunk_start_end_nat (b : RDMALocalBlock) (c : Nat)
    (h : (b.local_host_addr / 1048576 + c) * 1048576 + 1048576 < U64) :
    RDMA_REG_CHUNK_START b (c : Int) = (b.local_host_addr / 1048576 + c) * 1048576 ∧
    RDMA_REG_CHUNK_END b (c : Int) = (b.local_host_addr / 1048576 + c) * 1048576 + 1048576 := by
  have hc : ((c : Int) % (U64 : Int)).toNat = c := by
    have h1 : (c : Int) % (U64 : Int) = ((c % U64 : Nat) : Int) := by norm_cast
    rw [h1, Int.toNat_ofNat]
    apply Nat.mod_eq_of_lt
    simp only [U64] at h ⊢
    omega
  have hs : RDMA_REG_CHUNK_START b (c : Int)
      = (b.local_host_addr / 1048576 + c) * 1048576 := by
    simp only [RDMA_REG_CHUNK_START, hc, chunk_shift_div, chunk_shift_mul]
    simp only [U64] at h ⊢
    omega
  refine ⟨hs, ?_⟩
  simp only [RDMA_REG_CHUNK_END, hs, RDMA_REG_CHUNK_SIZE, chunk_shift_mul]
  simp only [U64] at h ⊢
  omega

theorem host_of_in_block (base blen boff offset : Nat)
    (hbase : base + blen < 18446744073709551616)
    (h3 : boff ≤ offset) (h4 : offset ≤ boff + blen)
    (ho : offset < 18446744073709551616) :
    (base + (offset + 18446744073709551616 - boff) % 18446744073709551616)
        % 18446744073709551616 = base + (offset - boff) := by
  have h1 : offset + 18446744073709551616 - boff = (offset - boff) + 18446744073709551616 := by
    omega
  rw [h1, Nat.add_mod_right, Nat.mod_eq_of_lt (by omega), Nat.mod_eq_of_lt (by omega)]

theorem mergable_arith (s base blen boff offset len co cl : Nat) (c : Int) (hc : 0 ≤ c)
    (hs : s ≤ base + blen)
    (hbase : base + 2 * blen + 1048576 < 18446744073709551616)
    (hoff : boff + blen < 18446744073709551616)
    (hpage : offset + len < 18446744073709551616) :
    (cl ≠ 0 ∧ offset = co + cl ∧ (boff ≤ offset ∧ offset + len ≤ boff + blen) ∧
      (0 ≤ c ∧
        max s base
          ≤ (base + (offset + 18446744073709551616 - boff) % 18446744073709551616)
              % 18446744073709551616 ∧
        ((base + (offset + 18446744073709551616 - boff) % 18446744073709551616)
              % 18446744073709551616 + len) % 18446744073709551616
          ≤ min (s + 1048576) ((max s base + blen) % 18446744073709551616))) ↔
    (0 < cl ∧ offset = co + cl ∧ (boff ≤ offset ∧ offset + len ≤ boff + blen) ∧
      (max s base ≤ base + (offset - boff) ∧
        base + (offset - boff) + len ≤ min (s + 1048576) (base + blen))) := by
  have hm : (max s base + blen) % 18446744073709551616 = max s base + blen := by
    apply Nat.mod_eq_of_lt
    rcases Nat.le_total s base with h | h
    · rw [Nat.max_eq_right h]; omega
    · rw [Nat.max_eq_left h]; omega
  rw [hm]
  constructor
  · rintro ⟨h1, h2, ⟨h3, h4⟩, _, h5, h6⟩
    have hh := host_of_in_block base blen boff offset (by omega) h3 (by omega) (by omega)
    rw [hh] at h5 h6
    rw [Nat.mod_eq_of_lt (by omega)] at h6
    refine ⟨Nat.pos_of_ne_zero h1, h2, ⟨h3, h4⟩, h5, ?_⟩
    rw [Nat.le_min] at h6 ⊢
    refine ⟨h6.1, ?_⟩
    omega
  · rintro ⟨h1, h2, ⟨h3, h4⟩, h5, h6⟩
    have hh := host_of_in_block base blen boff offset (by omega) h3 (by omega) (by omega)
    rw [hh, Nat.mod_eq_of_lt (by omega)]
    refine ⟨Nat.pos_iff_ne_zero.mp h1, h2, ⟨h3, h4⟩, hc, h5, ?_⟩
    rw [Nat.le_min] at h6 ⊢
    refine ⟨h6.1, ?_⟩
    have := Nat.le_max_right s base
    omega

/-- The result of `qemu_rdma_buffer_mergable` in plain arithmetic, for a cursor
whose block and chunk exist and ranges that do not wrap around. -/
theorem mergable_plain (st : St) (offset len c : Nat) (block : RDMALocalBlock)
    (hidx : 0 ≤ st.rdma.current_index)
    (hblock : st.local_ram_blocks.block[st.rdma.current_index.toNat]? = some block)
    (hchunk : st.rdma.current_chunk = (c : Int))
    (hc : c < RDMA_REG_NUM_CHUNKS block)
    (hbase : block.local_host_addr + 2 * block.length + RDMA_REG_CHUNK_SIZE < U64)
    (hoff : block.offset + block.length < U64)
    (hpage : offset + len < U64)
    (hcur : st.rdma.current_offset + st.rdma.current_length < U64) :
    qemu_rdma_buffer_mergable offset len st
      = some (if 0 < st.rdma.current_length ∧
          offset = st.rdma.current_offset + st.rdma.current_length ∧
          (block.offset ≤ offset ∧ offset + len ≤ block.offset + block.length) ∧
          (max (((block.local_host_addr >>> RDMA_REG_CHUNK_SHIFT) + c)
                <<< RDMA_REG_CHUNK_SHIFT) block.local_host_addr
              ≤ block.local_host_addr + (offset - block.offset) ∧
            block.local_host_addr + (offset - block.offset) + len
              ≤ min ((((block.local_host_addr >>> RDMA_REG_CHUNK_SHIFT) + c)
                  <<< RDMA_REG_CHUNK_SHIFT) + RDMA_REG_CHUNK_SIZE)
                (block.local_host_addr + block.length))
        then 1 else 0) := by
  have hsize : RDMA_REG_CHUNK_SIZE = 1048576 := rfl
  rw [hsize] at hbase
  have hb' : block.local_host_addr + block.length < U64 := by omega
  have hnum := num_chunks_eq block hb'
  rw [hnum] at hc
  have hfit : (block.local_host_addr / 1048576 + c) * 1048576 + 1048576 < U64 := by
    simp only [U64] at hbase ⊢
    omega
  obtain ⟨hs, he⟩ := chunk_start_end_nat block c hfit
  rw [buffer_mergable_eq st offset len block hidx hblock _ _ _ rfl rfl rfl, hchunk, hs, he]
  simp only [chunk_shift_div, chunk_shift_mul, hsize, raised_start_eq, lowered_end_eq]
  refine congrArg some (if_congr ?_ rfl rfl)
  rw [Nat.mod_eq_of_lt hcur, Nat.mod_eq_of_lt hoff, Nat.mod_eq_of_lt hpage]
  have hs' : (block.local_host_addr / 1048576 + c) * 1048576
      ≤ block.local_host_addr + block.length := by
    omega
  exact mergable_arith _ block.local_host_addr block.length block.offset offset len
    st.rdma.current_offset st.rdma.current_length (c : Int) (Int.natCast_nonneg c) hs' hbase
    hoff hpage

/-- C20. For a cursor whose current block and current chunk exist (the chunk
is one of the chunks of the block), with the block, the pending range and the
page ranges of the 64-bit spaces they live in (for the block with room to
spare: a chunk past its end and its length again), `qemu_rdma_buffer_mergable`
returns 1 exactly when the pending range is not empty, the page starts where it
ends, the page lies in `[block.offset, block.offset + block.length)`, and the
host range of the page lies in the current chunk clipped to the block,
`[max(chunk_start, base), min(chunk_end, base + length))`; it returns 0
otherwise. -/
theorem buffer_mergable_iff (st : St) (offset len c : Nat) (block : RDMALocalBlock)
    (hidx : 0 ≤ st.rdma.current_index)
    (hblock : st.local_ram_blocks.block[st.rdma.current_index.toNat]? = some block)
    (hchunk : st.rdma.current_chunk = (c : Int))
    (hc : c < RDMA_REG_NUM_CHUNKS block)
    (hbase : block.local_host_addr + 2 * block.length + RDMA_REG_CHUNK_SIZE < U64)
    (hoff : block.offset + block.length < U64)
    (hpage : offset + len < U64)
    (hcur : st.rdma.current_offset + st.rdma.current_length < U64) :
    qemu_rdma_buffer_mergable offset len st
      = some (if 0 < st.rdma.current_length ∧
          offset = st.rdma.current_offset + st.rdma.current_length ∧
          (block.offset ≤ offset ∧ offset + len ≤ block.offset + block.length) ∧
          (max (((block.local_host_addr >>> RDMA_REG_CHUNK_SHIFT) + c)
                <<< RDMA_REG_CHUNK_SHIFT) block.local_host_addr
              ≤ block.local_host_addr + (offset - block.offset) ∧
            block.local_host_addr + (offset - block.offset) + len
              ≤ min ((((block.local_host_addr >>> RDMA_REG_CHUNK_SHIFT) + c)
                  <<< RDMA_REG_CHUNK_SHIFT) + RDMA_REG_CHUNK_SIZE)
                (block.local_host_addr + block.length))
        then 1 else 0) :=
  mergable_plain st offset len c block hidx hblock hchunk hc hbase hoff hpage hcur

/-- C20 on the sample session with `[0, 4096)` pending in chunk 0 of the 8 MiB
block: the page `(4096, 4096)` passes the four tests and is mergeable; the
page `(8192, 4096)` does not start at the end of the pending range and is not. -/
theorem buffer_mergable_iff_witness :
    qemu_rdma_buffer_mergable 4096 4096 (sample_pending false 0 []) = some 1 ∧
    qemu_rdma_buffer_mergable 8192 4096 (sample_pending false 0 []) = some 0 := by
  have h := fun (offset : Nat) (ho : offset + 4096 < U64) =>
    buffer_mergable_iff (sample_pending false 0 []) offset 4096 0
      ⟨1073741824, 2147483648, 0, 8388608, none, none, none, 55⟩
      (by decide) (by decide) (by decide) (by decide) (by decide) (by decide) ho (by decide)
  constructor
  · rw [h 4096 (by decide)]; decide
  · rw [h 8192 (by decide)]; decide

/-! ## Chunk indices and registration ranges -/

theorem toInt32_small (x : Nat) (h : x < 2147483648) : toInt32 x = (x : Int) := by
  have h1 : x % U32 = x := Nat.mod_eq_of_lt (by simp only [U32]; omega)
  simp only [toInt32, h1, h, if_true]

/-- Quotient and remainder of an address by the chunk size, as linear facts. -/
theorem chunk_div_bounds (x : Nat) : x / 1048576 * 1048576 ≤ x ∧ x < x / 1048576 * 1048576 + 1048576 := by
  omega

/-- The index of an address of the block, its end included, in terms of the
quotients. -/
theorem chunk_index_in_block (b : RDMALocalBlock) (a : Nat)
    (hb : b.local_host_addr + b.length < U64)
    (h1 : b.local_host_addr ≤ a) (h2 : a ≤ b.local_host_addr + b.length) :
    RDMA_REG_CHUNK_INDEX b.local_host_addr a = a / 1048576 - b.local_host_addr / 1048576 ∧
    RDMA_REG_CHUNK_INDEX b.local_host_addr a < RDMA_REG_NUM_CHUNKS b := by
  have hi := chunk_index_of_le b.local_host_addr a h1 (by omega)
  have hn := num_chunks_eq b hb
  refine ⟨hi, ?_⟩
  rw [hi, hn]
  have h3 : a / 1048576 ≤ (b.local_host_addr + b.length) / 1048576 := Nat.div_le_div_right h2
  omega

/-- What the search loop returns for a page it finds: a block that passes the
tests, with the chunk index of the host address of the page in it. -/
theorem search_loop_chunk (offset length : Nat) (bs : List RDMALocalBlock) (i0 i : Nat)
    (c : Int) (h : qemu_rdma_search_ram_block_loop offset length bs i0 = some (i, c)) :
    ∃ b, i0 ≤ i ∧ bs[i - i0]? = some b ∧ b.offset ≤ offset ∧
      (offset + length) % U64 ≤ (b.offset + b.length) % U64 ∧
      c = toInt32 (RDMA_REG_CHUNK_INDEX b.local_host_addr
        ((b.local_host_addr + (offset + U64 - b.offset) % U64) % U64)) := by
  induction bs generalizing i0 with
  | nil => simp [qemu_rdma_search_ram_block_loop] at h
  | cons b bs ih =>
    unfold qemu_rdma_search_ram_block_loop at h
    by_cases h1 : offset < b.offset
    · rw [if_pos h1] at h
      obtain ⟨b', hle, hget, hfit⟩ := ih (i0 + 1) h
      refine ⟨b', by omega, ?_, hfit⟩
      have : i - i0 = (i - (i0 + 1)) + 1 := by omega
      rw [this, List.getElem?_cons_succ]; exact hget
    · rw [if_neg h1] at h
      by_cases h2 : (offset + length) % U64 > (b.offset + b.length) % U64
      · rw [if_pos h2] at h
        obtain ⟨b', hle, hget, hfit⟩ := ih (i0 + 1) h
        refine ⟨b', by omega, ?_, hfit⟩
        have : i - i0 = (i - (i0 + 1)) + 1 := by omega
        rw [this, List.getElem?_cons_succ]; exact hget
      · rw [if_neg h2] at h
        simp only [Option.some.injEq, Prod.mk.injEq] at h
        obtain ⟨hi, hc⟩ := h
        refine ⟨b, by omega, ?_, by omega, by omega, hc.symm⟩
        rw [← hi]; simp

/-- C27. For a block that lies in the 64-bit address space and whose chunk
count fits an `int`, every host address `a` with `base ≤ a ≤ base + length`
has a chunk index below `RDMA_REG_NUM_CHUNKS`; the `int` the code keeps it in
is the same number; it is inside the `pmr` and `remote_keys` arrays as
`g_malloc0` allocates them; the host address the write engine computes for an
offset of the block is such an address; and the chunk index the directory
search returns for a page it finds in the block is below the chunk count. -/
theorem chunk_index_valid (b : RDMALocalBlock) (a : Nat)
    (hb : b.local_host_addr + b.length < U64)
    (hn : RDMA_REG_NUM_CHUNKS b < 2147483648)
    (h1 : b.local_host_addr ≤ a) (h2 : a ≤ b.local_host_addr + b.length) :
    RDMA_REG_CHUNK_INDEX b.local_host_addr a < RDMA_REG_NUM_CHUNKS b ∧
    (0 : Int) ≤ toInt32 (RDMA_REG_CHUNK_INDEX b.local_host_addr a) ∧
    toInt32 (RDMA_REG_CHUNK_INDEX b.local_host_addr a)
      = (RDMA_REG_CHUNK_INDEX b.local_host_addr a : Int) ∧
    (∀ pmr : List (Option ibv_mr),
      g_malloc0_array (toInt32 (RDMA_REG_NUM_CHUNKS b)) none = some (some pmr) →
      ∃ e, pmr[(toInt32 (RDMA_REG_CHUNK_INDEX b.local_host_addr a)).toNat]? = some e) ∧
    (∀ keys : List Nat,
      g_malloc0_array (toInt32 (RDMA_REG_NUM_CHUNKS b)) 0 = some (some keys) →
      ∃ k, keys[(toInt32 (RDMA_REG_CHUNK_INDEX b.local_host_addr a)).toNat]? = some k) ∧
    (∀ offset : Nat, b.offset + b.length < U64 → b.offset ≤ offset →
      offset ≤ b.offset + b.length →
      b.local_host_addr ≤ (b.local_host_addr + (offset + U64 - b.offset) % U64) % U64 ∧
      (b.local_host_addr + (offset + U64 - b.offset) % U64) % U64
        ≤ b.local_host_addr + b.length) ∧
    (∀ (bs : List RDMALocalBlock) (i : Nat) (offset length : Nat) (c : Int),
      bs[i]? = some b → b.offset + b.length < U64 → offset + length < U64 →
      qemu_rdma_search_ram_block_loop offset length bs 0 = some (i, c) →
      0 ≤ c ∧ c.toNat < RDMA_REG_NUM_CHUNKS b) := by
  obtain ⟨hidx, hlt⟩ := chunk_index_in_block b a hb h1 h2
  have hsmall := toInt32_small _ (lt_trans hlt hn)
  have hnum := toInt32_small _ hn
  have halloc : ∀ {α : Type} (z : α) (arr : List α),
      g_malloc0_array (toInt32 (RDMA_REG_NUM_CHUNKS b)) z = some (some arr) →
      arr.length = RDMA_REG_NUM_CHUNKS b := by
    intro α z arr h
    rw [hnum] at h
    unfold g_malloc0_array at h
    split at h
    · exact absurd h (by simp)
    · split at h
      · exact absurd h (by simp)
      · simp only [Option.some.injEq] at h
        rw [← h]; simp
  refine ⟨hlt, ?_, hsmall, ?_, ?_, ?_, ?_⟩
  · rw [hsmall]; exact Int.natCast_nonneg _
  · intro pmr hp
    have hl := halloc none pmr hp
    rw [hsmall, Int.toNat_ofNat]
    exact ⟨pmr[RDMA_REG_CHUNK_INDEX b.local_host_addr a], List.getElem?_eq_getElem (by omega)⟩
  · intro keys hk
    have hl := halloc 0 keys hk
    rw [hsmall, Int.toNat_ofNat]
    exact ⟨keys[RDMA_REG_CHUNK_INDEX b.local_host_addr a], List.getElem?_eq_getElem (by omega)⟩
  · intro offset ho hlo hhi
    have hh := host_of_in_block b.local_host_addr b.length b.offset offset
      (by simpa only [U64] using hb) hlo hhi (by simp only [U64] at ho ⊢; omega)
    simp only [U64]
    rw [hh]
    omega
  · intro bs i offset length c hget ho hpage hs
    obtain ⟨b', _, hget', hlo, hhi, hc⟩ := search_loop_chunk offset length bs 0 i c hs
    rw [Nat.sub_zero, hget] at hget'
    simp only [Option.some.injEq] at hget'
    subst hget'
    rw [Nat.mod_eq_of_lt hpage, Nat.mod_eq_of_lt ho] at hhi
    have hh := host_of_in_block b.local_host_addr b.length b.offset offset
      (by simpa only [U64] using hb) hlo (by omega) (by simp only [U64] at hpage ⊢; omega)
    have hh' : (b.local_host_addr + (offset + U64 - b.offset) % U64) % U64
        = b.local_host_addr + (offset - b.offset) := by simpa only [U64] using hh
    rw [hh'] at hc
    obtain ⟨_, hlt'⟩ := chunk_index_in_block b (b.local_host_addr + (offset - b.offset)) hb
      (by omega) (by omega)
    have hs' := toInt32_small _ (lt_trans hlt' hn)
    rw [hc, hs']
    exact ⟨Int.natCast_nonneg _, by rw [Int.toNat_ofNat]; exact hlt'⟩

/-- C27 at the sample block of 8 MiB at `0x40000000` and the address one past
its end: chunk index 8 of 9 chunks. -/
theorem chunk_index_valid_witness :
    RDMA_REG_CHUNK_INDEX 1073741824 (1073741824 + 8388608) = 8 ∧
    RDMA_REG_NUM_CHUNKS ⟨1073741824, 2147483648, 0, 8388608, none, none, none, 55⟩ = 9 ∧
    RDMA_REG_CHUNK_INDEX 1073741824 (1073741824 + 8388608)
      < RDMA_REG_NUM_CHUNKS ⟨1073741824, 2147483648, 0, 8388608, none, none, none, 55⟩ :=
  ⟨by decide, by decide,
    (chunk_index_valid ⟨1073741824, 2147483648, 0, 8388608, none, none, none, 55⟩
      (1073741824 + 8388608) (by decide) (by decide) (by decide) (by decide)).1⟩

/-- The clipped registration range of a chunk of the block in terms of the
quotient of the base by the chunk size. -/
theorem chunk_range_eq (b : RDMALocalBlock) (i : Nat)
    (hb : b.local_host_addr + b.length + RDMA_REG_CHUNK_SIZE < U64)
    (hi : i < RDMA_REG_NUM_CHUNKS b) :
    chunk_range b i
      = (max ((b.local_host_addr / 1048576 + i) * 1048576) b.local_host_addr,
         min ((b.local_host_addr / 1048576 + i) * 1048576 + 1048576)
           (b.local_host_addr + b.length)) := by
  have hS : RDMA_REG_CHUNK_SIZE = 1048576 := by decide
  rw [hS] at hb
  have hn := num_chunks_eq b (by omega)
  obtain ⟨hq1, hq2⟩ := chunk_div_bounds b.local_host_addr
  obtain ⟨hQ1, hQ2⟩ := chunk_div_bounds (b.local_host_addr + b.length)
  have hse := chunk_start_end_nat b i (by
    rw [hn] at hi
    generalize b.local_host_addr / 1048576 = q at *
    generalize (b.local_host_addr + b.length) / 1048576 = Q at *
    omega)
  simp only [chunk_range, hse.1, hse.2]

/-- The tiling of a block by clipped chunks, on the quotients. -/
theorem tile_arith (B L q Q n : Nat) (hL : 0 < L)
    (hq1 : q * 1048576 ≤ B) (hq2 : B < q * 1048576 + 1048576)
    (hQ1 : Q * 1048576 ≤ B + L) (hQ2 : B + L < Q * 1048576 + 1048576)
    (hn : n = Q - q + 1) :
    max ((q + 0) * 1048576) B = B ∧
    min ((q + (n - 1)) * 1048576 + 1048576) (B + L) = B + L ∧
    (∀ i, i + 1 < n →
      min ((q + i) * 1048576 + 1048576) (B + L) = max ((q + (i + 1)) * 1048576) B) ∧
    (∀ i, i < n →
      max ((q + i) * 1048576) B ≤ min ((q + i) * 1048576 + 1048576) (B + L) ∧
      min ((q + i) * 1048576 + 1048576) (B + L) - max ((q + i) * 1048576) B ≤ 1048576) ∧
    (∀ i j, i < j → j < n →
      min ((q + i) * 1048576 + 1048576) (B + L) ≤ max ((q + j) * 1048576) B) := by
  have hqQ : q ≤ Q := by omega
  refine ⟨by omega, by omega, ?_, ?_, ?_⟩
  · intro i hi; omega
  · intro i hi; omega
  · intro i j hij hj; omega

/-- For a block of positive length that leaves room for one chunk above it in
the 64-bit address space, the clipped ranges of its chunks tile the block, and
the clipped range of the chunk of an address of the block contains the
address and lies inside the block. -/
theorem chunk_ranges_tile (b : RDMALocalBlock) (hl : 0 < b.length)
    (hb : b.local_host_addr + b.length + RDMA_REG_CHUNK_SIZE < U64) :
    (chunk_range b 0).1 = b.local_host_addr ∧
    (chunk_range b (RDMA_REG_NUM_CHUNKS b - 1)).2 = b.local_host_addr + b.length ∧
    (∀ i, i + 1 < RDMA_REG_NUM_CHUNKS b → (chunk_range b i).2 = (chunk_range b (i + 1)).1) ∧
    (∀ i, i < RDMA_REG_NUM_CHUNKS b →
      (chunk_range b i).1 ≤ (chunk_range b i).2 ∧
      (chunk_range b i).2 - (chunk_range b i).1 ≤ RDMA_REG_CHUNK_SIZE) ∧
    (∀ i j, i < j → j < RDMA_REG_NUM_CHUNKS b →
      (chunk_range b i).2 ≤ (chunk_range b j).1) ∧
    (∀ a, (b.local_host_addr ≤ a ∧ a < b.local_host_addr + b.length) ↔
      ∃ i, i < RDMA_REG_NUM_CHUNKS b ∧ (chunk_range b i).1 ≤ a ∧ a < (chunk_range b i).2) ∧
    (∀ a, b.local_host_addr ≤ a → a < b.local_host_addr + b.length →
      (chunk_range b (RDMA_REG_CHUNK_INDEX b.local_host_addr a)).1 ≤ a ∧
      a < (chunk_range b (RDMA_REG_CHUNK_INDEX b.local_host_addr a)).2 ∧
      b.local_host_addr ≤ (chunk_range b (RDMA_REG_CHUNK_INDEX b.local_host_addr a)).1 ∧
      (chunk_range b (RDMA_REG_CHUNK_INDEX b.local_host_addr a)).2
        ≤ b.local_host_addr + b.length) := by
  have hS : RDMA_REG_CHUNK_SIZE = 1048576 := by decide
  have hb' := hb
  rw [hS] at hb'
  have hn := num_chunks_eq b (by omega)
  obtain ⟨hq1, hq2⟩ := chunk_div_bounds b.local_host_addr
  obtain ⟨hQ1, hQ2⟩ := chunk_div_bounds (b.local_host_addr + b.length)
  have hpos : 0 < RDMA_REG_NUM_CHUNKS b := by omega
  obtain ⟨t1, t2, t3, t4, t5⟩ := tile_arith b.local_host_addr b.length
    (b.local_host_addr / 1048576) ((b.local_host_addr + b.length) / 1048576)
    (RDMA_REG_NUM_CHUNKS b) hl hq1 hq2 hQ1 hQ2 hn
  have hin : ∀ a, b.local_host_addr ≤ a → a < b.local_host_addr + b.length →
      RDMA_REG_CHUNK_INDEX b.local_host_addr a < RDMA_REG_NUM_CHUNKS b ∧
      (chunk_range b (RDMA_REG_CHUNK_INDEX b.local_host_addr a)).1 ≤ a ∧
      a < (chunk_range b (RDMA_REG_CHUNK_INDEX b.local_host_addr a)).2 ∧
      b.local_host_addr ≤ (chunk_range b (RDMA_REG_CHUNK_INDEX b.local_host_addr a)).1 ∧
      (chunk_range b (RDMA_REG_CHUNK_INDEX b.local_host_addr a)).2
        ≤ b.local_host_addr + b.length := by
    intro a h1 h2
    obtain ⟨hidx, hlt⟩ := chunk_index_in_block b a (by omega) h1 (by omega)
    obtain ⟨ha1, ha2⟩ := chunk_div_bounds a
    have hqa : b.local_host_addr / 1048576 ≤ a / 1048576 := Nat.div_le_div_right h1
    refine ⟨hlt, ?_⟩
    rw [chunk_range_eq b _ hb hlt, hidx]
    have he : b.local_host_addr / 1048576 + (a / 1048576 - b.local_host_addr / 1048576)
        = a / 1048576 := by omega
    rw [he]
    dsimp only
    generalize a / 1048576 = x at *
    omega
  refine ⟨?_, ?_, ?_, ?_, ?_, ?_, ?_⟩
  · rw [chunk_range_eq b 0 hb hpos]; exact t1
  · rw [chunk_range_eq b _ hb (by omega)]; exact t2
  · intro i hi
    rw [chunk_range_eq b i hb (by omega), chunk_range_eq b (i + 1) hb hi]
    exact t3 i hi
  · intro i hi
    rw [chunk_range_eq b i hb hi, hS]
    exact t4 i hi
  · intro i j hij hj
    rw [chunk_range_eq b i hb (by omega), chunk_range_eq b j hb hj]
    exact t5 i j hij hj
  · intro a
    constructor
    · intro ⟨h1, h2⟩
      obtain ⟨hlt, h3, h4, _⟩ := hin a h1 h2
      exact ⟨_, hlt, h3, h4⟩
    · intro ⟨i, hi, h1, h2⟩
      rw [chunk_range_eq b i hb hi] at h1 h2
      dsimp only at h1 h2
      omega
  · intro a h1 h2
    exact (hin a h1 h2).2

/-! ## Registration cache -/

theorem list_set_self {α : Type} (l : List α) (i : Nat) (a : α) (h : l[i]? = some a) :
    l.set i a = l := by
  induction l generalizing i with
  | nil => rfl
  | cons x xs ih =>
    cases i with
    | zero => simp at h; simp [h]
    | succ i => simp at h; simp [ih i h]

/-- Replacing a block by itself changes nothing. -/
theorem set_block_self (st : St) (bi : Nat) (block : RDMALocalBlock)
    (h : st.local_ram_blocks.block[bi]? = some block) : st.set_block bi block = st := by
  simp only [St.set_block, list_set_self _ _ _ h]

theorem set_block_get (st : St) (bi : Nat) (block b1 : RDMALocalBlock)
    (h : st.local_ram_blocks.block[bi]? = some block) :
    (st.set_block bi b1).local_ram_blocks.block[bi]? = some b1 := by
  obtain ⟨hlt, _⟩ := List.getElem?_eq_some_iff.mp h
  simp only [St.set_block]
  rw [List.getElem?_set_self hlt]

theorem set_block_set (st : St) (bi : Nat) (b1 b2 : RDMALocalBlock) :
    (st.set_block bi b1).set_block bi b2 = st.set_block bi b2 := by
  simp only [St.set_block, List.set_set]

/-- Replacing a block by one of the same geometry keeps the geometry of the
directory. -/
theorem set_block_geometry (st : St) (bi : Nat) (block b1 : RDMALocalBlock)
    (h : st.local_ram_blocks.block[bi]? = some block) (hg : b1.geometry = block.geometry) :
    (st.set_block bi b1).local_ram_blocks.block.map RDMALocalBlock.geometry
      = st.local_ram_blocks.block.map RDMALocalBlock.geometry := by
  simp only [St.set_block, List.map_set, hg]
  have h2 : (st.local_ram_blocks.block.map RDMALocalBlock.geometry)[bi]?
      = some block.geometry := by
    rw [List.getElem?_map, h]; rfl
  exact list_set_self _ _ _ h2

/-- The body of `qemu_rdma_register_and_get_keys` for the block it works on,
in the vocabulary of the registration cache. -/
theorem register_unfold (bi host : Nat) (wl wr : Bool) (l r : Nat) (st : St)
    (block : RDMALocalBlock) (hblock : st.local_ram_blocks.block[bi]? = some block) :
    qemu_rdma_register_and_get_keys bi host wl wr l r st =
      match block.mr with
      | some mr =>
        some (0, (if wl then mr.lkey else l), (if wr then mr.rkey else r), st)
      | none =>
        match register_pmr block with
        | none => none
        | some none => some (-1, l, r, st)
        | some (some pmr) =>
          if toInt32 (RDMA_REG_CHUNK_INDEX block.local_host_addr host) < 0 then none
          else
            match pmr[(toInt32 (RDMA_REG_CHUNK_INDEX block.local_host_addr host)).toNat]? with
            | none => none
            | some (some mr) =>
              some (0, (if wl then mr.lkey else l), (if wr then mr.rkey else r),
                st.set_block bi { block with pmr := some pmr })
            | some none =>
              match call (Call.ibv_reg_mr
                  (register_range block
                    (toInt32 (RDMA_REG_CHUNK_INDEX block.local_host_addr host))).1
                  (register_range block
                    (toInt32 (RDMA_REG_CHUNK_INDEX block.local_host_addr host))).2
                  (register_access wr))
                  (st.set_block bi { block with pmr := some pmr }) with
              | none => none
              | some (r1, st2) =>
                match r1.id with
                | none => some (-1, l, r, st2)
                | some _ =>
                  some (0, (if wl then r1.lkey else l), (if wr then r1.rkey else r),
                    st2.set_block bi
                      { block with
                        pmr := some
                          (pmr.set
                            (toInt32 (RDMA_REG_CHUNK_INDEX block.local_host_addr host)).toNat
                            (some (register_mr block
                              (toInt32 (RDMA_REG_CHUNK_INDEX block.local_host_addr host))
                              wr r1))) }) := by
  unfold qemu_rdma_register_and_get_keys
  rw [hblock]
  rfl

/-- The ways `qemu_rdma_register_and_get_keys` returns: with the keys of the
whole-block MR; with -1 for want of an array; with the keys of the MR the chunk
has; or after one `ibv_reg_mr` for the clipped chunk, with -1 when that fails
and else with the keys of the new MR, which it stores. -/
theorem register_cases (bi host : Nat) (wl wr : Bool) (l r : Nat) (st st' : St) (ret : Int)
    (lk rk : Nat) (block : RDMALocalBlock)
    (hblock : st.local_ram_blocks.block[bi]? = some block)
    (h : qemu_rdma_register_and_get_keys bi host wl wr l r st = some (ret, lk, rk, st')) :
    (∃ mr, block.mr = some mr ∧ ret = 0 ∧ lk = (if wl then mr.lkey else l) ∧
      rk = (if wr then mr.rkey else r) ∧ st' = st) ∨
    (block.mr = none ∧ register_pmr block = some none ∧ ret = -1 ∧ lk = l ∧ rk = r ∧
      st' = st) ∨
    (∃ pmr, block.mr = none ∧ register_pmr block = some (some pmr) ∧
      0 ≤ toInt32 (RDMA_REG_CHUNK_INDEX block.local_host_addr host) ∧
      ((∃ mr, pmr[(toInt32 (RDMA_REG_CHUNK_INDEX block.local_host_addr host)).toNat]?
            = some (some mr) ∧
          ret = 0 ∧ lk = (if wl then mr.lkey else l) ∧ rk = (if wr then mr.rkey else r) ∧
          st' = st.set_block bi { block with pmr := some pmr }) ∨
       (pmr[(toInt32 (RDMA_REG_CHUNK_INDEX block.local_host_addr host)).toNat]? = some none ∧
        ∃ resp st2,
          call (Call.ibv_reg_mr
              (register_range block
                (toInt32 (RDMA_REG_CHUNK_INDEX block.local_host_addr host))).1
              (register_range block
                (toInt32 (RDMA_REG_CHUNK_INDEX block.local_host_addr host))).2
              (register_access wr))
            (st.set_block bi { block with pmr := some pmr }) = some (resp, st2) ∧
          ((resp.id = none ∧ ret = -1 ∧ lk = l ∧ rk = r ∧ st' = st2) ∨
           (resp.id ≠ none ∧ ret = 0 ∧ lk = (if wl then resp.lkey else l) ∧
            rk = (if wr then resp.rkey else r) ∧
            st' = st2.set_block bi
              { block with
                pmr := some
                  (pmr.set (toInt32 (RDMA_REG_CHUNK_INDEX block.local_host_addr host)).toNat
                    (some (register_mr block
                      (toInt32 (RDMA_REG_CHUNK_INDEX block.local_host_addr host)) wr
                      resp))) }))))) := by
  rw [register_unfold bi host wl wr l r st block hblock] at h
  cases hmr : block.mr with
  | some mr =>
    rw [hmr] at h
    simp only [Option.some.injEq, Prod.mk.injEq] at h
    obtain ⟨h1, h2, h3, h4⟩ := h
    exact Or.inl ⟨mr, rfl, h1.symm, h2.symm, h3.symm, h4.symm⟩
  | none =>
    right
    generalize hchunk : toInt32 (RDMA_REG_CHUNK_INDEX block.local_host_addr host) = chunk at h ⊢
    cases hpm : register_pmr block with
    | none => rw [hmr, hpm] at h; exact absurd h (by simp)
    | some o =>
      cases o with
      | none =>
        rw [hmr, hpm] at h
        simp only [Option.some.injEq, Prod.mk.injEq] at h
        obtain ⟨h1, h2, h3, h4⟩ := h
        exact Or.inl ⟨rfl, rfl, h1.symm, h2.symm, h3.symm, h4.symm⟩
      | some pmr =>
        right
        by_cases hneg : chunk < 0
        · rw [hmr, hpm] at h; simp only [hneg, if_true] at h; exact absurd h (by simp)
        · refine ⟨pmr, rfl, rfl, not_lt.mp hneg, ?_⟩
          cases hent : pmr[chunk.toNat]? with
          | none => rw [hmr, hpm] at h; simp only [hneg, if_false, hent] at h; exact absurd h (by simp)
          | some e =>
            cases e with
            | some mr =>
              rw [hmr, hpm] at h
              simp only [hneg, if_false, hent, Option.some.injEq, Prod.mk.injEq] at h
              obtain ⟨h1, h2, h3, h4⟩ := h
              exact Or.inl ⟨mr, rfl, h1.symm, h2.symm, h3.symm, h4.symm⟩
            | none =>
              right
              refine ⟨rfl, ?_⟩
              cases hc : call (Call.ibv_reg_mr (register_range block chunk).1
                  (register_range block chunk).2 (register_access wr))
                  (st.set_block bi { block with pmr := some pmr, mr := none }) with
              | none =>
                rw [hmr, hpm] at h; simp only [hneg, if_false, hent, hc] at h
                exact absurd h (by simp)
              | some p =>
                obtain ⟨r1, st2⟩ := p
                refine ⟨r1, st2, rfl, ?_⟩
                cases hid : r1.id with
                | none =>
                  rw [hmr, hpm] at h
                  simp only [hneg, if_false, hent, hc, hid, Option.some.injEq,
                    Prod.mk.injEq] at h
                  obtain ⟨h1, h2, h3, h4⟩ := h
                  exact Or.inl ⟨rfl, h1.symm, h2.symm, h3.symm, h4.symm⟩
                | some x =>
                  rw [hmr, hpm] at h
                  simp only [hneg, if_false, hent, hc, hid, Option.some.injEq,
                    Prod.mk.injEq] at h
                  obtain ⟨h1, h2, h3, h4⟩ := h
                  exact Or.inr ⟨by simp, h1.symm, h2.symm, h3.symm, h4.symm⟩

/-- The calls of `qemu_rdma_register_and_get_keys`: none, or the one
`ibv_reg_mr` for the clipped chunk of the address. -/
theorem register_trace (bi host : Nat) (wl wr : Bool) (l r : Nat) (st st' : St) (ret : Int)
    (lk rk : Nat) (block : RDMALocalBlock)
    (hblock : st.local_ram_blocks.block[bi]? = some block)
    (h : qemu_rdma_register_and_get_keys bi host wl wr l r st = some (ret, lk, rk, st')) :
    st'.trace = st.trace ∨
    (block.mr = none ∧
      st'.trace = st.trace ++ [Call.ibv_reg_mr
        (register_range block (toInt32 (RDMA_REG_CHUNK_INDEX block.local_host_addr host))).1
        (register_range block (toInt32 (RDMA_REG_CHUNK_INDEX block.local_host_addr host))).2
        (register_access wr)]) := by
  rcases register_cases bi host wl wr l r st st' ret lk rk block hblock h with
    ⟨mr, _, _, _, _, hst⟩ | ⟨_, _, _, _, _, hst⟩ | ⟨pmr, hmr, _, _, hc⟩
  · left; rw [hst]
  · left; rw [hst]
  · rcases hc with ⟨mr, _, _, _, _, hst⟩ | ⟨_, resp, st2, hcall, hres⟩
    · left; rw [hst]; rfl
    · right
      obtain ⟨_, ht, _, _⟩ := call_frame _ _ _ _ hcall
      refine ⟨hmr, ?_⟩
      rcases hres with ⟨_, _, _, _, hst⟩ | ⟨_, _, _, _, hst⟩
      · rw [hst, ht]; rfl
      · rw [hst]; show st2.trace = _; rw [ht]; rfl

/-- The range the code registers for the chunk of an address of a well-formed
block is the clipped range of that chunk. -/
theorem register_range_eq (b : RDMALocalBlock) (host : Nat)
    (hb : b.local_host_addr + b.length + RDMA_REG_CHUNK_SIZE < U64)
    (hn : RDMA_REG_NUM_CHUNKS b < 2147483648)
    (h1 : b.local_host_addr ≤ host) (h2 : host ≤ b.local_host_addr + b.length) :
    (register_range b (toInt32 (RDMA_REG_CHUNK_INDEX b.local_host_addr host))).1
      = (chunk_range b (RDMA_REG_CHUNK_INDEX b.local_host_addr host)).1 ∧
    (register_range b (toInt32 (RDMA_REG_CHUNK_INDEX b.local_host_addr host))).1
      + (register_range b (toInt32 (RDMA_REG_CHUNK_INDEX b.local_host_addr host))).2
      = (chunk_range b (RDMA_REG_CHUNK_INDEX b.local_host_addr host)).2 ∧
    (chunk_range b (RDMA_REG_CHUNK_INDEX b.local_host_addr host)).1
      ≤ (chunk_range b (RDMA_REG_CHUNK_INDEX b.local_host_addr host)).2 := by
  have hS : RDMA_REG_CHUNK_SIZE = 1048576 := by decide
  have hb' := hb
  rw [hS] at hb'
  obtain ⟨hidx, hlt⟩ := chunk_index_in_block b host (by omega) h1 h2
  have hsmall := toInt32_small _ (lt_trans hlt hn)
  obtain ⟨hq1, hq2⟩ := chunk_div_bounds b.local_host_addr
  obtain ⟨ha1, ha2⟩ := chunk_div_bounds host
  have hqa : b.local_host_addr / 1048576 ≤ host / 1048576 := Nat.div_le_div_right h1
  have he : b.local_host_addr / 1048576 + RDMA_REG_CHUNK_INDEX b.local_host_addr host
      = host / 1048576 := by omega
  have hse := chunk_start_end_nat b (RDMA_REG_CHUNK_INDEX b.local_host_addr host) (by
    rw [he]; simp only [U64] at hb' ⊢; omega)
  rw [he] at hse
  have hblockend : (b.local_host_addr + b.length) % U64 = b.local_host_addr + b.length :=
    Nat.mod_eq_of_lt (by omega)
  have hreg : register_range b (toInt32 (RDMA_REG_CHUNK_INDEX b.local_host_addr host))
      = (max (host / 1048576 * 1048576) b.local_host_addr,
         (min (host / 1048576 * 1048576 + 1048576) (b.local_host_addr + b.length) + U64
            - max (host / 1048576 * 1048576) b.local_host_addr) % U64) := by
    rw [hsmall]
    simp only [register_range, hse.1, hse.2, hblockend, raised_start_eq, lowered_end_eq]
  have hch : chunk_range b (RDMA_REG_CHUNK_INDEX b.local_host_addr host)
      = (max (host / 1048576 * 1048576) b.local_host_addr,
         min (host / 1048576 * 1048576 + 1048576) (b.local_host_addr + b.length)) := by
    simp only [chunk_range, hse.1, hse.2]
  rw [hreg, hch]
  dsimp only
  have hU : b.local_host_addr + b.length + 1048576 < 18446744073709551616 := by
    simpa only [U64] using hb'
  simp only [U64]
  generalize host / 1048576 = x at *
  generalize b.local_host_addr = B at *
  generalize b.length = L at *
  clear hreg hch hse hblockend he hsmall hidx hlt hn hb hb'
  have hle : max (x * 1048576) B ≤ min (x * 1048576 + 1048576) (B + L) := by omega
  have hlt2 : min (x * 1048576 + 1048576) (B + L) < 18446744073709551616 := by omega
  refine ⟨trivial, ?_, hle⟩
  generalize max (x * 1048576) B = s at *
  generalize min (x * 1048576 + 1048576) (B + L) = e at *
  omega

/-- C21. For a block of positive length that leaves room for one chunk above
it in the 64-bit address space and whose chunk count fits an `int`, the
clipped registration ranges
`[max(RDMA_REG_CHUNK_START(i), base), min(RDMA_REG_CHUNK_END(i), base + length))`
of the chunks `i = 0 .. RDMA_REG_NUM_CHUNKS - 1` tile the block: the first
starts at `base`, the last ends at `base + length`, each ends where the next
starts, each is at most `RDMA_REG_CHUNK_SIZE` long, they are pairwise disjoint
and an address is in the block exactly when it is in one of them (the last
range is empty when `base + length` is a multiple of the chunk size).  And
whenever `qemu_rdma_register_and_get_keys` calls the library for a host address
inside the block, the call is one `ibv_reg_mr` of the clipped range of the chunk
of that address: the range contains the address and lies inside the block. -/
theorem registration_ranges_tile (b : RDMALocalBlock) (hl : 0 < b.length)
    (hb : b.local_host_addr + b.length + RDMA_REG_CHUNK_SIZE < U64)
    (hn : RDMA_REG_NUM_CHUNKS b < 2147483648) :
    (chunk_range b 0).1 = b.local_host_addr ∧
    (chunk_range b (RDMA_REG_NUM_CHUNKS b - 1)).2 = b.local_host_addr + b.length ∧
    (∀ i, i + 1 < RDMA_REG_NUM_CHUNKS b → (chunk_range b i).2 = (chunk_range b (i + 1)).1) ∧
    (∀ i, i < RDMA_REG_NUM_CHUNKS b →
      (chunk_range b i).1 ≤ (chunk_range b i).2 ∧
      (chunk_range b i).2 - (chunk_range b i).1 ≤ RDMA_REG_CHUNK_SIZE) ∧
    (∀ i j, i < j → j < RDMA_REG_NUM_CHUNKS b →
      (chunk_range b i).2 ≤ (chunk_range b j).1) ∧
    (∀ a, (b.local_host_addr ≤ a ∧ a < b.local_host_addr + b.length) ↔
      ∃ i, i < RDMA_REG_NUM_CHUNKS b ∧ (chunk_range b i).1 ≤ a ∧ a < (chunk_range b i).2) ∧
    (∀ (st st' : St) (bi host : Nat) (wl wr : Bool) (l r : Nat) (ret : Int) (lk rk : Nat),
      st.local_ram_blocks.block[bi]? = some b →
      b.local_host_addr ≤ host → host < b.local_host_addr + b.length →
      qemu_rdma_register_and_get_keys bi host wl wr l r st = some (ret, lk, rk, st') →
      st'.trace = st.trace ∨
      ∃ s len, st'.trace = st.trace ++ [Call.ibv_reg_mr s len (register_access wr)] ∧
        (s, s + len) = chunk_range b (RDMA_REG_CHUNK_INDEX b.local_host_addr host) ∧
        s ≤ host ∧ host < s + len ∧ b.local_host_addr ≤ s ∧
        s + len ≤ b.local_host_addr + b.length) := by
  obtain ⟨t1, t2, t3, t4, t5, t6, t7⟩ := chunk_ranges_tile b hl hb
  refine ⟨t1, t2, t3, t4, t5, t6, ?_⟩
  intro st st' bi host wl wr l r ret lk rk hblock h1 h2 h
  rcases register_trace bi host wl wr l r st st' ret lk rk b hblock h with ht | ⟨_, ht⟩
  · exact Or.inl ht
  · right
    obtain ⟨r1, r2, _⟩ := register_range_eq b host hb hn h1 (by omega)
    obtain ⟨c1, c2, c3, c4⟩ := t7 host h1 h2
    refine ⟨_, _, ht, ?_, ?_, ?_, ?_, ?_⟩
    · rw [r2, r1]
    · rw [r1]; exact c1
    · rw [r2]; exact c2
    · rw [r1]; exact c3
    · rw [r2]; exact c4

/-- The sample session in chunk mode, with the answer of the library to one
registration to come, registers the first chunk of its block for the address
`0x40000000 + 4096`: the range is the first MiB of the block. -/
theorem registration_ranges_tile_witness :
    chunk_range ⟨1073741824, 2147483648, 0, 8388608, none, none, none, 55⟩ 0
      = (1073741824, 1073741824 + 1048576) ∧
    ((qemu_rdma_register_and_get_keys 0 (1073741824 + 4096) true false 0 0
        (sample_state false [{ id := some 1, lkey := 300, rkey := 400 }])).map
      (fun x => x.2.2.2.trace))
      = some [Call.ibv_reg_mr 1073741824 1048576 IBV_ACCESS_REMOTE_READ] ∧
    (chunk_range ⟨1073741824, 2147483648, 0, 8388608, none, none, none, 55⟩ 7).2
      = (chunk_range ⟨1073741824, 2147483648, 0, 8388608, none, none, none, 55⟩ 8).1 :=
  ⟨by decide, by decide,
    (registration_ranges_tile ⟨1073741824, 2147483648, 0, 8388608, none, none, none, 55⟩
      (by decide) (by decide) (by decide)).2.2.1 7 (by decide)⟩

/-- A chunk that has an MR is served from the cache: the call returns the keys
of that MR and changes nothing. -/
theorem register_hit (bi host : Nat) (wl wr : Bool) (l r : Nat) (st : St)
    (block : RDMALocalBlock) (pmr : List (Option ibv_mr)) (mr : ibv_mr)
    (hblock : st.local_ram_blocks.block[bi]? = some block)
    (hmr : block.mr = none) (hpmr : block.pmr = some pmr)
    (hc : 0 ≤ toInt32 (RDMA_REG_CHUNK_INDEX block.local_host_addr host))
    (hent : pmr[(toInt32 (RDMA_REG_CHUNK_INDEX block.local_host_addr host)).toNat]?
      = some (some mr)) :
    qemu_rdma_register_and_get_keys bi host wl wr l r st
      = some (0, (if wl then mr.lkey else l), (if wr then mr.rkey else r), st) := by
  rw [register_unfold bi host wl wr l r st block hblock]
  have hp : register_pmr block = some (some pmr) := by simp only [register_pmr, hpmr]
  have hself : ({ block with pmr := some pmr, mr := none } : RDMALocalBlock) = block := by
    cases block; simp only at hpmr hmr; subst hpmr; subst hmr; rfl
  rw [hmr, hp]
  simp only [not_lt.mpr hc, if_false, hent, hself, set_block_self st bi block hblock]

/-- C22. `qemu_rdma_register_and_get_keys` is idempotent.  When a call for a
block succeeds, a second call for any address with the same chunk index,
whatever keys it asks for, returns the keys of the same memory region, calls
nothing and leaves the state as it is, so no second region is registered for
the chunk; the first call made at most one `ibv_reg_mr`; and when the block has
a whole-block MR every call returns the keys of that MR without calling
anything or changing the state. -/
theorem register_idempotent (bi host1 host2 : Nat) (wl wr wl2 wr2 : Bool) (l r l2 r2 : Nat)
    (st st1 : St) (lk rk : Nat) (block : RDMALocalBlock)
    (hblock : st.local_ram_blocks.block[bi]? = some block)
    (hsame : RDMA_REG_CHUNK_INDEX block.local_host_addr host2
      = RDMA_REG_CHUNK_INDEX block.local_host_addr host1)
    (h1 : qemu_rdma_register_and_get_keys bi host1 wl wr l r st = some (0, lk, rk, st1)) :
    (∃ mr : ibv_mr,
      lk = (if wl then mr.lkey else l) ∧ rk = (if wr then mr.rkey else r) ∧
      qemu_rdma_register_and_get_keys bi host2 wl2 wr2 l2 r2 st1
        = some (0, (if wl2 then mr.lkey else l2), (if wr2 then mr.rkey else r2), st1)) ∧
    (st1.trace = st.trace ∨ ∃ s len acc, st1.trace = st.trace ++ [Call.ibv_reg_mr s len acc]) ∧
    (∀ mr, block.mr = some mr →
      st1 = st ∧ lk = (if wl then mr.lkey else l) ∧ rk = (if wr then mr.rkey else r)) := by
  refine ⟨?_, ?_, ?_⟩
  · rcases register_cases bi host1 wl wr l r st st1 0 lk rk block hblock h1 with
      ⟨mr, hmr, _, hlk, hrk, hst⟩ | ⟨_, _, hret, _⟩ | ⟨pmr, hmr, hp, hc, hcase⟩
    · refine ⟨mr, hlk, hrk, ?_⟩
      rw [hst, register_unfold bi host2 wl2 wr2 l2 r2 st block hblock, hmr]
    · exact absurd hret (by decide)
    · rcases hcase with ⟨mr, hent, _, hlk, hrk, hst⟩ | ⟨hent, resp, st2, hcall, hres⟩
      · refine ⟨mr, hlk, hrk, ?_⟩
        have hb1 := set_block_get st bi block { block with pmr := some pmr } hblock
        rw [← hst] at hb1
        exact register_hit bi host2 wl2 wr2 l2 r2 st1 _ pmr mr hb1 hmr rfl
          (by rw [hsame]; exact hc) (by rw [hsame]; exact hent)
      · rcases hres with ⟨_, hret, _⟩ | ⟨_, _, hlk, hrk, hst⟩
        · exact absurd hret (by decide)
        · refine ⟨register_mr block
            (toInt32 (RDMA_REG_CHUNK_INDEX block.local_host_addr host1)) wr resp, hlk, hrk, ?_⟩
          obtain ⟨hf, _, _, _⟩ := call_frame _ _ _ _ hcall
          have hblocks : st2.local_ram_blocks
              = (st.set_block bi { block with pmr := some pmr }).local_ram_blocks :=
            hf.cursor.2.2.2.2.2.2.1
          have hb0 := set_block_get st bi block { block with pmr := some pmr } hblock
          rw [← hblocks] at hb0
          have hb1 := set_block_get st2 bi _
            { block with
              pmr := some
                (pmr.set (toInt32 (RDMA_REG_CHUNK_INDEX block.local_host_addr host1)).toNat
                  (some (register_mr block
                    (toInt32 (RDMA_REG_CHUNK_INDEX block.local_host_addr host1)) wr resp))) }
            hb0
          rw [← hst] at hb1
          have hlen : (toInt32 (RDMA_REG_CHUNK_INDEX block.local_host_addr host1)).toNat
              < pmr.length := (List.getElem?_eq_some_iff.mp hent).1
          exact register_hit bi host2 wl2 wr2 l2 r2 st1 _ _ _ hb1 hmr rfl
            (by rw [hsame]; exact hc)
            (by rw [hsame]; exact List.getElem?_set_self hlen)
  · rcases register_trace bi host1 wl wr l r st st1 0 lk rk block hblock h1 with ht | ⟨_, ht⟩
    · exact Or.inl ht
    · exact Or.inr ⟨_, _, _, ht⟩
  · intro mr hmr
    rw [register_unfold bi host1 wl wr l r st block hblock, hmr] at h1
    simp only [Option.some.injEq, Prod.mk.injEq, true_and] at h1
    exact ⟨h1.2.2.symm, h1.1.symm, h1.2.1.symm⟩

/-- C22 on the sample session: the first call for `0x40000000 + 4096` registers
chunk 0 and gets the lkey 300; a second call for `0x40000000 + 8192`, with no
answer of the library left, returns the same lkey. -/
theorem register_idempotent_witness :
    ∃ st1 : St,
      qemu_rdma_register_and_get_keys 0 (1073741824 + 4096) true false 0 0
        (sample_state false [{ id := some 1, lkey := 300, rkey := 400 }])
        = some (0, 300, 0, st1) ∧
      st1.script = [] ∧
      (qemu_rdma_register_and_get_keys 0 (1073741824 + 8192) true false 0 0 st1).map
        (fun x => (x.1, x.2.1, x.2.2.1)) = some (0, 300, 0) := by
  have h1 : qemu_rdma_register_and_get_keys 0 (1073741824 + 4096) true false 0 0
      (sample_state false [{ id := some 1, lkey := 300, rkey := 400 }])
      = some (0, 300, 0,
          ((qemu_rdma_register_and_get_keys 0 (1073741824 + 4096) true false 0 0
            (sample_state false [{ id := some 1, lkey := 300, rkey := 400 }])).map
              (fun x => x.2.2.2)).getD (sample_state false [])) := by rfl
  obtain ⟨⟨mr, hlk, _, h2⟩, _, _⟩ := register_idempotent 0 (1073741824 + 4096)
    (1073741824 + 8192) true false true false 0 0 0 0 _ _ 300 0
    ⟨1073741824, 2147483648, 0, 8388608, none, none, none, 55⟩ (by rfl) (by decide) h1
  refine ⟨_, h1, by rfl, ?_⟩
  rw [h2]
  simp only [Option.map_some', if_true, Bool.false_eq_true, if_false] at hlk ⊢
  rw [← hlk]

/-- C23. The access flags of a chunk registration, on the code: whenever
`qemu_rdma_register_and_get_keys` calls the library, the call is one
`ibv_reg_mr` whose access flags are `IBV_ACCESS_REMOTE_READ` alone when no rkey
is asked for (the source, which asks for the lkey), and
`LOCAL_WRITE | REMOTE_WRITE | REMOTE_READ` when an rkey is asked for (the
destination). -/
theorem register_access_flags (bi host : Nat) (wl wr : Bool) (l r : Nat) (st st' : St)
    (ret : Int) (lk rk : Nat) (block : RDMALocalBlock)
    (hblock : st.local_ram_blocks.block[bi]? = some block)
    (h : qemu_rdma_register_and_get_keys bi host wl wr l r st = some (ret, lk, rk, st')) :
    st'.trace = st.trace ∨
    ∃ s len, st'.trace = st.trace ++ [Call.ibv_reg_mr s len
      (if wr then IBV_ACCESS_LOCAL_WRITE ||| IBV_ACCESS_REMOTE_WRITE ||| IBV_ACCESS_REMOTE_READ
       else IBV_ACCESS_REMOTE_READ)] := by
  rcases register_trace bi host wl wr l r st st' ret lk rk block hblock h with ht | ⟨_, ht⟩
  · exact Or.inl ht
  · right
    refine ⟨(register_range block
        (toInt32 (RDMA_REG_CHUNK_INDEX block.local_host_addr host))).1,
      (register_range block (toInt32 (RDMA_REG_CHUNK_INDEX block.local_host_addr host))).2, ?_⟩
    rw [ht]
    cases wr <;> rfl

/-- C23 on the registration of the first chunk of the sample block for the source
(lkey asked for, no rkey): the access flags are 4, `IBV_ACCESS_REMOTE_READ`,
not `IBV_ACCESS_LOCAL_WRITE` (1); for the destination (rkey asked for) they are
7, `LOCAL_WRITE | REMOTE_WRITE | REMOTE_READ`. -/
theorem register_access_flags_witness :
    ∃ st1 : St,
      qemu_rdma_register_and_get_keys 0 (1073741824 + 4096) true false 0 0
        (sample_state true [{ id := some 1, lkey := 300, rkey := 400 }])
        = some (0, 300, 0, st1) ∧
      st1.trace = [Call.ibv_reg_mr 1073741824 1048576 4] ∧
      ((qemu_rdma_register_and_get_keys 0 (1073741824 + 4096) false true 0 0
          (sample_state true [{ id := some 1, lkey := 300, rkey := 400 }])).map
        (fun x => x.2.2.2.trace)) = some [Call.ibv_reg_mr 1073741824 1048576 7] ∧
      IBV_ACCESS_LOCAL_WRITE = 1 ∧ IBV_ACCESS_REMOTE_READ = 4 ∧
      (st1.trace = (sample_state true [{ id := some 1, lkey := 300, rkey := 400 }]).trace ∨
        ∃ s len, st1.trace
          = (sample_state true [{ id := some 1, lkey := 300, rkey := 400 }]).trace
            ++ [Call.ibv_reg_mr s len
              (if false then
                IBV_ACCESS_LOCAL_WRITE ||| IBV_ACCESS_REMOTE_WRITE ||| IBV_ACCESS_REMOTE_READ
               else IBV_ACCESS_REMOTE_READ)]) := by
  have h1 : qemu_rdma_register_and_get_keys 0 (1073741824 + 4096) true false 0 0
      (sample_state true [{ id := some 1, lkey := 300, rkey := 400 }])
      = some (0, 300, 0,
          ((qemu_rdma_register_and_get_keys 0 (1073741824 + 4096) true false 0 0
            (sample_state true [{ id := some 1, lkey := 300, rkey := 400 }])).map
              (fun x => x.2.2.2)).getD (sample_state true [])) := by rfl
  exact ⟨_, h1, by rfl, by decide, rfl, rfl,
    register_access_flags 0 (1073741824 + 4096) true false 0 0 _ _ 0 300 0
      ⟨1073741824, 2147483648, 0, 8388608, none, none, some (List.replicate 9 0), 55⟩
      (by rfl) h1⟩

/-! ## Control channel: answers consumed and calls made -/

theorem ChanFrame.chan_refl (st : St) : ChanFrame [] st st :=
  ⟨CtlFrame.ctl_refl st, List.suffix_refl _, by simp⟩

theorem ChanFrame.chan_trans {a b c : St} {e1 e2 : List Call} (h1 : ChanFrame e1 a b)
    (h2 : ChanFrame e2 b c) : ChanFrame (e1 ++ e2) a c := by
  obtain ⟨f1, s1, t1⟩ := h1
  obtain ⟨f2, s2, t2⟩ := h2
  exact ⟨f1.ctl_trans f2, s2.trans s1, by rw [t2, t1, List.append_assoc]⟩

theorem call_chan (c : Call) (st st' : St) (r : Resp) (h : call c st = some (r, st')) :
    ChanFrame [c] st st' := by
  obtain ⟨hf, ht, _, hs⟩ := call_frame c st st' r h
  exact ⟨hf, by rw [hs]; exact List.suffix_cons _ _, ht⟩

theorem log_chan (c : Call) (st : St) : ChanFrame [c] st (log c st) :=
  ⟨(log_frame c st).1, List.suffix_refl _, rfl⟩

/-- A change of the control buffers, of `control_ready_expected` or of
`num_signaled_send` alone is within `ChanFrame` with no call. -/
theorem ChanFrame.of_ctl {st st' : St} (h : CtlFrame st st') (hs : st'.script = st.script)
    (ht : st'.trace = st.trace) : ChanFrame [] st st' :=
  ⟨h, by rw [hs], by rw [ht]; simp⟩

theorem ibv_poll_cq_chan (st st' : St) (ret : Int) (wc : ibv_wc)
    (h : ibv_poll_cq st = some (ret, wc, st')) : ChanFrame [Call.ibv_poll_cq] st st' := by
  unfold ibv_poll_cq at h
  cases hc : call Call.ibv_poll_cq st with
  | none => simp [hc] at h
  | some p =>
    obtain ⟨r, st1⟩ := p
    have h1 := call_chan Call.ibv_poll_cq st st1 r hc
    simp only [hc, Option.some.injEq, Prod.mk.injEq] at h
    obtain ⟨_, _, h3⟩ := h
    split at h3
    · rw [← h3]
      have h2 := ChanFrame.of_ctl (set_control_pump st1 (r.wr_id - 2000)
        (write_bytes (st1.rdma.wr_data (r.wr_id - 2000)).control 0 r.data)).1 rfl rfl
      simpa using h1.chan_trans h2
    · rw [← h3]; exact h1

theorem qemu_rdma_poll_chan (st st' : St) (ret : Int)
    (h : qemu_rdma_poll st = some (ret, st')) : ChanFrame [Call.ibv_poll_cq] st st' := by
  have hp := (qemu_rdma_poll_pump st st' ret h).1
  unfold qemu_rdma_poll at h
  cases hc : ibv_poll_cq st with
  | none => simp [hc] at h
  | some p =>
    obtain ⟨r, wc, st1⟩ := p
    obtain ⟨_, h1s, h1t⟩ := ibv_poll_cq_chan st st1 r wc hc
    simp only [hc] at h
    have hst : st'.script = st1.script ∧ st'.trace = st1.trace := by
      split at h
      · simp only [Option.some.injEq, Prod.mk.injEq] at h; rw [← h.2]; exact ⟨rfl, rfl⟩
      · split at h
        · simp only [Option.some.injEq, Prod.mk.injEq] at h; rw [← h.2]; exact ⟨rfl, rfl⟩
        · split at h
          · simp only [Option.some.injEq, Prod.mk.injEq] at h; rw [← h.2]; exact ⟨rfl, rfl⟩
          · simp only [Option.some.injEq, Prod.mk.injEq] at h
            rw [← h.2]
            split <;> split <;> exact ⟨rfl, rfl⟩
    exact ⟨hp, by rw [hst.1]; exact h1s, by rw [hst.2]; exact h1t⟩

theorem poll_while_chan (wrid : Int) (fuel : Nat) (r : Int) (st st' : St) (e : PollExit)
    (h : poll_while wrid fuel r st = some (e, st')) :
    ∃ ext, ChanFrame ext st st' ∧ ext.all Call.is_pump = true := by
  induction fuel generalizing r st with
  | zero => simp [poll_while] at h
  | succ fuel ih =>
    unfold poll_while at h
    split at h
    · simp only [Option.some.injEq, Prod.mk.injEq] at h
      rw [← h.2]; exact ⟨[], ChanFrame.chan_refl st, rfl⟩
    · cases hp : qemu_rdma_poll st with
      | none => simp [hp] at h
      | some p =>
        obtain ⟨r1, st1⟩ := p
        have h1 := qemu_rdma_poll_chan st st1 r1 hp
        simp only [hp] at h
        split at h
        · simp only [Option.some.injEq, Prod.mk.injEq] at h
          rw [← h.2]; exact ⟨_, h1, rfl⟩
        · split at h
          · simp only [Option.some.injEq, Prod.mk.injEq] at h
            rw [← h.2]; exact ⟨_, h1, rfl⟩
          · obtain ⟨ext, h2, h3⟩ := ih r1 st1 h
            exact ⟨_, h1.chan_trans h2, by simp [h3, Call.is_pump]⟩

theorem block_for_wrid_exit_chan (code n : Int) (st : St) :
    ∃ ext, ChanFrame ext st (block_for_wrid_exit code n st).2 ∧ ext.all Call.is_pump = true := by
  unfold block_for_wrid_exit
  split
  · exact ⟨_, log_chan (Call.ibv_ack_cq_events n) st, rfl⟩
  · exact ⟨[], ChanFrame.chan_refl st, rfl⟩

theorem block_for_wrid_loop_chan (wrid : Int) (fuel : Nat) (r n : Int) (st st' : St)
    (ret : Int) (h : block_for_wrid_loop wrid fuel r n st = some (ret, st')) :
    ∃ ext, ChanFrame ext st st' ∧ ext.all Call.is_pump = true := by
  induction fuel generalizing r n st with
  | zero => simp [block_for_wrid_loop] at h
  | succ fuel ih =>
    unfold block_for_wrid_loop at h
    cases hc : call Call.ibv_get_cq_event st with
    | none => simp [hc] at h
    | some p =>
      obtain ⟨e, st1⟩ := p
      have h1 := call_chan Call.ibv_get_cq_event st st1 e hc
      simp only [hc] at h
      split at h
      · simp only [Option.some.injEq] at h
        obtain ⟨ext, hx, hp⟩ := block_for_wrid_exit_chan (-1) n st1
        rw [h] at hx
        exact ⟨_, h1.chan_trans hx, by simp [hp, Call.is_pump]⟩
      · cases hq : call Call.ibv_req_notify_cq st1 with
        | none => simp [hq] at h
        | some p2 =>
          obtain ⟨q, st2⟩ := p2
          have h2 := call_chan Call.ibv_req_notify_cq st1 st2 q hq
          simp only [hq] at h
          split at h
          · simp only [Option.some.injEq] at h
            obtain ⟨ext, hx, hp⟩ := block_for_wrid_exit_chan (-1) (n + 1) st2
            rw [h] at hx
            exact ⟨_, (h1.chan_trans h2).chan_trans hx, by simp [hp, Call.is_pump]⟩
          · cases hw : poll_while wrid (st2.script.length + 1) r st2 with
            | none => simp [hw] at h
            | some p3 =>
              obtain ⟨ex, st3⟩ := p3
              obtain ⟨e3, h3, p3⟩ := poll_while_chan wrid _ r st2 st3 ex hw
              simp only [hw] at h
              cases ex with
              | err r' =>
                simp only [Option.some.injEq] at h
                obtain ⟨ext, hx, hp⟩ := block_for_wrid_exit_chan (-1) (n + 1) st3
                rw [h] at hx
                exact ⟨_, ((h1.chan_trans h2).chan_trans h3).chan_trans hx,
                  by simp [hp, p3, Call.is_pump]⟩
              | out r1 =>
                simp only at h
                split at h
                · simp only [Option.some.injEq] at h
                  obtain ⟨ext, hx, hp⟩ := block_for_wrid_exit_chan 0 (n + 1) st3
                  rw [h] at hx
                  exact ⟨_, ((h1.chan_trans h2).chan_trans h3).chan_trans hx,
                    by simp [hp, p3, Call.is_pump]⟩
                · obtain ⟨e4, h4, p4⟩ := ih r1 (n + 1) st3 h
                  exact ⟨_, ((h1.chan_trans h2).chan_trans h3).chan_trans h4,
                    by simp [p4, p3, Call.is_pump]⟩

/-- A wait on the completion queue: its calls are pump calls, the first of
them `ibv_req_notify_cq`; it consumes answers of the script in order. -/
theorem wait_for_wrid_chan (wrid : Int) (st st' : St) (ret : Int)
    (h : wait_for_wrid wrid st = some (ret, st')) :
    ∃ ext, ChanFrame (Call.ibv_req_notify_cq :: ext) st st' ∧ ext.all Call.is_pump = true := by
  unfold wait_for_wrid qemu_rdma_block_for_wrid at h
  cases hc : call Call.ibv_req_notify_cq st with
  | none => simp [hc] at h
  | some p =>
    obtain ⟨q, st1⟩ := p
    have h1 := call_chan Call.ibv_req_notify_cq st st1 q hc
    simp only [hc] at h
    split at h
    · simp only [Option.some.injEq, Prod.mk.injEq] at h
      rw [← h.2]; exact ⟨[], h1, rfl⟩
    · cases hw : poll_while wrid (st1.script.length + 1) RDMA_WRID_NONE st1 with
      | none => simp [hw] at h
      | some p3 =>
        obtain ⟨ex, st2⟩ := p3
        obtain ⟨e2, h2, p2⟩ := poll_while_chan wrid _ _ st1 st2 ex hw
        simp only [hw] at h
        cases ex with
        | err r' =>
          simp only [Option.some.injEq, Prod.mk.injEq] at h
          rw [← h.2]
          exact ⟨e2, h1.chan_trans h2, p2⟩
        | out r1 =>
          simp only at h
          split at h
          · simp only [Option.some.injEq, Prod.mk.injEq] at h
            rw [← h.2]; exact ⟨e2, h1.chan_trans h2, p2⟩
          · obtain ⟨e3, h3, p3⟩ := block_for_wrid_loop_chan wrid _ r1 0 st2 st' ret h
            exact ⟨e2 ++ e3, by simpa using (h1.chan_trans h2).chan_trans h3, by simp [p2, p3]⟩

theorem all_chan_of_pump (ext : List Call) (h : ext.all Call.is_pump = true) :
    ext.all Call.is_chan = true := by
  rw [List.all_eq_true] at h ⊢
  intro c hc
  have := h c hc
  cases c <;> simp_all [Call.is_chan, Call.is_pump]

theorem rdma_writes_append (a b : List Call) :
    rdma_writes (a ++ b) = rdma_writes a ++ rdma_writes b := by
  simp [rdma_writes, List.filterMap_append]

/-- Calls of the control channel post no RDMA WRITE. -/
theorem rdma_writes_chan (ext : List Call) (h : ext.all Call.is_chan = true) :
    rdma_writes ext = [] := by
  rw [List.all_eq_true] at h
  simp only [rdma_writes, List.filterMap_eq_nil_iff]
  intro c hc
  have := h c hc
  cases c with
  | ibv_post_send wr msg =>
    simp only [Call.is_chan, decide_eq_true_eq] at this
    simp only [Call.rdma_write, this]
    exact if_neg (by decide)
  | _ => rfl

theorem post_recv_control_chan (idx : Nat) (st st' : St) (ret : Int)
    (h : qemu_rdma_post_recv_control idx st = some (ret, st')) :
    ∃ sge, ChanFrame [Call.ibv_post_recv (2000 + idx) sge] st st' ∧ (ret = 0 ∨ ret = -1) := by
  unfold qemu_rdma_post_recv_control at h
  cases hmr : (st.rdma.wr_data idx).control_mr with
  | none => simp [hmr] at h
  | some mr =>
    simp only [hmr] at h
    cases hc : call (Call.ibv_post_recv (2000 + idx)
        { addr := (st.rdma.wr_data idx).control_addr, length := RDMA_CONTROL_MAX_BUFFER,
          lkey := mr.lkey }) st with
    | none => simp [hc] at h
    | some p =>
      obtain ⟨r, st1⟩ := p
      have h1 := call_chan _ _ _ _ hc
      simp only [hc] at h
      split at h <;> simp only [Option.some.injEq, Prod.mk.injEq] at h
      · rw [← h.2]; exact ⟨_, h1, Or.inr h.1.symm⟩
      · rw [← h.2]; exact ⟨_, h1, Or.inl h.1.symm⟩

/-- The wait of `qemu_rdma_exchange_get_response`: pump calls, then a change
of the control buffer of the slot. -/
theorem exchange_get_response_chan (head : RDMAControlHeader) (expecting : Int) (idx : Nat)
    (st st' : St) (ret : Int) (h1 : RDMAControlHeader)
    (h : qemu_rdma_exchange_get_response head expecting idx st = some (ret, h1, st')) :
    (∃ ext, ChanFrame (Call.ibv_req_notify_cq :: ext) st st' ∧ ext.all Call.is_pump = true) ∧
    ret ≤ 0 := by
  unfold qemu_rdma_exchange_get_response at h
  cases hw : wait_for_wrid (RDMA_WRID_RECV_CONTROL + idx) st with
  | none => simp [hw] at h
  | some p =>
    obtain ⟨r, st1⟩ := p
    obtain ⟨ext, hf, hp⟩ := wait_for_wrid_chan _ _ _ _ hw
    have hr := (wait_for_wrid_pump _ _ _ _ hw).2
    simp only [hw] at h
    split at h
    · simp only [Option.some.injEq, Prod.mk.injEq] at h
      rw [← h.2.2, ← h.1]; exact ⟨⟨ext, hf, hp⟩, hr⟩
    · have hst : ChanFrame [] st1 st' ∧ ret ≤ 0 := by
        have hc := ChanFrame.of_ctl (set_control_pump st1 idx
          (write_bytes (st1.rdma.wr_data idx).control 0
            (header_bytes st1.le (network_to_control st1.le
              (load_header st1.le (st1.rdma.wr_data idx).control))))).1 rfl rfl
        split at h
        · simp only [Option.some.injEq, Prod.mk.injEq] at h
          rw [← h.2.2, ← h.1]; exact ⟨hc, by decide⟩
        · split at h <;> simp only [Option.some.injEq, Prod.mk.injEq] at h
          · rw [← h.2.2, ← h.1]; exact ⟨hc, by decide⟩
          · rw [← h.2.2, ← h.1]; exact ⟨hc, le_refl _⟩
      exact ⟨⟨ext, by simpa using hf.chan_trans hst.1, hp⟩, hst.2⟩

/-- The calls of `qemu_rdma_post_send_control`: none when the version of the
header is refused; else the post of one SEND with work request id 1000,
signaled, followed when the post is accepted by the wait for its completion. -/
theorem post_send_control_chan (buf : Option (List Nat)) (head : RDMAControlHeader)
    (st st' : St) (ret : Int)
    (h : qemu_rdma_post_send_control buf head st = some (ret, st')) :
    (ChanFrame [] st st' ∧ ret = -1) ∨
    ∃ wr msg W, ChanFrame (Call.ibv_post_send wr msg :: W) st st' ∧
      wr.opcode = IBV_WR_SEND ∧ wr.wr_id = 1000 ∧ wr.send_flags = IBV_SEND_SIGNALED ∧
      W.all Call.is_pump = true ∧ ret ≤ 0 ∧
      (0 ≤ ret → ∃ s3 W1, s3.trace = st.trace ++ [Call.ibv_post_send wr msg] ∧
        wait_for_wrid RDMA_WRID_SEND_CONTROL s3 = some (ret, st') ∧
        W = Call.ibv_req_notify_cq :: W1) := by
  unfold qemu_rdma_post_send_control at h
  cases hmr : (st.rdma.wr_data RDMA_CONTROL_MAX_WR).control_mr with
  | none => simp [hmr] at h
  | some mr =>
    simp only [hmr] at h
    split at h
    · simp only [Option.some.injEq, Prod.mk.injEq] at h
      rw [← h.2, ← h.1]; exact Or.inl ⟨ChanFrame.chan_refl st, rfl⟩
    · right
      split at h
      · exact absurd h (by simp)
      · rename_i c2 hc2
        have hbuf := ChanFrame.of_ctl (set_control_pump st RDMA_CONTROL_MAX_WR c2).1 rfl rfl
        split at h
        · exact absurd h (by simp)
        · rename_i r st2 hc
          have h1 := call_chan _ _ _ _ hc
          have h12 := hbuf.chan_trans h1
          split at h
          · simp only [Option.some.injEq, Prod.mk.injEq] at h
            rw [← h.2, ← h.1]
            exact ⟨_, _, [], by simpa using h12, rfl, rfl, rfl, rfl, by decide,
              by intro hn; exact absurd hn (by decide)⟩
          · obtain ⟨ext, hf, hp⟩ := wait_for_wrid_chan _ _ _ _ h
            have hr := (wait_for_wrid_pump _ _ _ _ h).2
            refine ⟨_, _, Call.ibv_req_notify_cq :: ext, by simpa using h12.chan_trans hf,
              rfl, rfl, rfl, by simpa [Call.is_pump] using hp, hr, ?_⟩
            intro _
            refine ⟨st2, ext, ?_, h, rfl⟩
            have := h12.2.2
            simpa using this

/-! ## The exchange of one control message -/

/-- The order of the calls of `qemu_rdma_exchange_send`.  Whatever it returns,
it changes what `ChanFrame` allows and calls the control channel only.  When
it returns 0 its calls are, in this order: the calls `W0` of the wait for the
READY on slot 0 (none when `control_ready_expected` is 0), the post of a RECV
on slot 1 when a response is wanted, the post of a RECV on slot 0, the post of
one SEND (work request id 1000, signaled), the calls `W1` of the wait for its
completion, and the calls `W2` of the wait for the response on slot 1 (none
when no response is wanted); the waits call the completion pump only; and
`control_ready_expected` is 1 afterwards.  `s1`, `s3`, `s4` are the states after
the READY wait, after the post of the SEND, and after the wait for it. -/
theorem exchange_send_trace (head : RDMAControlHeader) (data : Option (List Nat))
    (resp : Option (RDMAControlHeader × Int)) (st st' : St) (ret : Int)
    (resp' : Option (RDMAControlHeader × Int))
    (h : qemu_rdma_exchange_send head data resp st = some (ret, resp', st')) :
    ∃ ext, ChanFrame ext st st' ∧ ext.all Call.is_chan = true ∧
      (ret = 0 →
        ∃ (s1 s3 s4 : St) (W0 W1 W2 : List Call) (sge1 sge0 : ibv_sge) (wr : ibv_send_wr)
          (msg : List Nat),
          ext = W0 ++ (if resp.isSome then [Call.ibv_post_recv 2001 sge1] else []) ++
            [Call.ibv_post_recv 2000 sge0, Call.ibv_post_send wr msg] ++ W1 ++ W2 ∧
          W0.all Call.is_pump = true ∧ W1.all Call.is_pump = true ∧
          W2.all Call.is_pump = true ∧
          wr.opcode = IBV_WR_SEND ∧ wr.wr_id = 1000 ∧ wr.send_flags = IBV_SEND_SIGNALED ∧
          (st.rdma.control_ready_expected = 0 → W0 = [] ∧ s1 = st) ∧
          (st.rdma.control_ready_expected ≠ 0 →
            ∃ hd, qemu_rdma_exchange_get_response ⟨0, 0, 0, 0⟩ RDMA_CONTROL_READY 0 st
                = some (0, hd, s1) ∧
              W0.head? = some Call.ibv_req_notify_cq) ∧
          s1.trace = st.trace ++ W0 ∧
          s3.trace = s1.trace ++ (if resp.isSome then [Call.ibv_post_recv 2001 sge1] else []) ++
            [Call.ibv_post_recv 2000 sge0, Call.ibv_post_send wr msg] ∧
          wait_for_wrid RDMA_WRID_SEND_CONTROL s3 = some (0, s4) ∧
          s4.trace = s3.trace ++ W1 ∧ W1.head? = some Call.ibv_req_notify_cq ∧
          (∀ d, data = some d → head.wf → head.len + 16 < U32 →
            head.len ≤ d.length ∧
            msg = be32 head.len ++ be32 head.type ++ be32 head.version ++
              be32 head.«repeat» ++ d.take head.len) ∧
          (resp = none → W2 = [] ∧ resp' = none ∧
            st' = { s4 with rdma := { s4.rdma with control_ready_expected := 1 } }) ∧
          (∀ rh ri, resp = some (rh, ri) →
            ∃ rh1 s5, qemu_rdma_exchange_get_response rh (toInt32 rh.type) 1 s4
                = some (0, rh1, s5) ∧
              s5.trace = s4.trace ++ W2 ∧ W2.head? = some Call.ibv_req_notify_cq ∧
              resp' = some (rh1, 1) ∧
              st' = { qemu_rdma_move_header 1 rh1 s5 with
                rdma := { (qemu_rdma_move_header 1 rh1 s5).rdma with
                  control_ready_expected := 1 } }) ∧
          st'.rdma.control_ready_expected = 1) := by
  unfold qemu_rdma_exchange_send at h
  dsimp only at h
  split at h
  · exact absurd h (by simp)
  rename_i ret0 s1 hready
  have hR : ∃ W0, ChanFrame W0 st s1 ∧ W0.all Call.is_pump = true ∧ ret0 ≤ 0 ∧
      (st.rdma.control_ready_expected = 0 → W0 = [] ∧ s1 = st) ∧
      (st.rdma.control_ready_expected ≠ 0 →
        ∃ hd, qemu_rdma_exchange_get_response ⟨0, 0, 0, 0⟩ RDMA_CONTROL_READY 0 st
            = some (ret0, hd, s1) ∧
          W0.head? = some Call.ibv_req_notify_cq) := by
    by_cases hr : st.rdma.control_ready_expected ≠ 0
    · rw [if_pos hr] at hready
      split at hready
      · exact absurd hready (by simp)
      · rename_i r0 hd s heq
        simp only [Option.some.injEq, Prod.mk.injEq] at hready
        obtain ⟨rfl, rfl⟩ := hready
        obtain ⟨⟨e, hf, hp⟩, hle⟩ := exchange_get_response_chan _ _ _ _ _ _ _ heq
        exact ⟨_, hf, by simpa [Call.is_pump] using hp, hle, fun h0 => absurd h0 hr,
          fun _ => ⟨hd, heq, rfl⟩⟩
    · rw [if_neg hr] at hready
      simp only [Option.some.injEq, Prod.mk.injEq] at hready
      obtain ⟨rfl, rfl⟩ := hready
      exact ⟨[], ChanFrame.chan_refl _, rfl, le_refl _, fun _ => ⟨rfl, rfl⟩,
        fun h0 => absurd h0 hr⟩
  obtain ⟨W0, hf0, hp0, hle0, hz0, hn0⟩ := hR
  split at h
  · rename_i hneg
    simp only [Option.some.injEq, Prod.mk.injEq] at h
    obtain ⟨h1, _, h3⟩ := h
    rw [← h3]
    exact ⟨W0, hf0, all_chan_of_pump _ hp0, fun hz => by omega⟩
  rename_i hge
  have hret0 : ret0 = 0 := by omega
  subst hret0
  split at h
  · exact absurd h (by simp)
  rename_i ret1 s2 hextra
  have hE : ∃ sge1, ChanFrame (if resp.isSome then [Call.ibv_post_recv 2001 sge1] else []) s1 s2 ∧
      (ret1 = 0 ∨ ret1 = -1) := by
    clear h
    cases resp with
    | none =>
      simp only [Option.some.injEq, Prod.mk.injEq] at hextra
      obtain ⟨rfl, rfl⟩ := hextra
      exact ⟨⟨0, 0, 0⟩, ChanFrame.chan_refl _, Or.inl rfl⟩
    | some p =>
      obtain ⟨sge, hf, hr⟩ := post_recv_control_chan _ _ _ _ hextra
      exact ⟨sge, hf, hr⟩
  obtain ⟨sge1, hf1, hr1⟩ := hE
  have hc1 : (if resp.isSome then [Call.ibv_post_recv 2001 sge1] else []).all Call.is_chan
      = true := by
    split <;> rfl
  split at h
  · rename_i hne
    simp only [Option.some.injEq, Prod.mk.injEq] at h
    obtain ⟨h1, _, h3⟩ := h
    rw [← h3]
    refine ⟨_, hf0.chan_trans hf1, ?_, fun hz => ?_⟩
    · rw [List.all_append, all_chan_of_pump _ hp0, hc1]; rfl
    · rw [← h1] at hz; exact absurd hz hne
  rename_i hret1
  split at h
  · exact absurd h (by simp)
  rename_i ret2 s3p hrecv
  obtain ⟨sge0, hf2, hr2⟩ := post_recv_control_chan _ _ _ _ hrecv
  have hf02 := (hf0.chan_trans hf1).chan_trans hf2
  have hc02 : (W0 ++ (if resp.isSome then [Call.ibv_post_recv 2001 sge1] else []) ++
      [Call.ibv_post_recv (2000 + 0) sge0]).all Call.is_chan = true := by
    rw [List.all_append, List.all_append, all_chan_of_pump _ hp0, hc1]; rfl
  split at h
  · rename_i hne
    simp only [Option.some.injEq, Prod.mk.injEq] at h
    obtain ⟨h1, _, h3⟩ := h
    rw [← h3]
    exact ⟨_, hf02, hc02, fun hz => by rw [← h1] at hz; exact absurd hz hne⟩
  rename_i hret2
  split at h
  · exact absurd h (by simp)
  rename_i ret3 s4 hsend
  rcases post_send_control_chan data head s3p s4 ret3 hsend with
    ⟨hf3, hr3⟩ | ⟨wr, msg, W1, hf3, hop, hid, hflag, hp3, hle3, hwait⟩
  · -- the version of the header was refused
    rw [if_pos (by rw [hr3]; decide)] at h
    simp only [Option.some.injEq, Prod.mk.injEq] at h
    obtain ⟨h1, _, h3⟩ := h
    rw [← h3]
    refine ⟨_, hf02.chan_trans hf3, by simpa using hc02, fun hz => ?_⟩
    rw [← h1, hr3] at hz; exact absurd hz (by decide)
  have hf03 := hf02.chan_trans hf3
  have hc3 : (Call.ibv_post_send wr msg :: W1).all Call.is_chan = true := by
    rw [List.all_cons, all_chan_of_pump _ hp3]
    simp [Call.is_chan, hop]
  have hc03 : ((W0 ++ (if resp.isSome then [Call.ibv_post_recv 2001 sge1] else []) ++
      [Call.ibv_post_recv (2000 + 0) sge0]) ++ Call.ibv_post_send wr msg :: W1).all
      Call.is_chan = true := by
    rw [List.all_append, hc02, hc3]; rfl
  split at h
  · rename_i hneg
    simp only [Option.some.injEq, Prod.mk.injEq] at h
    obtain ⟨h1, _, h3⟩ := h
    rw [← h3]
    exact ⟨_, hf03, hc03, fun hz => by omega⟩
  rename_i hge3
  have hret3 : ret3 = 0 := by omega
  subst hret3
  obtain ⟨s3, W1', hs3, hw3, hW1⟩ := hwait (le_refl _)
  have hmsg : ∀ d, data = some d → head.wf → head.len + 16 < U32 →
      head.len ≤ d.length ∧
      msg = be32 head.len ++ be32 head.type ++ be32 head.version ++
        be32 head.«repeat» ++ d.take head.len := by
    intro d hd hwf hlen
    subst hd
    obtain ⟨hl, e, he, hcs, _⟩ := post_send_control_sends d head s3p s4 0 hwf hlen hsend
      (le_refl _)
    refine ⟨hl, ?_⟩
    have heq : e = Call.ibv_post_send wr msg :: W1 :=
      List.append_cancel_left (he.symm.trans hf3.2.2)
    rw [heq] at hcs
    have : control_sends (Call.ibv_post_send wr msg :: W1) = [msg] := by
      have h1 : control_sends (Call.ibv_post_send wr msg :: W1)
          = control_sends [Call.ibv_post_send wr msg] ++ control_sends W1 :=
        control_sends_append [Call.ibv_post_send wr msg] W1
      rw [h1, control_sends_pump W1 hp3]
      simp [control_sends, Call.control_msg, hop]
    rw [this] at hcs
    simpa using hcs
  have htr1 : s1.trace = st.trace ++ W0 := hf0.2.2
  have htr3 : s3.trace = s1.trace ++
      (if resp.isSome then [Call.ibv_post_recv 2001 sge1] else []) ++
      [Call.ibv_post_recv 2000 sge0, Call.ibv_post_send wr msg] := by
    rw [hs3, hf2.2.2, hf1.2.2]; simp
  have htr4 : s4.trace = s3.trace ++ W1 := by
    rw [hf3.2.2, hs3]; simp
  cases hresp : resp with
  | none =>
    rw [hresp] at h
    simp only [Option.some.injEq, Prod.mk.injEq] at h
    obtain ⟨h1, h2, h3⟩ := h
    have hfin : ChanFrame [] s4 st' := by
      rw [← h3]; exact ChanFrame.of_ctl (set_ready_pump s4 1).1 rfl rfl
    refine ⟨_, hf03.chan_trans hfin, by simpa using hc03, fun _ => ?_⟩
    refine ⟨s1, s3, s4, W0, W1, [], sge1, sge0, wr, msg, ?_, hp0, hp3, rfl, hop, hid, hflag,
      hz0, ?_, htr1, ?_, hw3, htr4, by rw [hW1]; rfl, hmsg, ?_, ?_, ?_⟩
    · simp [hresp]
    · intro hne; obtain ⟨hd, hg, hh⟩ := hn0 hne; exact ⟨hd, hg, hh⟩
    · rw [htr3, hresp]
    · intro _; exact ⟨rfl, h2.symm, h3.symm⟩
    · intro rh ri hcon; exact absurd hcon (by simp)
    · rw [← h3]
  | some p =>
    obtain ⟨rh, ri⟩ := p
    rw [hresp] at h
    dsimp only at h
    split at h
    · exact absurd h (by simp)
    rename_i ret4 rh1 s5 hget
    obtain ⟨⟨e5, hf5, hp5⟩, hle5⟩ := exchange_get_response_chan _ _ _ _ _ _ _ hget
    have hp5' : (Call.ibv_req_notify_cq :: e5).all Call.is_pump = true := by
      simpa [Call.is_pump] using hp5
    split at h
    · rename_i hneg
      simp only [Option.some.injEq, Prod.mk.injEq] at h
      obtain ⟨h1, _, h3⟩ := h
      rw [← h3]
      refine ⟨_, hf03.chan_trans hf5, ?_, fun hz => by omega⟩
      rw [List.all_append, hc03, all_chan_of_pump _ hp5']; rfl
    rename_i hge4
    have hret4 : ret4 = 0 := by omega
    subst hret4
    simp only [Option.some.injEq, Prod.mk.injEq] at h
    obtain ⟨h1, h2, h3⟩ := h
    have hfin : ChanFrame [] s5 st' := by
      rw [← h3]
      exact @ChanFrame.of_ctl s5 _ ⟨rfl, rfl⟩ rfl rfl
    refine ⟨_, (hf03.chan_trans hf5).chan_trans hfin, ?_, fun _ => ?_⟩
    · rw [List.append_nil, List.all_append, hc03, all_chan_of_pump _ hp5']; rfl
    refine ⟨s1, s3, s4, W0, W1, Call.ibv_req_notify_cq :: e5, sge1, sge0, wr, msg, ?_, hp0,
      hp3, hp5', hop, hid, hflag, hz0, ?_, htr1, ?_, hw3, htr4, by rw [hW1]; rfl, hmsg, ?_, ?_,
      ?_⟩
    · simp [hresp]
    · intro hne; obtain ⟨hd, hg, hh⟩ := hn0 hne; exact ⟨hd, hg, hh⟩
    · rw [htr3, hresp]
    · intro hcon; exact absurd hcon (by simp)
    · intro rh' ri' hcon
      simp only [Option.some.injEq, Prod.mk.injEq] at hcon
      obtain ⟨rfl, rfl⟩ := hcon
      exact ⟨rh1, s5, hget, hf5.2.2, rfl, h2.symm, h3.symm⟩
    · rw [← h3]

/-- C25. A successful `qemu_rdma_exchange_send` makes its calls in this order:
the calls `W0` of the wait for the READY on slot 0 (the calls of
`qemu_rdma_exchange_get_response` for READY on slot 0, and only when
`control_ready_expected` is set), the post of a RECV on slot 1 (only when a
response is wanted), the post of a RECV on slot 0, the post of one SEND with
work request id 1000, the calls `W1` of the wait for its completion, the calls
`W2` of the wait for the response on slot 1 (only when a response is wanted);
the waits call the completion pump and post nothing; afterwards
`control_ready_expected` is 1.  So what follows the READY wait posts exactly one
SEND, and a successful call that follows starts with its READY wait `V0`:
between two consecutive READY waits exactly one SEND is posted. -/
theorem exchange_send_order (head : RDMAControlHeader) (data : Option (List Nat))
    (resp : Option (RDMAControlHeader × Int)) (st st' : St)
    (resp' : Option (RDMAControlHeader × Int))
    (h : qemu_rdma_exchange_send head data resp st = some (0, resp', st')) :
    ∃ (s1 s3 s4 : St) (W0 W1 W2 : List Call) (sge1 sge0 : ibv_sge) (wr : ibv_send_wr)
      (msg : List Nat),
      st'.trace = st.trace ++ W0 ++
        ((if resp.isSome then [Call.ibv_post_recv 2001 sge1] else []) ++
          [Call.ibv_post_recv 2000 sge0, Call.ibv_post_send wr msg] ++ W1 ++ W2) ∧
      W0.all Call.is_pump = true ∧ W1.all Call.is_pump = true ∧
      W2.all Call.is_pump = true ∧
      wr.opcode = IBV_WR_SEND ∧ wr.wr_id = 1000 ∧
      (st.rdma.control_ready_expected = 0 → W0 = []) ∧
      (st.rdma.control_ready_expected ≠ 0 →
        ∃ hd, qemu_rdma_exchange_get_response ⟨0, 0, 0, 0⟩ RDMA_CONTROL_READY 0 st
            = some (0, hd, s1) ∧
          s1.trace = st.trace ++ W0 ∧ W0.head? = some Call.ibv_req_notify_cq) ∧
      (s3.trace = st.trace ++ W0 ++
          (if resp.isSome then [Call.ibv_post_recv 2001 sge1] else []) ++
          [Call.ibv_post_recv 2000 sge0, Call.ibv_post_send wr msg] ∧
        wait_for_wrid RDMA_WRID_SEND_CONTROL s3 = some (0, s4) ∧
        s4.trace = s3.trace ++ W1 ∧ W1.head? = some Call.ibv_req_notify_cq) ∧
      (resp = none → W2 = []) ∧
      (∀ rh ri, resp = some (rh, ri) →
        ∃ rh1 s5, qemu_rdma_exchange_get_response rh (toInt32 rh.type) 1 s4
            = some (0, rh1, s5) ∧
          s5.trace = s4.trace ++ W2 ∧ W2.head? = some Call.ibv_req_notify_cq) ∧
      st'.rdma.control_ready_expected = 1 ∧
      control_sends ((if resp.isSome then [Call.ibv_post_recv 2001 sge1] else []) ++
          [Call.ibv_post_recv 2000 sge0, Call.ibv_post_send wr msg] ++ W1 ++ W2) = [msg] ∧
      (∀ head2 data2 resp2 resp2' st2,
        qemu_rdma_exchange_send head2 data2 resp2 st' = some (0, resp2', st2) →
        ∃ V0 P msg2, st2.trace = st'.trace ++ V0 ++ P ∧
          V0.head? = some Call.ibv_req_notify_cq ∧ V0.all Call.is_pump = true ∧
          (∃ hd t1, qemu_rdma_exchange_get_response ⟨0, 0, 0, 0⟩ RDMA_CONTROL_READY 0 st'
              = some (0, hd, t1) ∧ t1.trace = st'.trace ++ V0) ∧
          control_sends P = [msg2]) := by
  have key : ∀ (head : RDMAControlHeader) (data : Option (List Nat))
      (resp : Option (RDMAControlHeader × Int)) (st st' : St)
      (resp' : Option (RDMAControlHeader × Int)),
      qemu_rdma_exchange_send head data resp st = some (0, resp', st') →
      ∃ (s1 s3 s4 : St) (W0 W1 W2 : List Call) (sge1 sge0 : ibv_sge) (wr : ibv_send_wr)
        (msg : List Nat),
        st'.trace = st.trace ++ W0 ++
          ((if resp.isSome then [Call.ibv_post_recv 2001 sge1] else []) ++
            [Call.ibv_post_recv 2000 sge0, Call.ibv_post_send wr msg] ++ W1 ++ W2) ∧
        W0.all Call.is_pump = true ∧ W1.all Call.is_pump = true ∧
        W2.all Call.is_pump = true ∧
        wr.opcode = IBV_WR_SEND ∧ wr.wr_id = 1000 ∧
        (st.rdma.control_ready_expected = 0 → W0 = []) ∧
        (st.rdma.control_ready_expected ≠ 0 →
          ∃ hd, qemu_rdma_exchange_get_response ⟨0, 0, 0, 0⟩ RDMA_CONTROL_READY 0 st
              = some (0, hd, s1) ∧
            s1.trace = st.trace ++ W0 ∧ W0.head? = some Call.ibv_req_notify_cq) ∧
        (s3.trace = st.trace ++ W0 ++
            (if resp.isSome then [Call.ibv_post_recv 2001 sge1] else []) ++
            [Call.ibv_post_recv 2000 sge0, Call.ibv_post_send wr msg] ∧
          wait_for_wrid RDMA_WRID_SEND_CONTROL s3 = some (0, s4) ∧
          s4.trace = s3.trace ++ W1 ∧ W1.head? = some Call.ibv_req_notify_cq) ∧
        (resp = none → W2 = []) ∧
        (∀ rh ri, resp = some (rh, ri) →
          ∃ rh1 s5, qemu_rdma_exchange_get_response rh (toInt32 rh.type) 1 s4
              = some (0, rh1, s5) ∧
            s5.trace = s4.trace ++ W2 ∧ W2.head? = some Call.ibv_req_notify_cq) ∧
        st'.rdma.control_ready_expected = 1 ∧
        control_sends ((if resp.isSome then [Call.ibv_post_recv 2001 sge1] else []) ++
            [Call.ibv_post_recv 2000 sge0, Call.ibv_post_send wr msg] ++ W1 ++ W2) = [msg] := by
    intro head data resp st st' resp' h
    obtain ⟨ext, hf, _, hs⟩ := exchange_send_trace head data resp st st' 0 resp' h
    obtain ⟨s1, s3, s4, W0, W1, W2, sge1, sge0, wr, msg, hext, hp0, hp1, hp2, hop, hid, _,
      hz, hn, ht1, ht3, hw, ht4, hh1, _, hnone, hsome, hcre⟩ := hs rfl
    refine ⟨s1, s3, s4, W0, W1, W2, sge1, sge0, wr, msg, ?_, hp0, hp1, hp2, hop, hid,
      fun h0 => (hz h0).1, ?_, ⟨?_, hw, ht4, hh1⟩, fun h0 => (hnone h0).1, ?_, hcre, ?_⟩
    · rw [hf.2.2, hext]; simp only [List.append_assoc]
    · intro hne
      obtain ⟨hd, hg, hh⟩ := hn hne
      exact ⟨hd, hg, ht1, hh⟩
    · rw [ht3, ht1]
    · intro rh ri hr
      obtain ⟨rh1, s5, hg, ht5, hh5, _⟩ := hsome rh ri hr
      exact ⟨rh1, s5, hg, ht5, hh5⟩
    · rw [control_sends_append, control_sends_append, control_sends_append,
        control_sends_pump W1 hp1, control_sends_pump W2 hp2]
      have h1 : control_sends (if resp.isSome then [Call.ibv_post_recv 2001 sge1] else [])
          = [] := by split <;> rfl
      rw [h1]
      simp [control_sends, Call.control_msg, hop]
  obtain ⟨s1, s3, s4, W0, W1, W2, sge1, sge0, wr, msg, k1, k2, k3, k4, k5, k6, k7, k8, k9, k10,
    k11, k12, k13⟩ := key head data resp st st' resp' h
  refine ⟨s1, s3, s4, W0, W1, W2, sge1, sge0, wr, msg, k1, k2, k3, k4, k5, k6, k7, k8, k9, k10,
    k11, k12, k13, ?_⟩
  intro head2 data2 resp2 resp2' st2 h2
  obtain ⟨t1, t3, t4, V0, V1, V2, g1, g0, wr2, msg2, j1, j2, _, _, _, _, _, j8, _, _, _, _, j13⟩ :=
    key head2 data2 resp2 st' st2 resp2' h2
  obtain ⟨hd, hg, ht, hh⟩ := j8 (by rw [k12]; decide)
  exact ⟨V0, _, msg2, j1, hh, j2, ⟨hd, t1, hg, ht⟩, j13⟩

/-- C25 on the sample session, where no READY is expected at first: the message
`[1, 2, 3]` with a `QEMU_FILE` header is sent by the calls RECV on slot 0, SEND,
and the two calls of the wait for the SEND; `control_ready_expected` is 1
afterwards. -/
theorem exchange_send_order_witness :
    ∃ st' : St,
      qemu_rdma_exchange_send ⟨3, RDMA_CONTROL_QEMU_FILE, 1, 1⟩ (some [1, 2, 3]) none
          (sample_state false [{}, {}, {}, { ret := 1, wr_id := 1000 }]) = some (0, none, st') ∧
      st'.rdma.control_ready_expected = 1 ∧
      st'.trace.map Call.is_pump = [false, false, true, true] ∧
      ∃ msg, control_sends st'.trace = [msg] := by
  have h1 : qemu_rdma_exchange_send ⟨3, RDMA_CONTROL_QEMU_FILE, 1, 1⟩ (some [1, 2, 3]) none
      (sample_state false [{}, {}, {}, { ret := 1, wr_id := 1000 }])
      = some (0, none,
          ((qemu_rdma_exchange_send ⟨3, RDMA_CONTROL_QEMU_FILE, 1, 1⟩ (some [1, 2, 3]) none
            (sample_state false [{}, {}, {}, { ret := 1, wr_id := 1000 }])).map
              (fun x => x.2.2)).getD (sample_state false [])) := by rfl
  obtain ⟨s1, s3, s4, W0, W1, W2, sge1, sge0, wr, msg, k1, _, _, _, _, _, k7, _, _, k10,
    _, k12, k13, _⟩ := exchange_send_order _ _ _ _ _ _ h1
  refine ⟨_, h1, k12, by rfl, msg, ?_⟩
  rw [k1, k7 rfl]
  simpa [control_sends] using k13

/-! ## Write engine: what one write changes -/

theorem EngFrame.eng_refl (st : St) : EngFrame st st :=
  ⟨rfl, rfl, rfl, List.suffix_refl _, List.prefix_refl _⟩

theorem EngFrame.eng_trans {a b c : St} (h1 : EngFrame a b) (h2 : EngFrame b c) :
    EngFrame a c := by
  obtain ⟨l1, r1, g1, s1, t1⟩ := h1
  obtain ⟨l2, r2, g2, s2, t2⟩ := h2
  exact ⟨l2.trans l1, by rw [r2, r1], g2.trans g1, s2.trans s1, t1.trans t2⟩

theorem ChanFrame.eng {ext : List Call} {a b : St} (h : ChanFrame ext a b) : EngFrame a b := by
  obtain ⟨⟨ha, hb⟩, hs, ht⟩ := h
  exact ⟨by rw [ha], hb, by rw [ha], hs, ⟨ext, ht.symm⟩⟩

/-- The cursor, `num_unsignaled_send` and the mode are the same across an
`EngFrame`. -/
theorem EngFrame.eng_cursor {a b : St} (h : EngFrame a b) :
    b.rdma.current_length = a.rdma.current_length ∧
    b.rdma.current_offset = a.rdma.current_offset ∧
    b.rdma.current_index = a.rdma.current_index ∧
    b.rdma.current_chunk = a.rdma.current_chunk ∧
    b.rdma.num_unsignaled_send = a.rdma.num_unsignaled_send ∧
    b.rdma.chunk_register_destination = a.rdma.chunk_register_destination := by
  obtain ⟨_, hb, _⟩ := h
  refine ⟨?_, ?_, ?_, ?_, ?_, ?_⟩ <;> rw [hb]

/-- Fields of a block its geometry fixes. -/
theorem geometry_fields (b1 b : RDMALocalBlock) (h : b1.geometry = b.geometry) :
    b1.local_host_addr = b.local_host_addr ∧ b1.remote_host_addr = b.remote_host_addr ∧
    b1.offset = b.offset ∧ b1.length = b.length ∧ b1.mr = b.mr ∧
    b1.remote_rkey = b.remote_rkey := by
  cases b1; cases b
  simp only [RDMALocalBlock.geometry, RDMALocalBlock.mk.injEq] at h
  obtain ⟨h1, h2, h3, h4, _, h6, _, h8⟩ := h
  exact ⟨h1, h2, h3, h4, h6, h8⟩

/-- The block at an index after an `EngFrame` has the geometry of the one
before. -/
theorem EngFrame.block {a b : St} (h : EngFrame a b) (i : Nat) (blk : RDMALocalBlock)
    (hget : a.local_ram_blocks.block[i]? = some blk) :
    ∃ blk', b.local_ram_blocks.block[i]? = some blk' ∧ blk'.geometry = blk.geometry := by
  obtain ⟨_, _, hg, _⟩ := h
  have h1 : (b.local_ram_blocks.block.map RDMALocalBlock.geometry)[i]?
      = (a.local_ram_blocks.block.map RDMALocalBlock.geometry)[i]? := by rw [hg]
  rw [List.getElem?_map, List.getElem?_map, hget] at h1
  cases hb : b.local_ram_blocks.block[i]? with
  | none => rw [hb] at h1; exact absurd h1 (by simp)
  | some blk' =>
    rw [hb] at h1
    simp only [Option.map_some', Option.some.injEq] at h1
    exact ⟨blk', rfl, h1⟩

theorem EngFrame.eng_no_enomem {a b : St} (h : EngFrame a b) (hn : NoEnomem a) : NoEnomem b := by
  intro r hr
  exact hn r (h.2.2.2.1.subset hr)

theorem set_block_eng (st : St) (bi : Nat) (block b1 : RDMALocalBlock)
    (h : st.local_ram_blocks.block[bi]? = some block) (hg : b1.geometry = block.geometry) :
    EngFrame st (st.set_block bi b1) :=
  ⟨rfl, rfl, set_block_geometry st bi block b1 h hg, List.suffix_refl _, List.prefix_refl _⟩

/-- `qemu_rdma_register_and_get_keys` within the write engine: it changes the
array of chunk MRs of its block at most, and posts nothing. -/
theorem register_eng (bi host : Nat) (wl wr : Bool) (l r : Nat) (st st' : St) (ret : Int)
    (lk rk : Nat) (block : RDMALocalBlock)
    (hblock : st.local_ram_blocks.block[bi]? = some block)
    (h : qemu_rdma_register_and_get_keys bi host wl wr l r st = some (ret, lk, rk, st')) :
    EngFrame st st' ∧ st'.rdma = st.rdma ∧
    (∃ ext, st'.trace = st.trace ++ ext ∧ rdma_writes ext = [] ∧ control_sends ext = []) ∧
    ∃ b1, st'.local_ram_blocks.block[bi]? = some b1 ∧ b1.geometry = block.geometry ∧
      b1.remote_keys = block.remote_keys := by
  have hself : ∀ pmr : List (Option ibv_mr),
      ({ block with pmr := some pmr } : RDMALocalBlock).geometry = block.geometry := by
    intro pmr; rfl
  rcases register_cases bi host wl wr l r st st' ret lk rk block hblock h with
    ⟨mr, _, _, _, _, hst⟩ | ⟨_, _, _, _, _, hst⟩ | ⟨pmr, hmr, _, _, hc⟩
  · rw [hst]
    exact ⟨EngFrame.eng_refl st, rfl, ⟨[], by simp, rfl, rfl⟩, block, hblock, rfl, rfl⟩
  · rw [hst]
    exact ⟨EngFrame.eng_refl st, rfl, ⟨[], by simp, rfl, rfl⟩, block, hblock, rfl, rfl⟩
  · have hb0 := set_block_get st bi block { block with pmr := some pmr } hblock
    have he0 := set_block_eng st bi block { block with pmr := some pmr } hblock (hself pmr)
    rcases hc with ⟨mr, _, _, _, _, hst⟩ | ⟨_, resp, st2, hcall, hres⟩
    · rw [hst]
      exact ⟨he0, rfl, ⟨[], by simp [St.set_block], rfl, rfl⟩, _, hb0, hself pmr, rfl⟩
    · have hch := call_chan _ _ _ _ hcall
      obtain ⟨hf, ht, hr, _⟩ := call_frame _ _ _ _ hcall
      have hblocks : st2.local_ram_blocks
          = (st.set_block bi { block with pmr := some pmr }).local_ram_blocks :=
        hf.cursor.2.2.2.2.2.2.1
      have hb2 : st2.local_ram_blocks.block[bi]? = some { block with pmr := some pmr } := by
        rw [hblocks]; exact hb0
      have he2 : EngFrame st st2 := he0.eng_trans hch.eng
      have htr : st2.trace = st.trace ++ [Call.ibv_reg_mr
          (register_range block
            (toInt32 (RDMA_REG_CHUNK_INDEX block.local_host_addr host))).1
          (register_range block
            (toInt32 (RDMA_REG_CHUNK_INDEX block.local_host_addr host))).2
          (register_access wr)] := ht
      rcases hres with ⟨_, _, _, _, hst⟩ | ⟨_, _, _, _, hst⟩
      · rw [hst]
        exact ⟨he2, hr, ⟨_, htr, rfl, rfl⟩, _, hb2, hself pmr, rfl⟩
      · rw [hst]
        refine ⟨he2.eng_trans (set_block_eng st2 bi _ _ hb2 rfl), hr, ⟨_, htr, rfl, rfl⟩, _,
          set_block_get st2 bi _ _ hb2, rfl, rfl⟩

/-- `qemu_rdma_post_recv_control`, `qemu_rdma_post_send_control` and
`qemu_rdma_exchange_get_response` return 0 or a negative code; so does
`qemu_rdma_exchange_send`. -/
theorem exchange_send_nonpos (head : RDMAControlHeader) (data : Option (List Nat))
    (resp : Option (RDMAControlHeader × Int)) (st st' : St) (ret : Int)
    (resp' : Option (RDMAControlHeader × Int))
    (h : qemu_rdma_exchange_send head data resp st = some (ret, resp', st')) : ret ≤ 0 := by
  unfold qemu_rdma_exchange_send at h
  dsimp only at h
  split at h
  · exact absurd h (by simp)
  rename_i ret0 s1 hready
  split at h
  · simp only [Option.some.injEq, Prod.mk.injEq] at h
    omega
  split at h
  · exact absurd h (by simp)
  rename_i ret1 s2 hextra
  have hr1 : ret1 = 0 ∨ ret1 = -1 := by
    clear h
    cases resp with
    | none =>
      simp only [Option.some.injEq, Prod.mk.injEq] at hextra
      exact Or.inl hextra.1.symm
    | some p =>
      obtain ⟨_, _, hr⟩ := post_recv_control_chan _ _ _ _ hextra
      exact hr
  split at h
  · simp only [Option.some.injEq, Prod.mk.injEq] at h
    omega
  split at h
  · exact absurd h (by simp)
  rename_i ret2 s3 hrecv
  obtain ⟨_, _, hr2⟩ := post_recv_control_chan _ _ _ _ hrecv
  split at h
  · simp only [Option.some.injEq, Prod.mk.injEq] at h
    omega
  split at h
  · exact absurd h (by simp)
  rename_i ret3 s4 hsend
  split at h
  · simp only [Option.some.injEq, Prod.mk.injEq] at h
    omega
  split at h
  · simp only [Option.some.injEq, Prod.mk.injEq] at h
    omega
  · split at h
    · exact absurd h (by simp)
    split at h
    · simp only [Option.some.injEq, Prod.mk.injEq] at h
      omega
    · simp only [Option.some.injEq, Prod.mk.injEq] at h
      omega

/-- The ways the chunk-mode part of `__qemu_rdma_write` finds the rkey: from
the cache when the entry of the chunk is not 0, else by one exchange with the
peer, after which the rkey read from the response in control slot 1 is stored
in the cache. -/
theorem chunk_rkey_cases (ci : Int) (bi : Nat) (block : RDMALocalBlock)
    (offset sge_addr sge_length : Nat) (st1 st2 : St) (ret : Int) (rkey : Nat)
    (h : rdma_write_chunk_rkey ci bi block offset sge_addr sge_length st1
      = some (ret, rkey, st2)) :
    ∃ keys k, block.remote_keys = some keys ∧
      0 ≤ toInt32 (RDMA_REG_CHUNK_INDEX block.local_host_addr sge_addr) ∧
      keys[(toInt32 (RDMA_REG_CHUNK_INDEX block.local_host_addr sge_addr)).toNat]? = some k ∧
      ((k ≠ 0 ∧ ret = 0 ∧ rkey = k ∧ st2 = st1) ∨
       (k = 0 ∧ ∃ r1 resp1 s2,
          qemu_rdma_exchange_send
              ⟨16, RDMA_CONTROL_REGISTER_REQUEST, RDMA_CONTROL_CURRENT_VERSION, 1⟩
              (some (register_bytes st1.le sge_length (toU32 ci) offset))
              (some (⟨0, RDMA_CONTROL_REGISTER_RESULT, 0, 0⟩, 0)) st1
            = some (r1, resp1, s2) ∧
          ((r1 < 0 ∧ ret = r1 ∧ rkey = 0 ∧ st2 = s2) ∨
           (r1 = 0 ∧ ret = 0 ∧
            rkey = load_bytes s2.le (read_bytes (s2.rdma.wr_data 1).control 16 4) ∧
            ∃ block2, s2.local_ram_blocks.block[bi]? = some block2 ∧
              st2 = s2.set_block bi
                { block2 with
                  remote_keys := some
                    (keys.set (toInt32 (RDMA_REG_CHUNK_INDEX block.local_host_addr
                      sge_addr)).toNat rkey) })))) := by
  unfold rdma_write_chunk_rkey at h
  dsimp only at h
  cases hk : block.remote_keys with
  | none => rw [hk] at h; exact absurd h (by simp)
  | some keys =>
    rw [hk] at h
    dsimp only at h
    by_cases hneg : toInt32 (RDMA_REG_CHUNK_INDEX block.local_host_addr sge_addr) < 0
    · rw [if_pos hneg] at h; exact absurd h (by simp)
    rw [if_neg hneg] at h
    cases hent : keys[(toInt32 (RDMA_REG_CHUNK_INDEX block.local_host_addr sge_addr)).toNat]? with
    | none => rw [hent] at h; exact absurd h (by simp)
    | some k =>
      rw [hent] at h
      dsimp only at h
      refine ⟨keys, k, rfl, not_lt.mp hneg, hent, ?_⟩
      by_cases hz : k = 0
      · right
        rw [if_pos hz] at h
        split at h
        · exact absurd h (by simp)
        rename_i r1 resp1 s2 hex
        refine ⟨hz, r1, resp1, s2, hex, ?_⟩
        have hle := exchange_send_nonpos _ _ _ _ _ _ _ hex
        split at h
        · rename_i hlt
          simp only [Option.some.injEq, Prod.mk.injEq] at h
          exact Or.inl ⟨hlt, h.1.symm, h.2.1.symm, h.2.2.symm⟩
        · rename_i hge
          right
          have hr0 : r1 = 0 := by omega
          subst hr0
          obtain ⟨ext, _, _, hs⟩ := exchange_send_trace _ _ _ _ _ _ _ hex
          obtain ⟨t1, t3, t4, W0, W1, W2, g1, g0, wr, msg, _, _, _, _, _, _, _, _, _, _, _, _,
            _, _, _, _, hsome, _⟩ := hs rfl
          obtain ⟨rh1, s5, _, _, _, hresp, hst⟩ := hsome _ _ rfl
          subst hresp
          have hcurr : (s2.rdma.wr_data ((1 : Int).toNat)).control_curr = some 16 := by
            rw [hst]
            simp [qemu_rdma_move_header, RDMAContext.set_wr, RDMAControlHeaderSize]
          dsimp only at h
          rw [hcurr] at h
          cases hb2 : s2.local_ram_blocks.block[bi]? with
          | none => rw [hb2] at h; exact absurd h (by simp)
          | some block2 =>
            rw [hb2] at h
            simp only [Option.some.injEq, Prod.mk.injEq] at h
            obtain ⟨h1, h2, h3⟩ := h
            refine ⟨rfl, h1.symm, ?_, block2, rfl, ?_⟩
            · rw [← h2]; rfl
            · rw [← h3, ← h2]
      · left
        rw [if_neg hz] at h
        simp only [Option.some.injEq, Prod.mk.injEq] at h
        exact ⟨hz, h.1.symm, h.2.1.symm, h.2.2.symm⟩

/-- The chunk-mode part of `__qemu_rdma_write` within the write engine: it
calls the control channel only, so it posts no RDMA WRITE. -/
theorem chunk_rkey_eng (ci : Int) (bi : Nat) (block : RDMALocalBlock)
    (offset sge_addr sge_length : Nat) (st1 st2 : St) (ret : Int) (rkey : Nat)
    (h : rdma_write_chunk_rkey ci bi block offset sge_addr sge_length st1
      = some (ret, rkey, st2)) :
    EngFrame st1 st2 ∧ ret ≤ 0 ∧
    ∃ ext, st2.trace = st1.trace ++ ext ∧ ext.all Call.is_chan = true := by
  obtain ⟨keys, k, _, _, _, hc⟩ := chunk_rkey_cases ci bi block offset sge_addr sge_length st1
    st2 ret rkey h
  rcases hc with ⟨_, hret, _, hst⟩ | ⟨_, r1, resp1, s2, hex, hc2⟩
  · rw [hst, hret]; exact ⟨EngFrame.eng_refl st1, le_refl _, [], by simp, rfl⟩
  · obtain ⟨ext, hf, hall, _⟩ := exchange_send_trace _ _ _ _ _ _ _ hex
    rcases hc2 with ⟨hlt, hret, _, hst⟩ | ⟨_, hret, _, block2, hb2, hst⟩
    · rw [hst, hret]; exact ⟨hf.eng, le_of_lt hlt, ext, hf.2.2, hall⟩
    · rw [hst, hret]
      exact ⟨hf.eng.eng_trans (set_block_eng s2 bi block2 _ hb2 rfl), le_refl _, ext, hf.2.2,
        hall⟩

/-- What `__qemu_rdma_write` does.  It works on the block `current_index`
names and changes what `EngFrame` allows.  It returns a negative code without
posting an RDMA WRITE, or its last call is the post of the one RDMA WRITE it
makes, whose answer it returns: the work request has the given id and flags,
one SGE at the host address of `offset` in the block with the low 32 bits of
`length` and the lkey of the registration, the address of `offset` at the
peer, and the rkey of the block or of the chunk.  `st1` and `st2` are the
states after the registration and after the rkey is found. -/
theorem rdma_write_spec (ci : Int) (offset length wr_id flag : Nat) (st st' : St) (ret : Int)
    (h : __qemu_rdma_write ci offset length wr_id flag st = some (ret, st')) :
    ∃ block, 0 ≤ ci ∧ st.local_ram_blocks.block[ci.toNat]? = some block ∧ EngFrame st st' ∧
      ∃ pre, rdma_writes pre = [] ∧
        ((ret < 0 ∧ st'.trace = st.trace ++ pre) ∨
         (∃ (st1 st2 : St) (lkey x rkey : Nat) (k : Int) (r : Resp),
            qemu_rdma_register_and_get_keys ci.toNat (block.host_of offset) true false 0 0 st
              = some (0, lkey, x, st1) ∧
            (if st1.rdma.chunk_register_destination then
                rdma_write_chunk_rkey ci ci.toNat block offset (block.host_of offset)
                  (length % U32) st1
              else some (0, block.remote_rkey, st1)) = some (k, rkey, st2) ∧
            st2.trace = st.trace ++ pre ∧
            st'.trace = st2.trace ++ [Call.ibv_post_send
              { wr_id := wr_id, opcode := IBV_WR_RDMA_WRITE, send_flags := flag,
                sge := { addr := block.host_of offset, length := length % U32, lkey := lkey },
                remote_addr := block.remote_of offset, rkey := rkey } []] ∧
            r ∈ st.script ∧ ret = r.ret ∧
            st'.local_ram_blocks = st2.local_ram_blocks ∧ st'.rdma = st2.rdma ∧ 0 ≤ k)) := by
  unfold __qemu_rdma_write at h
  by_cases hci : ci < 0
  · rw [if_pos hci] at h; exact absurd h (by simp)
  rw [if_neg hci] at h
  dsimp only at h
  cases hb : st.local_ram_blocks.block[ci.toNat]? with
  | none => rw [hb] at h; exact absurd h (by simp)
  | some block =>
    rw [hb] at h
    dsimp only at h
    refine ⟨block, not_lt.mp hci, rfl, ?_⟩
    split at h
    · exact absurd h (by simp)
    rename_i r0 lkey x st1 hreg
    obtain ⟨he1, hrd1, ⟨e1, ht1, hw1, _⟩, b1, hb1, hg1, _⟩ :=
      register_eng _ _ _ _ _ _ _ _ _ _ _ block hb hreg
    by_cases hr0 : r0 ≠ 0
    · rw [if_pos hr0] at h
      simp only [Option.some.injEq, Prod.mk.injEq] at h
      rw [← h.2, ← h.1]
      exact ⟨he1, e1, hw1, Or.inl ⟨by decide, ht1⟩⟩
    rw [if_neg hr0] at h
    have hr0' : r0 = 0 := not_not.mp hr0
    subst hr0'
    split at h
    · exact absurd h (by simp)
    rename_i k rkey st2 hkey
    have hk : EngFrame st1 st2 ∧ k ≤ 0 ∧
        ∃ ext, st2.trace = st1.trace ++ ext ∧ ext.all Call.is_chan = true := by
      by_cases hm : st1.rdma.chunk_register_destination = true
      · rw [if_pos hm] at hkey
        exact chunk_rkey_eng _ _ _ _ _ _ _ _ _ _ hkey
      · rw [if_neg hm] at hkey
        simp only [Option.some.injEq, Prod.mk.injEq] at hkey
        rw [← hkey.2.2, ← hkey.1]
        exact ⟨EngFrame.eng_refl st1, le_refl _, [], by simp, rfl⟩
    obtain ⟨he2, hkle, e2, ht2, hc2⟩ := hk
    have hpre : rdma_writes (e1 ++ e2) = [] := by
      rw [rdma_writes_append, hw1, rdma_writes_chan e2 hc2]; rfl
    have htr2 : st2.trace = st.trace ++ (e1 ++ e2) := by
      rw [ht2, ht1, List.append_assoc]
    split at h
    · rename_i hlt
      simp only [Option.some.injEq, Prod.mk.injEq] at h
      rw [← h.2, ← h.1]
      exact ⟨he1.eng_trans he2, e1 ++ e2, hpre, Or.inl ⟨hlt, htr2⟩⟩
    · rename_i hge
      unfold post_rdma_write at h
      split at h
      · exact absurd h (by simp)
      rename_i r st3 hcall
      simp only [Option.some.injEq, Prod.mk.injEq] at h
      have hch := call_chan _ _ _ _ hcall
      obtain ⟨hf, ht, hrd, hs⟩ := call_frame _ _ _ _ hcall
      have he3 : EngFrame st st3 := (he1.eng_trans he2).eng_trans hch.eng
      have hmem : r ∈ st.script := by
        have h1 : r ∈ st2.script := by rw [hs]; exact List.mem_cons_self _ _
        exact (he1.eng_trans he2).2.2.2.1.subset h1
      rw [← h.2, ← h.1]
      refine ⟨he3, e1 ++ e2, hpre, Or.inr ⟨st1, st2, lkey, x, rkey, k, r, hreg, hkey, htr2, ht,
        hmem, rfl, hf.cursor.2.2.2.2.2.2.1, hrd, not_lt.mp hge⟩⟩

/-! ## Write engine: the flush -/

theorem host_of_geometry (b1 b : RDMALocalBlock) (h : b1.geometry = b.geometry) (o : Nat) :
    b1.host_of o = b.host_of o ∧ b1.remote_of o = b.remote_of o := by
  obtain ⟨h1, h2, h3, _⟩ := geometry_fields b1 b h
  simp only [RDMALocalBlock.host_of, RDMALocalBlock.remote_of, h1, h2, h3, and_self]

/-- Two directories of the same geometry have blocks of the same geometry at
every index. -/
theorem block_of_geometry (l1 l2 : List RDMALocalBlock)
    (hg : l1.map RDMALocalBlock.geometry = l2.map RDMALocalBlock.geometry) (i : Nat)
    (blk : RDMALocalBlock) (hget : l2[i]? = some blk) :
    ∃ blk', l1[i]? = some blk' ∧ blk'.geometry = blk.geometry := by
  have h1 : (l1.map RDMALocalBlock.geometry)[i]? = (l2.map RDMALocalBlock.geometry)[i]? := by
    rw [hg]
  rw [List.getElem?_map, List.getElem?_map, hget] at h1
  cases hb : l1[i]? with
  | none => rw [hb] at h1; exact absurd h1 (by simp)
  | some blk' =>
    rw [hb] at h1
    simp only [Option.map_some', Option.some.injEq] at h1
    exact ⟨blk', rfl, h1⟩

/-- The RDMA WRITE of the pending range is the same before an `EngFrame`. -/
theorem PendingWrite.of_eng {a b : St} (h : EngFrame a b) (wr : ibv_send_wr)
    (hw : PendingWrite b wr) : PendingWrite a wr := by
  obtain ⟨c1, c2, c3, c4, c5, _⟩ := h.eng_cursor
  obtain ⟨blk, hci, hget, w1, w2, w3, w4, w5, w6⟩ := hw
  rw [c3] at hci hget
  obtain ⟨blk', hget', hg⟩ := block_of_geometry _ _ h.2.2.1.symm _ blk hget
  obtain ⟨hh, hr⟩ := host_of_geometry blk' blk hg b.rdma.current_offset
  refine ⟨blk', hci, hget', w1, w2, ?_, ?_, ?_, ?_⟩
  · rw [w3, c5]
  · rw [w4, ← hh, c2]
  · rw [w5, c1]
  · rw [w6, ← hr, c2]

theorem EngFrame.dir {a b : St} (h : EngFrame a b) : DirFrame a b :=
  ⟨h.1, h.eng_cursor.2.2.2.2.2, h.2.2.1, h.2.2.2.1, h.2.2.2.2⟩

theorem DirFrame.dir_refl (st : St) : DirFrame st st :=
  ⟨rfl, rfl, rfl, List.suffix_refl _, List.prefix_refl _⟩

theorem DirFrame.dir_trans {a b c : St} (h1 : DirFrame a b) (h2 : DirFrame b c) :
    DirFrame a c := by
  obtain ⟨l1, m1, g1, s1, t1⟩ := h1
  obtain ⟨l2, m2, g2, s2, t2⟩ := h2
  exact ⟨l2.trans l1, m2.trans m1, g2.trans g1, s2.trans s1, t1.trans t2⟩

theorem DirFrame.dir_no_enomem {a b : St} (h : DirFrame a b) (hn : NoEnomem a) : NoEnomem b := by
  intro r hr
  exact hn r (h.2.2.2.1.subset hr)

/-- The loop of `qemu_rdma_write_flush`: every RDMA WRITE it posts is the
WRITE of the pending range; when it returns 0 its last round is a call of
`__qemu_rdma_write` that returned 0, from a state `sA` that differs from the
one at entry by rounds the library refused for a full send queue, so that it
is the state at entry when no answer is `ENOMEM`. -/
theorem write_flush_loop_spec (flags fuel : Nat) (st st' : St) (ret : Int)
    (hflags : flags = (if st.rdma.num_unsignaled_send ≥ RDMA_UNSIGNALED_SEND_MAX
      then IBV_SEND_SIGNALED else 0))
    (h : write_flush_loop flags fuel st = some (ret, st')) :
    EngFrame st st' ∧ (ret = 0 ∨ ret = -EIO_ERRNO) ∧
    (∃ ext, st'.trace = st.trace ++ ext ∧ (∀ wr ∈ rdma_writes ext, PendingWrite st wr) ∧
      (ret = 0 → rdma_writes ext ≠ [] ∧ (NoEnomem st → ∃ wr, rdma_writes ext = [wr]))) ∧
    (ret = 0 → ∃ sA, EngFrame st sA ∧
      __qemu_rdma_write st.rdma.current_index st.rdma.current_offset st.rdma.current_length 1
        flags sA = some (0, st') ∧
      (NoEnomem st → sA = st)) := by
  induction fuel generalizing st with
  | zero => simp [write_flush_loop] at h
  | succ fuel ih =>
    unfold write_flush_loop at h
    split at h
    · exact absurd h (by simp)
    rename_i ret1 st1 hw
    obtain ⟨block, hci, hb, he1, pre, hpre, hcase⟩ := rdma_write_spec _ _ _ _ _ _ _ _ hw
    -- the calls of this round and the WRITE among them
    have hround : ∃ ext1, st1.trace = st.trace ++ ext1 ∧
        (∀ wr ∈ rdma_writes ext1, PendingWrite st wr) ∧
        (0 ≤ ret1 → (∃ wr, rdma_writes ext1 = [wr]) ∧ ∃ r ∈ st.script, ret1 = r.ret) := by
      rcases hcase with ⟨hlt, ht⟩ | ⟨sa, sb, lkey, x, rkey, k, r, _, _, htb, ht, hmem, hret, _⟩
      · refine ⟨pre, ht, ?_, fun h0 => by omega⟩
        rw [hpre]; intro wr hwr; exact absurd hwr (by simp)
      · obtain ⟨wr0, hwr0⟩ : ∃ wr0 : ibv_send_wr, wr0 =
            { wr_id := 1, opcode := IBV_WR_RDMA_WRITE, send_flags := flags,
              sge := { addr := block.host_of st.rdma.current_offset,
                       length := st.rdma.current_length % U32, lkey := lkey },
              remote_addr := block.remote_of st.rdma.current_offset, rkey := rkey } :=
          ⟨_, rfl⟩
        have hone : rdma_writes (pre ++ [Call.ibv_post_send wr0 []]) = [wr0] := by
          rw [rdma_writes_append, hpre, hwr0]
          simp only [rdma_writes, List.filterMap_cons, Call.rdma_write, if_true,
            List.filterMap_nil, List.nil_append]
        refine ⟨pre ++ [Call.ibv_post_send wr0 []],
          by rw [ht, htb, List.append_assoc, hwr0], ?_, fun _ => ⟨⟨wr0, hone⟩, r, hmem, hret⟩⟩
        rw [hone]
        intro wr hwr
        rw [List.mem_singleton] at hwr
        subst hwr
        rw [hwr0]
        exact ⟨block, hci, hb, rfl, rfl, hflags, rfl, rfl, rfl⟩
    obtain ⟨ext1, ht1, hw1, hpost1⟩ := hround
    by_cases hret1 : ret1 ≠ 0
    · rw [if_pos hret1] at h
      by_cases hen : ret1 = ENOMEM
      · rw [if_pos hen] at h
        have hno : ¬ NoEnomem st := by
          intro hn
          obtain ⟨_, r, hmem, hr⟩ := hpost1 (by rw [hen]; decide)
          exact hn r hmem (by rw [← hr, hen])
        split at h
        · exact absurd h (by simp)
        rename_i ret2 st2 hwait
        obtain ⟨W, hfW, hpW⟩ := wait_for_wrid_chan _ _ _ _ hwait
        have hpW' : (Call.ibv_req_notify_cq :: W).all Call.is_chan = true :=
          all_chan_of_pump _ (by simpa [Call.is_pump] using hpW)
        have he2 : EngFrame st st2 := he1.eng_trans hfW.eng
        have ht2 : st2.trace = st.trace ++ (ext1 ++ Call.ibv_req_notify_cq :: W) := by
          rw [hfW.2.2, ht1, List.append_assoc]
        have hw2 : ∀ wr ∈ rdma_writes (ext1 ++ Call.ibv_req_notify_cq :: W),
            PendingWrite st wr := by
          rw [rdma_writes_append, rdma_writes_chan _ hpW', List.append_nil]; exact hw1
        split at h
        · simp only [Option.some.injEq, Prod.mk.injEq] at h
          rw [← h.2, ← h.1]
          exact ⟨he2, Or.inr rfl, ⟨_, ht2, hw2, fun h0 => absurd h0 (by decide)⟩,
            fun h0 => absurd h0 (by decide)⟩
        · obtain ⟨c1, c2, c3, c4, c5, _⟩ := he2.eng_cursor
          have hflags2 : flags = (if st2.rdma.num_unsignaled_send ≥ RDMA_UNSIGNALED_SEND_MAX
              then IBV_SEND_SIGNALED else 0) := by rw [c5]; exact hflags
          obtain ⟨ihe, ihr, ⟨ext3, iht, ihw, ihn⟩, ihs⟩ := ih st2 hflags2 h
          refine ⟨he2.eng_trans ihe, ihr, ⟨_, by rw [iht, ht2, List.append_assoc], ?_, ?_⟩, ?_⟩
          · intro wr hwr
            rw [rdma_writes_append] at hwr
            rcases List.mem_append.mp hwr with hwr | hwr
            · exact hw2 wr hwr
            · exact PendingWrite.of_eng he2 wr (ihw wr hwr)
          · intro h0
            refine ⟨?_, fun hn => absurd hn hno⟩
            rw [rdma_writes_append]
            intro hnil
            exact (ihn h0).1 (List.append_eq_nil.mp hnil).2
          · intro h0
            obtain ⟨sA, hsA, hcall, _⟩ := ihs h0
            rw [c1, c2, c3] at hcall
            exact ⟨sA, he2.eng_trans hsA, hcall, fun hn => absurd hn hno⟩
      · rw [if_neg hen] at h
        simp only [Option.some.injEq, Prod.mk.injEq] at h
        rw [← h.2, ← h.1]
        exact ⟨he1, Or.inr rfl, ⟨_, ht1, hw1, fun h0 => absurd h0 (by decide)⟩,
          fun h0 => absurd h0 (by decide)⟩
    · rw [if_neg hret1] at h
      have hz : ret1 = 0 := not_not.mp hret1
      simp only [Option.some.injEq, Prod.mk.injEq] at h
      rw [← h.2, ← h.1]
      obtain ⟨⟨wr, hwr⟩, _⟩ := hpost1 (by rw [hz])
      refine ⟨he1, Or.inl rfl, ⟨_, ht1, hw1, fun _ => ⟨by rw [hwr]; simp, fun _ => ⟨wr, hwr⟩⟩⟩,
        fun _ => ⟨st, EngFrame.eng_refl st, by rw [← hz]; exact hw, fun _ => rfl⟩⟩

/-- The ways `qemu_rdma_write_flush` returns: at once with 0 when nothing is
pending; else after its loop, in the state `st1`, with `-EIO` and nothing else
changed, or with 0 after it has counted the post and emptied the cursor. -/
theorem flush_cases (st st' : St) (ret : Int)
    (h : qemu_rdma_write_flush st = some (ret, st')) :
    (st.rdma.current_length = 0 ∧ ret = 0 ∧ st' = st) ∨
    (st.rdma.current_length ≠ 0 ∧ ∃ st1, EngFrame st st1 ∧
      (∃ ext, st1.trace = st.trace ++ ext ∧ (∀ wr ∈ rdma_writes ext, PendingWrite st wr) ∧
        (ret = 0 → rdma_writes ext ≠ [] ∧ (NoEnomem st → ∃ wr, rdma_writes ext = [wr]))) ∧
      ((ret = -EIO_ERRNO ∧ st' = st1) ∨
       (ret = 0 ∧
        st' = { st1 with rdma :=
          { (if st1.rdma.num_unsignaled_send ≥ RDMA_UNSIGNALED_SEND_MAX then
              { st1.rdma with num_unsignaled_send := 0,
                              num_signaled_send := st1.rdma.num_signaled_send + 1 }
            else
              { st1.rdma with num_unsignaled_send := st1.rdma.num_unsignaled_send + 1 }) with
            current_length := 0, current_offset := 0 } } ∧
        ∃ sA, EngFrame st sA ∧
          __qemu_rdma_write st.rdma.current_index st.rdma.current_offset
            st.rdma.current_length 1
            (if st.rdma.num_unsignaled_send ≥ RDMA_UNSIGNALED_SEND_MAX then IBV_SEND_SIGNALED
             else 0) sA = some (0, st1) ∧
          (NoEnomem st → sA = st)))) := by
  unfold qemu_rdma_write_flush at h
  by_cases hz : st.rdma.current_length = 0
  · rw [if_pos hz] at h
    simp only [Option.some.injEq, Prod.mk.injEq] at h
    exact Or.inl ⟨hz, h.1.symm, h.2.symm⟩
  · right
    rw [if_neg hz] at h
    dsimp only at h
    split at h
    · exact absurd h (by simp)
    rename_i r1 st1 hloop
    obtain ⟨he, hr, hposts, hlast⟩ := write_flush_loop_spec _ _ st st1 r1 rfl hloop
    refine ⟨hz, st1, he, ?_, ?_⟩
    · by_cases hr1 : r1 ≠ 0
      · rw [if_pos hr1] at h
        simp only [Option.some.injEq, Prod.mk.injEq] at h
        rw [← h.1]; exact hposts
      · rw [if_neg hr1] at h
        simp only [Option.some.injEq, Prod.mk.injEq] at h
        rw [← h.1]
        have : r1 = 0 := not_not.mp hr1
        rw [this] at hposts; exact hposts
    · by_cases hr1 : r1 ≠ 0
      · rw [if_pos hr1] at h
        simp only [Option.some.injEq, Prod.mk.injEq] at h
        left
        rcases hr with hr | hr
        · exact absurd hr hr1
        · exact ⟨by rw [← h.1, hr], h.2.symm⟩
      · rw [if_neg hr1] at h
        simp only [Option.some.injEq, Prod.mk.injEq] at h
        right
        exact ⟨h.1.symm, h.2.symm, hlast (not_not.mp hr1)⟩

/-- What a flush does to the cursor, the counter and the trace. -/
theorem flush_summary (st st' : St) (ret : Int)
    (h : qemu_rdma_write_flush st = some (ret, st')) :
    DirFrame st st' ∧ (ret = 0 ∨ ret = -EIO_ERRNO) ∧
    st'.rdma.current_index = st.rdma.current_index ∧
    st'.rdma.current_chunk = st.rdma.current_chunk ∧
    (ret ≠ 0 → st'.rdma.current_length = st.rdma.current_length ∧
      st'.rdma.current_offset = st.rdma.current_offset ∧
      st'.rdma.num_unsignaled_send = st.rdma.num_unsignaled_send) ∧
    (ret = 0 → st'.rdma.current_length = 0 ∧
      st'.rdma.current_offset = (if st.rdma.current_length = 0 then st.rdma.current_offset
        else 0) ∧
      st'.rdma.num_unsignaled_send
        = (if st.rdma.current_length = 0 then st.rdma.num_unsignaled_send
           else if st.rdma.num_unsignaled_send ≥ RDMA_UNSIGNALED_SEND_MAX then 0
           else st.rdma.num_unsignaled_send + 1)) ∧
    ∃ ext, st'.trace = st.trace ++ ext ∧ (∀ wr ∈ rdma_writes ext, PendingWrite st wr) ∧
      (st.rdma.current_length = 0 → ext = []) ∧
      (ret = 0 → st.rdma.current_length ≠ 0 →
        rdma_writes ext ≠ [] ∧ (NoEnomem st → ∃ wr, rdma_writes ext = [wr])) := by
  rcases flush_cases st st' ret h with ⟨hz, hret, hst⟩ | ⟨hnz, st1, he, ⟨ext, ht, hw, hp⟩, hc⟩
  · rw [hst, hret]
    refine ⟨DirFrame.dir_refl st, Or.inl rfl, rfl, rfl, fun h0 => absurd rfl h0, fun _ => ?_,
      [], by simp, ?_, fun _ => rfl, fun _ h0 => absurd hz h0⟩
    · simp only [hz, if_true, and_self]
    · intro wr hwr; exact absurd hwr (by simp [rdma_writes])
  · obtain ⟨c1, c2, c3, c4, c5, c6⟩ := he.eng_cursor
    rcases hc with ⟨hret, hst⟩ | ⟨hret, hst, _⟩
    · rw [hst, hret]
      refine ⟨he.dir, Or.inr rfl, c3, c4, fun _ => ⟨c1, c2, c5⟩,
        fun h0 => absurd h0 (by decide), ext, ht, hw, fun h0 => absurd h0 hnz,
        fun h0 => absurd h0 (by decide)⟩
    · have hdir : DirFrame st st' := by
        rw [hst]
        refine ⟨he.1, ?_, he.2.2.1, he.2.2.2.1, he.2.2.2.2⟩
        show (if _ then _ else _ : RDMAContext).chunk_register_destination = _
        split <;> exact c6
      have hidx : st'.rdma.current_index = st.rdma.current_index := by
        rw [hst]
        show (if _ then _ else _ : RDMAContext).current_index = _
        split <;> exact c3
      have hchunk : st'.rdma.current_chunk = st.rdma.current_chunk := by
        rw [hst]
        show (if _ then _ else _ : RDMAContext).current_chunk = _
        split <;> exact c4
      have hn : st'.rdma.num_unsignaled_send
          = (if st.rdma.num_unsignaled_send ≥ RDMA_UNSIGNALED_SEND_MAX then 0
             else st.rdma.num_unsignaled_send + 1) := by
        rw [hst]
        show (if _ then _ else _ : RDMAContext).num_unsignaled_send = _
        rw [c5]
        split <;> rfl
      refine ⟨hdir, Or.inl hret, hidx, hchunk, fun h0 => absurd hret h0, fun _ => ⟨?_, ?_, ?_⟩,
        ext, ?_, hw, fun h0 => absurd h0 hnz, fun h0 _ => hp h0⟩
      · rw [hst]
      · rw [hst, if_neg hnz]
      · rw [hn, if_neg hnz]
      · rw [hst]; exact ht

/-! ## Write engine: one page -/

/-- The end of `qemu_rdma_write`, from the state `P` in which the page has
been added to the cursor: flush when the pending range has reached
`RDMA_MERGE_MAX`, else return 0. -/
theorem write_cases (offset len : Nat) (st st' : St) (ret : Int)
    (h : qemu_rdma_write offset len st = some (ret, st')) :
    ∃ m, qemu_rdma_buffer_mergable offset len st = some m ∧
      ((m ≠ 0 ∧
        (if (st.rdma.current_length + len) % U64 ≥ RDMA_MERGE_MAX then
            qemu_rdma_write_flush (st.set_cursor st.rdma.current_index st.rdma.current_chunk
              st.rdma.current_offset ((st.rdma.current_length + len) % U64))
          else some (0, st.set_cursor st.rdma.current_index st.rdma.current_chunk
              st.rdma.current_offset ((st.rdma.current_length + len) % U64)))
          = some (ret, st')) ∨
       (m = 0 ∧ ∃ r1 s1, qemu_rdma_write_flush st = some (r1, s1) ∧
          ((r1 ≠ 0 ∧ ret = r1 ∧ st' = s1) ∨
           (r1 = 0 ∧
            (((qemu_rdma_search_ram_block offset len s1.local_ram_blocks
                  st.rdma.current_index st.rdma.current_chunk).1 ≠ 0 ∧
              ret = (qemu_rdma_search_ram_block offset len s1.local_ram_blocks
                  st.rdma.current_index st.rdma.current_chunk).1 ∧
              st' = s1.set_cursor s1.rdma.current_index s1.rdma.current_chunk offset 0) ∨
             ((qemu_rdma_search_ram_block offset len s1.local_ram_blocks
                  st.rdma.current_index st.rdma.current_chunk).1 = 0 ∧
              (if (0 + len) % U64 ≥ RDMA_MERGE_MAX then
                  qemu_rdma_write_flush (s1.set_cursor
                    (qemu_rdma_search_ram_block offset len s1.local_ram_blocks
                      st.rdma.current_index st.rdma.current_chunk).2.1
                    (qemu_rdma_search_ram_block offset len s1.local_ram_blocks
                      st.rdma.current_index st.rdma.current_chunk).2.2
                    offset ((0 + len) % U64))
                else some (0, s1.set_cursor
                    (qemu_rdma_search_ram_block offset len s1.local_ram_blocks
                      st.rdma.current_index st.rdma.current_chunk).2.1
                    (qemu_rdma_search_ram_block offset len s1.local_ram_blocks
                      st.rdma.current_index st.rdma.current_chunk).2.2
                    offset ((0 + len) % U64)))
                = some (ret, st'))))))) := by
  unfold qemu_rdma_write at h
  cases hm : qemu_rdma_buffer_mergable offset len st with
  | none => rw [hm] at h; exact absurd h (by simp)
  | some m =>
    rw [hm] at h
    dsimp only at h
    refine ⟨m, rfl, ?_⟩
    by_cases hm0 : m = 0
    · right
      rw [if_pos hm0] at h
      cases hf : qemu_rdma_write_flush st with
      | none => rw [hf] at h; exact absurd h (by simp)
      | some p =>
        obtain ⟨r1, s1⟩ := p
        rw [hf] at h
        dsimp only at h
        refine ⟨hm0, r1, s1, rfl, ?_⟩
        by_cases hr1 : r1 ≠ 0
        · rw [if_pos hr1] at h
          dsimp only at h
          rw [if_pos hr1] at h
          simp only [Option.some.injEq, Prod.mk.injEq] at h
          exact Or.inl ⟨hr1, h.1.symm, h.2.symm⟩
        · rw [if_neg hr1] at h
          right
          refine ⟨not_not.mp hr1, ?_⟩
          by_cases hfound : (qemu_rdma_search_ram_block offset len s1.local_ram_blocks
              st.rdma.current_index st.rdma.current_chunk).1 ≠ 0
          · rw [if_pos hfound] at h
            dsimp only at h
            rw [if_pos hfound] at h
            simp only [Option.some.injEq, Prod.mk.injEq] at h
            exact Or.inl ⟨hfound, h.1.symm, h.2.symm⟩
          · rw [if_neg hfound] at h
            dsimp only at h
            rw [if_neg (by decide : ¬ ((0 : Int) ≠ 0))] at h
            exact Or.inr ⟨not_not.mp hfound, h⟩
    · left
      rw [if_neg hm0] at h
      dsimp only at h
      rw [if_neg (by decide : ¬ ((0 : Int) ≠ 0))] at h
      exact ⟨hm0, h⟩

/-! ## Signaling -/

theorem set_cursor_dir (st : St) (i c : Int) (o l : Nat) : DirFrame st (st.set_cursor i c o l) :=
  ⟨rfl, rfl, rfl, List.suffix_refl _, List.prefix_refl _⟩

theorem search_code (offset len : Nat) (blocks : RDMALocalBlocks) (i c : Int) :
    (qemu_rdma_search_ram_block offset len blocks i c).1 = 0 ∨
    (qemu_rdma_search_ram_block offset len blocks i c).1 = -1 := by
  unfold qemu_rdma_search_ram_block
  split
  · exact Or.inl rfl
  · exact Or.inr rfl

theorem flush_counter (st st' : St) (ret : Int)
    (h : qemu_rdma_write_flush st = some (ret, st'))
    (hb : 0 ≤ st.rdma.num_unsignaled_send ∧ st.rdma.num_unsignaled_send ≤ 64) :
    0 ≤ st'.rdma.num_unsignaled_send ∧ st'.rdma.num_unsignaled_send ≤ 64 := by
  obtain ⟨_, hr, _, _, hne, hz, _⟩ := flush_summary st st' ret h
  rcases hr with hr | hr
  · obtain ⟨_, _, hc⟩ := hz hr
    rw [hc]
    simp only [RDMA_UNSIGNALED_SEND_MAX]
    split
    · exact hb
    · split <;> omega
  · obtain ⟨_, _, hc⟩ := hne (by rw [hr]; decide)
    rw [hc]; exact hb

theorem finish_counter (P st' : St) (ret : Int)
    (h : (if P.rdma.current_length ≥ RDMA_MERGE_MAX then qemu_rdma_write_flush P
      else some (0, P)) = some (ret, st'))
    (hb : 0 ≤ P.rdma.num_unsignaled_send ∧ P.rdma.num_unsignaled_send ≤ 64) :
    0 ≤ st'.rdma.num_unsignaled_send ∧ st'.rdma.num_unsignaled_send ≤ 64 := by
  by_cases hc : P.rdma.current_length ≥ RDMA_MERGE_MAX
  · rw [if_pos hc] at h
    exact flush_counter P st' ret h hb
  · rw [if_neg hc] at h
    simp only [Option.some.injEq, Prod.mk.injEq] at h
    rw [← h.2]; exact hb

/-- Every operation of the write engine keeps `num_unsignaled_send` between 0
and `RDMA_UNSIGNALED_SEND_MAX`, whatever it returns. -/
theorem op_counter (op : EngineOp) (st st' : St) (ret : Int)
    (h : op.run st = some (ret, st'))
    (hb : 0 ≤ st.rdma.num_unsignaled_send ∧ st.rdma.num_unsignaled_send ≤ 64) :
    0 ≤ st'.rdma.num_unsignaled_send ∧ st'.rdma.num_unsignaled_send ≤ 64 := by
  cases op with
  | flush => exact flush_counter st st' ret h hb
  | poll =>
    have hc := (qemu_rdma_poll_pump st st' ret h).1
    rw [hc.cursor.2.2.2.2.1]; exact hb
  | drain =>
    simp only [EngineOp.run] at h
    unfold qemu_rdma_drain_cq at h
    split at h
    · exact absurd h (by simp)
    rename_i r1 s1 hfl
    have h1 := flush_counter st s1 r1 hfl hb
    split at h
    · simp only [Option.some.injEq, Prod.mk.injEq] at h
      rw [← h.2]; exact h1
    · obtain ⟨_, _, hp⟩ := drain_cq_loop_spec _ _ _ _ h
      rw [hp.1.cursor.2.2.2.2.1]; exact h1
  | write offset len =>
    obtain ⟨m, _, hc⟩ := write_cases offset len st st' ret h
    rcases hc with ⟨_, hfin⟩ | ⟨_, r1, s1, hfl, hc⟩
    · exact finish_counter
        (st.set_cursor st.rdma.current_index st.rdma.current_chunk st.rdma.current_offset
          ((st.rdma.current_length + len) % U64)) st' ret hfin hb
    · have h1 := flush_counter st s1 r1 hfl hb
      rcases hc with ⟨_, _, hst⟩ | ⟨_, hc⟩
      · rw [hst]; exact h1
      · rcases hc with ⟨_, _, hst⟩ | ⟨_, hfin⟩
        · rw [hst]; exact h1
        · exact finish_counter
            (s1.set_cursor
              (qemu_rdma_search_ram_block offset len s1.local_ram_blocks
                st.rdma.current_index st.rdma.current_chunk).2.1
              (qemu_rdma_search_ram_block offset len s1.local_ram_blocks
                st.rdma.current_index st.rdma.current_chunk).2.2
              offset ((0 + len) % U64)) st' ret hfin h1

/-- C12. In every state reachable from a state with `num_unsignaled_send = 0`
by write, flush, drain and completion-poll operations, whatever they return,
`0 ≤ num_unsignaled_send < RDMA_UNSIGNALED_SEND_MAX + 1`. -/
theorem unsignaled_bounded (st0 st : St) (h0 : st0.rdma.num_unsignaled_send = 0)
    (hr : Reach st0 st) :
    0 ≤ st.rdma.num_unsignaled_send ∧
    st.rdma.num_unsignaled_send < RDMA_UNSIGNALED_SEND_MAX + 1 := by
  have key : 0 ≤ st.rdma.num_unsignaled_send ∧ st.rdma.num_unsignaled_send ≤ 64 := by
    induction hr with
    | start => rw [h0]; decide
    | step op a b ret _ hop ih => exact op_counter op a b ret hop ih
  simp only [RDMA_UNSIGNALED_SEND_MAX]
  omega

/-- C12 on the sample session with a pending range and no unsignaled send
behind it: the state after one flush is reachable, its counter is 1, within
the bounds. -/
theorem unsignaled_bounded_witness :
    ∃ st : St,
      qemu_rdma_write_flush (sample_pending false 0
          [{ id := some 9, lkey := 11, rkey := 12 }, {}]) = some (0, st) ∧
      st.rdma.num_unsignaled_send = 1 ∧
      0 ≤ st.rdma.num_unsignaled_send ∧
      st.rdma.num_unsignaled_send < RDMA_UNSIGNALED_SEND_MAX + 1 := by
  have h1 : qemu_rdma_write_flush (sample_pending false 0
      [{ id := some 9, lkey := 11, rkey := 12 }, {}])
      = some (0, ((qemu_rdma_write_flush (sample_pending false 0
          [{ id := some 9, lkey := 11, rkey := 12 }, {}])).map Prod.snd).getD
          (sample_state false [])) := by rfl
  exact ⟨_, h1, by rfl,
    unsignaled_bounded (sample_pending false 0 [{ id := some 9, lkey := 11, rkey := 12 }, {}])
      _ (by rfl) (Reach.step EngineOp.flush _ _ 0 Reach.start h1)⟩

/-- Without wrap-around the host and the remote address of an offset of a
block are the base addresses plus the displacement of the offset in the
block. -/
theorem host_of_eq (b : RDMALocalBlock) (o : Nat) (h1 : b.offset ≤ o)
    (h2 : o ≤ b.offset + b.length)
    (hl : b.local_host_addr + b.length < U64) (hr : b.remote_host_addr + b.length < U64) :
    b.host_of o = b.local_host_addr + (o - b.offset) ∧
    b.remote_of o = b.remote_host_addr + (o - b.offset) := by
  have e : (o + U64 - b.offset) % U64 = o - b.offset := by
    have e1 : o + U64 - b.offset = (o - b.offset) + U64 := by omega
    rw [e1, Nat.add_mod_right, Nat.mod_eq_of_lt (by omega)]
  simp only [RDMALocalBlock.host_of, RDMALocalBlock.remote_of, e]
  exact ⟨Nat.mod_eq_of_lt (by omega), Nat.mod_eq_of_lt (by omega)⟩

/-- After the key stage of `__qemu_rdma_write` in chunk mode has returned a
key, the cache entry of the chunk holds it. -/
theorem chunk_rkey_cached (ci : Int) (bi : Nat) (block : RDMALocalBlock)
    (offset sge_addr sge_length : Nat) (st1 st2 : St) (ret : Int) (rkey : Nat)
    (b1 : RDMALocalBlock) (hb : st1.local_ram_blocks.block[bi]? = some b1)
    (hb1 : b1.remote_keys = block.remote_keys) (hret : 0 ≤ ret)
    (h : rdma_write_chunk_rkey ci bi block offset sge_addr sge_length st1
      = some (ret, rkey, st2)) :
    ∃ b2 keys, st2.local_ram_blocks.block[bi]? = some b2 ∧ b2.remote_keys = some keys ∧
      keys[(toInt32 (RDMA_REG_CHUNK_INDEX block.local_host_addr sge_addr)).toNat]?
        = some rkey := by
  obtain ⟨keys, k, hk, _, hget, hc⟩ := chunk_rkey_cases _ _ _ _ _ _ _ _ _ _ h
  rcases hc with ⟨_, _, hr, hst⟩ | ⟨_, r1, resp1, s2, _, hc⟩
  · rw [hst, hr]
    exact ⟨b1, keys, hb, by rw [hb1, hk], hget⟩
  · rcases hc with ⟨hlt, hr, _⟩ | ⟨_, _, _, block2, hb2, hst⟩
    · omega
    · rw [hst]
      refine ⟨_, _, set_block_get s2 bi block2 _ hb2, rfl, ?_⟩
      have hlen : (toInt32 (RDMA_REG_CHUNK_INDEX block.local_host_addr sge_addr)).toNat
          < keys.length := by
        by_contra hcon
        rw [List.getElem?_eq_none (not_lt.mp hcon)] at hget
        exact absurd hget (by simp)
      rw [List.getElem?_set_self hlen]

/-- C24 (amended). A flush of a non-empty pending range `(current_index,
current_offset, current_length)` that lies in the block `current_index` names
(a block whose host and remote ranges do not wrap around 2^64): every RDMA
WRITE it posts has the SGE address `block.local_host_addr + d`, the remote
address `block.remote_host_addr + d`, with `d = current_offset - block.offset`,
and as SGE length the low 32 bits of `current_length` (`sge.length` is a
`uint32_t`), which is `current_length` itself when that is below 2^32.
When the flush returns 0 its last call is the post of such a WRITE, whose rkey
is `block.remote_rkey` in whole-block mode and, in chunk mode, the entry of the
chunk of the SGE address in the rkey cache `remote_keys` of the block; and
afterwards `current_length = 0` and `current_offset = 0`. -/
theorem flush_write_fields (st st' : St) (ret : Int) (block : RDMALocalBlock)
    (hnz : st.rdma.current_length ≠ 0)
    (hb : st.local_ram_blocks.block[st.rdma.current_index.toNat]? = some block)
    (h1 : block.offset ≤ st.rdma.current_offset)
    (h2 : st.rdma.current_offset + st.rdma.current_length ≤ block.offset + block.length)
    (hl : block.local_host_addr + block.length < U64)
    (hr : block.remote_host_addr + block.length < U64)
    (h : qemu_rdma_write_flush st = some (ret, st')) :
    (∃ ext, st'.trace = st.trace ++ ext ∧
      ∀ wr ∈ rdma_writes ext,
        wr.sge.addr = block.local_host_addr + (st.rdma.current_offset - block.offset) ∧
        wr.sge.length = st.rdma.current_length % U32 ∧
        (st.rdma.current_length < U32 → wr.sge.length = st.rdma.current_length) ∧
        wr.remote_addr = block.remote_host_addr + (st.rdma.current_offset - block.offset)) ∧
    (ret = 0 →
      st'.rdma.current_length = 0 ∧ st'.rdma.current_offset = 0 ∧
      ∃ pre wr, st'.trace = st.trace ++ pre ++ [Call.ibv_post_send wr []] ∧
        wr.opcode = IBV_WR_RDMA_WRITE ∧
        wr.sge.addr = block.local_host_addr + (st.rdma.current_offset - block.offset) ∧
        wr.sge.length = st.rdma.current_length % U32 ∧
        (st.rdma.current_length < U32 → wr.sge.length = st.rdma.current_length) ∧
        wr.remote_addr = block.remote_host_addr + (st.rdma.current_offset - block.offset) ∧
        (st.rdma.chunk_register_destination = false → wr.rkey = block.remote_rkey) ∧
        (st.rdma.chunk_register_destination = true →
          ∃ b2 keys, st'.local_ram_blocks.block[st.rdma.current_index.toNat]? = some b2 ∧
            b2.remote_keys = some keys ∧
            keys[(toInt32 (RDMA_REG_CHUNK_INDEX block.local_host_addr wr.sge.addr)).toNat]?
              = some wr.rkey)) := by
  obtain ⟨hho, hro⟩ := host_of_eq block st.rdma.current_offset h1 (by omega) hl hr
  refine ⟨?_, ?_⟩
  · obtain ⟨_, _, _, _, _, _, ext, ht, hw, _⟩ := flush_summary st st' ret h
    refine ⟨ext, ht, ?_⟩
    intro wr hwr
    obtain ⟨blk, _, hblk, _, _, _, w4, w5, w6⟩ := hw wr hwr
    rw [hb] at hblk
    simp only [Option.some.injEq] at hblk
    subst hblk
    exact ⟨by rw [w4, hho], w5, fun h32 => by rw [w5, Nat.mod_eq_of_lt h32],
      by rw [w6, hro]⟩
  · intro hret
    obtain ⟨_, _, _, _, _, hz, _⟩ := flush_summary st st' ret h
    obtain ⟨z1, z2, _⟩ := hz hret
    rw [if_neg hnz] at z2
    refine ⟨z1, z2, ?_⟩
    rcases flush_cases st st' ret h with ⟨hz0, _⟩ | ⟨_, st1, _, _, hc⟩
    · exact absurd hz0 hnz
    rcases hc with ⟨hre, _⟩ | ⟨_, hst, sA, heA, hcall, _⟩
    · rw [hre] at hret; exact absurd hret (by decide)
    obtain ⟨blockA, _, hbA, _, pre, _, hcase⟩ := rdma_write_spec _ _ _ _ _ _ _ _ hcall
    rcases hcase with ⟨hlt, _⟩ | ⟨s1, s2, lkey, x, rkey, k, r, hreg, hkey, ht2, ht1, _, _, hblocks,
      _, hk⟩
    · exact absurd hlt (by decide)
    obtain ⟨blk', hget', hg⟩ := heA.block _ block hb
    rw [hbA] at hget'
    simp only [Option.some.injEq] at hget'
    subst hget'
    obtain ⟨g1, g2⟩ := host_of_geometry blockA block hg st.rdma.current_offset
    obtain ⟨f1, _, _, _, _, f6⟩ := geometry_fields blockA block hg
    obtain ⟨t0, ht0⟩ := heA.2.2.2.2
    have htr : st'.trace = st1.trace := by rw [hst]
    obtain ⟨_, hr1, _, b1, hb1, _, hkeys1⟩ := register_eng _ _ _ _ _ _ _ _ _ _ _ blockA hbA hreg
    have hmode : s1.rdma.chunk_register_destination = st.rdma.chunk_register_destination := by
      rw [hr1]; exact heA.eng_cursor.2.2.2.2.2
    have hbl : st'.local_ram_blocks = s2.local_ram_blocks := by rw [hst]; exact hblocks
    refine ⟨t0 ++ pre,
      { wr_id := 1, opcode := IBV_WR_RDMA_WRITE,
        send_flags := (if st.rdma.num_unsignaled_send ≥ RDMA_UNSIGNALED_SEND_MAX
          then IBV_SEND_SIGNALED else 0),
        sge := { addr := blockA.host_of st.rdma.current_offset,
                 length := st.rdma.current_length % U32, lkey := lkey },
        remote_addr := blockA.remote_of st.rdma.current_offset, rkey := rkey },
      ?_, rfl, ?_, rfl, ?_, ?_, ?_, ?_⟩
    · rw [htr, ht1, ht2, ← ht0]
      simp only [List.append_assoc]
    · show blockA.host_of st.rdma.current_offset = _
      rw [g1, hho]
    · intro h32
      show st.rdma.current_length % U32 = _
      exact Nat.mod_eq_of_lt h32
    · show blockA.remote_of st.rdma.current_offset = _
      rw [g2, hro]
    · intro hm
      rw [hmode, hm] at hkey
      simp only [Bool.false_eq_true, if_false, Option.some.injEq, Prod.mk.injEq] at hkey
      show rkey = _
      rw [← hkey.2.1, f6]
    · intro hm
      rw [hmode, hm] at hkey
      simp only [if_true] at hkey
      show ∃ b2 keys, st'.local_ram_blocks.block[st.rdma.current_index.toNat]? = some b2 ∧
        b2.remote_keys = some keys ∧
        keys[(toInt32 (RDMA_REG_CHUNK_INDEX block.local_host_addr
          (blockA.host_of st.rdma.current_offset))).toNat]? = some rkey
      rw [hbl, ← f1]
      exact chunk_rkey_cached _ _ blockA _ _ _ s1 s2 k rkey b1 hb1 hkeys1 hk hkey

/-- C24 (amended) on the sample session in chunk mode with the rkey 77 cached for chunk
0 and the pending range `[0, 4096)`: the flush posts one WRITE from
`0x40000000` to `0x80000000`, 4096 bytes, with rkey 77, and empties the
cursor. -/
theorem flush_write_fields_witness :
    ∃ st' : St,
      qemu_rdma_write_flush
        ((sample_pending true 0 [{ id := some 9, lkey := 11, rkey := 12 }, {}]).set_block 0
          ⟨1073741824, 2147483648, 0, 8388608, none, none,
            some (77 :: List.replicate 8 0), 55⟩) = some (0, st') ∧
      (rdma_writes st'.trace).map
          (fun wr => (wr.sge.addr, wr.sge.length, wr.remote_addr, wr.rkey))
        = [(1073741824, 4096, 2147483648, 77)] ∧
      st'.rdma.current_length = 0 ∧ st'.rdma.current_offset = 0 := by
  have h1 : qemu_rdma_write_flush
      ((sample_pending true 0 [{ id := some 9, lkey := 11, rkey := 12 }, {}]).set_block 0
        ⟨1073741824, 2147483648, 0, 8388608, none, none,
          some (77 :: List.replicate 8 0), 55⟩)
      = some (0, ((qemu_rdma_write_flush
          ((sample_pending true 0 [{ id := some 9, lkey := 11, rkey := 12 }, {}]).set_block 0
            ⟨1073741824, 2147483648, 0, 8388608, none, none,
              some (77 :: List.replicate 8 0), 55⟩)).map Prod.snd).getD
          (sample_state false [])) := by rfl
  obtain ⟨_, hz⟩ := flush_write_fields _ _ 0
    ⟨1073741824, 2147483648, 0, 8388608, none, none, some (77 :: List.replicate 8 0), 55⟩
    (by decide) (by rfl) (by decide) (by decide) (by decide) (by decide) h1
  exact ⟨_, h1, by decide, (hz rfl).1, (hz rfl).2.1⟩

/-- C24 as stated fails for a pending range of 2^32 bytes or more: on a
session in whole-block mode with one RAM block of 8 GiB, registered as a whole
(lkey 21), and the pending range `[0, 4 GiB + 4 KiB)` of it, the flush returns
0 and the one RDMA WRITE it posts has the SGE length 4096, not
`current_length`. -/
theorem flush_length_truncated :
    ∃ st' : St,
      qemu_rdma_write_flush
        (((sample_state false [{}]).set_block 0
          ⟨1073741824, 2147483648, 0, 8589934592, none,
            some ⟨1073741824, 8589934592, 7, 21, 22⟩, none, 55⟩).set_cursor 0 0 0 4294971392)
        = some (0, st') ∧
      PendingIn (((sample_state false [{}]).set_block 0
          ⟨1073741824, 2147483648, 0, 8589934592, none,
            some ⟨1073741824, 8589934592, 7, 21, 22⟩, none, 55⟩).set_cursor 0 0 0 4294971392)
        ⟨1073741824, 2147483648, 0, 8589934592, none,
          some ⟨1073741824, 8589934592, 7, 21, 22⟩, none, 55⟩ ∧
      (rdma_writes st'.trace).map
          (fun wr => (wr.sge.addr, wr.sge.length, wr.remote_addr, wr.rkey))
        = [(1073741824, 4096, 2147483648, 55)] ∧
      st'.rdma.current_length = 0 := by
  have h1 : qemu_rdma_write_flush
      (((sample_state false [{}]).set_block 0
        ⟨1073741824, 2147483648, 0, 8589934592, none,
          some ⟨1073741824, 8589934592, 7, 21, 22⟩, none, 55⟩).set_cursor 0 0 0 4294971392)
      = some (0, ((qemu_rdma_write_flush
          (((sample_state false [{}]).set_block 0
            ⟨1073741824, 2147483648, 0, 8589934592, none,
              some ⟨1073741824, 8589934592, 7, 21, 22⟩, none, 55⟩).set_cursor 0 0 0
                4294971392)).map Prod.snd).getD (sample_state false [])) := by rfl
  exact ⟨_, h1, by unfold PendingIn; decide, by decide, by rfl⟩

/-! ## Write engine: the cursor invariant -/

/-- What depends on the geometry of a block only. -/
theorem chunk_range_geometry (b1 b : RDMALocalBlock) (h : b1.geometry = b.geometry) :
    (∀ i, chunk_range b1 i = chunk_range b i) ∧
    RDMA_REG_NUM_CHUNKS b1 = RDMA_REG_NUM_CHUNKS b ∧ (b1.fits ↔ b.fits) := by
  obtain ⟨h1, _, h3, h4, _⟩ := geometry_fields b1 b h
  refine ⟨fun i => ?_, ?_, ?_⟩
  · simp only [chunk_range, RDMA_REG_CHUNK_START, RDMA_REG_CHUNK_END, h1, h4]
  · simp only [RDMA_REG_NUM_CHUNKS, h1, h4]
  · simp only [RDMALocalBlock.fits, RDMA_REG_NUM_CHUNKS, h1, h3, h4]

theorem mem_of_geometry (l1 l2 : List RDMALocalBlock)
    (hg : l1.map RDMALocalBlock.geometry = l2.map RDMALocalBlock.geometry)
    (b : RDMALocalBlock) (hb : b ∈ l2) : ∃ b1 ∈ l1, b1.geometry = b.geometry := by
  have h1 : b.geometry ∈ l2.map RDMALocalBlock.geometry := List.mem_map_of_mem _ hb
  rw [← hg] at h1
  obtain ⟨b1, hb1, he⟩ := List.mem_map.mp h1
  exact ⟨b1, hb1, he⟩

theorem DirFits.fits_of_dir {a b : St} (h : DirFrame a b) (hf : DirFits a) : DirFits b := by
  intro blk hblk
  obtain ⟨b1, hb1, hg⟩ := mem_of_geometry _ _ h.2.2.1.symm blk hblk
  exact ((chunk_range_geometry b1 blk hg).2.2).mp (hf b1 hb1)

theorem page_in_chunk_geometry (l1 l2 : List RDMALocalBlock)
    (hg : l1.map RDMALocalBlock.geometry = l2.map RDMALocalBlock.geometry) (o l : Nat)
    (hp : PageInChunk l1 o l) : PageInChunk l2 o l := by
  intro blk hblk
  obtain ⟨b1, hb1, hge⟩ := mem_of_geometry _ _ hg blk hblk
  obtain ⟨f1, _, f3, f4, _⟩ := geometry_fields b1 blk hge
  have hh := (host_of_geometry b1 blk hge o).1
  have hc := (chunk_range_geometry b1 blk hge).1
  have h0 := hp b1 hb1
  rw [hh, hc, f1, f3, f4] at h0
  exact h0

theorem page_ok_geometry (L : Nat) (l1 l2 : List RDMALocalBlock)
    (hg : l1.map RDMALocalBlock.geometry = l2.map RDMALocalBlock.geometry) (o l : Nat)
    (hp : PageOk L l1 o l) : PageOk L l2 o l :=
  ⟨hp.1, hp.2.imp id (page_in_chunk_geometry l1 l2 hg o l)⟩

theorem op_ok_geometry (L : Nat) (l1 l2 : List RDMALocalBlock)
    (hg : l1.map RDMALocalBlock.geometry = l2.map RDMALocalBlock.geometry) (op : EngineOp)
    (hp : OpOk L l1 op) : OpOk L l2 op := by
  cases op with
  | write o l => exact page_ok_geometry L l1 l2 hg o l hp
  | flush => trivial
  | drain => exact hp
  | poll => exact hp

theorem write_in_chunk_geometry (l1 l2 : List RDMALocalBlock)
    (hg : l1.map RDMALocalBlock.geometry = l2.map RDMALocalBlock.geometry) (wr : ibv_send_wr)
    (hp : WriteInChunk l1 wr) : WriteInChunk l2 wr := by
  obtain ⟨b, hb, c, h1, h2, h3, h4, h5⟩ := hp
  obtain ⟨b2, hb2, hge⟩ := mem_of_geometry _ _ hg.symm b hb
  obtain ⟨f1, _, _, f4, _⟩ := geometry_fields b2 b hge
  obtain ⟨hc, hn, _⟩ := chunk_range_geometry b2 b hge
  exact ⟨b2, hb2, c, by rw [hn]; exact h1, by rw [hc, f1]; exact h2, by rw [hc]; exact h3,
    by rw [hc]; exact h4, by rw [hc, f1, f4]; exact h5⟩

/-- The cursor invariant goes along a `DirFrame` that keeps the cursor. -/
theorem CursorIn.cursor_of_dir {a b : St} (L : Nat) (h : DirFrame a b)
    (c1 : b.rdma.current_length = a.rdma.current_length)
    (c2 : b.rdma.current_offset = a.rdma.current_offset)
    (c3 : b.rdma.current_index = a.rdma.current_index)
    (c4 : b.rdma.current_chunk = a.rdma.current_chunk)
    (hc : CursorIn L a) : CursorIn L b := by
  intro hpos
  rw [c1] at hpos
  obtain ⟨blk, ⟨p1, p2, p3, p4, p5⟩, hd⟩ := hc hpos
  obtain ⟨blk', hget', hg⟩ := block_of_geometry _ _ h.2.2.1 _ blk p2
  obtain ⟨f1, _, f3, f4, _⟩ := geometry_fields blk' blk hg
  have hh := (host_of_geometry blk' blk hg a.rdma.current_offset).1
  have hcr := (chunk_range_geometry blk' blk hg).1
  refine ⟨blk', ⟨by rw [c3]; exact p1, by rw [c3]; exact hget', by rw [c2, f3]; exact p3,
    by rw [c1, c2, f3, f4]; exact p4, by rw [c4, c2, hh, f1]; exact p5⟩, ?_⟩
  rw [c1, c2, c4, hh, hcr]
  exact hd

theorem shift_chunk (x c : Nat) :
    ((x >>> RDMA_REG_CHUNK_SHIFT) + c) <<< RDMA_REG_CHUNK_SHIFT = (x / 1048576 + c) * 1048576 := by
  simp only [RDMA_REG_CHUNK_SHIFT, Nat.shiftRight_eq_div_pow, Nat.shiftLeft_eq]

/-- The facts of a non-empty pending range in a block that fits: the host
address of its first byte, the chunk of that byte, and the bounds of the
chunk. -/
theorem cursor_chunk (st : St) (block : RDMALocalBlock) (hp : PendingIn st block)
    (hfit : block.fits) (hpos : 0 < st.rdma.current_length) :
    block.host_of st.rdma.current_offset
      = block.local_host_addr + (st.rdma.current_offset - block.offset) ∧
    ∃ c : Nat, st.rdma.current_chunk = (c : Int) ∧ c < RDMA_REG_NUM_CHUNKS block ∧
      c = block.host_of st.rdma.current_offset / 1048576 - block.local_host_addr / 1048576 ∧
      chunk_range block c
        = (max ((block.local_host_addr / 1048576 + c) * 1048576) block.local_host_addr,
           min ((block.local_host_addr / 1048576 + c) * 1048576 + 1048576)
             (block.local_host_addr + block.length)) := by
  obtain ⟨_, _, p3, p4, p5⟩ := hp
  obtain ⟨f1, f2, _⟩ := hfit
  have hsz : RDMA_REG_CHUNK_SIZE = 1048576 := by decide
  have hu : U64 = 18446744073709551616 := by decide
  rw [hsz, hu] at f1
  rw [hu] at f2
  have e : (st.rdma.current_offset + U64 - block.offset) % U64
      = st.rdma.current_offset - block.offset := by
    have e1 : st.rdma.current_offset + U64 - block.offset
        = (st.rdma.current_offset - block.offset) + U64 := by omega
    rw [e1, Nat.add_mod_right, Nat.mod_eq_of_lt (by rw [hu]; omega)]
  have hho : block.host_of st.rdma.current_offset
      = block.local_host_addr + (st.rdma.current_offset - block.offset) := by
    simp only [RDMALocalBlock.host_of, e]
    exact Nat.mod_eq_of_lt (by rw [hu]; omega)
  refine ⟨hho, ?_⟩
  obtain ⟨i1, i2⟩ := chunk_index_in_block block (block.host_of st.rdma.current_offset)
    (by rw [hu]; omega) (by rw [hho]; omega) (by rw [hho]; omega)
  refine ⟨_, p5, i2, i1, ?_⟩
  exact chunk_range_eq block _ (by rw [hsz, hu]; omega) i2

theorem CursorIn.mono {L L' : Nat} {st : St} (hl : L ≤ L') (h : CursorIn L st) :
    CursorIn L' st := by
  intro hpos
  obtain ⟨blk, hp, hd⟩ := h hpos
  exact ⟨blk, hp, hd.imp id (fun h1 => le_trans h1 hl)⟩

theorem fits_of_get (st : St) (i : Nat) (block : RDMALocalBlock) (hfit : DirFits st)
    (h : st.local_ram_blocks.block[i]? = some block) : block.fits :=
  hfit block (List.getElem?_mem h)

/-- A page the cursor merges starts where the pending range ends, and the
merged range ends within the chunk of the cursor. -/
theorem merge_cursor (L offset len : Nat) (st : St) (m : Int) (hfit : DirFits st)
    (hpage : offset + len < U64) (hinv : CursorIn L st)
    (hm : qemu_rdma_buffer_mergable offset len st = some m) (hne : m ≠ 0) :
    offset = st.rdma.current_offset + st.rdma.current_length ∧
    0 < st.rdma.current_length ∧
    (st.rdma.current_length + len) % U64 = st.rdma.current_length + len ∧
    CursorIn 0 (st.set_cursor st.rdma.current_index st.rdma.current_chunk
        st.rdma.current_offset ((st.rdma.current_length + len) % U64)) := by
  have hpos : 0 < st.rdma.current_length := by
    by_contra hcon
    have hz : st.rdma.current_length = 0 := by omega
    unfold qemu_rdma_buffer_mergable at hm
    rw [if_pos hz] at hm
    simp only [Option.some.injEq] at hm
    exact hne hm.symm
  obtain ⟨block, hp, _⟩ := hinv hpos
  have hbf := fits_of_get st _ block hfit hp.2.1
  obtain ⟨hho, c, hcc, hcn, _, hcr⟩ := cursor_chunk st block hp hbf hpos
  obtain ⟨p1, p2, p3, p4, p5⟩ := hp
  obtain ⟨f1, f2, f3⟩ := hbf
  have hu : U64 = 18446744073709551616 := by decide
  rw [mergable_plain st offset len c block p1 p2 hcc hcn f1 f2 hpage (by omega)] at hm
  simp only [Option.some.injEq] at hm
  split at hm
  swap
  · exact absurd hm.symm hne
  rename_i hcond
  obtain ⟨_, ho, ⟨b1, b2⟩, k1, k2⟩ := hcond
  rw [shift_chunk] at k1 k2
  have hsz : RDMA_REG_CHUNK_SIZE = 1048576 := by decide
  rw [hsz] at k2
  have hmod : (st.rdma.current_length + len) % U64 = st.rdma.current_length + len :=
    Nat.mod_eq_of_lt (by omega)
  refine ⟨ho, hpos, hmod, ?_⟩
  intro _
  refine ⟨block, ⟨p1, p2, p3, ?_, p5⟩, Or.inl ?_⟩
  · show st.rdma.current_offset + (st.rdma.current_length + len) % U64 ≤ _
    rw [hmod]; omega
  · show block.host_of st.rdma.current_offset + (st.rdma.current_length + len) % U64
      ≤ (chunk_range block st.rdma.current_chunk.toNat).2
    rw [hmod, hcc, Int.toNat_ofNat, hcr, hho]
    show _ ≤ min _ _
    have k3 : block.local_host_addr + (offset - block.offset) + len
        = block.local_host_addr + (st.rdma.current_offset - block.offset)
          + (st.rdma.current_length + len) := by omega
    rw [← k3]
    exact k2

/-- The cursor `qemu_rdma_write` sets for a page the search has found keeps
the invariant. -/
theorem search_cursor (L offset len : Nat) (s1 : St) (i0 c0 : Int) (hfit : DirFits s1)
    (hok : PageOk L s1.local_ram_blocks.block offset len)
    (hf : (qemu_rdma_search_ram_block offset len s1.local_ram_blocks i0 c0).1 = 0) :
    CursorIn L (s1.set_cursor
      (qemu_rdma_search_ram_block offset len s1.local_ram_blocks i0 c0).2.1
      (qemu_rdma_search_ram_block offset len s1.local_ram_blocks i0 c0).2.2
      offset ((0 + len) % U64)) := by
  obtain ⟨hpage, hpg⟩ := hok
  have hu : U64 = 18446744073709551616 := by decide
  have hmod : (0 + len) % U64 = len := by
    rw [Nat.zero_add]; exact Nat.mod_eq_of_lt (by omega)
  unfold qemu_rdma_search_ram_block at hf ⊢
  cases hl : qemu_rdma_search_ram_block_loop offset len s1.local_ram_blocks.block 0 with
  | none =>
    rw [hl] at hf
    have hf' : (-1 : Int) = 0 := hf
    exact absurd hf' (by decide)
  | some r =>
    obtain ⟨i, c⟩ := r
    obtain ⟨b, _, hget, hb1, hb2, hc⟩ := search_loop_chunk offset len _ 0 i c hl
    rw [Nat.sub_zero] at hget
    have hbf := fits_of_get s1 i b hfit hget
    obtain ⟨f1, f2, f3⟩ := hbf
    have hsz : RDMA_REG_CHUNK_SIZE = 1048576 := by decide
    rw [hsz, hu] at f1
    rw [hu] at f2
    rw [Nat.mod_eq_of_lt hpage, Nat.mod_eq_of_lt (by rw [hu]; exact f2)] at hb2
    have e : (offset + U64 - b.offset) % U64 = offset - b.offset := by
      have e1 : offset + U64 - b.offset = (offset - b.offset) + U64 := by omega
      rw [e1, Nat.add_mod_right, Nat.mod_eq_of_lt (by rw [hu]; omega)]
    have hho : b.host_of offset = b.local_host_addr + (offset - b.offset) := by
      simp only [RDMALocalBlock.host_of, e]
      exact Nat.mod_eq_of_lt (by rw [hu]; omega)
    obtain ⟨_, i2⟩ := chunk_index_in_block b (b.host_of offset)
      (by rw [hu]; omega) (by rw [hho]; omega) (by rw [hho]; omega)
    have hci : c = (RDMA_REG_CHUNK_INDEX b.local_host_addr (b.host_of offset) : Int) := by
      rw [hc]
      exact toInt32_small _ (lt_trans i2 f3)
    intro _
    refine ⟨b, ⟨Int.ofNat_nonneg i, ?_, hb1, ?_, hci⟩, ?_⟩
    · show s1.local_ram_blocks.block[((i : Nat) : Int).toNat]? = some b
      rw [Int.toNat_ofNat]; exact hget
    · show offset + (0 + len) % U64 ≤ _
      rw [hmod]; exact hb2
    · show b.host_of offset + (0 + len) % U64 ≤ (chunk_range b c.toNat).2 ∨ (0 + len) % U64 ≤ L
      rw [hmod]
      rcases hpg with hl1 | hl2
      · exact Or.inr hl1
      · left
        rw [hci, Int.toNat_ofNat]
        exact hl2 b (List.getElem?_mem hget) hb1 hb2

/-- A flush keeps the cursor invariant, whatever it returns. -/
theorem flush_cursor (L : Nat) (st st' : St) (ret : Int) (hinv : CursorIn L st)
    (h : qemu_rdma_write_flush st = some (ret, st')) : CursorIn L st' := by
  obtain ⟨hd, _, c3, c4, hne, hz, _⟩ := flush_summary st st' ret h
  by_cases hr : ret = 0
  · intro hpos
    rw [(hz hr).1] at hpos
    exact absurd hpos (by decide)
  · obtain ⟨c1, c2, _⟩ := hne hr
    exact CursorIn.cursor_of_dir L hd c1 c2 c3 c4 hinv

/-- The RDMA WRITEs a flush posts are WRITEs of the pending range of the state
it starts in, which is not empty then. -/
theorem flush_writes (st st' : St) (ret : Int)
    (h : qemu_rdma_write_flush st = some (ret, st')) :
    DirFrame st st' ∧ ∃ ext, st'.trace = st.trace ++ ext ∧
      ∀ wr ∈ rdma_writes ext, 0 < st.rdma.current_length ∧ PendingWrite st wr := by
  obtain ⟨hd, _, _, _, _, _, ext, ht, hw, hnil, _⟩ := flush_summary st st' ret h
  refine ⟨hd, ext, ht, fun wr hwr => ⟨?_, hw wr hwr⟩⟩
  by_contra hcon
  have hz : st.rdma.current_length = 0 := by omega
  rw [hnil hz] at hwr
  exact absurd hwr (by simp [rdma_writes])

/-- The last step of `qemu_rdma_write`, the flush of a pending range that has
reached `RDMA_MERGE_MAX`, keeps the cursor invariant; the RDMA WRITEs posted
are WRITEs of a non-empty pending range of a state in which it holds. -/
theorem finish_cursor (L : Nat) (st P st' : St) (ret : Int) (hd : DirFrame st P)
    (hP : CursorIn L P) (e0 : List Call) (ht : P.trace = st.trace ++ e0)
    (he : ∀ wr ∈ rdma_writes e0, ∃ s, DirFrame st s ∧ CursorIn L s ∧
      0 < s.rdma.current_length ∧ PendingWrite s wr)
    (hfin : (if P.rdma.current_length ≥ RDMA_MERGE_MAX then qemu_rdma_write_flush P
      else some (0, P)) = some (ret, st')) :
    DirFrame st st' ∧ CursorIn L st' ∧ ∃ ext, st'.trace = st.trace ++ ext ∧
      ∀ wr ∈ rdma_writes ext, ∃ s, DirFrame st s ∧ CursorIn L s ∧
        0 < s.rdma.current_length ∧ PendingWrite s wr := by
  by_cases hc : P.rdma.current_length ≥ RDMA_MERGE_MAX
  · rw [if_pos hc] at hfin
    obtain ⟨hd2, e1, ht1, hw1⟩ := flush_writes P st' ret hfin
    refine ⟨hd.dir_trans hd2, flush_cursor L P st' ret hP hfin, e0 ++ e1, ?_, ?_⟩
    · rw [ht1, ht, List.append_assoc]
    · intro wr hwr
      rw [rdma_writes_append, List.mem_append] at hwr
      rcases hwr with h1 | h1
      · exact he wr h1
      · exact ⟨P, hd, hP, (hw1 wr h1).1, (hw1 wr h1).2⟩
  · rw [if_neg hc] at hfin
    simp only [Option.some.injEq, Prod.mk.injEq] at hfin
    rw [← hfin.2]
    exact ⟨hd, hP, e0, ht, he⟩

/-- A write of a page that is `PageOk`, or a flush, keeps the cursor
invariant, whatever it returns; the RDMA WRITEs posted are WRITEs of a
non-empty pending range of a state in which it holds. -/
theorem op_cursor (L : Nat) (op : EngineOp) (st st' : St) (ret : Int) (hfit : DirFits st)
    (hok : OpOk L st.local_ram_blocks.block op) (hinv : CursorIn L st)
    (h : op.run st = some (ret, st')) :
    DirFrame st st' ∧ CursorIn L st' ∧ ∃ ext, st'.trace = st.trace ++ ext ∧
      ∀ wr ∈ rdma_writes ext, ∃ s, DirFrame st s ∧ CursorIn L s ∧
        0 < s.rdma.current_length ∧ PendingWrite s wr := by
  cases op with
  | poll => exact absurd hok (by simp [OpOk])
  | drain => exact absurd hok (by simp [OpOk])
  | flush =>
    obtain ⟨hd, ext, ht, hw⟩ := flush_writes st st' ret h
    exact ⟨hd, flush_cursor L st st' ret hinv h, ext, ht,
      fun wr hwr => ⟨st, DirFrame.dir_refl st, hinv, (hw wr hwr).1, (hw wr hwr).2⟩⟩
  | write offset len =>
    have hok' : PageOk L st.local_ram_blocks.block offset len := hok
    obtain ⟨m, hm, hc⟩ := write_cases offset len st st' ret h
    rcases hc with ⟨hne, hfin⟩ | ⟨_, r1, s1, hfl, hc⟩
    · obtain ⟨_, _, _, hP0⟩ := merge_cursor L offset len st m hfit hok'.1 hinv hm hne
      exact finish_cursor L st
        (st.set_cursor st.rdma.current_index st.rdma.current_chunk st.rdma.current_offset
          ((st.rdma.current_length + len) % U64)) st' ret (set_cursor_dir st _ _ _ _)
        (hP0.mono (Nat.zero_le _)) [] (by simp [St.set_cursor])
        (fun wr hwr => absurd hwr (by simp [rdma_writes])) hfin
    · obtain ⟨hd1, e1, ht1, hw1⟩ := flush_writes st s1 r1 hfl
      have hinv1 := flush_cursor L st s1 r1 hinv hfl
      have he1 : ∀ wr ∈ rdma_writes e1, ∃ s, DirFrame st s ∧ CursorIn L s ∧
          0 < s.rdma.current_length ∧ PendingWrite s wr :=
        fun wr hwr => ⟨st, DirFrame.dir_refl st, hinv, (hw1 wr hwr).1, (hw1 wr hwr).2⟩
      rcases hc with ⟨_, _, hst⟩ | ⟨_, hc⟩
      · rw [hst]; exact ⟨hd1, hinv1, e1, ht1, he1⟩
      · rcases hc with ⟨_, _, hst⟩ | ⟨hfound, hfin⟩
        · rw [hst]
          refine ⟨hd1.dir_trans (set_cursor_dir s1 _ _ _ _), ?_, e1, ht1, he1⟩
          intro hpos
          exact absurd hpos (by simp [St.set_cursor])
        · have hP := search_cursor L offset len s1 st.rdma.current_index
            st.rdma.current_chunk (DirFits.fits_of_dir hd1 hfit)
            (page_ok_geometry L _ _ hd1.2.2.1.symm offset len hok') hfound
          exact finish_cursor L st
            (s1.set_cursor
              (qemu_rdma_search_ram_block offset len s1.local_ram_blocks
                st.rdma.current_index st.rdma.current_chunk).2.1
              (qemu_rdma_search_ram_block offset len s1.local_ram_blocks
                st.rdma.current_index st.rdma.current_chunk).2.2
              offset ((0 + len) % U64)) st' ret
            (hd1.dir_trans (set_cursor_dir s1 _ _ _ _)) hP e1 ht1 he1 hfin

/-- Successive writes of pages that are `PageOk`, and flushes, whatever they
return, keep the cursor invariant; the RDMA WRITEs posted are WRITEs of a
non-empty pending range of a state in which it holds. -/
theorem run_any_cursor (L : Nat) (ops : List EngineOp) (st st' : St) (hfit : DirFits st)
    (hok : ∀ op ∈ ops, OpOk L st.local_ram_blocks.block op) (hinv : CursorIn L st)
    (h : run_any ops st = some st') :
    DirFrame st st' ∧ CursorIn L st' ∧ ∃ ext, st'.trace = st.trace ++ ext ∧
      ∀ wr ∈ rdma_writes ext, ∃ s, DirFrame st s ∧ CursorIn L s ∧
        0 < s.rdma.current_length ∧ PendingWrite s wr := by
  induction ops generalizing st with
  | nil =>
    simp only [run_any, Option.some.injEq] at h
    rw [← h]
    exact ⟨DirFrame.dir_refl st, hinv, [], by simp,
      fun wr hwr => absurd hwr (by simp [rdma_writes])⟩
  | cons op ops ih =>
    simp only [run_any] at h
    split at h
    · exact absurd h (by simp)
    rename_i r1 s1 hop
    obtain ⟨hd1, hinv1, e1, ht1, hw1⟩ :=
      op_cursor L op st s1 r1 hfit (hok op (List.mem_cons_self _ _)) hinv hop
    obtain ⟨hd2, hinv2, e2, ht2, hw2⟩ := ih s1 (DirFits.fits_of_dir hd1 hfit)
      (fun o ho => op_ok_geometry L _ _ hd1.2.2.1.symm o
        (hok o (List.mem_cons_of_mem _ ho))) hinv1 h
    refine ⟨hd1.dir_trans hd2, hinv2, e1 ++ e2, by rw [ht2, ht1, List.append_assoc], ?_⟩
    intro wr hwr
    rw [rdma_writes_append, List.mem_append] at hwr
    rcases hwr with h1 | h1
    · exact hw1 wr h1
    · obtain ⟨s, hs, hrest⟩ := hw2 wr h1
      exact ⟨s, hd1.dir_trans hs, hrest⟩

theorem run_ops_any (ops : List EngineOp) (st st' : St) (h : run_ops ops st = some st') :
    run_any ops st = some st' := by
  induction ops generalizing st with
  | nil => exact h
  | cons op ops ih =>
    simp only [run_ops] at h
    simp only [run_any]
    split at h
    · exact absurd h (by simp)
    rename_i r1 s1 hop
    split at h
    · exact absurd h (by simp)
    · exact ih s1 h

/-- A non-empty pending range that ends within the chunk of the cursor lies
between the bounds of that chunk, which lies in the block and is at most
`RDMA_REG_CHUNK_SIZE` long. -/
theorem cursor_confined (st : St) (block : RDMALocalBlock) (hp : PendingIn st block)
    (hfit : block.fits) (hpos : 0 < st.rdma.current_length)
    (hle : block.host_of st.rdma.current_offset + st.rdma.current_length
      ≤ (chunk_range block st.rdma.current_chunk.toNat).2) :
    ∃ c : Nat, st.rdma.current_chunk = (c : Int) ∧ c < RDMA_REG_NUM_CHUNKS block ∧
      block.local_host_addr ≤ (chunk_range block c).1 ∧
      (chunk_range block c).1 ≤ block.host_of st.rdma.current_offset ∧
      block.host_of st.rdma.current_offset + st.rdma.current_length
        ≤ (chunk_range block c).2 ∧
      (chunk_range block c).2 ≤ block.local_host_addr + block.length ∧
      (chunk_range block c).2 ≤ (chunk_range block c).1 + 1048576 := by
  obtain ⟨hho, c, hcc, hcn, hceq, hcr⟩ := cursor_chunk st block hp hfit hpos
  rw [hcc, Int.toNat_ofNat, hcr] at hle
  refine ⟨c, hcc, hcn, ?_⟩
  rw [hcr]
  obtain ⟨_, _, p3, p4, _⟩ := hp
  obtain ⟨q1, q2⟩ := chunk_div_bounds (block.host_of st.rdma.current_offset)
  obtain ⟨q3, q4⟩ := chunk_div_bounds block.local_host_addr
  generalize block.host_of st.rdma.current_offset / 1048576 = qh at *
  generalize block.local_host_addr / 1048576 = qb at *
  generalize block.host_of st.rdma.current_offset = host at *
  simp only [le_max_iff, max_le_iff, le_min_iff, min_le_iff] at hle ⊢
  subst hceq
  omega

/-- Under the cursor invariant the pending range is no longer than `L` or
than a chunk. -/
theorem cursor_length (L : Nat) (st : St) (hfit : DirFits st) (hinv : CursorIn L st) :
    st.rdma.current_length ≤ max L 1048576 := by
  by_cases hpos : 0 < st.rdma.current_length
  · obtain ⟨block, hp, hd⟩ := hinv hpos
    rcases hd with hd | hd
    · obtain ⟨c, _, _, _, k1, k2, _, k3⟩ :=
        cursor_confined st block hp (fits_of_get st _ block hfit hp.2.1) hpos hd
      exact le_trans (by omega) (le_max_right _ _)
    · exact le_trans hd (le_max_left _ _)
  · have hz : st.rdma.current_length = 0 := by omega
    rw [hz]; exact Nat.zero_le _

/-- C11 (amended). For every sequence of flushes and of calls of
`qemu_rdma_write` with pages of at most `RDMA_MERGE_MAX` bytes that do not
wrap around 2^64, whatever they return, starting from an empty cursor over a
directory whose blocks fit the address space: `current_length ≤
RDMA_MERGE_MAX` afterwards (hence between any two of the calls), and every
RDMA WRITE posted carries at most `RDMA_MERGE_MAX` bytes. -/
theorem merge_max_bound (ops : List EngineOp) (st0 st : St)
    (h0 : st0.rdma.current_length = 0) (hfit : DirFits st0)
    (hops : ∀ op ∈ ops, op.within RDMA_MERGE_MAX)
    (hrun : run_any ops st0 = some st) :
    st.rdma.current_length ≤ RDMA_MERGE_MAX ∧
    ∃ ext, st.trace = st0.trace ++ ext ∧
      ∀ wr ∈ rdma_writes ext, wr.sge.length ≤ RDMA_MERGE_MAX := by
  have hinv0 : CursorIn RDMA_MERGE_MAX st0 := by
    intro hpos; rw [h0] at hpos; exact absurd hpos (by decide)
  have hok : ∀ op ∈ ops, OpOk RDMA_MERGE_MAX st0.local_ram_blocks.block op := by
    intro op hop
    have h1 := hops op hop
    cases op with
    | write o l => exact ⟨h1.2, Or.inl h1.1⟩
    | flush => trivial
    | drain => exact h1
    | poll => exact h1
  obtain ⟨hd, hinv, ext, ht, hw⟩ := run_any_cursor _ ops st0 st hfit hok hinv0 hrun
  have hmax : max RDMA_MERGE_MAX 1048576 = RDMA_MERGE_MAX := by decide
  refine ⟨?_, ext, ht, ?_⟩
  · have h1 := cursor_length _ st (DirFits.fits_of_dir hd hfit) hinv
    rw [hmax] at h1; exact h1
  · intro wr hwr
    obtain ⟨s, hds, hinvs, _, hpw⟩ := hw wr hwr
    obtain ⟨_, _, _, _, _, _, _, w5, _⟩ := hpw
    have h1 := cursor_length _ s (DirFits.fits_of_dir hds hfit) hinvs
    rw [hmax] at h1
    rw [w5]
    exact le_trans (Nat.mod_le _ _) h1

/-- C11 (amended) on the sample session: two contiguous 4 KiB pages and a
flush leave `current_length = 0`, and the one WRITE posted carries 8192 bytes,
within the bound. -/
theorem merge_max_bound_witness :
    ∃ st : St,
      run_any [EngineOp.write 0 4096, EngineOp.write 4096 4096, EngineOp.flush]
        (sample_state false [{ id := some 9, lkey := 11, rkey := 12 }, {}]) = some st ∧
      (rdma_writes st.trace).map (fun wr => wr.sge.length) = [8192] ∧
      st.rdma.current_length ≤ RDMA_MERGE_MAX := by
  have h1 : run_any [EngineOp.write 0 4096, EngineOp.write 4096 4096, EngineOp.flush]
      (sample_state false [{ id := some 9, lkey := 11, rkey := 12 }, {}])
      = some ((run_any [EngineOp.write 0 4096, EngineOp.write 4096 4096, EngineOp.flush]
          (sample_state false [{ id := some 9, lkey := 11, rkey := 12 }, {}])).getD
          (sample_state false [])) := by rfl
  exact ⟨_, h1, by decide,
    (merge_max_bound _ _ _ (by rfl) (by unfold DirFits; decide) (by decide) h1).1⟩

/-- C11 as stated fails: from the empty cursor of the sample session one call
of `qemu_rdma_write` with the 8 MiB range of block 0 posts an RDMA WRITE of
8 MiB, twice `RDMA_MERGE_MAX`; and when the post fails the call leaves
`current_length` at 8 MiB. -/
theorem merge_max_exceeded :
    (sample_state false []).rdma.current_length = 0 ∧
    (∃ st' : St,
      qemu_rdma_write 0 8388608
        (sample_state false [{ id := some 9, lkey := 11, rkey := 12 }, {}]) = some (0, st') ∧
      (rdma_writes st'.trace).map (fun wr => wr.sge.length) = [8388608] ∧
      RDMA_MERGE_MAX < 8388608) ∧
    (∃ st' : St,
      qemu_rdma_write 0 8388608
        (sample_state false [{ id := some 9, lkey := 11, rkey := 12 }, { ret := -1 }])
        = some (-EIO_ERRNO, st') ∧
      st'.rdma.current_length = 8388608 ∧ ¬ st'.rdma.current_length ≤ RDMA_MERGE_MAX) := by
  have h1 : qemu_rdma_write 0 8388608
      (sample_state false [{ id := some 9, lkey := 11, rkey := 12 }, {}])
      = some (0, ((qemu_rdma_write 0 8388608
        (sample_state false [{ id := some 9, lkey := 11, rkey := 12 }, {}])).map Prod.snd).getD
        (sample_state false [])) := by rfl
  have h2 : qemu_rdma_write 0 8388608
      (sample_state false [{ id := some 9, lkey := 11, rkey := 12 }, { ret := -1 }])
      = some (-EIO_ERRNO, ((qemu_rdma_write 0 8388608
        (sample_state false [{ id := some 9, lkey := 11, rkey := 12 }, { ret := -1 }])).map
          Prod.snd).getD (sample_state false [])) := by rfl
  exact ⟨by rfl, ⟨_, h1, by decide, by decide⟩, ⟨_, h2, by rfl, by decide⟩⟩

/-! ## Write engine: pending ranges within one chunk -/

/-- The WRITE of a non-empty pending range that ends within the chunk of the
cursor stays within that chunk. -/
theorem pending_write_in_chunk (s : St) (hfit : DirFits s) (hinv : CursorIn 0 s)
    (hpos : 0 < s.rdma.current_length) (wr : ibv_send_wr) (hpw : PendingWrite s wr) :
    WriteInChunk s.local_ram_blocks.block wr := by
  obtain ⟨block, hp, hd⟩ := hinv hpos
  have hle : block.host_of s.rdma.current_offset + s.rdma.current_length
      ≤ (chunk_range block s.rdma.current_chunk.toNat).2 := by
    rcases hd with hd | hd
    · exact hd
    · omega
  have hbf := fits_of_get s _ block hfit hp.2.1
  obtain ⟨c, _, hcn, k0, k1, k2, k3, k4⟩ := cursor_confined s block hp hbf hpos hle
  obtain ⟨blk, _, hget, _, _, _, w4, w5, _⟩ := hpw
  rw [hp.2.1] at hget
  simp only [Option.some.injEq] at hget
  subst hget
  have hlen : s.rdma.current_length % U32 = s.rdma.current_length :=
    Nat.mod_eq_of_lt (by
      have hu : U32 = 4294967296 := by decide
      rw [hu]; omega)
  refine ⟨block, List.getElem?_mem hp.2.1, c, hcn, k0, ?_, ?_, k3⟩
  · rw [w4]; exact k1
  · rw [w4, w5, hlen]; exact k2

/-- C29. For every sequence of successful `qemu_rdma_write` calls, from an
empty cursor over a directory whose blocks fit the address space, with pages
that do not wrap around 2^64 and each lie within a single chunk of the block
that contains them: whenever `current_length > 0` afterwards, the pending range
`[current_offset, current_offset + current_length)` lies inside block
`current_index` and its host range lies inside chunk `current_chunk` of that
block; every RDMA WRITE posted during the calls, and every RDMA WRITE a flush
posts afterwards, stays within one chunk of one block. -/
theorem cursor_in_chunk (pages : List (Nat × Nat)) (st0 st : St)
    (h0 : st0.rdma.current_length = 0) (hfit : DirFits st0)
    (hpages : ∀ p ∈ pages,
      p.1 + p.2 < U64 ∧ PageInChunk st0.local_ram_blocks.block p.1 p.2)
    (hrun : run_ops (write_ops pages) st0 = some st) :
    (0 < st.rdma.current_length →
      ∃ (block : RDMALocalBlock) (c : Nat), 0 ≤ st.rdma.current_index ∧
        st.local_ram_blocks.block[st.rdma.current_index.toNat]? = some block ∧
        block.offset ≤ st.rdma.current_offset ∧
        st.rdma.current_offset + st.rdma.current_length ≤ block.offset + block.length ∧
        st.rdma.current_chunk = (c : Int) ∧ c < RDMA_REG_NUM_CHUNKS block ∧
        block.host_of st.rdma.current_offset
          = block.local_host_addr + (st.rdma.current_offset - block.offset) ∧
        (chunk_range block c).1 ≤ block.host_of st.rdma.current_offset ∧
        block.host_of st.rdma.current_offset + st.rdma.current_length
          ≤ (chunk_range block c).2) ∧
    (∃ ext, st.trace = st0.trace ++ ext ∧
      ∀ wr ∈ rdma_writes ext, WriteInChunk st0.local_ram_blocks.block wr) ∧
    (∀ ret st', qemu_rdma_write_flush st = some (ret, st') →
      ∃ ext, st'.trace = st.trace ++ ext ∧
        ∀ wr ∈ rdma_writes ext, WriteInChunk st0.local_ram_blocks.block wr) := by
  have hinv0 : CursorIn 0 st0 := by
    intro hpos; rw [h0] at hpos; exact absurd hpos (by decide)
  have hok : ∀ op ∈ write_ops pages, OpOk 0 st0.local_ram_blocks.block op := by
    intro op hop
    obtain ⟨p, hp, he⟩ := List.mem_map.mp hop
    rw [← he]
    exact ⟨(hpages p hp).1, Or.inr (hpages p hp).2⟩
  obtain ⟨hd, hinv, ext, ht, hw⟩ :=
    run_any_cursor 0 _ st0 st hfit hok hinv0 (run_ops_any _ _ _ hrun)
  have hfit' := DirFits.fits_of_dir hd hfit
  refine ⟨?_, ⟨ext, ht, ?_⟩, ?_⟩
  · intro hpos
    obtain ⟨block, hp, hdj⟩ := hinv hpos
    have hle : block.host_of st.rdma.current_offset + st.rdma.current_length
        ≤ (chunk_range block st.rdma.current_chunk.toNat).2 := by
      rcases hdj with hdj | hdj
      · exact hdj
      · omega
    have hbf := fits_of_get st _ block hfit' hp.2.1
    obtain ⟨c, hcc, hcn, _, k1, k2, _⟩ := cursor_confined st block hp hbf hpos hle
    exact ⟨block, c, hp.1, hp.2.1, hp.2.2.1, hp.2.2.2.1, hcc, hcn,
      (cursor_chunk st block hp hbf hpos).1, k1, k2⟩
  · intro wr hwr
    obtain ⟨s, hds, hinvs, hposs, hpw⟩ := hw wr hwr
    exact write_in_chunk_geometry _ _ hds.2.2.1 wr
      (pending_write_in_chunk s (DirFits.fits_of_dir hds hfit) hinvs hposs wr hpw)
  · intro ret st' hfl
    obtain ⟨_, _, e2, ht2, hw2⟩ := op_cursor 0 EngineOp.flush st st' ret hfit' trivial hinv hfl
    refine ⟨e2, ht2, ?_⟩
    intro wr hwr
    obtain ⟨s, hds, hinvs, hposs, hpw⟩ := hw2 wr hwr
    exact write_in_chunk_geometry _ _ (hd.dir_trans hds).2.2.1 wr
      (pending_write_in_chunk s (DirFits.fits_of_dir (hd.dir_trans hds) hfit) hinvs hposs wr hpw)

/-- C29 on the sample session: after two contiguous 4 KiB pages the pending
range `[0, 8192)` lies in block 0 and in its chunk 0. -/
theorem cursor_in_chunk_witness :
    ∃ st : St,
      run_ops (write_ops [(0, 4096), (4096, 4096)]) (sample_state false []) = some st ∧
      (st.rdma.current_index, st.rdma.current_chunk, st.rdma.current_offset,
        st.rdma.current_length) = (0, 0, 0, 8192) ∧
      (0 < st.rdma.current_length →
        ∃ (block : RDMALocalBlock) (c : Nat), 0 ≤ st.rdma.current_index ∧
          st.local_ram_blocks.block[st.rdma.current_index.toNat]? = some block ∧
          block.offset ≤ st.rdma.current_offset ∧
          st.rdma.current_offset + st.rdma.current_length ≤ block.offset + block.length ∧
          st.rdma.current_chunk = (c : Int) ∧ c < RDMA_REG_NUM_CHUNKS block ∧
          block.host_of st.rdma.current_offset
            = block.local_host_addr + (st.rdma.current_offset - block.offset) ∧
          (chunk_range block c).1 ≤ block.host_of st.rdma.current_offset ∧
          block.host_of st.rdma.current_offset + st.rdma.current_length
            ≤ (chunk_range block c).2) := by
  have h1 : run_ops (write_ops [(0, 4096), (4096, 4096)]) (sample_state false [])
      = some ((run_ops (write_ops [(0, 4096), (4096, 4096)]) (sample_state false [])).getD
          (sample_state false [])) := by rfl
  exact ⟨_, h1, by rfl,
    (cursor_in_chunk [(0, 4096), (4096, 4096)] _ _ (by rfl) (by unfold DirFits; decide)
      (by decide) h1).1⟩

/-! ## Write engine: conservation of pages -/

theorem tiles_append (o : Nat) (g g' : List (Nat × Nat)) (h1 : Tiles o g)
    (h2 : Tiles (o + (g.map Prod.snd).sum) g') : Tiles o (g ++ g') := by
  induction g generalizing o with
  | nil => simpa using h2
  | cons p ps ih =>
    obtain ⟨hp, hps⟩ := h1
    refine ⟨hp, ih (o + p.2) hps ?_⟩
    simp only [List.map_cons, List.sum_cons] at h2
    rw [Nat.add_assoc]; exact h2

theorem forall2_snoc {α β : Type} {R : α → β → Prop} {l1 : List α} {l2 : List β} {a : α}
    {b : β} (h : List.Forall₂ R l1 l2) (hr : R a b) :
    List.Forall₂ R (l1 ++ [a]) (l2 ++ [b]) :=
  List.rel_append h (List.Forall₂.cons hr List.Forall₂.nil)

/-- The WRITE of a non-empty pending range that holds the group `pend` covers
that group. -/
theorem pending_group (blocks : List RDMALocalBlock) (s : St)
    (hgeo : blocks.map RDMALocalBlock.geometry
      = s.local_ram_blocks.block.map RDMALocalBlock.geometry)
    (hfit : DirFits s) (hinv : CursorIn 4294967295 s) (hpos : 0 < s.rdma.current_length)
    (pend : List (Nat × Nat)) (ht : Tiles s.rdma.current_offset pend)
    (hs : s.rdma.current_length = (pend.map Prod.snd).sum)
    (wr : ibv_send_wr) (hpw : PendingWrite s wr) : GroupWrite blocks pend wr := by
  have hlen := cursor_length _ s hfit hinv
  obtain ⟨block, hp, _⟩ := hinv hpos
  obtain ⟨blk, _, hget, _, _, _, w4, w5, w6⟩ := hpw
  rw [hp.2.1] at hget
  simp only [Option.some.injEq] at hget
  subst hget
  obtain ⟨b0, hb0, hge⟩ := mem_of_geometry _ _ hgeo block (List.getElem?_mem hp.2.1)
  obtain ⟨_, _, f3, f4, _⟩ := geometry_fields b0 block hge
  obtain ⟨g1, g2⟩ := host_of_geometry b0 block hge s.rdma.current_offset
  have hne : pend ≠ [] := by
    intro hnil
    rw [hnil] at hs
    simp only [List.map_nil, List.sum_nil] at hs
    omega
  have hmod : s.rdma.current_length % U32 = s.rdma.current_length :=
    Nat.mod_eq_of_lt (by
      have hu : U32 = 4294967296 := by decide
      have hm : max 4294967295 1048576 = 4294967295 := by decide
      rw [hm] at hlen
      rw [hu]; omega)
  refine ⟨s.rdma.current_offset, hne, ht, by rw [w5, hmod, hs], b0, hb0, ?_, ?_, ?_, ?_⟩
  · rw [f3]; exact hp.2.2.1
  · rw [f3, f4, ← hs]; exact hp.2.2.2.1
  · rw [w4, g1]
  · rw [w6, g2]

/-- A flush that returns 0 closes the pending group: the WRITE it posts, if
the range was not empty, covers it. -/
theorem flush_conserved (blocks : List RDMALocalBlock) (pages : List (Nat × Nat))
    (ws : List ibv_send_wr) (st st' : St)
    (hgeo : blocks.map RDMALocalBlock.geometry
      = st.local_ram_blocks.block.map RDMALocalBlock.geometry)
    (hfit : DirFits st) (hno : NoEnomem st) (hinv : CursorIn 4294967295 st)
    (hdone : PagesDone blocks pages ws st)
    (h : qemu_rdma_write_flush st = some (0, st')) :
    ∃ ext, st'.trace = st.trace ++ ext ∧ PagesDone blocks pages (ws ++ rdma_writes ext) st' ∧
      st'.rdma.current_length = 0 := by
  obtain ⟨_, _, _, _, _, hz, ext, ht, hw, hnil, hpost⟩ := flush_summary st st' 0 h
  obtain ⟨z1, z2, _⟩ := hz rfl
  obtain ⟨groups, pend, d1, d2, d3, d4, d5⟩ := hdone
  refine ⟨ext, ht, ?_, z1⟩
  by_cases hc : st.rdma.current_length = 0
  · rw [hnil hc]
    have hp := d5 hc
    subst hp
    refine ⟨groups, [], d1, by simpa [rdma_writes] using d2, trivial, by rw [z1]; rfl,
      fun _ => rfl⟩
  · obtain ⟨wr, hwr⟩ := (hpost rfl hc).2 hno
    have hpw := hw wr (by rw [hwr]; exact List.mem_singleton_self wr)
    have hg := pending_group blocks st hgeo hfit hinv (by omega) pend d3 d4 wr hpw
    rw [hwr]
    refine ⟨groups ++ [pend], [], ?_, forall2_snoc d2 hg, trivial, by rw [z1]; rfl,
      fun _ => rfl⟩
    rw [List.flatten_append, List.append_nil]
    simpa using d1

/-- The last step of a successful `qemu_rdma_write` keeps the account of the
pages. -/
theorem finish_conserved (blocks : List RDMALocalBlock) (pages : List (Nat × Nat))
    (ws : List ibv_send_wr) (P st' : St) (ret : Int)
    (hgeo : blocks.map RDMALocalBlock.geometry
      = P.local_ram_blocks.block.map RDMALocalBlock.geometry)
    (hfit : DirFits P) (hno : NoEnomem P) (hinv : CursorIn 4294967295 P)
    (hdone : PagesDone blocks pages ws P) (hret : ¬ ret < 0)
    (hfin : (if P.rdma.current_length ≥ RDMA_MERGE_MAX then qemu_rdma_write_flush P
      else some (0, P)) = some (ret, st')) :
    ∃ ext, st'.trace = P.trace ++ ext ∧ PagesDone blocks pages (ws ++ rdma_writes ext) st' := by
  by_cases hc : P.rdma.current_length ≥ RDMA_MERGE_MAX
  · rw [if_pos hc] at hfin
    have hr : ret = 0 := by
      rcases (flush_summary P st' ret hfin).2.1 with h1 | h1
      · exact h1
      · rw [h1] at hret; exact absurd (by decide) hret
    subst hr
    obtain ⟨ext, ht, hd, _⟩ := flush_conserved blocks pages ws P st' hgeo hfit hno hinv hdone hfin
    exact ⟨ext, ht, hd⟩
  · rw [if_neg hc] at hfin
    simp only [Option.some.injEq, Prod.mk.injEq] at hfin
    rw [← hfin.2]
    exact ⟨[], by simp, by simpa [rdma_writes] using hdone⟩

/-- A successful `qemu_rdma_write` of a page keeps the account of the pages:
the page joins the pending group or starts a new one after the WRITE of the
group before. -/
theorem write_conserved (blocks : List RDMALocalBlock) (pages : List (Nat × Nat))
    (ws : List ibv_send_wr) (offset len : Nat) (st st' : St) (ret : Int)
    (hgeo : blocks.map RDMALocalBlock.geometry
      = st.local_ram_blocks.block.map RDMALocalBlock.geometry)
    (hfit : DirFits st) (hno : NoEnomem st) (hinv : CursorIn 4294967295 st)
    (hdone : PagesDone blocks pages ws st)
    (hpos : 0 < len) (hlen : len < U32) (hpage : offset + len < U64) (hret : ¬ ret < 0)
    (h : qemu_rdma_write offset len st = some (ret, st')) :
    DirFrame st st' ∧ CursorIn 4294967295 st' ∧ ∃ ext, st'.trace = st.trace ++ ext ∧
      PagesDone blocks (pages ++ [(offset, len)]) (ws ++ rdma_writes ext) st' := by
  have hu32 : U32 = 4294967296 := by decide
  have hu : U64 = 18446744073709551616 := by decide
  have hok : PageOk 4294967295 st.local_ram_blocks.block offset len :=
    ⟨hpage, Or.inl (by omega)⟩
  obtain ⟨hd, hinv', _⟩ := op_cursor 4294967295 (EngineOp.write offset len) st st' ret hfit
    hok hinv h
  refine ⟨hd, hinv', ?_⟩
  obtain ⟨m, hm, hc⟩ := write_cases offset len st st' ret h
  rcases hc with ⟨hne, hfin⟩ | ⟨_, r1, s1, hfl, hc⟩
  · obtain ⟨ho, hcl, hmod, hP0⟩ := merge_cursor 4294967295 offset len st m hfit hpage hinv hm hne
    obtain ⟨groups, pend, d1, d2, d3, d4, d5⟩ := hdone
    have hdoneP : PagesDone blocks (pages ++ [(offset, len)]) ws
        (st.set_cursor st.rdma.current_index st.rdma.current_chunk st.rdma.current_offset
          ((st.rdma.current_length + len) % U64)) := by
      refine ⟨groups, pend ++ [(offset, len)], by rw [← List.append_assoc, d1], d2, ?_, ?_, ?_⟩
      · exact tiles_append _ pend _ d3 ⟨by rw [← d4]; exact ho, trivial⟩
      · show (st.rdma.current_length + len) % U64 = _
        rw [hmod, List.map_append, List.sum_append, ← d4]
        simp
      · intro hz
        have hz' : (st.rdma.current_length + len) % U64 = 0 := hz
        rw [hmod] at hz'
        omega
    obtain ⟨ext, ht, hdn⟩ := finish_conserved blocks _ ws
      (st.set_cursor st.rdma.current_index st.rdma.current_chunk st.rdma.current_offset
        ((st.rdma.current_length + len) % U64)) st' ret hgeo
      (DirFits.fits_of_dir (set_cursor_dir st _ _ _ _) hfit)
      ((set_cursor_dir st _ _ _ _).dir_no_enomem hno) (hP0.mono (Nat.zero_le _)) hdoneP hret hfin
    exact ⟨ext, ht, hdn⟩
  · have hr1 : r1 = 0 ∨ r1 = -EIO_ERRNO := (flush_summary st s1 r1 hfl).2.1
    have hd1 : DirFrame st s1 := (flush_summary st s1 r1 hfl).1
    rcases hc with ⟨hne, hre, _⟩ | ⟨hz, hc⟩
    · rcases hr1 with h1 | h1
      · exact absurd h1 hne
      · rw [hre, h1] at hret; exact absurd (by decide) hret
    subst hz
    obtain ⟨e1, ht1, hdone1, hcl1⟩ :=
      flush_conserved blocks pages ws st s1 hgeo hfit hno hinv hdone hfl
    rcases hc with ⟨hne, hre, _⟩ | ⟨hfound, hfin⟩
    · rcases search_code offset len s1.local_ram_blocks st.rdma.current_index
        st.rdma.current_chunk with h1 | h1
      · exact absurd h1 hne
      · rw [hre, h1] at hret; exact absurd (by decide) hret
    have hfit1 := DirFits.fits_of_dir hd1 hfit
    have hgeo1 : blocks.map RDMALocalBlock.geometry
        = s1.local_ram_blocks.block.map RDMALocalBlock.geometry := hgeo.trans hd1.2.2.1.symm
    have hP := search_cursor 4294967295 offset len s1 st.rdma.current_index
      st.rdma.current_chunk hfit1
      (page_ok_geometry _ _ _ hd1.2.2.1.symm offset len hok) hfound
    have hmod : (0 + len) % U64 = len := by
      rw [Nat.zero_add]; exact Nat.mod_eq_of_lt (by omega)
    obtain ⟨groups, pend, d1, d2, _, _, d5⟩ := hdone1
    have hpe := d5 hcl1
    subst hpe
    have hdoneP : PagesDone blocks (pages ++ [(offset, len)]) (ws ++ rdma_writes e1)
        (s1.set_cursor
          (qemu_rdma_search_ram_block offset len s1.local_ram_blocks
            st.rdma.current_index st.rdma.current_chunk).2.1
          (qemu_rdma_search_ram_block offset len s1.local_ram_blocks
            st.rdma.current_index st.rdma.current_chunk).2.2
          offset ((0 + len) % U64)) := by
      refine ⟨groups, [(offset, len)], by rw [← d1]; simp, d2, ⟨rfl, trivial⟩, ?_, ?_⟩
      · show (0 + len) % U64 = _
        rw [hmod]; simp
      · intro hz
        have hz' : (0 + len) % U64 = 0 := hz
        rw [hmod] at hz'
        omega
    obtain ⟨e2, ht2, hdn⟩ := finish_conserved blocks _ (ws ++ rdma_writes e1)
      (s1.set_cursor
        (qemu_rdma_search_ram_block offset len s1.local_ram_blocks
          st.rdma.current_index st.rdma.current_chunk).2.1
        (qemu_rdma_search_ram_block offset len s1.local_ram_blocks
          st.rdma.current_index st.rdma.current_chunk).2.2
        offset ((0 + len) % U64)) st' ret hgeo1
      (DirFits.fits_of_dir (set_cursor_dir s1 _ _ _ _) hfit1)
      ((set_cursor_dir s1 _ _ _ _).dir_no_enomem (hd1.dir_no_enomem hno)) hP hdoneP hret hfin
    refine ⟨e1 ++ e2, ?_, ?_⟩
    · rw [ht2]
      show s1.trace ++ e2 = _
      rw [ht1, List.append_assoc]
    · rw [rdma_writes_append, ← List.append_assoc]
      exact hdn

/-- Successive successful writes of pages keep the account of the pages. -/
theorem run_conserved (blocks : List RDMALocalBlock) (rest pages : List (Nat × Nat))
    (ws : List ibv_send_wr) (st st' : St)
    (hgeo : blocks.map RDMALocalBlock.geometry
      = st.local_ram_blocks.block.map RDMALocalBlock.geometry)
    (hfit : DirFits st) (hno : NoEnomem st) (hinv : CursorIn 4294967295 st)
    (hdone : PagesDone blocks pages ws st)
    (hrest : ∀ p ∈ rest, 0 < p.2 ∧ p.2 < U32 ∧ p.1 + p.2 < U64)
    (h : run_ops (write_ops rest) st = some st') :
    DirFrame st st' ∧ CursorIn 4294967295 st' ∧ ∃ ext, st'.trace = st.trace ++ ext ∧
      PagesDone blocks (pages ++ rest) (ws ++ rdma_writes ext) st' := by
  induction rest generalizing st pages ws with
  | nil =>
    simp only [write_ops, List.map_nil, run_ops, Option.some.injEq] at h
    rw [← h]
    exact ⟨DirFrame.dir_refl st, hinv, [], by simp, by simpa [rdma_writes] using hdone⟩
  | cons p ps ih =>
    simp only [write_ops, List.map_cons, run_ops] at h
    split at h
    · exact absurd h (by simp)
    rename_i r1 s1 hop
    split at h
    · exact absurd h (by simp)
    rename_i hge
    obtain ⟨hp1, hp2, hp3⟩ := hrest p (List.mem_cons_self _ _)
    obtain ⟨hd1, hinv1, e1, ht1, hdone1⟩ := write_conserved blocks pages ws p.1 p.2 st s1 r1
      hgeo hfit hno hinv hdone hp1 hp2 hp3 hge hop
    obtain ⟨hd2, hinv2, e2, ht2, hdone2⟩ := ih (pages ++ [(p.1, p.2)]) (ws ++ rdma_writes e1) s1
      (hgeo.trans hd1.2.2.1.symm) (DirFits.fits_of_dir hd1 hfit) (hd1.dir_no_enomem hno) hinv1
      hdone1 (fun q hq => hrest q (List.mem_cons_of_mem _ hq)) h
    refine ⟨hd1.dir_trans hd2, hinv2, e1 ++ e2, by rw [ht2, ht1, List.append_assoc], ?_⟩
    rw [rdma_writes_append, ← List.append_assoc]
    have he : pages ++ p :: ps = pages ++ [(p.1, p.2)] ++ ps := by simp
    rw [he]
    exact hdone2

/-- The WRITEs that cover groups of pages carry together the bytes of the
pages. -/
theorem group_sum (blocks : List RDMALocalBlock) (groups : List (List (Nat × Nat)))
    (ws : List ibv_send_wr) (h : List.Forall₂ (GroupWrite blocks) groups ws) :
    (ws.map (fun wr => wr.sge.length)).sum = (groups.flatten.map Prod.snd).sum := by
  induction h with
  | nil => rfl
  | cons hr _ ih =>
    obtain ⟨_, _, _, hl, _⟩ := hr
    simp only [List.map_cons, List.sum_cons, List.flatten_cons, List.map_append,
      List.sum_append, ih, hl]

theorem run_ops_append (a b : List EngineOp) (st st' : St)
    (h : run_ops (a ++ b) st = some st') :
    ∃ s, run_ops a st = some s ∧ run_ops b s = some st' := by
  induction a generalizing st with
  | nil => exact ⟨st, rfl, h⟩
  | cons op ops ih =>
    simp only [List.cons_append, run_ops] at h ⊢
    split at h
    · exact absurd h (by simp)
    rename_i r1 s1 hop
    split at h
    · exact absurd h (by simp)
    rename_i hge
    obtain ⟨s, h1, h2⟩ := ih s1 h
    exact ⟨s, by rw [if_neg hge]; exact h1, h2⟩

/-- C28 (amended). Conservation of pages: for every sequence of pages (each of
a positive length below 2^32, not wrapping around 2^64) passed to
`qemu_rdma_write` from an empty cursor, over a directory whose blocks fit the
address space, when all calls and the flush that follows succeed and the
library refuses no post for a full queue: the RDMA WRITEs posted, in order,
cover the groups of a cut of the page sequence into consecutive groups of
offset-contiguous pages, each WRITE starting at the offset of the first page
of its group with the sum of the group's page lengths; the total length
posted is the total length submitted. -/
theorem pages_conserved (pages : List (Nat × Nat)) (st0 st : St)
    (h0 : st0.rdma.current_length = 0) (hfit : DirFits st0) (hno : NoEnomem st0)
    (hpages : ∀ p ∈ pages, 0 < p.2 ∧ p.2 < U32 ∧ p.1 + p.2 < U64)
    (hrun : run_ops (write_ops pages ++ [EngineOp.flush]) st0 = some st) :
    ∃ ext groups, st.trace = st0.trace ++ ext ∧ groups.flatten = pages ∧
      List.Forall₂ (GroupWrite st0.local_ram_blocks.block) groups (rdma_writes ext) ∧
      ((rdma_writes ext).map (fun wr => wr.sge.length)).sum = (pages.map Prod.snd).sum := by
  obtain ⟨s, hr1, hr2⟩ := run_ops_append _ _ st0 st hrun
  have hinv0 : CursorIn 4294967295 st0 := by
    intro hpos; rw [h0] at hpos; exact absurd hpos (by decide)
  have hdone0 : PagesDone st0.local_ram_blocks.block [] [] st0 :=
    ⟨[], [], rfl, List.Forall₂.nil, trivial, by rw [h0]; rfl, fun _ => rfl⟩
  obtain ⟨hd, hinv, e1, ht1, hdone⟩ := run_conserved st0.local_ram_blocks.block pages [] [] st0
    s rfl hfit hno hinv0 hdone0 hpages hr1
  simp only [run_ops] at hr2
  split at hr2
  · exact absurd hr2 (by simp)
  rename_i r2 s2 hfl
  split at hr2
  · exact absurd hr2 (by simp)
  rename_i hge
  simp only [Option.some.injEq] at hr2
  subst hr2
  have hfl' : qemu_rdma_write_flush s = some (r2, s2) := hfl
  have hr : r2 = 0 := by
    rcases (flush_summary s s2 r2 hfl').2.1 with h1 | h1
    · exact h1
    · rw [h1] at hge; exact absurd (by decide) hge
  subst hr
  obtain ⟨e2, ht2, hdone2, hcl⟩ := flush_conserved st0.local_ram_blocks.block _ _ s s2
    hd.2.2.1.symm (DirFits.fits_of_dir hd hfit) (hd.dir_no_enomem hno) hinv hdone hfl'
  obtain ⟨groups, pend, d1, d2, _, _, d5⟩ := hdone2
  have hp := d5 hcl
  subst hp
  rw [List.append_nil, List.nil_append] at d1
  rw [List.nil_append, ← rdma_writes_append] at d2
  refine ⟨e1 ++ e2, groups, by rw [ht2, ht1, List.append_assoc], d1, d2, ?_⟩
  rw [group_sum _ _ _ d2, d1]

/-- C28 (amended) on the sample session: of the pages `[0, 4K)`, `[4K, 8K)` and
`[1M, 1M + 4K)` the first two are posted as one WRITE of 8192 bytes and the
third as one of 4096 bytes. -/
theorem pages_conserved_witness :
    ∃ st : St,
      run_ops (write_ops [(0, 4096), (4096, 4096), (1048576, 4096)] ++ [EngineOp.flush])
        (sample_state false [{ id := some 9, lkey := 11, rkey := 12 }, {},
          { id := some 10, lkey := 13, rkey := 14 }, {}]) = some st ∧
      (rdma_writes st.trace).map (fun wr => (wr.sge.addr, wr.sge.length))
        = [(1073741824, 8192), (1074790400, 4096)] ∧
      ∃ ext groups, st.trace = (sample_state false [{ id := some 9, lkey := 11, rkey := 12 },
          {}, { id := some 10, lkey := 13, rkey := 14 }, {}]).trace ++ ext ∧
        groups.flatten = [(0, 4096), (4096, 4096), (1048576, 4096)] ∧
        List.Forall₂ (GroupWrite (sample_state false [{ id := some 9, lkey := 11, rkey := 12 },
          {}, { id := some 10, lkey := 13, rkey := 14 }, {}]).local_ram_blocks.block)
          groups (rdma_writes ext) ∧
        ((rdma_writes ext).map (fun wr => wr.sge.length)).sum
          = ([(0, 4096), (4096, 4096), (1048576, 4096)].map Prod.snd).sum := by
  have h1 : run_ops (write_ops [(0, 4096), (4096, 4096), (1048576, 4096)] ++ [EngineOp.flush])
      (sample_state false [{ id := some 9, lkey := 11, rkey := 12 }, {},
        { id := some 10, lkey := 13, rkey := 14 }, {}])
      = some ((run_ops
          (write_ops [(0, 4096), (4096, 4096), (1048576, 4096)] ++ [EngineOp.flush])
          (sample_state false [{ id := some 9, lkey := 11, rkey := 12 }, {},
            { id := some 10, lkey := 13, rkey := 14 }, {}])).getD (sample_state false [])) := by
    rfl
  exact ⟨_, h1, by decide,
    pages_conserved [(0, 4096), (4096, 4096), (1048576, 4096)] _ _ (by rfl) (by decide)
      (by decide) (by decide) h1⟩

/-- C28 as stated fails for a page of 2^32 bytes or more: on a session in
whole-block mode with one RAM block of 8 GiB, registered as a whole, the call
for the page `[0, 4 GiB + 4 KiB)` from an empty cursor and the flush that
follows both succeed, and the one RDMA WRITE posted carries 4096 bytes: the
total posted is not the total submitted. -/
theorem page_length_truncated :
    ∃ st : St,
      run_ops (write_ops [(0, 4294971392)] ++ [EngineOp.flush])
        ((sample_state false [{}]).set_block 0
          ⟨1073741824, 2147483648, 0, 8589934592, none,
            some ⟨1073741824, 8589934592, 7, 21, 22⟩, none, 55⟩) = some st ∧
      (rdma_writes st.trace).map (fun wr => (wr.sge.addr, wr.sge.length))
        = [(1073741824, 4096)] ∧
      ((rdma_writes st.trace).map (fun wr => wr.sge.length)).sum = 4096 ∧
      (([(0, 4294971392)] : List (Nat × Nat)).map Prod.snd).sum = 4294971392 := by
  have h1 : run_ops (write_ops [(0, 4294971392)] ++ [EngineOp.flush])
      ((sample_state false [{}]).set_block 0
        ⟨1073741824, 2147483648, 0, 8589934592, none,
          some ⟨1073741824, 8589934592, 7, 21, 22⟩, none, 55⟩)
      = some ((run_ops (write_ops [(0, 4294971392)] ++ [EngineOp.flush])
        ((sample_state false [{}]).set_block 0
          ⟨1073741824, 2147483648, 0, 8589934592, none,
            some ⟨1073741824, 8589934592, 7, 21, 22⟩, none, 55⟩)).getD
          (sample_state false [])) := by rfl
  exact ⟨_, h1, by decide, by decide, by decide⟩

/-! ## Write engine: coalescing to the limit -/

/-- At the value of the macro in the source `qemu_rdma_write_max` is
`qemu_rdma_write`. -/
theorem write_max_source (offset len : Nat) (st : St) :
    qemu_rdma_write_max RDMA_MERGE_MAX offset len st = qemu_rdma_write offset len st := rfl

theorem store_le_length (n x : Nat) : (store_le n x).length = n := by
  induction n generalizing x with
  | zero => rfl
  | succ k ih => simp [store_le, ih]

theorem register_bytes_length (le : Bool) (a b c : Nat) :
    (register_bytes le a b c).length = 16 := by
  simp only [register_bytes, store_bytes, List.length_append]
  cases le <;> simp [store_le_length]

/-- A successful exchange posts exactly one control SEND, and no RDMA
WRITE. -/
theorem exchange_send_one (head : RDMAControlHeader) (data : Option (List Nat))
    (resp : Option (RDMAControlHeader × Int)) (st st' : St)
    (resp' : Option (RDMAControlHeader × Int))
    (h : qemu_rdma_exchange_send head data resp st = some (0, resp', st')) :
    ∃ ext msg, st'.trace = st.trace ++ ext ∧ ext.all Call.is_chan = true ∧
      control_sends ext = [msg] ∧
      (∀ d, data = some d → head.wf → head.len + 16 < U32 →
        msg = be32 head.len ++ be32 head.type ++ be32 head.version ++
          be32 head.«repeat» ++ d.take head.len) := by
  obtain ⟨ext, hf, hall, hs⟩ := exchange_send_trace head data resp st st' 0 resp' h
  obtain ⟨s1, s3, s4, W0, W1, W2, sge1, sge0, wr, msg, hext, hp0, hp1, hp2, hop, _, _,
    _, _, _, _, _, _, _, hmsg, _⟩ := hs rfl
  refine ⟨ext, msg, hf.2.2, hall, ?_, fun d hd hw hl => (hmsg d hd hw hl).2⟩
  rw [hext, control_sends_append, control_sends_append, control_sends_append,
    control_sends_append, control_sends_pump W0 hp0, control_sends_pump W1 hp1,
    control_sends_pump W2 hp2]
  have h1 : control_sends (if resp.isSome then [Call.ibv_post_recv 2001 sge1] else [])
      = [] := by split <;> rfl
  rw [h1]
  simp [control_sends, Call.control_msg, hop]

/-- A call of `__qemu_rdma_write` in chunk mode for a chunk whose rkey is
cached posts no control SEND, and its WRITE carries the cached rkey. -/
theorem rdma_write_hit (ci : Int) (offset length wr_id flag : Nat) (st st' : St) (ret : Int)
    (block : RDMALocalBlock) (keys : List Nat) (R : Nat)
    (hmode : st.rdma.chunk_register_destination = true)
    (hb : st.local_ram_blocks.block[ci.toNat]? = some block)
    (hk : block.remote_keys = some keys)
    (hR : keys[(toInt32 (RDMA_REG_CHUNK_INDEX block.local_host_addr
      (block.host_of offset))).toNat]? = some R) (hne : R ≠ 0)
    (h : __qemu_rdma_write ci offset length wr_id flag st = some (ret, st')) :
    ∃ ext, st'.trace = st.trace ++ ext ∧ control_sends ext = [] ∧
      ∀ wr ∈ rdma_writes ext, wr.rkey = R := by
  unfold __qemu_rdma_write at h
  by_cases hci : ci < 0
  · rw [if_pos hci] at h; exact absurd h (by simp)
  rw [if_neg hci] at h
  dsimp only at h
  rw [hb] at h
  dsimp only at h
  split at h
  · exact absurd h (by simp)
  rename_i r0 lkey x st1 hreg
  obtain ⟨_, hrd1, ⟨e1, ht1, hw1, hc1⟩, _⟩ :=
    register_eng _ _ _ _ _ _ _ _ _ _ _ block hb hreg
  by_cases hr0 : r0 ≠ 0
  · rw [if_pos hr0] at h
    simp only [Option.some.injEq, Prod.mk.injEq] at h
    rw [← h.2]
    exact ⟨e1, ht1, hc1, fun wr hwr => by rw [hw1] at hwr; exact absurd hwr (by simp)⟩
  rw [if_neg hr0] at h
  have hm1 : st1.rdma.chunk_register_destination = true := by rw [hrd1]; exact hmode
  rw [if_pos hm1] at h
  split at h
  · exact absurd h (by simp)
  rename_i k rkey st2 hkey
  obtain ⟨keys', k', hk', _, hget', hc⟩ := chunk_rkey_cases _ _ _ _ _ _ _ _ _ _ hkey
  rw [hk] at hk'
  simp only [Option.some.injEq] at hk'
  subst hk'
  have hget'' : keys[(toInt32 (RDMA_REG_CHUNK_INDEX block.local_host_addr
      (block.host_of offset))).toNat]? = some k' := hget'
  rw [hR] at hget''
  simp only [Option.some.injEq] at hget''
  subst hget''
  rcases hc with ⟨_, hk0, hrk, hst⟩ | ⟨hz, _⟩
  swap
  · exact absurd hz hne
  subst hk0
  subst hst
  rw [if_neg (by decide)] at h
  unfold post_rdma_write at h
  split at h
  · exact absurd h (by simp)
  rename_i r st3 hcall
  simp only [Option.some.injEq, Prod.mk.injEq] at h
  obtain ⟨_, ht, _, _⟩ := call_frame _ _ _ _ hcall
  rw [← h.2]
  refine ⟨e1 ++ [_], by rw [ht, ht1, List.append_assoc], ?_, ?_⟩
  · rw [control_sends_append, hc1]
    simp [control_sends, Call.control_msg, IBV_WR_RDMA_WRITE, IBV_WR_SEND]
  · intro wr hwr
    rw [rdma_writes_append, hw1] at hwr
    simp only [rdma_writes, List.nil_append, List.filterMap_cons, Call.rdma_write, if_true,
      List.filterMap_nil, List.mem_singleton] at hwr
    rw [hwr]
    exact hrk

/-- C16 (amended). Remote-rkey cache: in chunk mode, when the cache entry
`remote_keys[chunk]` of the chunk written is 0, a call of `__qemu_rdma_write`
that reaches its post sends exactly one control message, a REGISTER_REQUEST
with `repeat = 1` that carries `(len, block index, offset)` of the range,
stores the rkey `R` it reads from the REGISTER_RESULT in `remote_keys[chunk]`,
and posts the WRITE with rkey `R`.  When `R ≠ 0`, every later write to a chunk
whose cache entry is `R` sends no control message and posts with `R`. -/
theorem register_exchange_cached (ci : Int) (offset length wr_id flag : Nat) (st st' : St)
    (ret : Int) (block : RDMALocalBlock) (keys : List Nat)
    (hmode : st.rdma.chunk_register_destination = true)
    (hb : st.local_ram_blocks.block[ci.toNat]? = some block)
    (hk : block.remote_keys = some keys)
    (hzero : keys[(toInt32 (RDMA_REG_CHUNK_INDEX block.local_host_addr
      (block.host_of offset))).toNat]? = some 0)
    (hret : 0 ≤ ret)
    (h : __qemu_rdma_write ci offset length wr_id flag st = some (ret, st')) :
    ∃ pre wr R, st'.trace = st.trace ++ pre ++ [Call.ibv_post_send wr []] ∧
      control_sends pre
        = [be32 16 ++ be32 RDMA_CONTROL_REGISTER_REQUEST ++ be32 RDMA_CONTROL_CURRENT_VERSION
            ++ be32 1 ++ register_bytes st.le (length % U32) (toU32 ci) offset] ∧
      rdma_writes pre = [] ∧
      R = load_bytes st'.le (read_bytes (st'.rdma.wr_data 1).control 16 4) ∧
      wr.opcode = IBV_WR_RDMA_WRITE ∧ wr.rkey = R ∧
      (∃ b2, st'.local_ram_blocks.block[ci.toNat]? = some b2 ∧
        b2.remote_keys = some (keys.set (toInt32 (RDMA_REG_CHUNK_INDEX block.local_host_addr
          (block.host_of offset))).toNat R)) ∧
      (R ≠ 0 → ∀ (o2 l2 id2 f2 : Nat) (s s' : St) (r2 : Int) (b : RDMALocalBlock)
        (keys2 : List Nat),
        s.rdma.chunk_register_destination = true →
        s.local_ram_blocks.block[ci.toNat]? = some b → b.remote_keys = some keys2 →
        keys2[(toInt32 (RDMA_REG_CHUNK_INDEX b.local_host_addr (b.host_of o2))).toNat]?
          = some R →
        __qemu_rdma_write ci o2 l2 id2 f2 s = some (r2, s') →
        ∃ ext, s'.trace = s.trace ++ ext ∧ control_sends ext = [] ∧
          ∀ w ∈ rdma_writes ext, w.rkey = R) := by
  obtain ⟨blockA, _, hbA, heng, pre, hpre, hcase⟩ := rdma_write_spec _ _ _ _ _ _ _ _ h
  rw [hb] at hbA
  simp only [Option.some.injEq] at hbA
  subst hbA
  rcases hcase with ⟨hlt, _⟩ | ⟨s1, s2, lkey, x, rkey, k, r, hreg, hkey, ht2, ht1, _, _,
    hblocks, hrdma, hk0⟩
  · omega
  obtain ⟨he1, hrd1, ⟨e1, hte1, _, hc1⟩, _⟩ :=
    register_eng _ _ _ _ _ _ _ _ _ _ _ block hb hreg
  have hm1 : s1.rdma.chunk_register_destination = true := by rw [hrd1]; exact hmode
  rw [if_pos hm1] at hkey
  obtain ⟨keys', k', hk', _, hget', hc⟩ := chunk_rkey_cases _ _ _ _ _ _ _ _ _ _ hkey
  rw [hk] at hk'
  simp only [Option.some.injEq] at hk'
  subst hk'
  rw [hzero] at hget'
  simp only [Option.some.injEq] at hget'
  subst hget'
  rcases hc with ⟨hnz, _⟩ | ⟨_, r1, resp1, sX, hex, hc⟩
  · exact absurd rfl hnz
  rcases hc with ⟨hlt, hre, _⟩ | ⟨hr1, _, hrk, block2, hb2, hst2⟩
  · omega
  subst hr1
  obtain ⟨e2, msg, hte2, hall2, hcs2, hmsg⟩ := exchange_send_one _ _ _ _ _ _ hex
  obtain ⟨_, hfX, _, _⟩ := exchange_send_trace _ _ _ _ _ _ _ hex
  have hleX : sX.le = s1.le := hfX.eng.1
  have hle1 : s1.le = st.le := he1.1
  have hmsg' := hmsg _ rfl (by decide) (by decide)
  rw [List.take_of_length_le (le_of_eq (register_bytes_length _ _ _ _)), hle1] at hmsg'
  have htr2 : s2.trace = st.trace ++ (e1 ++ e2) := by
    rw [hst2]
    show sX.trace = _
    rw [hte2, hte1, List.append_assoc]
  have hpe : pre = e1 ++ e2 := by
    rw [ht2] at htr2
    exact List.append_cancel_left htr2
  have hrd2 : s2.rdma = sX.rdma := by rw [hst2]; rfl
  have hle' : st'.le = sX.le := by rw [heng.1, hleX, hle1]
  refine ⟨pre, _, rkey, by rw [ht1, ht2], ?_, hpre, ?_, rfl, rfl, ?_, ?_⟩
  · rw [hpe, control_sends_append, hc1, hcs2, hmsg']
    rfl
  · rw [hrk, hle', hrdma, hrd2]
  · rw [hblocks, hst2]
    exact ⟨_, set_block_get sX _ block2 _ hb2, rfl⟩
  · intro hne o2 l2 id2 f2 s s' r2 b keys2 hm hbs hks hRs hw
    exact rdma_write_hit ci o2 l2 id2 f2 s s' r2 b keys2 rkey hm hbs hks hRs hne hw

/-- C16 (amended) on the sample session in chunk mode, where the peer answers
the rkey 77 for chunk 0: the write sends one REGISTER_REQUEST, caches 77 and
posts with it. -/
theorem register_exchange_cached_witness :
    ∃ st' : St,
      __qemu_rdma_write 0 0 4096 1 0 (sample_state true (sample_register_script 77))
        = some (0, st') ∧
      (rdma_writes st'.trace).map (fun wr => wr.rkey) = [77] ∧
      st'.local_ram_blocks.block.map (fun b => b.remote_keys)
        = [some [77, 0, 0, 0, 0, 0, 0, 0, 0]] ∧
      ∃ pre wr R, st'.trace = (sample_state true (sample_register_script 77)).trace ++ pre
          ++ [Call.ibv_post_send wr []] ∧
        control_sends pre
          = [be32 16 ++ be32 RDMA_CONTROL_REGISTER_REQUEST ++ be32 RDMA_CONTROL_CURRENT_VERSION
              ++ be32 1 ++ register_bytes true (4096 % U32) (toU32 0) 0] ∧
        wr.rkey = R := by
  have h1 : __qemu_rdma_write 0 0 4096 1 0 (sample_state true (sample_register_script 77))
      = some (0, ((__qemu_rdma_write 0 0 4096 1 0
          (sample_state true (sample_register_script 77))).map Prod.snd).getD
          (sample_state false [])) := by rfl
  obtain ⟨pre, wr, R, k1, k2, _, _, _, k6, _⟩ := register_exchange_cached 0 0 4096 1 0 _ _ 0
    ⟨1073741824, 2147483648, 0, 8388608, none, none, some (List.replicate 9 0), 55⟩
    (List.replicate 9 0) (by rfl) (by rfl) (by rfl) (by decide) (by decide) h1
  exact ⟨_, h1, by decide, by decide, pre, wr, R, k1, k2, k6⟩

/-- C16 as stated fails when the peer answers the rkey 0: the first write to
chunk 0 of the sample session stores 0 and posts its WRITE with rkey 0, and
the second write to the same chunk sends a second REGISTER_REQUEST and posts
with the rkey 88 of the second answer. -/
theorem register_exchange_repeated :
    ∃ st1 st2 : St,
      __qemu_rdma_write 0 0 4096 1 0
        (sample_state true (sample_register_script 0 ++ sample_register_again 88))
        = some (0, st1) ∧
      (control_sends st1.trace).length = 1 ∧
      (rdma_writes st1.trace).map (fun wr => wr.rkey) = [0] ∧
      st1.local_ram_blocks.block.map (fun b => b.remote_keys)
        = [some [0, 0, 0, 0, 0, 0, 0, 0, 0]] ∧
      __qemu_rdma_write 0 4096 4096 1 0 st1 = some (0, st2) ∧
      (control_sends st2.trace).length = 2 ∧
      (rdma_writes st2.trace).map (fun wr => wr.rkey) = [0, 88] := by
  have h1 : __qemu_rdma_write 0 0 4096 1 0
      (sample_state true (sample_register_script 0 ++ sample_register_again 88))
      = some (0, ((__qemu_rdma_write 0 0 4096 1 0
          (sample_state true (sample_register_script 0 ++ sample_register_again 88))).map
            Prod.snd).getD (sample_state false [])) := by rfl
  have h2 : __qemu_rdma_write 0 4096 4096 1 0 (((__qemu_rdma_write 0 0 4096 1 0
        (sample_state true (sample_register_script 0 ++ sample_register_again 88))).map
          Prod.snd).getD (sample_state false []))
      = some (0, ((__qemu_rdma_write 0 4096 4096 1 0 (((__qemu_rdma_write 0 0 4096 1 0
        (sample_state true (sample_register_script 0 ++ sample_register_again 88))).map
          Prod.snd).getD (sample_state false []))).map Prod.snd).getD
            (sample_state false [])) := by rfl
  exact ⟨_, _, h1, by decide, by decide, by decide, h2, by decide, by decide⟩

/-! ## Write engine: the memory region and the rkey of a WRITE -/

theorem host_of_plain (b : RDMALocalBlock) (o : Nat) (h1 : b.offset ≤ o)
    (h2 : o ≤ b.offset + b.length) (hl : b.local_host_addr + b.length < U64) :
    b.host_of o = b.local_host_addr + (o - b.offset) := by
  have e : (o + U64 - b.offset) % U64 = o - b.offset := by
    have e1 : o + U64 - b.offset = (o - b.offset) + U64 := by omega
    rw [e1, Nat.add_mod_right, Nat.mod_eq_of_lt (by omega)]
  simp only [RDMALocalBlock.host_of, e]
  exact Nat.mod_eq_of_lt (by omega)

/-- The chunk of an address of a block starts no later than the address. -/
theorem chunk_lower (b : RDMALocalBlock) (host : Nat) (hfit : b.fits)
    (h1 : b.local_host_addr ≤ host) (h2 : host ≤ b.local_host_addr + b.length) :
    (chunk_range b (RDMA_REG_CHUNK_INDEX b.local_host_addr host)).1 ≤ host := by
  obtain ⟨f1, f2, f3⟩ := hfit
  have hsz : RDMA_REG_CHUNK_SIZE = 1048576 := by decide
  have hu : U64 = 18446744073709551616 := by decide
  rw [hsz, hu] at f1
  obtain ⟨i1, i2⟩ := chunk_index_in_block b host (by rw [hu]; omega) h1 h2
  rw [chunk_range_eq b _ (by rw [hsz, hu]; omega) i2, i1]
  obtain ⟨q1, q2⟩ := chunk_div_bounds host
  obtain ⟨q3, q4⟩ := chunk_div_bounds b.local_host_addr
  generalize host / 1048576 = qh at *
  generalize b.local_host_addr / 1048576 = qb at *
  simp only [max_le_iff]
  omega

theorem replicate_none_get {α : Type} (n k : Nat) (x : α) :
    (List.replicate n (none : Option α))[k]? ≠ some (some x) := by
  intro h
  rw [List.getElem?_replicate] at h
  split at h <;> simp at h

/-- The memory region whose lkey a successful registration for a WRITE
returns: the whole-block region of the block, or the region of the chunk of
the address, which the block holds afterwards; its range is the block, or the
registration range of the chunk. -/
theorem register_region (bi host : Nat) (st s1 : St) (lkey x : Nat) (block : RDMALocalBlock)
    (hb : st.local_ram_blocks.block[bi]? = some block) (hok : block.registered_ok)
    (h : qemu_rdma_register_and_get_keys bi host true false 0 0 st = some (0, lkey, x, s1)) :
    ∃ mr : ibv_mr, lkey = mr.lkey ∧
      ((block.mr = some mr ∧ mr.addr = block.local_host_addr ∧ mr.length = block.length) ∨
       (0 ≤ toInt32 (RDMA_REG_CHUNK_INDEX block.local_host_addr host) ∧
        ∃ b1 pmr, s1.local_ram_blocks.block[bi]? = some b1 ∧ b1.pmr = some pmr ∧
          pmr[(toInt32 (RDMA_REG_CHUNK_INDEX block.local_host_addr host)).toNat]?
            = some (some mr) ∧
          mr.addr = (register_range block
            (toInt32 (RDMA_REG_CHUNK_INDEX block.local_host_addr host))).1 ∧
          mr.length = (register_range block
            (toInt32 (RDMA_REG_CHUNK_INDEX block.local_host_addr host))).2)) := by
  rcases register_cases bi host true false 0 0 st s1 0 lkey x block hb h with
    ⟨mr, hmr, _, hlk, _, _⟩ | ⟨_, _, hret, _⟩ | ⟨pmr, hmr, hpmr, hidx, hc⟩
  · exact ⟨mr, by simpa using hlk, Or.inl ⟨hmr, hok.1 mr hmr⟩⟩
  · exact absurd hret (by decide)
  · rcases hc with ⟨mr, hent, _, hlk, _, hst⟩ | ⟨hent, resp, s2, hcall, hc⟩
    · refine ⟨mr, by simpa using hlk,
        Or.inr ⟨hidx, { block with pmr := some pmr }, pmr, ?_, rfl, hent, ?_⟩⟩
      · rw [hst]; exact set_block_get st bi block _ hb
      · cases hp : block.pmr with
        | none =>
          unfold register_pmr at hpmr
          rw [hp] at hpmr
          dsimp only at hpmr
          unfold g_malloc0_array at hpmr
          split at hpmr
          · exact absurd hpmr (by simp)
          · split at hpmr
            · exact absurd hpmr (by simp)
            · simp only [Option.some.injEq] at hpmr
              rw [← hpmr] at hent
              exact absurd hent (replicate_none_get _ _ mr)
        | some p =>
          unfold register_pmr at hpmr
          rw [hp] at hpmr
          simp only [Option.some.injEq] at hpmr
          subst hpmr
          have h2 := hok.2 p
            (toInt32 (RDMA_REG_CHUNK_INDEX block.local_host_addr host)).toNat mr hp hent
          rw [Int.toNat_of_nonneg hidx] at h2
          exact h2
    · rcases hc with ⟨_, hret, _⟩ | ⟨_, _, hlk, _, hst⟩
      · exact absurd hret (by decide)
      · obtain ⟨_, _, _, hs2⟩ := call_frame _ _ _ _ hcall
        have hb2 : s2.local_ram_blocks.block[bi]? = some { block with pmr := some pmr } := by
          have hf := (call_frame _ _ _ _ hcall).1.1
          rw [hf]
          exact set_block_get st bi block _ hb
        have hlen : (toInt32 (RDMA_REG_CHUNK_INDEX block.local_host_addr host)).toNat
            < pmr.length := by
          by_contra hcon
          rw [List.getElem?_eq_none (not_lt.mp hcon)] at hent
          exact absurd hent (by simp)
        refine ⟨register_mr block (toInt32 (RDMA_REG_CHUNK_INDEX block.local_host_addr host))
          false resp, by simpa using hlk,
          Or.inr ⟨hidx,
            { block with
              pmr := some
                (pmr.set (toInt32 (RDMA_REG_CHUNK_INDEX block.local_host_addr host)).toNat
                  (some (register_mr block
                    (toInt32 (RDMA_REG_CHUNK_INDEX block.local_host_addr host)) false
                    resp))) },
            _, ?_, rfl, ?_, rfl, rfl⟩⟩
        · rw [hst]; exact set_block_get s2 bi _ _ hb2
        · exact List.getElem?_set_self hlen

/-- The key stage of `__qemu_rdma_write` keeps the chunk regions of the
block. -/
theorem key_stage_pmr (ci : Int) (bi : Nat) (block b1 : RDMALocalBlock)
    (offset host len : Nat) (s1 s2 : St) (k : Int) (rkey : Nat) (hk : 0 ≤ k)
    (hb1 : s1.local_ram_blocks.block[bi]? = some b1)
    (hkey : (if s1.rdma.chunk_register_destination then
        rdma_write_chunk_rkey ci bi block offset host len s1
      else some (0, block.remote_rkey, s1)) = some (k, rkey, s2)) :
    ∃ b2, s2.local_ram_blocks.block[bi]? = some b2 ∧ b2.pmr = b1.pmr := by
  by_cases hm : s1.rdma.chunk_register_destination = true
  · rw [if_pos hm] at hkey
    obtain ⟨keys, k', _, _, _, hc⟩ := chunk_rkey_cases _ _ _ _ _ _ _ _ _ _ hkey
    rcases hc with ⟨_, _, _, hst⟩ | ⟨_, r1, resp1, sX, hex, hc⟩
    · rw [hst]; exact ⟨b1, hb1, rfl⟩
    · rcases hc with ⟨hlt, hre, _⟩ | ⟨_, _, _, block2, hb2, hst⟩
      · omega
      · obtain ⟨_, hfX, _, _⟩ := exchange_send_trace _ _ _ _ _ _ _ hex
        have hbl : sX.local_ram_blocks = s1.local_ram_blocks := by rw [hfX.1.1]
        rw [hbl, hb1] at hb2
        simp only [Option.some.injEq] at hb2
        subst hb2
        rw [hst]
        refine ⟨_, set_block_get sX bi b1 _ (by rw [hbl]; exact hb1), rfl⟩
  · rw [if_neg hm] at hkey
    simp only [Option.some.injEq, Prod.mk.injEq] at hkey
    rw [← hkey.2.2]
    exact ⟨b1, hb1, rfl⟩

/-- C17 (amended). For every RDMA WRITE posted by `__qemu_rdma_write` for a
range that lies in its block and within the chunk of its first byte (as every
pending range of the write engine does for pages that lie within one chunk),
in a block that fits the address space and holds the memory regions the
source registers: at the time of the post the local MR whose lkey the WRITE
carries is held by the block (its whole-block region, or the region of the
chunk) and covers the byte range of the WRITE; the rkey of the work request is
`block.remote_rkey` in whole-block mode and the cache entry
`remote_keys[chunk]` of the written chunk in chunk mode, which is non-zero when
it was cached before the call. -/
theorem write_regions (ci : Int) (offset length wr_id flag : Nat) (st st' : St) (ret : Int)
    (block : RDMALocalBlock)
    (hb : st.local_ram_blocks.block[ci.toNat]? = some block) (hfit : block.fits)
    (hok : block.registered_ok)
    (h1 : block.offset ≤ offset) (h2 : offset + length ≤ block.offset + block.length)
    (hch : block.host_of offset + length
      ≤ (chunk_range block (RDMA_REG_CHUNK_INDEX block.local_host_addr
          (block.host_of offset))).2)
    (hret : 0 ≤ ret)
    (h : __qemu_rdma_write ci offset length wr_id flag st = some (ret, st')) :
    ∃ pre wr mr, st'.trace = st.trace ++ pre ++ [Call.ibv_post_send wr []] ∧
      wr.opcode = IBV_WR_RDMA_WRITE ∧
      (block.mr = some mr ∨
        ∃ b2 pmr, st'.local_ram_blocks.block[ci.toNat]? = some b2 ∧ b2.pmr = some pmr ∧
          pmr[(toInt32 (RDMA_REG_CHUNK_INDEX block.local_host_addr
            (block.host_of offset))).toNat]? = some (some mr)) ∧
      wr.sge.lkey = mr.lkey ∧ mr.covers wr.sge.addr wr.sge.length ∧
      (st.rdma.chunk_register_destination = false → wr.rkey = block.remote_rkey) ∧
      (st.rdma.chunk_register_destination = true →
        (∃ b2 keys, st'.local_ram_blocks.block[ci.toNat]? = some b2 ∧
          b2.remote_keys = some keys ∧
          keys[(toInt32 (RDMA_REG_CHUNK_INDEX block.local_host_addr
            (block.host_of offset))).toNat]? = some wr.rkey) ∧
        (∀ keys0 k0, block.remote_keys = some keys0 →
          keys0[(toInt32 (RDMA_REG_CHUNK_INDEX block.local_host_addr
            (block.host_of offset))).toNat]? = some k0 → k0 ≠ 0 → wr.rkey = k0)) := by
  obtain ⟨blockA, _, hbA, heng, pre, _, hcase⟩ := rdma_write_spec _ _ _ _ _ _ _ _ h
  rw [hb] at hbA
  simp only [Option.some.injEq] at hbA
  subst hbA
  rcases hcase with ⟨hlt, _⟩ | ⟨s1, s2, lkey, x, rkey, k, r, hreg, hkey, ht2, ht1, _, _,
    hblocks, _, hk0⟩
  · omega
  obtain ⟨f1, f2, f3⟩ := hfit
  have hu : U64 = 18446744073709551616 := by decide
  have hsz : RDMA_REG_CHUNK_SIZE = 1048576 := by decide
  have hho := host_of_plain block offset h1 (by omega) (by rw [hsz] at f1; omega)
  have hlo : block.local_host_addr ≤ block.host_of offset := by rw [hho]; omega
  have hhi : block.host_of offset ≤ block.local_host_addr + block.length := by
    rw [hho]; omega
  obtain ⟨_, hrd1, _, b1, hb1, _, hkeys1⟩ :=
    register_eng _ _ _ _ _ _ _ _ _ _ _ block hb hreg
  have hm1 : s1.rdma.chunk_register_destination = st.rdma.chunk_register_destination := by
    rw [hrd1]
  obtain ⟨mr, hlk, hmr⟩ := register_region _ _ st s1 lkey x block hb hok hreg
  obtain ⟨b2, hb2, hpm2⟩ := key_stage_pmr ci _ block b1 offset _ _ s1 s2 k rkey hk0 hb1 hkey
  have hlen : length % U32 ≤ length := Nat.mod_le _ _
  refine ⟨pre, _, mr, by rw [ht1, ht2], rfl, ?_, hlk, ?_, ?_, ?_⟩
  · rcases hmr with ⟨hm, _⟩ | ⟨_, b1', pmr, hb1', hp1, hent, _⟩
    · exact Or.inl hm
    · rw [hb1] at hb1'
      simp only [Option.some.injEq] at hb1'
      subst hb1'
      exact Or.inr ⟨b2, pmr, by rw [hblocks]; exact hb2, by rw [hpm2, hp1], hent⟩
  · show mr.addr ≤ block.host_of offset ∧
      block.host_of offset + length % U32 ≤ mr.addr + mr.length
    rcases hmr with ⟨_, ha, hl⟩ | ⟨_, _, _, _, _, _, ha, hl⟩
    · rw [ha, hl, hho]
      exact ⟨by omega, by omega⟩
    · obtain ⟨r1, r2, _⟩ := register_range_eq block (block.host_of offset)
        (by rw [hsz, hu]; rw [hsz, hu] at f1; omega) f3 hlo hhi
      rw [ha, hl]
      refine ⟨by rw [r1]; exact chunk_lower block _ ⟨f1, f2, f3⟩ hlo hhi, ?_⟩
      rw [r2]
      omega
  · intro hm
    rw [hm1, hm] at hkey
    simp only [Bool.false_eq_true, if_false, Option.some.injEq, Prod.mk.injEq] at hkey
    exact hkey.2.1.symm
  · intro hm
    rw [hm1, hm] at hkey
    simp only [if_true] at hkey
    refine ⟨?_, ?_⟩
    · rw [hblocks]
      exact chunk_rkey_cached _ _ block _ _ _ s1 s2 k rkey b1 hb1 hkeys1 hk0 hkey
    · intro keys0 k0 hk0s hget hne
      obtain ⟨keys, k', hk', _, hget', hc⟩ := chunk_rkey_cases _ _ _ _ _ _ _ _ _ _ hkey
      rw [hk0s] at hk'
      simp only [Option.some.injEq] at hk'
      subst hk'
      rw [hget] at hget'
      simp only [Option.some.injEq] at hget'
      subst hget'
      rcases hc with ⟨_, _, hrk, _⟩ | ⟨hz, _⟩
      · exact hrk
      · exact absurd hz hne

/-- C17 (amended) on the sample session in whole-block mode: the WRITE of the
page `[0, 4096)` carries the lkey 11 of the region registered for chunk 0,
which covers it, and the rkey 55 of the block. -/
theorem write_regions_witness :
    ∃ st' : St,
      __qemu_rdma_write 0 0 4096 1 0
        (sample_state false [{ id := some 9, lkey := 11, rkey := 12 }, {}]) = some (0, st') ∧
      (rdma_writes st'.trace).map (fun wr => (wr.sge.lkey, wr.rkey)) = [(11, 55)] ∧
      ∃ (pre : List Call) (wr : ibv_send_wr) (mr : ibv_mr), st'.trace
          = (sample_state false [{ id := some 9, lkey := 11, rkey := 12 }, {}]).trace ++ pre
            ++ [Call.ibv_post_send wr []] ∧
        wr.sge.lkey = mr.lkey ∧ mr.covers wr.sge.addr wr.sge.length := by
  have h1 : __qemu_rdma_write 0 0 4096 1 0
      (sample_state false [{ id := some 9, lkey := 11, rkey := 12 }, {}])
      = some (0, ((__qemu_rdma_write 0 0 4096 1 0
          (sample_state false [{ id := some 9, lkey := 11, rkey := 12 }, {}])).map
            Prod.snd).getD (sample_state false [])) := by rfl
  obtain ⟨pre, wr, mr, k1, _, _, k4, k5, _⟩ := write_regions 0 0 4096 1 0 _ _ 0
    ⟨1073741824, 2147483648, 0, 8388608, none, none, none, 55⟩ (by rfl) (by decide)
    ⟨fun mr hm => absurd hm (by simp), fun pmr c mr hp => absurd hp (by simp)⟩
    (by decide) (by decide) (by decide) (by decide) h1
  exact ⟨_, h1, by decide, pre, wr, mr, k1, k4, k5⟩

/-- C17 as stated fails.  In the sample session the WRITE of the range
`[0, 8 MiB)`, which spans eight chunks, carries the lkey 11 of the region
registered for chunk 0 alone, 1 MiB long, which does not cover it.  And in
chunk mode, when the peer answers the rkey 0, the WRITE is posted with rkey 0
and the cache entry of the chunk is 0 at the post. -/
theorem write_region_short :
    (∃ st' : St,
      __qemu_rdma_write 0 0 8388608 1 0
        (sample_state false [{ id := some 9, lkey := 11, rkey := 12 }, {}]) = some (0, st') ∧
      (rdma_writes st'.trace).map (fun wr => (wr.sge.addr, wr.sge.length, wr.sge.lkey))
        = [(1073741824, 8388608, 11)] ∧
      st'.local_ram_blocks.block.map (fun b => (b.mr, b.pmr))
        = [(none, some (some ⟨1073741824, 1048576, IBV_ACCESS_REMOTE_READ, 11, 12⟩ ::
            List.replicate 8 none))] ∧
      ¬ (ibv_mr.covers ⟨1073741824, 1048576, IBV_ACCESS_REMOTE_READ, 11, 12⟩
          1073741824 8388608)) ∧
    (∃ st' : St,
      __qemu_rdma_write 0 0 4096 1 0 (sample_state true (sample_register_script 0))
        = some (0, st') ∧
      (rdma_writes st'.trace).map (fun wr => wr.rkey) = [0] ∧
      st'.local_ram_blocks.block.map (fun b => b.remote_keys)
        = [some [0, 0, 0, 0, 0, 0, 0, 0, 0]]) := by
  have h1 : __qemu_rdma_write 0 0 8388608 1 0
      (sample_state false [{ id := some 9, lkey := 11, rkey := 12 }, {}])
      = some (0, ((__qemu_rdma_write 0 0 8388608 1 0
          (sample_state false [{ id := some 9, lkey := 11, rkey := 12 }, {}])).map
            Prod.snd).getD (sample_state false [])) := by rfl
  have h2 : __qemu_rdma_write 0 0 4096 1 0 (sample_state true (sample_register_script 0))
      = some (0, ((__qemu_rdma_write 0 0 4096 1 0
          (sample_state true (sample_register_script 0))).map Prod.snd).getD
          (sample_state false [])) := by rfl
  exact ⟨⟨_, h1, by decide, by decide, by decide⟩, ⟨_, h2, by decide, by decide⟩⟩

/-! ## Teardown twice -/

/-- With no control MR registered the loop of `qemu_rdma_cleanup` over the
control slots makes no call and keeps the handles. -/
theorem cleanup_control_absent (n idx : Nat) (st : St)
    (h : ∀ i, (st.rdma.wr_data i).control_mr = none) :
    ∃ st', cleanup_control n idx st = some st' ∧ st'.trace = st.trace ∧
      st'.local_ram_blocks = st.local_ram_blocks ∧
      st'.local_block_ptr = st.local_block_ptr ∧
      st'.rdma.qp = st.rdma.qp ∧ st'.rdma.cq = st.rdma.cq ∧
      st'.rdma.comp_channel = st.rdma.comp_channel ∧ st'.rdma.pd = st.rdma.pd ∧
      st'.rdma.listen_id = st.rdma.listen_id ∧ st'.rdma.cm_id = st.rdma.cm_id ∧
      st'.rdma.channel = st.rdma.channel := by
  induction n generalizing idx st with
  | zero => exact ⟨st, rfl, rfl, rfl, rfl, rfl, rfl, rfl, rfl, rfl, rfl, rfl⟩
  | succ k ih =>
    unfold cleanup_control
    rw [h idx]
    dsimp only
    obtain ⟨st', h1, h2⟩ := ih (idx + 1)
      { st with rdma := st.rdma.set_wr idx { st.rdma.wr_data idx with control_mr := none } }
      (by
        intro i
        show (Function.update st.rdma.wr_data idx _ i).control_mr = none
        by_cases hi : i = idx
        · subst hi; simp
        · rw [Function.update_noteq hi]; exact h i)
    exact ⟨st', h1, h2⟩

/-- C26. What `qemu_rdma_cleanup` does about absent and about released
handles.  On a state whose handles are all absent (no connection, no remote
area, no control MR, no local directory, no QP, CQ, completion channel, PD,
listening id or event channel) it makes no call at all.  But a second
`qemu_rdma_cleanup` on the state left by a first one releases again what the
first released and did not reset: in the sample session the remote area, the
directory buffer, the QP, the CQ, the completion channel, the PD and the event
channel; and `rdma_accept_incoming_migration`, when `qemu_rdma_accept` fails at
its first event, runs the teardown twice and releases the directory buffer,
the listening id and the event channel twice. -/
theorem cleanup_twice_releases :
    (∀ st : St, st.rdma.cm_id = none → st.remote_ram_blocks = none →
      (∀ i, (st.rdma.wr_data i).control_mr = none) →
      st.local_ram_blocks.block = [] → st.local_block_ptr = false →
      st.rdma.qp = none → st.rdma.cq = none → st.rdma.comp_channel = none →
      st.rdma.pd = none → st.rdma.listen_id = none → st.rdma.channel = none →
      ∃ st', qemu_rdma_cleanup st = some st' ∧ st'.trace = st.trace) ∧
    (∃ s1 s2 : St,
      qemu_rdma_cleanup (sample_state false [{}, {}]) = some s1 ∧
      qemu_rdma_cleanup s1 = some s2 ∧
      releases (s2.trace.drop s1.trace.length)
        = [Call.g_free_remote_area, Call.g_free_block, Call.ibv_destroy_qp 4,
           Call.ibv_destroy_cq 7, Call.ibv_destroy_comp_channel 5, Call.ibv_dealloc_pd 6,
           Call.rdma_destroy_event_channel 3]) ∧
    (∃ s2 : St,
      rdma_accept_incoming_migration (sample_listening [{ ret := -1 }]) = some s2 ∧
      s2.trace
        = [Call.rdma_get_cm_event, Call.g_free_block, Call.rdma_destroy_id 8,
           Call.rdma_destroy_event_channel 3, Call.g_free_block, Call.rdma_destroy_id 8,
           Call.rdma_destroy_event_channel 3]) := by
  refine ⟨?_, ?_, ?_⟩
  · intro st hcm hrem hctl hblk hptr hqp hcq hcc hpd hli hch
    obtain ⟨s3, h3, t3, b3, p3, q1, q2, q3, q4, q5, q6, q7⟩ :=
      cleanup_control_absent (RDMA_CONTROL_MAX_WR + 1) 0 st hctl
    refine ⟨s3, ?_, t3⟩
    unfold qemu_rdma_cleanup cleanup_disconnect
    rw [hcm]
    dsimp only
    rw [hrem]
    dsimp only
    rw [h3]
    dsimp only
    unfold qemu_rdma_dereg_ram_blocks
    rw [b3, hblk]
    simp only [dereg_ram_blocks_pmr, dereg_ram_blocks_mr]
    have hs : ({ s3 with local_ram_blocks := { block := [] } } : St) = s3 := by
      have hb : s3.local_ram_blocks = { block := [] } := by
        rw [b3]
        cases hl : st.local_ram_blocks
        rw [hl] at hblk
        simp only at hblk
        rw [hblk]
      rw [← hb]
    rw [hs]
    unfold cleanup_blocks
    rw [p3, hptr]
    simp only [Bool.false_eq_true, if_false]
    unfold cleanup_handles
    simp only [q1, q2, q3, q4, q5, q6, q7, hqp, hcq, hcc, hpd, hli, hcm, hch, release]
  · have h1 : qemu_rdma_cleanup (sample_state false [{}, {}])
        = some ((qemu_rdma_cleanup (sample_state false [{}, {}])).getD
            (sample_state false [])) := by rfl
    have h2 : qemu_rdma_cleanup ((qemu_rdma_cleanup (sample_state false [{}, {}])).getD
          (sample_state false []))
        = some ((qemu_rdma_cleanup ((qemu_rdma_cleanup (sample_state false [{}, {}])).getD
            (sample_state false []))).getD (sample_state false [])) := by rfl
    exact ⟨_, _, h1, h2, by decide⟩
  · have h1 : rdma_accept_incoming_migration (sample_listening [{ ret := -1 }])
        = some ((rdma_accept_incoming_migration (sample_listening [{ ret := -1 }])).getD
            (sample_state false [])) := by rfl
    exact ⟨_, h1, by decide⟩

/-- C26 on a process that has set up nothing: the teardown makes no call. -/
theorem cleanup_twice_releases_witness :
    ∃ st' : St,
      qemu_rdma_cleanup (St.start true (qemu_rdma_data_init "peer" 4444 65536) [] [])
        = some st' ∧
      st'.trace = [] :=
  cleanup_twice_releases.1 (St.start true (qemu_rdma_data_init "peer" 4444 65536) [] [])
    rfl rfl (fun _ => rfl) rfl rfl rfl rfl rfl rfl rfl rfl

/-! ## Byte stream on the destination -/

/-- With a version in range `qemu_rdma_post_send_control` starts with the post
of its SEND. -/
theorem post_send_control_first (buf : Option (List Nat)) (head : RDMAControlHeader)
    (st st' : St) (ret : Int)
    (hv : ¬ (head.version < RDMA_CONTROL_VERSION_MIN ∨
      head.version > RDMA_CONTROL_VERSION_MAX))
    (h : qemu_rdma_post_send_control buf head st = some (ret, st')) :
    ∃ wr msg W, ChanFrame (Call.ibv_post_send wr msg :: W) st st' ∧
      wr.opcode = IBV_WR_SEND := by
  unfold qemu_rdma_post_send_control at h
  cases hmr : (st.rdma.wr_data RDMA_CONTROL_MAX_WR).control_mr with
  | none => simp [hmr] at h
  | some mr =>
    simp only [hmr] at h
    rw [if_neg hv] at h
    split at h
    · exact absurd h (by simp)
    · rename_i c2 hc2
      have hbuf := ChanFrame.of_ctl (set_control_pump st RDMA_CONTROL_MAX_WR c2).1 rfl rfl
      split at h
      · exact absurd h (by simp)
      · rename_i r st2 hc
        have h1 := call_chan _ _ _ _ hc
        have h12 := hbuf.chan_trans h1
        split at h
        · simp only [Option.some.injEq, Prod.mk.injEq] at h
          rw [← h.2]
          exact ⟨_, _, [], by simpa using h12, rfl⟩
        · obtain ⟨ext, hf, _⟩ := wait_for_wrid_chan _ _ _ _ h
          exact ⟨_, _, Call.ibv_req_notify_cq :: ext, by simpa using h12.chan_trans hf, rfl⟩

theorem toU64_small (s : Int) (h0 : 0 ≤ s) (h1 : s < 2147483648) : toU64 s = s.toNat := by
  unfold toU64
  have hu : ((U64 : Nat) : Int) = 18446744073709551616 := by decide
  rw [hu, Int.emod_eq_of_lt h0 (by omega)]

/-- What `qemu_rdma_fill` delivers from a frame with bytes left: the next
`min size control_len` bytes. -/
theorem fill_spec (s : Int) (st : St) (c L : Nat)
    (hc : (st.rdma.wr_data 0).control_curr = some c)
    (hL : (st.rdma.wr_data 0).control_len = L) (hpos : 0 < L)
    (h0 : 0 < s) (h1 : s < 2147483648) :
    qemu_rdma_fill s 0 st
      = some (min s.toNat L, read_bytes (st.rdma.wr_data 0).control c (min s.toNat L),
          { st with
            rdma := st.rdma.set_wr 0
              { (st.rdma.wr_data 0) with
                control_curr := some (c + min s.toNat L),
                control_len := L - min s.toNat L } }) := by
  unfold qemu_rdma_fill
  dsimp only
  rw [hL, hc, toU64_small s (le_of_lt h0) h1, if_pos (by omega)]
  dsimp only
  by_cases hlt : s.toNat < L
  · rw [if_pos hlt, min_eq_left (le_of_lt hlt)]
  · rw [if_neg hlt, min_eq_right (not_lt.mp hlt)]

theorem read_bytes_add (buf : Nat → Nat) (c a b : Nat) :
    read_bytes buf c (a + b) = read_bytes buf c a ++ read_bytes buf (c + a) b := by
  simp only [read_bytes, List.range_add, List.map_append, List.map_map]
  congr 1
  apply List.map_congr_left
  intro i _
  simp [Nat.add_assoc]

/-- The delivery in the words of the claim hands out a prefix of the frame:
the bytes concatenated are the first `total` bytes from the read position,
`total` the sum of the counts, at most the bytes that were left. -/
theorem stream_reads_prefix (buf : Nat → Nat) (c L : Nat) (sizes : List Int) :
    (((stream_reads buf c L sizes).map (fun r => r.1.toNat)).sum ≤ L) ∧
    ((stream_reads buf c L sizes).map Prod.snd).flatten
      = read_bytes buf c ((stream_reads buf c L sizes).map (fun r => r.1.toNat)).sum := by
  induction sizes generalizing c L with
  | nil => exact ⟨Nat.zero_le _, rfl⟩
  | cons s ss ih =>
    obtain ⟨i1, i2⟩ := ih (c + min s.toNat L) (L - min s.toNat L)
    simp only [stream_reads, List.map_cons, List.sum_cons, List.flatten_cons, Int.toNat_ofNat]
    refine ⟨by omega, ?_⟩
    rw [i2, read_bytes_add]

/-- What `qemu_rdma_get_buffer` delivers from a frame with bytes left; it makes
no call. -/
theorem get_buffer_spec (s : Int) (st : St) (c L : Nat)
    (hc : (st.rdma.wr_data 0).control_curr = some c)
    (hL : (st.rdma.wr_data 0).control_len = L) (hpos : 0 < L)
    (h0 : 0 < s) (h1 : s < 2147483648) :
    qemu_rdma_get_buffer s st
      = some (((min s.toNat L : Nat) : Int),
          read_bytes (st.rdma.wr_data 0).control c (min s.toNat L),
          { st with
            rdma := st.rdma.set_wr 0
              { (st.rdma.wr_data 0) with
                control_curr := some (c + min s.toNat L),
                control_len := L - min s.toNat L },
            file_len := min s.toNat L }) := by
  unfold qemu_rdma_get_buffer
  rw [fill_spec s st c L hc hL hpos h0 h1]
  dsimp only
  have hne : min s.toNat L ≠ 0 := by
    have : 0 < s.toNat := by omega
    omega
  rw [if_pos hne, toInt32_small _ (by omega)]

/-- Successive calls of `qemu_rdma_get_buffer` while bytes of the frame are
left deliver what the claim says, and make no call. -/
theorem get_buffer_calls_spec (sizes : List Int) (st : St) (c L : Nat)
    (hc : (st.rdma.wr_data 0).control_curr = some c)
    (hL : (st.rdma.wr_data 0).control_len = L)
    (hs : ∀ s ∈ sizes, 0 < s ∧ s < 2147483648)
    (hrem : sizes ≠ [] → (sizes.dropLast.map Int.toNat).sum < L) :
    ∃ st', get_buffer_calls sizes st
        = some (stream_reads (st.rdma.wr_data 0).control c L sizes, st') ∧
      st'.trace = st.trace ∧ st'.script = st.script ∧
      (st'.rdma.wr_data 0).control = (st.rdma.wr_data 0).control ∧
      (st'.rdma.wr_data 0).control_len
        = L - ((stream_reads (st.rdma.wr_data 0).control c L sizes).map
            (fun r => r.1.toNat)).sum ∧
      (st'.rdma.wr_data 0).control_curr
        = some (c + ((stream_reads (st.rdma.wr_data 0).control c L sizes).map
            (fun r => r.1.toNat)).sum) := by
  induction sizes generalizing st c L with
  | nil => exact ⟨st, rfl, rfl, rfl, rfl, by simpa [stream_reads] using hL,
      by simpa [stream_reads] using hc⟩
  | cons s ss ih =>
    obtain ⟨h0, h1⟩ := hs s (List.mem_cons_self _ _)
    have hpos : 0 < L := lt_of_le_of_lt (Nat.zero_le _) (hrem (List.cons_ne_nil _ _))
    have hg := get_buffer_spec s st c L hc hL hpos h0 h1
    obtain ⟨st', e1, e2, e3, e4, e5, e6⟩ := ih
      { st with
        rdma := st.rdma.set_wr 0
          { (st.rdma.wr_data 0) with
            control_curr := some (c + min s.toNat L),
            control_len := L - min s.toNat L },
        file_len := min s.toNat L }
      (c + min s.toNat L) (L - min s.toNat L)
      (by simp [RDMAContext.set_wr]) (by simp [RDMAContext.set_wr])
      (fun x hx => hs x (List.mem_cons_of_mem _ hx))
      (by
        intro hne
        have hr := hrem (List.cons_ne_nil _ _)
        rw [List.dropLast_cons_of_ne_nil hne] at hr
        simp only [List.map_cons, List.sum_cons] at hr
        omega)
    have hctl : ((st.rdma.set_wr 0
        { (st.rdma.wr_data 0) with
          control_curr := some (c + min s.toNat L),
          control_len := L - min s.toNat L }).wr_data 0).control
        = (st.rdma.wr_data 0).control := by simp [RDMAContext.set_wr]
    refine ⟨st', ?_, e2, e3, ?_, ?_, ?_⟩
    · unfold get_buffer_calls
      rw [hg]
      dsimp only
      rw [e1]
      dsimp only
      rw [hctl]
      rfl
    · rw [e4]; exact hctl
    · rw [e5]
      dsimp only
      rw [hctl]
      simp only [stream_reads, List.map_cons, List.sum_cons, Int.toNat_ofNat]
      omega
    · rw [e6]
      dsimp only
      rw [hctl]
      simp only [stream_reads, List.map_cons, List.sum_cons, Int.toNat_ofNat, Nat.add_assoc]

theorem fill_trace (size : Int) (idx : Nat) (st st' : St) (n : Nat) (bytes : List Nat)
    (h : qemu_rdma_fill size idx st = some (n, bytes, st')) : st'.trace = st.trace := by
  unfold qemu_rdma_fill at h
  dsimp only at h
  split at h
  · split at h
    · exact absurd h (by simp)
    · simp only [Option.some.injEq, Prod.mk.injEq] at h
      rw [← h.2.2]
  · simp only [Option.some.injEq, Prod.mk.injEq] at h
    rw [← h.2.2]

/-- With no byte of a frame left `qemu_rdma_get_buffer` turns to the control
channel: its first call is the post of a control SEND. -/
theorem get_buffer_new_frame (size : Int) (st st' : St) (ret : Int) (bytes : List Nat)
    (hz : (st.rdma.wr_data 0).control_len = 0)
    (h : qemu_rdma_get_buffer size st = some (ret, bytes, st')) :
    ∃ wr msg rest, st'.trace = st.trace ++ Call.ibv_post_send wr msg :: rest ∧
      wr.opcode = IBV_WR_SEND := by
  unfold qemu_rdma_get_buffer at h
  have hf : qemu_rdma_fill size 0 st = some (0, [], st) := by
    unfold qemu_rdma_fill
    dsimp only
    rw [hz]
    simp
  rw [hf] at h
  dsimp only at h
  rw [if_neg (by decide)] at h
  split at h
  · exact absurd h (by simp)
  rename_i r hd s3 hex
  unfold qemu_rdma_exchange_recv at hex
  dsimp only at hex
  split at hex
  · exact absurd hex (by simp)
  rename_i r1 s1 hps
  obtain ⟨wr, msg, W, hf1, hop⟩ := post_send_control_first _ _ _ _ _ (by decide) hps
  have ht1 : s1.trace = st.trace ++ Call.ibv_post_send wr msg :: W := hf1.2.2
  have key : ∃ rest, s3.trace = st.trace ++ Call.ibv_post_send wr msg :: rest := by
    split at hex
    · simp only [Option.some.injEq, Prod.mk.injEq] at hex
      rw [← hex.2.2]; exact ⟨W, ht1⟩
    · split at hex
      · exact absurd hex (by simp)
      rename_i r2 hd2 s2 hgr
      obtain ⟨⟨e2, hf2, _⟩, _⟩ := exchange_get_response_chan _ _ _ _ _ _ _ hgr
      have ht2 : s2.trace = st.trace ++ Call.ibv_post_send wr msg
          :: (W ++ Call.ibv_req_notify_cq :: e2) := by
        rw [hf2.2.2, ht1]; simp
      split at hex
      · simp only [Option.some.injEq, Prod.mk.injEq] at hex
        rw [← hex.2.2]; exact ⟨_, ht2⟩
      · split at hex
        · exact absurd hex (by simp)
        rename_i r4 s4 hpr
        obtain ⟨sge, hf4, _⟩ := post_recv_control_chan _ _ _ _ hpr
        have ht4 : s4.trace = st.trace ++ Call.ibv_post_send wr msg
            :: (W ++ Call.ibv_req_notify_cq :: e2 ++ [Call.ibv_post_recv (2000 + 0) sge]) := by
          rw [hf4.2.2]
          show s2.trace ++ _ = _
          rw [ht2]; simp
        split at hex
        · simp only [Option.some.injEq, Prod.mk.injEq] at hex
          rw [← hex.2.2]; exact ⟨_, ht4⟩
        · simp only [Option.some.injEq, Prod.mk.injEq] at hex
          rw [← hex.2.2]; exact ⟨_, ht4⟩
  obtain ⟨rest, hrest⟩ := key
  split at h
  · simp only [Option.some.injEq, Prod.mk.injEq] at h
    rw [← h.2.2]; exact ⟨wr, msg, rest, hrest, hop⟩
  · split at h
    · exact absurd h (by simp)
    rename_i n1 b1 s5 hfill
    simp only [Option.some.injEq, Prod.mk.injEq] at h
    rw [← h.2.2, fill_trace _ _ _ _ _ _ hfill]
    exact ⟨wr, msg, rest, hrest, hop⟩

/-- C30. Byte-stream delivery on the destination: for a frame of which `L`
bytes are left on control slot 0 at the read position `c`, and requested sizes
`s_1, s_2, …` (each positive) such that bytes are left before every call, the
successive `qemu_rdma_get_buffer` calls return `min(s_k, bytes left)` bytes each
(the delivery `stream_reads` in the words of the claim); the bytes returned,
concatenated in call order, are the first bytes of what was left, none skipped
or repeated; `control_len` decreases by the number returned; the calls make no
call to the library.  A call made with `control_len = 0` turns to the control
channel for a new frame: its first call is the post of a control SEND. -/
theorem byte_stream_delivery (sizes : List Int) (st : St) (c L : Nat)
    (hc : (st.rdma.wr_data 0).control_curr = some c)
    (hL : (st.rdma.wr_data 0).control_len = L)
    (hs : ∀ s ∈ sizes, 0 < s ∧ s < 2147483648)
    (hrem : sizes ≠ [] → (sizes.dropLast.map Int.toNat).sum < L) :
    (∃ out st', get_buffer_calls sizes st = some (out, st') ∧
      out = stream_reads (st.rdma.wr_data 0).control c L sizes ∧
      (out.map (fun r => r.1.toNat)).sum ≤ L ∧
      (out.map Prod.snd).flatten
        = read_bytes (st.rdma.wr_data 0).control c (out.map (fun r => r.1.toNat)).sum ∧
      (st'.rdma.wr_data 0).control_len = L - (out.map (fun r => r.1.toNat)).sum ∧
      (st'.rdma.wr_data 0).control_curr = some (c + (out.map (fun r => r.1.toNat)).sum) ∧
      st'.trace = st.trace) ∧
    (∀ (size : Int) (s2 s3 : St) (ret : Int) (bytes : List Nat),
      (s2.rdma.wr_data 0).control_len = 0 →
      qemu_rdma_get_buffer size s2 = some (ret, bytes, s3) →
      ∃ wr msg rest, s3.trace = s2.trace ++ Call.ibv_post_send wr msg :: rest ∧
        wr.opcode = IBV_WR_SEND) := by
  refine ⟨?_, fun size s2 s3 ret bytes hz h => get_buffer_new_frame size s2 s3 ret bytes hz h⟩
  obtain ⟨st', e1, e2, _, _, e5, e6⟩ := get_buffer_calls_spec sizes st c L hc hL hs hrem
  obtain ⟨p1, p2⟩ := stream_reads_prefix (st.rdma.wr_data 0).control c L sizes
  exact ⟨_, st', e1, rfl, p1, p2, e5, e6, e2⟩

/-- C30 on the sample session with the five bytes `10, 20, 30, 40, 50` of a
frame buffered: calls for 2, 2 and 4 bytes return 2, 2 and 1 bytes, in order. -/
theorem byte_stream_delivery_witness :
    ∃ st' : St,
      get_buffer_calls [2, 2, 4] (sample_buffered [10, 20, 30, 40, 50] [])
        = some ([(2, [10, 20]), (2, [30, 40]), (1, [50])], st') ∧
      (st'.rdma.wr_data 0).control_len = 0 ∧ st'.trace = [] := by
  obtain ⟨⟨out, st', k1, k2, _, _, k5, _, k7⟩, _⟩ := byte_stream_delivery [2, 2, 4]
    (sample_buffered [10, 20, 30, 40, 50] []) 16 5 (by rfl) (by rfl) (by decide)
    (fun _ => by decide)
  have ho : out = [(2, [10, 20]), (2, [30, 40]), (1, [50])] := by
    rw [k2]; decide
  subst ho
  exact ⟨st', k1, k5, k7⟩

/-! ## Registration requests on the destination -/

theorem store_bytes_length (le : Bool) (n x : Nat) : (store_bytes le n x).length = n := by
  unfold store_bytes
  cases le <;> simp [store_le_length]

/-- The first four bytes of the array `results` are its first rkey. -/
theorem results_bytes_take (le : Bool) (results : Nat → Nat) :
    (results_bytes le results).take 4 = store_bytes le 4 (results 0) := by
  have h : RDMA_CONTROL_MAX_COMMANDS_PER_MESSAGE = 4095 + 1 := by decide
  unfold results_bytes
  rw [h, List.range_succ_eq_map, List.flatMap_cons]
  exact List.take_left' (store_bytes_length le 4 (results 0))

/-- The registrations of a request post no control SEND. -/
theorem register_requests_trace (curr n count : Nat) (results results1 : Nat → Nat)
    (st st1 : St) (r : Int)
    (h : register_requests curr n count results st = some (r, results1, st1)) :
    st1.le = st.le ∧ ∃ ext, st1.trace = st.trace ++ ext ∧ control_sends ext = [] := by
  induction n generalizing count results st with
  | zero =>
    simp only [register_requests, Option.some.injEq, Prod.mk.injEq] at h
    rw [← h.2.2]
    exact ⟨rfl, [], by simp, rfl⟩
  | succ k ih =>
    unfold register_requests at h
    dsimp only at h
    split at h
    · exact absurd h (by simp)
    rename_i block hb
    split at h
    · exact absurd h (by simp)
    rename_i r0 lk rkey s1 hreg
    obtain ⟨he, _, ⟨e1, ht1, _, hc1⟩, _⟩ := register_eng _ _ _ _ _ _ _ _ _ _ _ block hb hreg
    split at h
    · simp only [Option.some.injEq, Prod.mk.injEq] at h
      rw [← h.2.2]
      exact ⟨he.1, e1, ht1, hc1⟩
    · obtain ⟨hle, e2, ht2, hc2⟩ := ih _ _ _ h
      exact ⟨hle.trans he.1, e1 ++ e2, by rw [ht2, ht1, List.append_assoc],
        by rw [control_sends_append, hc1, hc2]; rfl⟩

/-- C19. What `qemu_rdma_registration_handle` answers to a REGISTER_REQUEST
with `repeat = n` whose entries all register: the one control message it sends
is a REGISTER_RESULT with `repeat = n`, but with `len = 4`
(`sizeof(RDMARegisterResult)`) and a payload of one rkey, the one registered
for the first entry, whatever `n` is. -/
theorem register_result_short (head : RDMAControlHeader) (results results1 : Nat → Nat)
    (st st2 : St) (ret : Int) (hrep : head.«repeat» < U32)
    (h : registration_handle_request head results st = some (ret, false, results1, st2)) :
    ∃ ext, st2.trace = st.trace ++ ext ∧
      control_sends ext
        = [be32 4 ++ be32 RDMA_CONTROL_REGISTER_RESULT ++ be32 RDMA_CONTROL_CURRENT_VERSION
            ++ be32 head.«repeat» ++ store_bytes st.le 4 (results1 0)] := by
  unfold registration_handle_request at h
  split at h
  · simp only [Option.some.injEq, Prod.mk.injEq] at h
    exact absurd h.2.1 (by decide)
  dsimp only at h
  split at h
  · exact absurd h (by simp)
  split at h
  · exact absurd h (by simp)
  rename_i r1 res1 s1 hrr
  obtain ⟨hle, e1, ht1, hc1⟩ := register_requests_trace _ _ _ _ _ _ _ _ hrr
  split at h
  · simp only [Option.some.injEq, Prod.mk.injEq] at h
    exact absurd h.2.1 (by decide)
  split at h
  · exact absurd h (by simp)
  rename_i r2 s2 hps
  split at h
  · simp only [Option.some.injEq, Prod.mk.injEq] at h
    exact absurd h.2.1 (by decide)
  rename_i hge
  simp only [Option.some.injEq, Prod.mk.injEq] at h
  obtain ⟨_, _, h3, h4⟩ := h
  subst h3
  subst h4
  have hu : U32 = 4294967296 := by decide
  have hwf : RDMAControlHeader.wf ⟨4, RDMA_CONTROL_REGISTER_RESULT,
      RDMA_CONTROL_CURRENT_VERSION, head.«repeat»⟩ :=
    ⟨by rw [hu]; show 4 < 4294967296; omega,
     by rw [hu]; show RDMA_CONTROL_REGISTER_RESULT < 4294967296; decide,
     by rw [hu]; show RDMA_CONTROL_CURRENT_VERSION < 4294967296; decide, hrep⟩
  obtain ⟨_, e2, ht2, hc2, _⟩ := post_send_control_sends _ _ _ _ _ hwf
    (by rw [hu]; show 4 + 16 < 4294967296; omega) hps (not_lt.mp hge)
  refine ⟨e1 ++ e2, by rw [ht2, ht1, List.append_assoc], ?_⟩
  rw [control_sends_append, hc1, hc2, results_bytes_take, hle]
  rfl

/-- The control SEND of a message of four bytes out of the array `results`
reads its first rkey only. -/
theorem post_send_results (le : Bool) (results : Nat → Nat) (t v n : Nat) (st : St) :
    qemu_rdma_post_send_control (some (results_bytes le results)) ⟨4, t, v, n⟩ st
      = qemu_rdma_post_send_control (some (store_bytes le 4 (results 0))) ⟨4, t, v, n⟩ st := by
  have ht := results_bytes_take le results
  have hl : ¬ (results_bytes le results).length < 4 := by
    intro hlt
    have h4 := congrArg List.length ht
    rw [List.length_take, store_bytes_length] at h4
    omega
  have hl2 : ¬ (store_bytes le 4 (results 0)).length < 4 := by
    rw [store_bytes_length]; omega
  have ht2 : (store_bytes le 4 (results 0)).take 4 = store_bytes le 4 (results 0) :=
    List.take_of_length_le (le_of_eq (store_bytes_length le 4 (results 0)))
  generalize results_bytes le results = b at ht hl ⊢
  generalize store_bytes le 4 (results 0) = d at ht hl2 ht2 ⊢
  unfold qemu_rdma_post_send_control
  simp only [hl, hl2, ht, ht2, if_false]

/-- C19 on the sample session with a REGISTER_REQUEST of two entries buffered
(chunks 0 and 1 of block 0), for which the library registers the rkeys 77 and
88: the REGISTER_RESULT sent has `repeat = 2`, `len = 4` and carries the rkey
77 only. -/
theorem register_result_short_witness :
    ∃ (results1 : Nat → Nat) (st2 : St),
      registration_handle_request ⟨32, RDMA_CONTROL_REGISTER_REQUEST, 1, 2⟩ (fun _ => 0)
        (sample_buffered (register_bytes true 4096 0 0 ++ register_bytes true 4096 0 1048576)
          [{ id := some 9, lkey := 11, rkey := 77 }, { id := some 10, lkey := 13, rkey := 88 },
            {}, {}, { ret := 1, wr_id := 1000 }])
        = some (0, false, results1, st2) ∧
      results1 0 = 77 ∧ results1 1 = 88 ∧
      control_sends st2.trace
        = [[0, 0, 0, 4, 0, 0, 0, 5, 0, 0, 0, 1, 0, 0, 0, 2, 77, 0, 0, 0]] := by
  have h0 : registration_handle_request ⟨32, RDMA_CONTROL_REGISTER_REQUEST, 1, 2⟩ (fun _ => 0)
      (sample_buffered (register_bytes true 4096 0 0 ++ register_bytes true 4096 0 1048576)
        [{ id := some 9, lkey := 11, rkey := 77 }, { id := some 10, lkey := 13, rkey := 88 },
          {}, {}, { ret := 1, wr_id := 1000 }])
      = some (0, false, Function.update (Function.update (fun _ => 0) 0 77) 1 88,
          ((qemu_rdma_post_send_control (some (store_bytes true 4 77))
              ⟨4, RDMA_CONTROL_REGISTER_RESULT, RDMA_CONTROL_CURRENT_VERSION, 2⟩
              (((register_requests 16 2 0 (fun _ => 0)
                (sample_buffered
                  (register_bytes true 4096 0 0 ++ register_bytes true 4096 0 1048576)
                  [{ id := some 9, lkey := 11, rkey := 77 },
                    { id := some 10, lkey := 13, rkey := 88 }, {}, {},
                    { ret := 1, wr_id := 1000 }])).map (fun p => p.2.2)).getD
                (sample_state false []))).map Prod.snd).getD (sample_state false [])) := by
    unfold registration_handle_request
    simp only [post_send_results]
    rfl
  obtain ⟨ext, ht, hc⟩ := register_result_short _ _ _ _ _ 0 (by decide) h0
  refine ⟨_, _, h0, by rfl, by rfl, ?_⟩
  rw [ht, control_sends_append, hc]
  decide

end MigrationRdma
